import Mathlib

/-!
# MYB-PPT motion skill: the authoring pipeline

A shallow embedding of the pipeline scripts under `src/scripts/` and the
properties proved about them.

Conventions of the embedding

* A JavaScript string is a `String` (a `List Char` where the code scans it);
  a `Char` stands for one UTF-16 code unit, which is exact for text of the
  Basic Multilingual Plane (all the keywords and messages of the scripts).
  A character beyond that plane takes two code units in JavaScript, so
  `length` and `take` differ there from `.length` and `.slice`; the
  properties that state a length or a truncation are stated for texts that
  satisfy `isBMP`.
* A regular expression is embedded as a function that recognises a match at
  the head of the remaining text; `String.prototype.match` with the `g` flag
  is `matchAll`. The expressions of visual-matcher.mjs, which capture and
  backtrack, are terms of `Re`; `Re.run` lists their outcomes in the order of
  backtracking, the first one being the match.
* `undefined` is `none`; a JavaScript exception is `none` / `Except.error`
  of the operation that throws.
-/

namespace PPT

/-! ## JavaScript values and regular-expression helpers -/

/-- The JavaScript values a manifest field is inspected for. -/
inductive JSVal where
  | undefined
  | bool (b : Bool)
  | str (s : String)
  deriving DecidableEq, Repr

/-- Truthiness (`ToBoolean`). -/
def JSVal.truthy : JSVal → Bool
  | .undefined => false
  | .bool b => b
  | .str s => s != ""

/-- The prefix operator `!`: a boolean, whatever the operand. -/
def JSVal.not (v : JSVal) : JSVal := .bool (!v.truthy)

/-- The operator `===` on the values above (no coercion). -/
def JSVal.strictEq (a b : JSVal) : Bool := decide (a = b)

/-- The text lies in the Basic Multilingual Plane: every character is one
UTF-16 code unit, so that `length` is the `.length` of the JavaScript string
and `take n` its `.slice(0, n)`. -/
def isBMP (s : List Char) : Bool := s.all fun c => decide (c.toNat < 0x10000)

/-- The matches of `text.match(/re/g)`: scan left to right; at a position where
`m` recognises a match of `n + 1` characters emit it and resume right after it,
otherwise move on by one character. The first argument counts the characters
of the current match still to be skipped. (None of the expressions embedded
here matches the empty string.) -/
def matchAll (m : List Char → Option Nat) : Nat → List Char → List (List Char)
  | _, [] => []
  | skip + 1, _ :: rest => matchAll m skip rest
  | 0, c :: rest =>
    match m (c :: rest) with
    | some (n + 1) => (c :: rest).take (n + 1) :: matchAll m n rest
    | _ => matchAll m 0 rest

/-- The text starts with the literal `lit`. -/
def startsWith (lit : String) (s : List Char) : Bool := lit.toList.isPrefixOf s

/-- The expression `/## Slide \d+/`: the literal and a greedy run of digits. -/
def reSlideHeading (s : List Char) : Option Nat :=
  if startsWith "## Slide " s then
    let digits := (s.drop 9).takeWhile Char.isDigit
    if digits.length = 0 then none else some (9 + digits.length)
  else none

/-- The expression `/visual:/`. -/
def reVisual (s : List Char) : Option Nat :=
  if startsWith "visual:" s then some 7 else none

/-- The expression of `bulletMatches`: dash, blank, quote, a greedy non-empty
run `[^"]+` of characters other than the quote, and the closing quote. -/
def reBullet (s : List Char) : Option Nat :=
  if startsWith "- \"" s then
    let inner := (s.drop 3).takeWhile (fun c => c != '"')
    if inner.length = 0 then none
    else if (s.drop (3 + inner.length)).head? = some '"' then some (3 + inner.length + 1)
    else none
  else none

/-- Removes the first occurrence of `lit`: `s.replace(lit, "")` for a literal
pattern (or an expression that is one literal). -/
def removeFirst (lit : List Char) : List Char → List Char
  | [] => []
  | c :: rest => if lit.isPrefixOf (c :: rest) then (c :: rest).drop lit.length
                 else c :: removeFirst lit rest

/-- Removes a closing quote: `s.replace(/"$/, "")`. -/
def stripEndQuote (s : List Char) : List Char :=
  if s.getLast? = some '"' then s.dropLast else s

/-- The method `String.prototype.includes` for a literal. -/
def includes (lit : String) : List Char → Bool
  | [] => lit.toList.isPrefixOf []
  | c :: rest => lit.toList.isPrefixOf (c :: rest) || includes lit rest

/-- Length of the lazy run `[\s\S]*?` that stops at the first position where the
lookahead `(?=## Slide \d+|$)` holds. -/
def untilHeading : List Char → Nat
  | [] => 0
  | c :: rest => if (reSlideHeading (c :: rest)).isSome then 0 else untilHeading rest + 1

/-- The expression `/## Slide \d+[\s\S]*?(?=## Slide \d+|$)/` of render-slide.mjs:
a heading and the text up to the next heading or the end. -/
def reSlideBlock (s : List Char) : Option Nat :=
  match reSlideHeading s with
  | some h => some (h + untilHeading (s.drop h))
  | none => none

/-- The slide blocks of a script: the text from one `## Slide <n>` heading up to
the next such heading or the end of the text. -/
def slideBlocks (s : List Char) : List (List Char) := matchAll reSlideBlock 0 s

/-- The text before the first slide heading. -/
def preamble (s : List Char) : List Char := s.take (untilHeading s)

/-- Number of positions of the text at which `p` holds of the remaining text. -/
def countAt (p : List Char → Bool) : List Char → Nat
  | [] => 0
  | c :: rest => (if p (c :: rest) then 1 else 0) + countAt p rest

/-- No two `#` stand side by side in the text. -/
def noHH : List Char → Bool
  | a :: b :: rest => !(a == '#' && b == '#') && noHH (b :: rest)
  | _ => true

/-- A text made of slide blocks: each a heading with the digits `p.1` and the
text `p.2` up to the next heading. -/
def docTail (segs : List (List Char × List Char)) : List Char :=
  segs.flatMap fun p => "## Slide ".toList ++ p.1 ++ p.2

/-- A slide heading starts here. -/
def headingAt (s : List Char) : Bool := (reSlideHeading s).isSome

/-- A `visual:` field starts here. -/
def visualAt (s : List Char) : Bool := startsWith "visual:" s

/-! ## String helpers of the parsers -/

/-- White space and line terminators: what `trim()` removes and `\s` matches. -/
def isJsSpace (c : Char) : Bool :=
  c == '\t' || c == '\n' || c.toNat == 11 || c.toNat == 12 || c == '\r' || c == ' ' ||
  c.toNat == 0xA0 || c.toNat == 0x1680 || (0x2000 ≤ c.toNat && c.toNat ≤ 0x200A) ||
  c.toNat == 0x2028 || c.toNat == 0x2029 || c.toNat == 0x202F || c.toNat == 0x205F ||
  c.toNat == 0x3000 || c.toNat == 0xFEFF

/-- The method `trim()`. -/
def jsTrim (s : List Char) : List Char :=
  ((s.dropWhile isJsSpace).reverse.dropWhile isJsSpace).reverse

/-- The method `split(sep)` for a separator of one character. -/
def splitOn (sep : Char) : List Char → List (List Char)
  | [] => [[]]
  | c :: rest =>
    if c = sep then [] :: splitOn sep rest
    else match splitOn sep rest with
      | [] => [[c]]
      | h :: t => (c :: h) :: t

/-- The method `join(sep)`. -/
def joinWith (sep : List Char) (parts : List (List Char)) : List Char :=
  List.intercalate sep parts

/-- A double or single quote. -/
def isQuote (c : Char) : Bool := c == '"' || c == '\''

/-- The replacement `.replace(/^["']|["']$/g, "")`: one quote off the start, and
one quote off the end of what is left. -/
def stripQuotes (s : List Char) : List Char :=
  let s₁ := match s with
    | [] => []
    | c :: rest => if isQuote c then rest else c :: rest
  match s₁.getLast? with
  | some c => if isQuote c then s₁.dropLast else s₁
  | none => s₁

/-- The method `indexOf(lit)`: `none` for -1. -/
def findLit (lit : List Char) : List Char → Option Nat
  | [] => if lit.isEmpty then some 0 else none
  | c :: rest =>
    if lit.isPrefixOf (c :: rest) then some 0 else (findLit lit rest).map (· + 1)

/-- Group 1 of the front-matter expression: three dashes and a newline at the
start of the text, the lazy `([\s\S]*?)`, a newline and three dashes. -/
def frontMatterGroup (s : List Char) : Option (List Char) :=
  if startsWith "---\n" s then
    (findLit "\n---".toList (s.drop 4)).map fun k => (s.drop 4).take k
  else none

/-- Group 1 of the fence expression, three backticks and `yaml\n`, the lazy
`([\s\S]*?)` and three backticks: the text between the first opening fence and
the first closing fence after it. -/
def yamlGroup (s : List Char) : Option (List Char) :=
  match findLit "```yaml\n".toList s with
  | none => none
  | some i =>
    let rest := s.drop (i + 8)
    (findLit "```".toList rest).map fun j => rest.take j

/-- A character `.` does not match. -/
def isLineTerminator (c : Char) : Bool :=
  c == '\n' || c == '\r' || c.toNat == 0x2028 || c.toNat == 0x2029

/-- The largest index `k ≥ 1` of `run` that holds `]` (scanning `run` from
index `i`). -/
def lastBracket : Nat → List Char → Option Nat
  | _, [] => none
  | i, c :: rest =>
    match lastBracket (i + 1) rest with
    | some k => some k
    | none => if c = ']' ∧ 1 ≤ i then some i else none

/-- Group 1 of the first match of `/\[(.+)\]/`: from the first `[` whose line
holds a later `]` with something between them, up to the last such `]`. -/
def bracketGroup : List Char → Option (List Char)
  | [] => none
  | c :: rest =>
    if c = '[' then
      let run := rest.takeWhile fun c => !isLineTerminator c
      match lastBracket 0 run with
      | some k => some (run.take k)
      | none => bracketGroup rest
    else bracketGroup rest

/-- Group 1 of `/color:\s*["']?([^"']+)["']?/` at a position that starts with
`color:`: the run of characters other than quotes after the white space and an
optional quote, or, when that run is empty, the last white-space character. -/
def colorGroupAt (afterKey : List Char) : Option (List Char) :=
  let ws := afterKey.takeWhile isJsSpace
  let rest := afterKey.dropWhile isJsSpace
  let direct := rest.takeWhile fun c => !isQuote c
  if direct ≠ [] then some direct
  else
    let quoted := (rest.drop 1).takeWhile fun c => !isQuote c
    if rest ≠ [] ∧ quoted ≠ [] then some quoted
    else match ws.getLast? with
      | some w => some [w]
      | none => none

/-- Group 1 of the first match of the colour expression in a line. -/
def colorGroup : List Char → Option (List Char)
  | [] => none
  | c :: rest =>
    if startsWith "color:" (c :: rest) then
      match colorGroupAt ((c :: rest).drop 6) with
      | some g => some g
      | none => colorGroup rest
    else colorGroup rest

/-- A number a script field is read into: the literal `0`, or the value
`parseFloat` / `parseInt` returns on the text kept here (the parse is total;
its numeric value is not computed). -/
inductive JSNumber where
  | zero
  | parseFloat (text : String)
  | parseInt (text : String)
  deriving DecidableEq, Repr

/-! ## flow-checker.mjs -/

namespace FlowChecker

/-- One entry of `manifest.stages`. -/
structure StageEntry where
  completed : JSVal := .undefined
  status : JSVal := .undefined
  at_ : Option String := none

/-- The content of `manifest.json` (a JSON object); `stages = none` when the
object has no `stages` property. -/
structure Manifest where
  stages : Option (String → Option StageEntry)

/-- The optional chain `manifest.stages?.[name]?.completed`. -/
def Manifest.completedOf (m : Manifest) (name : String) : JSVal :=
  match m.stages with
  | none => .undefined
  | some st => match st name with
    | none => .undefined
    | some e => e.completed

/-- The optional chain `manifest.stages?.userConfirmed?.status`. -/
def Manifest.confirmStatus (m : Manifest) : JSVal :=
  match m.stages with
  | none => .undefined
  | some st => match st "userConfirmed" with
    | none => .undefined
    | some e => e.status

/-- One entry of `recommendations` in `build/visual-recommendations.json`,
with the two fields the gate and the extractor name. -/
structure Recommendation where
  slideId : String
  visualType : JSVal := .undefined
  detectedType : JSVal := .undefined

/-- The object read from `build/visual-recommendations.json`;
`recommendations = none` when the property is missing or not an array. -/
structure VisualData where
  recommendations : Option (List Recommendation)

/-- The message pushed when there are fewer `visual:` fields than slides. -/
def visualCountError (slides visuals : Nat) : String :=
  "有 " ++ toString slides ++ " 页幻灯片，但只有 " ++ toString visuals ++ " 页有 visual 字段"

/-- The message for a quoted item under 15 characters. -/
def tooShortError (text : List Char) : String :=
  "要点过短（<15字）: \"" ++ String.mk (text.take 20) ++ "...\""

/-- The message for a quoted item over 50 characters. -/
def tooLongError (text : List Char) : String :=
  "要点过长（>50字）: \"" ++ String.mk (text.take 30) ++ "...\""

/-- The text of one match of the bullet expression: the first dash, blank and
quote replaced by nothing, then `.replace(/"$/, "")`. -/
def bulletText (m : List Char) : List Char :=
  stripEndQuote (removeFirst "- \"".toList m)

/-- The two length checks of the loop body, in the order the code pushes.
(`length` is `text.length`, and `take` in the messages is `text.slice`, for a
text that satisfies `isBMP`.) -/
def lengthErrors (text : List Char) : List String :=
  (if text.length < 15 then [tooShortError text] else []) ++
  (if text.length > 50 then [tooLongError text] else [])

/-- The function `validateScript(content)`. -/
def validateScript (content : String) : List String :=
  let slideMatches := matchAll reSlideHeading 0 content.toList
  let visualMatches := matchAll reVisual 0 content.toList
  let errors₁ := if slideMatches.length = 0 then ["没有找到任何幻灯片"] else []
  let errors₂ := if visualMatches.length < slideMatches.length then
      [visualCountError slideMatches.length visualMatches.length] else []
  let bulletMatches := matchAll reBullet 0 content.toList
  errors₁ ++ errors₂ ++ bulletMatches.flatMap (fun m => lengthErrors (bulletText m))

/-- The quoted list items of a script, `- "text"`: the text between the quotes
of every match of the bullet expression. -/
def quotedItems (content : String) : List (List Char) :=
  (matchAll reBullet 0 content.toList).map fun m => (m.drop 3).dropLast

/-- The errors `validateScript` pushes before its loop over the quoted items:
the missing-slides message and the count message. -/
def slideErrors (content : String) : List String :=
  let slideMatches := matchAll reSlideHeading 0 content.toList
  let visualMatches := matchAll reVisual 0 content.toList
  (if slideMatches.length = 0 then ["没有找到任何幻灯片"] else []) ++
  (if visualMatches.length < slideMatches.length then
      [visualCountError slideMatches.length visualMatches.length] else [])

/-- A script of two slides: the first block has a `visual:` field and names it
again in its notes, the second block has none. -/
def scriptSecondSlideBare : String :=
  "## Slide 1\n\n```yaml\nid: s01\ntitle: \"A\"\nvisual:\n  type: flow\nnotes: |\n  see visual: flow\n```\n\n" ++
  "## Slide 2\n\n```yaml\nid: s02\ntitle: \"B\"\n```\n"

/-- A script of three slides, each block with exactly one `visual:` field. -/
def scriptThreeSlides : String :=
  "## Slide 1\nvisual: a\n## Slide 2\nvisual: b\n## Slide 3\nvisual: c\n"

/-- The script above after the `visual:` line of slide 1 is removed. -/
def scriptThreeSlidesCut1 : String :=
  "## Slide 1\n## Slide 2\nvisual: b\n## Slide 3\nvisual: c\n"

/-- The script above after the `visual:` line of slide 3 is removed instead. -/
def scriptThreeSlidesCut3 : String :=
  "## Slide 1\nvisual: a\n## Slide 2\nvisual: b\n## Slide 3\n"

/-- A script with a `visual:` line before its only slide, whose block has
exactly one `visual:` field. -/
def scriptVisualInPreamble : String :=
  "visual: auto\n## Slide 1\nvisual: a\n"

/-- The script above after the `visual:` line of slide 1 is removed. -/
def scriptVisualInPreambleCut : String :=
  "visual: auto\n## Slide 1\n"

/-- A script of one slide with three quoted items, of 10, 24 and 60 characters. -/
def scriptItemLengths : String :=
  "## Slide 1\nvisual:\n  type: flow\nbullets:\n  - \"ten chars.\"\n" ++
  "  - \"a bullet of twenty chars\"\n" ++
  "  - \"a bullet of sixty characters, which is ten more than allowed\"\n"

/-- The function `validateVisuals(data)`. -/
def validateVisuals (data : VisualData) : List String :=
  match data.recommendations with
  | none => ["视觉推荐格式错误"]
  | some recs =>
    (if recs.length = 0 then ["没有视觉组件推荐"] else []) ++
    recs.flatMap (fun rec =>
      if !rec.visualType.truthy then ["幻灯片 " ++ rec.slideId ++ " 缺少 visualType"] else [])

/-- The function `validateConfirmation(manifest)`. The condition is
`!manifest.stages?.userConfirmed?.status === "confirmed"`, in which `!` binds
tighter than `===`. -/
def validateConfirmation (manifest : Manifest) : List String :=
  if (manifest.confirmStatus.not).strictEq (.str "confirmed") then ["用户尚未确认方案"] else []

/-- The argument a stage validator is called with. -/
inductive Validator where
  | onScript (f : String → List String)
  | onVisuals (f : VisualData → List String)
  | onManifest (f : Manifest → List String)

/-- One entry of `STEPS`. -/
structure Step where
  id : Int
  name : String
  required : List String
  validate : Option Validator := none

/-- The table `STEPS`. -/
def STEPS : List Step :=
  [ { id := 1, name := "文案输入", required := ["sources/raw-content.txt"] },
    { id := 2, name := "手动编写规划", required := ["sources/script.md"],
      validate := some (.onScript validateScript) },
    { id := 3, name := "视觉组件方案", required := ["build/visual-recommendations.json"],
      validate := some (.onVisuals validateVisuals) },
    { id := 4, name := "用户确认", required := [], validate := some (.onManifest validateConfirmation) },
    { id := 5, name := "渲染生成", required := ["exports/recording.pptx"] } ]

/-- The files of a project directory other than the manifest: which relative
paths exist, the text of `sources/script.md`, and the object parsed from
`build/visual-recommendations.json` (`none`: `readJson` throws). -/
structure Files where
  existsSync : String → Bool
  script : String
  visuals : Option VisualData

/-- The result object of `checkStep`. -/
inductive CheckResult where
  | success
  | error (msg : String)
  | errors (errs : List String)
  deriving DecidableEq, Repr

/-- The comparison `s.id < stepId` (false when `stepId` is `NaN`). -/
def idBelow (id : Int) (stepId : Option Int) : Bool :=
  match stepId with
  | some n => decide (id < n)
  | none => false

/-- The message of the predecessor loop. -/
def mustCompleteError (prev : Step) : String :=
  "必须先完成 Step " ++ toString prev.id ++ ": " ++ prev.name

/-- The loop over `STEPS.filter((s) => s.id < stepId)`: the first predecessor
whose `completed` is falsy. -/
def firstIncomplete (manifest : Manifest) : List Step → Option Step
  | [] => none
  | prev :: rest =>
    if !(manifest.completedOf ("step" ++ toString prev.id)).truthy then some prev
    else firstIncomplete manifest rest

/-- The loop over `step.required`: the first required file that is missing. -/
def firstMissing (files : Files) : List String → Option String
  | [] => none
  | req :: rest => if !files.existsSync req then some req else firstMissing files rest

/-- The block "执行自定义验证" of `checkStep`; `none` when `readJson` throws. -/
def runValidator (files : Files) (manifest : Manifest) (step : Step) : Option CheckResult :=
  match step.validate with
  | none => some .success
  | some v =>
    if step.id = 2 then
      match v with
      | .onScript f =>
        let errors := f files.script
        some (if errors.length > 0 then .errors errors else .success)
      | _ => none
    else if step.id = 3 then
      match files.visuals, v with
      | some data, .onVisuals f =>
        let errors := f data
        some (if errors.length > 0 then .errors errors else .success)
      | _, _ => none
    else if step.id = 4 then
      match v with
      | .onManifest f =>
        let errors := f manifest
        some (if errors.length > 0 then .errors errors else .success)
      | _ => none
    else some .success

/-- The function `checkStep(projectDir, stepId)`. The project directory is the
manifest file (`none`: no `manifest.json`) and the other files; `stepId` is the
number `parseInt` returned (`none`: `NaN`). The result is `none` when the call
throws. -/
def checkStep (manifestFile : Option Manifest) (files : Files) (stepId : Option Int) :
    Option CheckResult :=
  match STEPS.find? (fun s => decide (some s.id = stepId)) with
  | none => some (.error ("无效的步骤: " ++ (match stepId with | some i => toString i | none => "NaN")))
  | some step =>
    let manifest : Manifest := match manifestFile with
      | some m => m
      | none => { stages := some (fun _ => none) }
    match firstIncomplete manifest (STEPS.filter (fun s => idBelow s.id stepId)) with
    | some prev => some (.error (mustCompleteError prev))
    | none =>
      match firstMissing files step.required with
      | some req => some (.error ("缺少必需文件: " ++ req))
      | none => runValidator files manifest step

/-- The function `markStepCompleted(projectDir, stepId)`: the manifest written
back, or `none` when the assignment into a missing `stages` throws. -/
def markStepCompleted (manifestFile : Option Manifest) (stepId : Int) (now : String) :
    Option Manifest :=
  let manifest : Manifest := match manifestFile with
    | some m => m
    | none => { stages := some (fun _ => none) }
  match manifest.stages with
  | none => none
  | some st =>
    some { stages := some (fun name =>
      if name = "step" ++ toString stepId then
        some { completed := .bool true, at_ := some now }
      else st name) }

/-- The `--complete` branch of `main`: the manifest file after the run (left
as it was when the check fails or a call throws). -/
def complete (manifestFile : Option Manifest) (files : Files) (stepId : Option Int)
    (now : String) : Option Manifest :=
  match checkStep manifestFile files stepId, stepId with
  | some .success, some id =>
    match markStepCompleted manifestFile id now with
    | some m => some m
    | none => manifestFile
  | _, _ => manifestFile

/-- Name of the stage with number `k` in `STEPS` (empty when there is none). -/
def stepName (k : Int) : String :=
  match STEPS.find? (fun s => decide (s.id = k)) with
  | some s => s.name
  | none => ""

/-- Stage `n` is marked completed in the manifest file. -/
def stageCompleted (manifestFile : Option Manifest) (n : Int) : Bool :=
  match manifestFile with
  | none => false
  | some m => (m.completedOf ("step" ++ toString n)).truthy

/-- A manifest in which stages 1 to 3 are complete and nothing records a
confirmation by the user. -/
def unconfirmedManifest : Manifest :=
  { stages := some (fun name =>
      if name = "step1" ∨ name = "step2" ∨ name = "step3" then
        some { completed := .bool true, at_ := some "2026-01-01T00:00:00.000Z" }
      else none) }

/-- A manifest as above in which the user has declined. -/
def declinedManifest : Manifest :=
  { stages := some (fun name =>
      if name = "step1" ∨ name = "step2" ∨ name = "step3" then
        some { completed := .bool true, at_ := some "2026-01-01T00:00:00.000Z" }
      else if name = "userConfirmed" then some { status := .str "rejected" }
      else none) }

/-- The manifest files reachable from one with no completed stage by runs of
`--complete`, each with any files, any step argument and any clock. -/
inductive Reachable : Option Manifest → Prop where
  | init (m : Option Manifest) (h : ∀ n : Int, stageCompleted m n = false) : Reachable m
  | step (m : Option Manifest) (files : Files) (stepId : Option Int) (now : String)
      (h : Reachable m) : Reachable (complete m files stepId now)

end FlowChecker

/-! ## visual-matcher.mjs -/

namespace VisualMatcher

/-- The object `main` pushes onto `visualRecommendations` for a slide whose best
candidate has type `bestType`, restricted to the fields the gate reads: the
type goes into `detectedType`, and no `visualType` is written. -/
def recommendationOf (slideId bestType : String) : FlowChecker.Recommendation :=
  { slideId := slideId, detectedType := .str bestType }

end VisualMatcher

/-! ## render-slide.mjs: the script parser -/

namespace RenderSlide

/-- One entry of `slide.cards`. -/
structure Card where
  title : String
  items : List String := []
  description : Option String := none
  value : Option String := none
  label : Option String := none
  deriving DecidableEq, Repr

/-- One entry of a `steps` list of a visual. -/
structure VStep where
  title : String
  desc : String
  deriving DecidableEq, Repr

/-- One entry of a `levels` list of a visual. -/
structure VLevel where
  label : String
  sublabel : String
  deriving DecidableEq, Repr

/-- One entry of `visualData.layers`. -/
structure VLayer where
  label : String
  deriving DecidableEq, Repr

/-- One entry of an `items` list of a visual. -/
structure VItem where
  label : String
  color : String
  deriving DecidableEq, Repr

/-- The object `slide.visualData`, and `slide.visual.data`. -/
structure VData where
  steps : Option (List VStep) := none
  levels : Option (List VLevel) := none
  layers : Option (List VLayer) := none
  items : Option (List VItem) := none
  deriving DecidableEq, Repr

/-- The object `slide.visual`. -/
structure Visual where
  type : Option String := none
  position : Option String := none
  count : Option JSNumber := none
  amplitude : Option JSNumber := none
  cols : Option JSNumber := none
  rows : Option JSNumber := none
  values : Option (List JSNumber) := none
  data : Option VData := none
  deriving DecidableEq, Repr

/-- One entry of `chartData.segments`. -/
structure Segment where
  label : String
  value : JSNumber
  deriving DecidableEq, Repr

/-- The object `slide.chartData`. -/
structure ChartData where
  labels : Option (List String) := none
  values : Option (List JSNumber) := none
  unit : Option String := none
  horizontal : Option Bool := none
  showValues : Option Bool := none
  donut : Option Bool := none
  centerText : Option String := none
  segments : Option (List Segment) := none
  deriving DecidableEq, Repr

/-- A slide record as `parseScriptMd` builds it; a field that was never
assigned is `none`. -/
structure Slide where
  id : String
  index : Nat
  type : Option String := none
  layout : Option String := none
  textEffect : Option String := none
  visualType : Option String := none
  title : Option String := none
  subtitle : Option String := none
  quote : Option String := none
  author : Option String := none
  attribution : Option String := none
  bullets : Option (List String) := none
  cards : Option (List Card) := none
  steps : Option (List String) := none
  notes : Option String := none
  stages : Option (List String) := none
  events : Option (List String) := none
  details : Option (List String) := none
  leftTitle : Option String := none
  rightTitle : Option String := none
  leftBullets : Option (List String) := none
  rightBullets : Option (List String) := none
  visual : Option Visual := none
  visualData : Option VData := none
  chartData : Option ChartData := none
  deriving DecidableEq, Repr

/-- The values `currentArray` takes (`null` is `none`). -/
inductive Ctx where
  | bullets | cards | steps | notes | stages | events | details
  | leftBullets | rightBullets
  | visual | visualData | chartData | chartDataSegments
  | visualSteps | visualLevels | visualLayers | visualItems
  | visualDataSteps | visualDataLevels | visualDataLayers | visualDataItems
  deriving DecidableEq, Repr

/-- The variables of the loop over the lines of one slide block. `currentCard`
refers to an element of `slide.cards` and is kept as its index. -/
structure PState where
  slide : Slide
  currentCard : Option Nat := none
  currentArray : Option Ctx := none
  deriving DecidableEq, Repr

/-- The value `trimmed.replace(key, "").trim()`. -/
def valueAfter (key : String) (trimmed : List Char) : List Char :=
  jsTrim (removeFirst key.toList trimmed)

/-- The value `trimmed.replace(key, "").trim().replace(/^["']|["']$/g, "")`. -/
def quotedAfter (key : String) (trimmed : List Char) : String :=
  String.mk (stripQuotes (valueAfter key trimmed))

/-- A property of `undefined` was read or written. -/
def typeError : String := "TypeError"

/-- The target `slide.visualData || slide.visual?.data` of the `steps:`,
`levels:`, `layers:` and `items:` lines, updated by `f` where it exists. -/
def updateTarget (slide : Slide) (f : VData → VData) : Slide :=
  match slide.visualData with
  | some d => { slide with visualData := some (f d) }
  | none =>
    match slide.visual with
    | some v =>
      match v.data with
      | some d => { slide with visual := some { v with data := some (f d) } }
      | none => slide
    | none => slide

/-- An update of `slide.visual`, which throws when there is no such object. -/
def withVisual (st : PState) (f : Visual → Except String Visual) : Except String PState :=
  match st.slide.visual with
  | some v => (f v).map fun v' => { st with slide := { st.slide with visual := some v' } }
  | none => .error typeError

/-- An update of `slide.visual.data`, which throws when there is no such object. -/
def withVisualData (st : PState) (f : VData → Except String VData) : Except String PState :=
  withVisual st fun v =>
    match v.data with
    | some d => (f d).map fun d' => { v with data := some d' }
    | none => .error typeError

/-- An update of `slide.visualData`, which throws when there is no such object. -/
def withVisualDataTop (st : PState) (f : VData → Except String VData) : Except String PState :=
  match st.slide.visualData with
  | some d => (f d).map fun d' => { st with slide := { st.slide with visualData := some d' } }
  | none => .error typeError

/-- An update of `slide.chartData` behind the guard `if (slide.chartData)`. -/
def withChart (st : PState) (f : ChartData → ChartData) : PState :=
  match st.slide.chartData with
  | some c => { st with slide := { st.slide with chartData := some (f c) } }
  | none => st

/-- The last element of a list replaced by its image under `f`. -/
def modifyLast {α : Type} (f : α → α) (l : List α) : List α :=
  match l.getLast? with
  | some a => l.dropLast ++ [f a]
  | none => l

/-- The element at index `i` replaced by its image under `f`. -/
def modifyAt {α : Type} (f : α → α) (i : Nat) (l : List α) : List α :=
  l.modify f i

/-- An update of the card `currentCard` refers to. -/
def withCard (st : PState) (i : Nat) (f : Card → Card) : PState :=
  { st with slide := { st.slide with cards := st.slide.cards.map (modifyAt f i) } }

/-- The branch `currentArray === "chartData"`. -/
def chartLine (st : PState) (trimmed : List Char) : PState :=
  if startsWith "labels:" trimmed then
    match bracketGroup trimmed with
    | some g =>
      let labels := (splitOn ',' g).map fun v => String.mk (stripQuotes (jsTrim v))
      withChart st fun c => { c with labels := some labels }
    | none => st
  else if startsWith "values:" trimmed then
    match bracketGroup trimmed with
    | some g =>
      let values := (splitOn ',' g).map fun v => JSNumber.parseFloat (String.mk (jsTrim v))
      withChart st fun c => { c with values := some values }
    | none => st
  else if startsWith "unit:" trimmed then
    withChart st fun c => { c with unit := some (quotedAfter "unit:" trimmed) }
  else if startsWith "horizontal:" trimmed then
    withChart st fun c => { c with horizontal := some (includes "true" trimmed) }
  else if startsWith "showValues:" trimmed then
    withChart st fun c => { c with showValues := some (includes "true" trimmed) }
  else if startsWith "donut:" trimmed then
    withChart st fun c => { c with donut := some (includes "true" trimmed) }
  else if startsWith "centerText:" trimmed then
    withChart st fun c => { c with centerText := some (quotedAfter "centerText:" trimmed) }
  else if startsWith "segments:" trimmed then
    match st.slide.chartData with
    | some c =>
      { st with slide := { st.slide with chartData := some { c with segments := some [] } },
                currentArray := some .chartDataSegments }
    | none => st
  else st

/-- The branch `currentArray === "chartData-segments"`. -/
def segmentLine (st : PState) (trimmed : List Char) : PState :=
  if startsWith "- label:" trimmed then
    withChart st fun c =>
      match c.segments with
      | some segs =>
        let seg : Segment := { label := quotedAfter "- label:" trimmed, value := .zero }
        { c with segments := some (segs ++ [seg]) }
      | none => c
  else if startsWith "value:" trimmed then
    withChart st fun c =>
      match c.segments with
      | some segs =>
        let value := JSNumber.parseFloat (String.mk (valueAfter "value:" trimmed))
        { c with segments := some (modifyLast (fun s => { s with value := value }) segs) }
      | none => c
  else st

/-- The branch `currentArray === "visual"`. -/
def visualLine (st : PState) (trimmed : List Char) : Except String PState :=
  if startsWith "type:" trimmed then
    withVisual st fun v => .ok { v with type := some (quotedAfter "type:" trimmed) }
  else if startsWith "position:" trimmed then
    withVisual st fun v => .ok { v with position := some (quotedAfter "position:" trimmed) }
  else if startsWith "count:" trimmed then
    withVisual st fun v =>
      .ok { v with count := some (.parseInt (String.mk (valueAfter "count:" trimmed))) }
  else if startsWith "amplitude:" trimmed then
    withVisual st fun v =>
      .ok { v with amplitude := some (.parseInt (String.mk (valueAfter "amplitude:" trimmed))) }
  else if startsWith "cols:" trimmed then
    withVisual st fun v =>
      .ok { v with cols := some (.parseInt (String.mk (valueAfter "cols:" trimmed))) }
  else if startsWith "rows:" trimmed then
    withVisual st fun v =>
      .ok { v with rows := some (.parseInt (String.mk (valueAfter "rows:" trimmed))) }
  else if startsWith "values:" trimmed then
    match bracketGroup trimmed with
    | some g =>
      let values := (splitOn ',' g).map fun x => JSNumber.parseFloat (String.mk (jsTrim x))
      withVisual st fun v => .ok { v with values := some values }
    | none => .ok st
  else if startsWith "data:" trimmed then
    (withVisual st fun v => .ok { v with data := some {} }).map fun st' =>
      { st' with currentArray := some .visualData }
  else .ok st

/-- The second branch `currentArray === "visual-data"` (after the branch for
`"visual"`; the first one stands before it in the chain). -/
def visualDataLine (st : PState) (trimmed : List Char) : PState :=
  if startsWith "steps:" trimmed then
    { st with slide := updateTarget st.slide fun d => { d with steps := some [] },
              currentArray := if st.slide.visualData.isSome then some .visualDataSteps
                              else some .visualSteps }
  else if startsWith "levels:" trimmed then
    { st with slide := updateTarget st.slide fun d => { d with levels := some [] },
              currentArray := if st.slide.visualData.isSome then some .visualDataLevels
                              else some .visualLevels }
  else if startsWith "layers:" trimmed then
    { st with slide := updateTarget st.slide fun d => { d with layers := some [] },
              currentArray := if st.slide.visualData.isSome then some .visualDataLayers
                              else some .visualLayers }
  else if startsWith "items:" trimmed then
    { st with slide := updateTarget st.slide fun d => { d with items := some [] },
              currentArray := if st.slide.visualData.isSome then some .visualDataItems
                              else some .visualItems }
  else st

/-- The label of a `- label:` line of an `items` list:
`.replace("- label:", "").split(",").shift().trim()` without its quotes. -/
def itemLabel (trimmed : List Char) : String :=
  String.mk (stripQuotes (jsTrim ((splitOn ',' (removeFirst "- label:".toList trimmed)).headD [])))

/-- The colour of a `- label:` line of an `items` list. -/
def itemColor (trimmed : List Char) : String :=
  match colorGroup trimmed with
  | some g => String.mk g
  | none => "accent"

/-- The branches for a `levels` list (`"visual-levels"`, `"visual-data-levels"`);
`w` is the access to the object that holds the list. The list is created by
`levels = levels || []` on a `- label:` line and must exist on a `sublabel:`
line; any other line touches nothing. -/
def levelsLine (w : PState → (VData → Except String VData) → Except String PState)
    (st : PState) (trimmed : List Char) : Except String PState :=
  if startsWith "- label:" trimmed then
    let level : VLevel := { label := quotedAfter "- label:" trimmed, sublabel := "" }
    w st fun d => .ok { d with levels := some (d.levels.getD [] ++ [level]) }
  else if startsWith "sublabel:" trimmed then
    w st fun d =>
      match d.levels with
      | some ls =>
        let sublabel := quotedAfter "sublabel:" trimmed
        .ok { d with levels := some (modifyLast (fun l => { l with sublabel := sublabel }) ls) }
      | none => .error typeError
  else .ok st

/-- The branches for a `steps` list (`"visual-steps"`, `"visual-data-steps"`). -/
def stepsLine (w : PState → (VData → Except String VData) → Except String PState)
    (st : PState) (trimmed : List Char) : Except String PState :=
  if startsWith "- title:" trimmed then
    w st fun d =>
      match d.steps with
      | some ss =>
        let step : VStep := { title := quotedAfter "- title:" trimmed, desc := "" }
        .ok { d with steps := some (ss ++ [step]) }
      | none => .error typeError
  else if startsWith "desc:" trimmed then
    w st fun d =>
      match d.steps with
      | some ss =>
        let desc := quotedAfter "desc:" trimmed
        .ok { d with steps := some (modifyLast (fun s => { s with desc := desc }) ss) }
      | none => .error typeError
  else .ok st

/-- The branches for an `items` list (`"visual-items"`, `"visual-data-items"`). -/
def itemsLine (w : PState → (VData → Except String VData) → Except String PState)
    (st : PState) (trimmed : List Char) : Except String PState :=
  if startsWith "- label:" trimmed then
    w st fun d =>
      match d.items with
      | some is =>
        let item : VItem := { label := itemLabel trimmed, color := itemColor trimmed }
        .ok { d with items := some (is ++ [item]) }
      | none => .error typeError
  else .ok st

/-- The branch `"visual-data-layers"` (the list is created by
`layers = layers || []`). -/
def layersLine (st : PState) (trimmed : List Char) : Except String PState :=
  if startsWith "- label:" trimmed then
    let layer : VLayer := { label := quotedAfter "- label:" trimmed }
    withVisualDataTop st fun d => .ok { d with layers := some (d.layers.getD [] ++ [layer]) }
  else .ok st

/-- The branch of a compound entry `- key: value`: `description`, `value` and
`label` of the open card. -/
def keyValueLine (st : PState) (trimmed : List Char) : PState :=
  let parts := splitOn ':' (removeFirst "- ".toList trimmed)
  let key := parts.headD []
  let value := String.mk (stripQuotes (jsTrim (joinWith [':'] parts.tail)))
  match st.currentCard with
  | some i =>
    if key = "description".toList then withCard st i fun c => { c with description := some value }
    else if key = "value".toList then withCard st i fun c => { c with value := some value }
    else if key = "label".toList then withCard st i fun c => { c with label := some value }
    else st
  | none => st

/-- The branch of a plain list item `- text`. -/
def itemLine (st : PState) (trimmed : List Char) : PState :=
  let value := String.mk (stripQuotes (removeFirst "- ".toList trimmed))
  let s := st.slide
  match st.currentCard with
  | some i => withCard st i fun c => { c with items := c.items ++ [value] }
  | none =>
    match st.currentArray, s.bullets, s.steps, s.stages, s.events, s.details,
        s.leftBullets, s.rightBullets with
    | some .bullets, some l, _, _, _, _, _, _ =>
      { st with slide := { s with bullets := some (l ++ [value]) } }
    | some .steps, _, some l, _, _, _, _, _ =>
      { st with slide := { s with steps := some (l ++ [value]) } }
    | some .stages, _, _, some l, _, _, _, _ =>
      { st with slide := { s with stages := some (l ++ [value]) } }
    | some .events, _, _, _, some l, _, _, _ =>
      { st with slide := { s with events := some (l ++ [value]) } }
    | some .details, _, _, _, _, some l, _, _ =>
      { st with slide := { s with details := some (l ++ [value]) } }
    | some .leftBullets, _, _, _, _, _, some l, _ =>
      { st with slide := { s with leftBullets := some (l ++ [value]) } }
    | some .rightBullets, _, _, _, _, _, _, some l =>
      { st with slide := { s with rightBullets := some (l ++ [value]) } }
    | _, _, _, _, _, _, _, _ => st

/-- The objects the current context writes into exist: `slide.visual` in the
context `"visual"`, the `steps` list of `slide.visual.data` or of
`slide.visualData` in the two `steps` contexts, one of the two data objects in
`"visual-data"`; the contexts for `levels`, `layers` and `items` are never
entered. -/
def PState.wellFormed (st : PState) : Bool :=
  match st.currentArray with
  | some .visual => st.slide.visual.isSome
  | some .visualData =>
    st.slide.visualData.isSome ||
      (match st.slide.visual with
       | some v => v.data.isSome
       | none => false)
  | some .visualSteps =>
    st.slide.visualData.isNone &&
      (match st.slide.visual with
       | some v => match v.data with
         | some d => d.steps.isSome
         | none => false
       | none => false)
  | some .visualDataSteps =>
    match st.slide.visualData with
    | some d => d.steps.isSome
    | none => false
  | some .visualLevels => false
  | some .visualLayers => false
  | some .visualItems => false
  | some .visualDataLevels => false
  | some .visualDataLayers => false
  | some .visualDataItems => false
  | _ => true

/-- The line was processed without an exception and left a well-formed state. -/
def okWF (r : Except String PState) : Prop := ∃ st', r = .ok st' ∧ st'.wellFormed = true

/-- A context switch to a top-level list: `currentArray = ctx; currentCard = null`
on the slide `slide`. -/
def openList (slide : Slide) (ctx : Ctx) : PState :=
  { slide := slide, currentCard := none, currentArray := some ctx }

/-- The body of `yaml.split("\n").forEach((line) => ...)` on `trimmed =
line.trim()`: the chain of `if` / `else if`, in the order of the source. -/
def parseLine (st : PState) (trimmed : List Char) : Except String PState :=
  let s := st.slide
  if startsWith "id:" trimmed then
    .ok { st with slide := { s with id := String.mk (valueAfter "id:" trimmed) } }
  else if startsWith "type:" trimmed then
    match st.currentArray, s.visual with
    | some .visual, some v =>
      let v' : Visual := { v with type := some (String.mk (valueAfter "type:" trimmed)) }
      .ok { st with slide := { s with visual := some v' } }
    | _, _ => .ok { st with slide := { s with type := some (String.mk (valueAfter "type:" trimmed)) } }
  else if startsWith "layout:" trimmed then
    .ok { st with slide := { s with layout := some (String.mk (valueAfter "layout:" trimmed)) } }
  else if startsWith "textEffect:" trimmed then
    let v := String.mk (valueAfter "textEffect:" trimmed)
    .ok { st with slide := { s with textEffect := some v } }
  else if startsWith "visualType:" trimmed then
    let v := String.mk (valueAfter "visualType:" trimmed)
    .ok { st with slide := { s with visualType := some v } }
  else if startsWith "title:" trimmed then
    .ok { st with slide := { s with title := some (quotedAfter "title:" trimmed) } }
  else if startsWith "subtitle:" trimmed then
    .ok { st with slide := { s with subtitle := some (quotedAfter "subtitle:" trimmed) } }
  else if startsWith "quote:" trimmed then
    .ok { st with slide := { s with quote := some (quotedAfter "quote:" trimmed) } }
  else if startsWith "author:" trimmed then
    .ok { st with slide := { s with author := some (quotedAfter "author:" trimmed) } }
  else if startsWith "attribution:" trimmed then
    .ok { st with slide := { s with attribution := some (quotedAfter "attribution:" trimmed) } }
  else if startsWith "bullets:" trimmed then
    .ok (openList { s with bullets := some [] } .bullets)
  else if startsWith "cards:" trimmed then
    .ok (openList { s with cards := some [] } .cards)
  else if startsWith "steps:" trimmed then
    if st.currentArray = some .visualData then
      .ok { st with slide := updateTarget s fun d => { d with steps := some [] },
                    currentArray := if s.visualData.isSome then some .visualDataSteps
                                    else some .visualSteps }
    else .ok (openList { s with steps := some [] } .steps)
  else if startsWith "notes:" trimmed then
    .ok { st with currentArray := some .notes, currentCard := none }
  else if startsWith "stages:" trimmed then
    .ok (openList { s with stages := some [] } .stages)
  else if startsWith "events:" trimmed then
    .ok (openList { s with events := some [] } .events)
  else if startsWith "details:" trimmed then
    .ok (openList { s with details := some [] } .details)
  else if startsWith "leftTitle:" trimmed then
    .ok { st with slide := { s with leftTitle := some (quotedAfter "leftTitle:" trimmed) } }
  else if startsWith "rightTitle:" trimmed then
    .ok { st with slide := { s with rightTitle := some (quotedAfter "rightTitle:" trimmed) } }
  else if startsWith "leftBullets:" trimmed then
    .ok (openList { s with leftBullets := some [] } .leftBullets)
  else if startsWith "rightBullets:" trimmed then
    .ok (openList { s with rightBullets := some [] } .rightBullets)
  else if startsWith "visual:" trimmed then
    .ok (openList { s with visual := some {} } .visual)
  else if startsWith "visualData:" trimmed then
    .ok (openList { s with visualData := some {} } .visualData)
  else if startsWith "chartData:" trimmed then
    .ok (openList { s with chartData := some {} } .chartData)
  else if st.currentArray = some .chartData then
    .ok (chartLine st trimmed)
  else if st.currentArray = some .chartDataSegments then
    .ok (segmentLine st trimmed)
  else if st.currentArray = some .visualData then
    .ok (openList { s with visualData := some {} } .visualData)
  else if st.currentArray = some .visual then
    visualLine st trimmed
  else if st.currentArray = some .visualData then
    .ok (visualDataLine st trimmed)
  else if st.currentArray = some .visualDataLayers then
    layersLine st trimmed
  else if st.currentArray = some .visualLevels then
    levelsLine withVisualData st trimmed
  else if st.currentArray = some .visualItems then
    itemsLine withVisualData st trimmed
  else if st.currentArray = some .visualDataSteps then
    stepsLine withVisualDataTop st trimmed
  else if st.currentArray = some .visualSteps then
    stepsLine withVisualData st trimmed
  else if st.currentArray = some .visualDataLevels then
    levelsLine withVisualDataTop st trimmed
  else if st.currentArray = some .visualDataItems then
    itemsLine withVisualDataTop st trimmed
  else if startsWith "- title:" trimmed then
    match st.currentArray, s.cards with
    | some .cards, some cs =>
      let card : Card := { title := quotedAfter "- title:" trimmed, items := [] }
      .ok { st with slide := { s with cards := some (cs ++ [card]) }, currentCard := some cs.length }
    | _, _ => .ok st
  else if startsWith "title:" trimmed ∧ st.currentArray = none then
    .ok st
  else if startsWith "items:" trimmed then
    .ok st
  else if startsWith "- " trimmed ∧ includes ":" trimmed then
    .ok (keyValueLine st trimmed)
  else if startsWith "- " trimmed then
    .ok (itemLine st trimmed)
  else .ok st

/-- The lines of one `yaml` body run through `parseLine`, in order. -/
def parseLines (st : PState) : List (List Char) → Except String PState
  | [] => .ok st
  | line :: rest =>
    match parseLine st (jsTrim line) with
    | .ok st' => parseLines st' rest
    | .error e => .error e

/-- The text `String(n).padStart(2, "0")`. -/
def pad2 (n : Nat) : String :=
  if (toString n).length < 2 then "0" ++ toString n else toString n

/-- The callback of `slidesMatch.forEach((slideText, index) => ...)`: the slide
it pushes, `none` when the block has no `yaml` fence. -/
def parseSlide (slideText : List Char) (index : Nat) : Except String (Option Slide) :=
  match yamlGroup slideText with
  | none => .ok none
  | some yaml =>
    match parseLines { slide := { id := "s" ++ pad2 (index + 1), index := index + 1 } }
        (splitOn '\n' yaml) with
    | .ok st => .ok (some st.slide)
    | .error e => .error e

/-- The loop over the slide blocks, `index` being the index of the first. -/
def parseSlides : List (List Char) → Nat → Except String (List Slide)
  | [], _ => .ok []
  | slideText :: rest, index =>
    match parseSlide slideText index, parseSlides rest (index + 1) with
    | .ok (some slide), .ok slides => .ok (slide :: slides)
    | .ok none, .ok slides => .ok slides
    | .error e, _ => .error e
    | _, .error e => .error e

/-- The front-matter object: the value of each own property. -/
abbrev FrontMatter := String → Option String

/-- One line of the front matter: `frontMatter[key.trim()] = value` when the
line has a colon after a non-empty key. (An assignment of a string to
`__proto__` creates no property.) -/
def frontMatterLine (fm : FrontMatter) (line : List Char) : FrontMatter :=
  let parts := splitOn ':' line
  let key := parts.headD []
  if key ≠ [] ∧ parts.tail.length > 0 then
    let k := String.mk (jsTrim key)
    let v := String.mk (stripQuotes (jsTrim (joinWith [':'] parts.tail)))
    if k = "__proto__" then fm else fun name => if name = k then some v else fm name
  else fm

/-- The front matter of a script. -/
def parseFrontMatter (content : List Char) : FrontMatter :=
  match frontMatterGroup content with
  | some yaml => (splitOn '\n' yaml).foldl frontMatterLine (fun _ => none)
  | none => fun _ => none

/-- The function `parseScriptMd(content)` of render-slide.mjs: the front matter
and the slides, or the exception a line throws. -/
def parseScriptMd (content : String) : Except String (FrontMatter × List Slide) :=
  match parseSlides (matchAll reSlideBlock 0 content.toList) 0 with
  | .ok slides => .ok (parseFrontMatter content.toList, slides)
  | .error e => .error e

/-- The fields of a slide the round trip compares. -/
def Slide.lists (s : Slide) :
    Option (List String) × Option String × Option (List String) × Option String ×
      Option (List String) :=
  (s.bullets, s.leftTitle, s.leftBullets, s.rightTitle, s.rightBullets)

/-- The state keeps its card, its context and the compared fields. -/
def sameLists (st st' : PState) : Prop :=
  st'.currentCard = st.currentCard ∧ st'.currentArray = st.currentArray ∧
    st'.slide.lists = st.slide.lists

/-- No card is open and the context is none, `bullets` or `rightBullets`. -/
def Quiet (st : PState) : Prop :=
  st.currentCard = none ∧
    (st.currentArray = none ∨ st.currentArray = some .bullets ∨
      st.currentArray = some .rightBullets)

/-- The line was processed without an exception and left a well-formed state
with the same compared fields. -/
def okKeeps (st : PState) (r : Except String PState) : Prop :=
  ∃ st', r = .ok st' ∧ st'.wellFormed = true ∧ st'.slide.lists = st.slide.lists

/-- The lines are processed without an exception and keep the card, the context
and the compared fields. -/
def SameRun (st : PState) (lines : List (List Char)) : Prop :=
  ∃ st', parseLines st lines = .ok st' ∧ sameLists st st'

/-- The slide list `parseScriptMd(content).slides` (empty if the call threw). -/
def parsedSlides (content : String) : List Slide :=
  match parseScriptMd content with
  | .ok r => r.2
  | .error _ => []

end RenderSlide

/-! ## parse-content.mjs: the script generator -/

namespace ParseContent

/-- A slide record as `generateSlides` builds it and `generateScriptMd` prints
it; an optional field that is absent is `none`. -/
structure SlideRecord where
  id : String
  type : String
  contentType : Option String := none
  title : String
  subtitle : Option String := none
  bullets : Option (List String) := none
  leftTitle : Option String := none
  leftBullets : Option (List String) := none
  rightTitle : Option String := none
  rightBullets : Option (List String) := none
  recommendedVisuals : Option (List String) := none
  notes : Option String := none
  deriving DecidableEq, Repr

/-- A comparison slide as `generateSlides` builds it: the fixed left and right
lists, and bullets added from the narrative. -/
def comparisonRecord : SlideRecord :=
  { id := "s02", type := "framework", contentType := some "comparison",
    title := "并行 vs 系统",
    bullets := some ["并行探索可以同时放大试错的密度"],
    leftTitle := some "并行（发散）", leftBullets := some ["扩张可能性", "放大试错密度"],
    rightTitle := some "系统（收敛）", rightBullets := some ["压缩噪声", "形成可执行结论"],
    recommendedVisuals := some ["binary-comparison"],
    notes := some "并行 vs 系统 并行探索可以同时放大试错的密度" }

/-- Truthiness of an optional string: present and not empty. -/
def truthy (s : Option String) : Bool :=
  match s with
  | some t => t != ""
  | none => false

/-- The text a template literal prints for an optional string. -/
def templateText (s : Option String) : List Char :=
  match s with
  | some t => t.toList
  | none => "undefined".toList

/-- The line of one list item: two blanks, a dash, a blank, and the item in
double quotes. -/
def itemLine (b : String) : List Char := "  - \"".toList ++ b.toList ++ "\"".toList

/-- The array `yamlLines` of one slide. -/
def yamlLines (slide : SlideRecord) : List (List Char) :=
  [ "id: ".toList ++ slide.id.toList,
    "type: ".toList ++ slide.type.toList,
    "contentType: ".toList ++
      (if truthy slide.contentType then templateText slide.contentType else "statement".toList),
    "title: \"".toList ++ slide.title.toList ++ "\"".toList ] ++
  (if truthy slide.subtitle then
    ["subtitle: \"".toList ++ templateText slide.subtitle ++ "\"".toList] else []) ++
  (match slide.bullets with
   | some bs => if !truthy slide.leftTitle then "bullets:".toList :: bs.map itemLine else []
   | none => []) ++
  (if truthy slide.leftTitle then
    ["leftTitle: \"".toList ++ templateText slide.leftTitle ++ "\"".toList,
     "leftBullets:".toList] ++
    ((slide.leftBullets.getD []).map itemLine) ++
    ["rightTitle: \"".toList ++ templateText slide.rightTitle ++ "\"".toList,
     "rightBullets:".toList] ++
    ((slide.rightBullets.getD []).map itemLine)
   else []) ++
  (match slide.recommendedVisuals with
   | some vs =>
     if vs.length > 0 then
       ["recommendedVisuals: ".toList ++ joinWith ", ".toList (vs.map String.toList)]
     else []
   | none => []) ++
  [ "notes: |".toList,
    "  ".toList ++ (if truthy slide.notes then templateText slide.notes
                    else "[请补充口播备注]".toList) ]

/-- The text of one slide: the heading with `slide.id.replace("s", "")`, and the
`yaml` fence around the lines. -/
def slideText (slide : SlideRecord) : List Char :=
  "## Slide ".toList ++ removeFirst "s".toList slide.id.toList ++ "\n\n```yaml\n".toList ++
    joinWith "\n".toList (yamlLines slide) ++ "\n```".toList

/-- The front matter and the fixed sections before the slides. -/
def frontMatterText (title lang : String) : List Char :=
  joinWith "\n".toList
    [ "---".toList,
      "title: \"".toList ++ title.toList ++ "\"".toList,
      "language: \"".toList ++ lang.toList ++ "\"".toList,
      "aspect: \"16:9\"".toList,
      "theme: \"auto\"".toList,
      "defaultSlideSeconds: 6".toList,
      "---".toList,
      [],
      "# Goal".toList,
      [],
      "- [自动生成：请补充本期目标]".toList,
      "- [自动生成：请补充受众]".toList,
      [],
      "# Data Files".toList,
      [],
      "[如需引用数据文件，请在此列出]".toList,
      [],
      "# Slides".toList,
      [] ]

/-- The text is one line without a backtick and without `#`. -/
def plain (s : List Char) : Bool := s.all fun c => c != '\n' && c != '`' && c != '#'

/-- An optional text field is plain when present. -/
def plainOpt (s : Option String) : Bool :=
  match s with
  | some t => plain t.toList
  | none => true

/-- Every item of an optional list is plain and holds no colon. -/
def plainItems (l : Option (List String)) : Bool :=
  (l.getD []).all fun b => plain b.toList && b.toList.all fun c => c != ':'

/-- The id is `s` followed by one digit or more. -/
def numberedId (id : String) : Bool :=
  match id.toList with
  | 's' :: d :: ds => (d :: ds).all Char.isDigit
  | _ => false

/-- The text printed under `notes: |`. -/
def notesText (slide : SlideRecord) : List Char :=
  if truthy slide.notes then templateText slide.notes else "[请补充口播备注]".toList

/-- The line opens one of the compared fields. -/
def opensList (t : List Char) : Bool :=
  startsWith "bullets:" t || startsWith "leftTitle:" t || startsWith "rightTitle:" t ||
  startsWith "leftBullets:" t || startsWith "rightBullets:" t

/-- The records the round trip is stated for: a numbered id; text fields of one
line without backtick or `#`; list items without colon; notes that do not start
with the key of a compared field; and either a non-empty `leftTitle` with
`leftBullets`, `rightTitle`, `rightBullets` and no `bullets`, or none of the
left and right fields. -/
def roundTrips (r : SlideRecord) : Bool :=
  numberedId r.id && plain r.type.toList && plainOpt r.contentType && plain r.title.toList &&
  plainOpt r.subtitle && plainItems r.bullets && plainOpt r.leftTitle &&
  plainItems r.leftBullets && plainOpt r.rightTitle && plainItems r.rightBullets &&
  ((r.recommendedVisuals.getD []).all fun v => plain v.toList) && plainOpt r.notes &&
  !opensList (jsTrim (notesText r)) &&
  (if truthy r.leftTitle then
    r.bullets.isNone && r.leftBullets.isSome && r.rightTitle.isSome && r.rightBullets.isSome
   else
    r.leftTitle.isNone && r.leftBullets.isNone && r.rightTitle.isNone && r.rightBullets.isNone)

/-- The parsed slide has the compared fields of the record. -/
def sameFields (r : SlideRecord) (s : RenderSlide.Slide) : Prop :=
  s.bullets = r.bullets ∧ s.leftTitle = r.leftTitle ∧ s.leftBullets = r.leftBullets ∧
    s.rightTitle = r.rightTitle ∧ s.rightBullets = r.rightBullets

/-- The slides with the text that follows each block in the generated script:
the separator of `join("\n\n")`, or the final newline. -/
def withSeps : List SlideRecord → List (SlideRecord × List Char)
  | [] => []
  | [r] => [(r, "\n".toList)]
  | r :: r' :: rs => (r, "\n\n".toList) :: withSeps (r' :: rs)

/-- The heading digits and the body of a generated block. -/
def segOf (p : SlideRecord × List Char) : List Char × List Char :=
  (removeFirst "s".toList p.1.id.toList,
    "\n\n```yaml\n".toList ++ joinWith "\n".toList (yamlLines p.1) ++ "\n```".toList ++ p.2)

/-- A slide with bullets and no left or right field. -/
def bulletRecord : SlideRecord :=
  { id := "s01", type := "statement", contentType := some "process",
    title := "三步完成部署",
    bullets := some ["第一步先准备好运行环境和依赖", "第二步再执行自动化部署脚本"],
    recommendedVisuals := some ["flow", "timeline"],
    notes := some "- 三步完成部署 第一步先准备好运行环境和依赖" }

/-- A comparison slide with the left and right fields and no bullets. -/
def leftRightRecord : SlideRecord :=
  { id := "s02", type := "framework", contentType := some "comparison",
    title := "并行 vs 系统", subtitle := some "两种做法",
    leftTitle := some "并行（发散）", leftBullets := some ["扩张可能性", "放大试错密度"],
    rightTitle := some "系统（收敛）", rightBullets := some ["压缩噪声", "形成可执行结论"],
    notes := some "并行 vs 系统" }

/-- The function `generateScriptMd(title, slides, lang)`. -/
def generateScriptMd (title : String) (slides : List SlideRecord) (lang : String) : String :=
  String.mk (frontMatterText title lang ++ joinWith "\n\n".toList (slides.map slideText) ++
    "\n".toList)

end ParseContent

/-! ## parse-content.mjs: the content classifiers -/

namespace ParseContent

/-- The method `toLowerCase` on the texts whose cased letters are all ASCII. The
classifiers below take the method as a parameter: what is proved of them holds
for every lower-casing function. -/
def toLowerCaseAscii (s : String) : String := String.mk (s.toList.map Char.toLower)

/-- The table `CONTENT_TYPE_PATTERNS`: the tags with their keywords, in the
order of the keys of the object. -/
def CONTENT_TYPE_PATTERNS : List (String × List String) :=
  [("process", ["步骤", "第一步", "第二步", "第三步", "流程", "阶段", "过程", "首先", "然后", "最后"]),
   ("comparison", ["vs", "对比", "比较", "优劣", "前后", "A和B", "一方面", "另一方面"]),
   ("data", ["数据", "统计", "%", "增长", "下降", "指标", "KPI", "数字"]),
   ("hierarchy", ["层级", "顶层", "底层", "核心", "金字塔", "结构", "框架"]),
   ("cycle", ["循环", "迭代", "周期", "闭环", "反馈", "持续"]),
   ("timeline", ["年", "月", "日", "时间线", "历史", "发展", "演进"]),
   ("summary", ["总结", "归纳", "结论", "要点", "核心", "关键"])]

/-- The score of one tag: `patterns.reduce((score, pattern) => score +
(lowerText.includes(pattern.toLowerCase()) ? 1 : 0), 0)`. -/
def patternScore (toLowerCase : String → String) (lowerText : String)
    (patterns : List String) : Nat :=
  patterns.foldl
    (fun score pattern =>
      score + (if includes (toLowerCase pattern) lowerText.toList then 1 else 0)) 0

/-- The entries of the object `scores` after the loop over the table. -/
def contentScores (toLowerCase : String → String) (text : String) : List (String × Nat) :=
  CONTENT_TYPE_PATTERNS.map fun e => (e.1, patternScore toLowerCase (toLowerCase text) e.2)

/-- The reduction that picks `maxType`: an entry replaces the running maximum
only when its score is strictly higher. -/
def maxType (scores : List (String × Nat)) : String × Nat :=
  scores.foldl (fun max e => if e.2 > max.2 then e else max) ("statement", 0)

/-- The function `detectContentType(text)`. -/
def detectContentType (toLowerCase : String → String) (text : String) : String :=
  let m := maxType (contentScores toLowerCase text)
  if m.2 > 0 then m.1 else "statement"

/-- The number of positions of `text` at which the literal `lit` starts: the
occurrences of a keyword, each counted. -/
def occurrences (lit : String) (text : String) : Nat :=
  (text.toList.tails.filter fun s => lit.toList.isPrefixOf s).length

/-- The count of a tag when every occurrence of each of its keywords counts:
the sum of the occurrences of its keywords in the lower-cased text. -/
def occurrenceCount (toLowerCase : String → String) (text : String)
    (patterns : List String) : Nat :=
  (patterns.map fun p => occurrences (toLowerCase p) (toLowerCase text)).sum

/-- The keywords of a tag of the table (none for a name that is not a key). -/
def patternsOf (tag : String) : List String :=
  match CONTENT_TYPE_PATTERNS.find? (fun e => e.1 == tag) with
  | some e => e.2
  | none => []

/-- A text the keyword 步骤 occurs in three times, next to one occurrence each
of 对比 and 比较. -/
def repeatedKeywordText : String := "步骤一、步骤二、步骤三的对比与比较"

/-- The text contains one of the keywords: `text.includes(k1) || ...`. -/
def includesAny (keywords : List String) (text : String) : Bool :=
  keywords.any fun k => includes k text.toList

/-- The function `detectSlideType(paragraph, index, totalParagraphs)`; the test
of the last slide and the test of its keywords, nested in the source, are one
conjunction here. -/
def detectSlideType (toLowerCase : String → String) (paragraph : String) (index : Nat)
    (totalParagraphs : Nat) : String :=
  let text := toLowerCase paragraph
  if index = 0 then "cover"
  else if (index : Int) = (totalParagraphs : Int) - 1 ∧
      (includes "结论" text.toList || includes "最终" text.toList || includes "总结" text.toList)
  then "conclusion"
  else if includes "问题" text.toList || includes "为什么" text.toList ||
      includes "瓶颈" text.toList then "problem"
  else if includes "结论" text.toList || includes "最终" text.toList ||
      includes "总结" text.toList then "conclusion"
  else if includes "测试" text.toList || includes "发现" text.toList ||
      includes "方案" text.toList then "solution"
  else if includes "意味" text.toList || includes "结构" text.toList ||
      includes "框架" text.toList then "framework"
  else if includes "但" text.toList || includes "不过" text.toList ||
      includes "注意" text.toList then "caveat"
  else "statement"

/-- The keyword triggers in the order the spec gives for the scan: problem,
conclusion, solution, framework, caveat. -/
def slideTypeTriggers : List (String × List String) :=
  [("problem", ["问题", "为什么", "瓶颈"]),
   ("conclusion", ["结论", "最终", "总结"]),
   ("solution", ["测试", "发现", "方案"]),
   ("framework", ["意味", "结构", "框架"]),
   ("caveat", ["但", "不过", "注意"])]

/-- The ordered scan of the spec: the first tag one of whose trigger keywords
occurs in the text, `statement` when none does. -/
def orderedScan (text : String) : String :=
  match slideTypeTriggers.find? (fun e => includesAny e.2 text) with
  | some e => e.1
  | none => "statement"

end ParseContent

/-! ## visual-matcher.mjs: the script parser -/

namespace VisualMatcher

/-- A slide record as `parseScriptMd` of visual-matcher.mjs builds it. -/
structure Slide where
  id : String
  index : Nat
  type : Option String := none
  title : Option String := none
  subtitle : Option String := none
  bullets : Option (List String) := none
  leftTitle : Option String := none
  rightTitle : Option String := none
  leftBullets : Option (List String) := none
  rightBullets : Option (List String) := none
  rawText : Option String := none
  deriving DecidableEq, Repr

/-- The values `currentArray` takes (`null` is `none`). -/
inductive Ctx where
  | bullets | notes | leftBullets | rightBullets
  deriving DecidableEq, Repr

/-- The variables of the loop over the lines of one slide block. -/
structure PState where
  slide : Slide
  currentArray : Option Ctx := none
  deriving DecidableEq, Repr

/-- The body of the loop over the lines of a slide block, on `trimmed =
line.trim()`: the chain of `if` / `else if` in the order of the source. -/
def parseLine (st : PState) (trimmed : List Char) : PState :=
  let s := st.slide
  if startsWith "id:" trimmed then
    { st with slide := { s with id := String.mk (RenderSlide.valueAfter "id:" trimmed) } }
  else if startsWith "type:" trimmed then
    { st with slide := { s with type := some (String.mk (RenderSlide.valueAfter "type:" trimmed)) } }
  else if startsWith "title:" trimmed then
    { st with slide := { s with title := some (RenderSlide.quotedAfter "title:" trimmed) } }
  else if startsWith "subtitle:" trimmed then
    { st with slide := { s with subtitle := some (RenderSlide.quotedAfter "subtitle:" trimmed) } }
  else if startsWith "bullets:" trimmed then
    { slide := { s with bullets := some [] }, currentArray := some .bullets }
  else if startsWith "notes:" trimmed then
    { st with currentArray := some .notes }
  else if startsWith "leftTitle:" trimmed then
    { st with slide := { s with leftTitle := some (RenderSlide.quotedAfter "leftTitle:" trimmed) } }
  else if startsWith "rightTitle:" trimmed then
    { st with slide := { s with rightTitle := some (RenderSlide.quotedAfter "rightTitle:" trimmed) } }
  else if startsWith "leftBullets:" trimmed then
    { slide := { s with leftBullets := some [] }, currentArray := some .leftBullets }
  else if startsWith "rightBullets:" trimmed then
    { slide := { s with rightBullets := some [] }, currentArray := some .rightBullets }
  else if startsWith "- " trimmed then
    let value := String.mk (stripQuotes (removeFirst "- ".toList trimmed))
    match st.currentArray, s.bullets, s.leftBullets, s.rightBullets with
    | some .bullets, some l, _, _ => { st with slide := { s with bullets := some (l ++ [value]) } }
    | some .leftBullets, _, some l, _ =>
      { st with slide := { s with leftBullets := some (l ++ [value]) } }
    | some .rightBullets, _, _, some l =>
      { st with slide := { s with rightBullets := some (l ++ [value]) } }
    | _, _, _, _ => st
  else st

/-- The slide pushed for one slide block, `none` when it has no `yaml` fence. -/
def parseSlide (slideText : List Char) (index : Nat) : Option Slide :=
  (yamlGroup slideText).map fun yaml =>
    let st := (splitOn '\n' yaml).foldl (fun st line => parseLine st (jsTrim line))
      { slide := { id := "s" ++ RenderSlide.pad2 (index + 1), index := index + 1 } }
    { st.slide with rawText := some (String.mk slideText) }

/-- The loop over the slide blocks, `index` being the index of the first. -/
def parseSlides : List (List Char) → Nat → List Slide
  | [], _ => []
  | slideText :: rest, index =>
    match parseSlide slideText index with
    | some slide => slide :: parseSlides rest (index + 1)
    | none => parseSlides rest (index + 1)

/-- The function `parseScriptMd(content)` of visual-matcher.mjs (its front
matter is read by the same statements as in render-slide.mjs). -/
def parseScriptMd (content : String) : RenderSlide.FrontMatter × List Slide :=
  (RenderSlide.parseFrontMatter content.toList,
    parseSlides (matchAll reSlideBlock 0 content.toList) 0)

end VisualMatcher

/-! ## analyze-layouts.mjs -/

namespace AnalyzeLayouts

/-- A slide record as `parseScriptMd` of analyze-layouts.mjs builds it. -/
structure Slide where
  id : String
  type : Option String := none
  title : Option String := none
  subtitle : Option String := none
  bullets : Option (List String) := none
  leftTitle : Option String := none
  rightTitle : Option String := none
  leftBullets : Option (List String) := none
  rightBullets : Option (List String) := none
  notes : Option String := none
  deriving DecidableEq, Repr

/-- The item of a line `- text`: `trimmed.replace("- ", "")` without its quotes. -/
def itemValue (trimmed : List Char) : String :=
  String.mk (stripQuotes (removeFirst "- ".toList trimmed))

/-- The body of the loop over the lines of a slide block, on `trimmed =
line.trim()`: the chain of `if` / `else if` in the order of the source. There
is no variable for the open list: a `- ` line goes to `bullets` when that list
exists, else to `leftBullets` when that exists, else to `rightBullets`. -/
def parseLine (slide : Slide) (trimmed : List Char) : Slide :=
  if startsWith "id:" trimmed then
    { slide with id := String.mk (RenderSlide.valueAfter "id:" trimmed) }
  else if startsWith "type:" trimmed then
    { slide with type := some (String.mk (RenderSlide.valueAfter "type:" trimmed)) }
  else if startsWith "title:" trimmed then
    { slide with title := some (RenderSlide.quotedAfter "title:" trimmed) }
  else if startsWith "subtitle:" trimmed then
    { slide with subtitle := some (RenderSlide.quotedAfter "subtitle:" trimmed) }
  else if startsWith "bullets:" trimmed then
    { slide with bullets := some [] }
  else if startsWith "- " trimmed ∧ slide.bullets.isSome then
    { slide with bullets := slide.bullets.map fun l => l ++ [itemValue trimmed] }
  else if startsWith "leftTitle:" trimmed then
    { slide with leftTitle := some (RenderSlide.quotedAfter "leftTitle:" trimmed) }
  else if startsWith "rightTitle:" trimmed then
    { slide with rightTitle := some (RenderSlide.quotedAfter "rightTitle:" trimmed) }
  else if startsWith "leftBullets:" trimmed then
    { slide with leftBullets := some [] }
  else if startsWith "rightBullets:" trimmed then
    { slide with rightBullets := some [] }
  else if startsWith "- " trimmed ∧ slide.leftBullets.isSome then
    { slide with leftBullets := slide.leftBullets.map fun l => l ++ [itemValue trimmed] }
  else if startsWith "- " trimmed ∧ slide.rightBullets.isSome then
    { slide with rightBullets := slide.rightBullets.map fun l => l ++ [itemValue trimmed] }
  else if startsWith "notes:" trimmed then
    { slide with notes := some "" }
  else
    match slide.notes with
    | some notes =>
      if !includes ":" trimmed && !startsWith "```" trimmed then
        { slide with notes := some (notes ++ (if notes ≠ "" then " " else "") ++ String.mk trimmed) }
      else slide
    | none => slide

/-- The slide pushed for one slide block, `none` when it has no `yaml` fence. -/
def parseSlide (slideText : List Char) (index : Nat) : Option Slide :=
  (yamlGroup slideText).map fun yaml =>
    (splitOn '\n' yaml).foldl (fun slide line => parseLine slide (jsTrim line))
      { id := "s" ++ RenderSlide.pad2 (index + 1) }

/-- The loop over the slide blocks, `index` being the index of the first. -/
def parseSlides : List (List Char) → Nat → List Slide
  | [], _ => []
  | slideText :: rest, index =>
    match parseSlide slideText index with
    | some slide => slide :: parseSlides rest (index + 1)
    | none => parseSlides rest (index + 1)

/-- The function `parseScriptMd(content)` of analyze-layouts.mjs (its front
matter is read by the same statements as in render-slide.mjs). -/
def parseScriptMd (content : String) : RenderSlide.FrontMatter × List Slide :=
  (RenderSlide.parseFrontMatter content.toList,
    parseSlides (matchAll reSlideBlock 0 content.toList) 0)

/-- A script with one slide block: `leftBullets:` with the items a and b, then
`rightBullets:` with the items c and d. -/
def leftRightScript : String :=
  "## Slide 1\n\n```yaml\nid: s01\ntype: statement\ntitle: \"T\"\nleftTitle: \"L\"\n" ++
  "leftBullets:\n  - \"a\"\n  - \"b\"\nrightTitle: \"R\"\nrightBullets:\n  - \"c\"\n  - \"d\"\n```\n"

/-- The expression `/第[一二三四五]/` at the head of the text. -/
def reOrdinal : List Char → Bool
  | '第' :: c :: _ => c == '一' || c == '二' || c == '三' || c == '四' || c == '五'
  | _ => false

/-- The expression `/\d+%/` at the head of the text: a run of digits and `%`. -/
def rePercent (s : List Char) : Bool :=
  let digits := s.takeWhile Char.isDigit
  decide (digits.length > 0) && (s.drop digits.length).head? == some '%'

/-- The method `RegExp.prototype.test`: the expression matches somewhere. -/
def reTest (m : List Char → Bool) : List Char → Bool
  | [] => m []
  | c :: rest => m (c :: rest) || reTest m rest

/-- Truthiness of an optional string: defined and not empty. -/
def truthy (s : Option String) : Bool :=
  match s with
  | some v => v != ""
  | none => false

/-- One rule of `LAYOUT_RULES`; `matchScore` is its function `match`. -/
structure LayoutRule where
  name : String
  keywords : List String
  priority : Int
  description : String
  matchScore : List Char → Slide → ℚ

/-- The table `LAYOUT_RULES`. A score is the rational number its decimal
literal denotes. (In the rule quote-callout `length` is the `text.length` of
the code for a text that satisfies `isBMP`.) -/
def LAYOUT_RULES : List LayoutRule :=
  [{ name := "binary-comparison",
     keywords := ["vs", "对比", "比较", "优劣", "前后", "串行", "并行", "发散", "收敛"],
     priority := 2,
     description := "A vs B 对比布局",
     matchScore := fun text slide =>
       if truthy slide.leftTitle && truthy slide.rightTitle then 1
       else if includes "vs" text || includes "对比" text then 9 / 10
       else if includes "串行" text && includes "并行" text then 8 / 10
       else if includes "发散" text && includes "收敛" text then 8 / 10
       else 0 },
   { name := "linear-progression",
     keywords := ["步骤", "流程", "第一步", "第二步", "阶段", "过程"],
     priority := 2,
     description := "线性流程布局",
     matchScore := fun text _ =>
       if includes "步骤" text || includes "流程" text then 9 / 10
       else if reTest reOrdinal text then 8 / 10
       else 0 },
   { name := "hierarchical-layers",
     keywords := ["层级", "顶层", "底层", "核心", "金字塔"],
     priority := 2,
     description := "层级结构布局",
     matchScore := fun text _ =>
       if includes "层级" text || includes "顶层" text || includes "底层" text then 9 / 10
       else 0 },
   { name := "hub-spoke",
     keywords := ["核心", "围绕", "中心", "结构", "框架"],
     priority := 2,
     description := "中心辐射布局",
     matchScore := fun text slide =>
       if slide.type = some "framework" then 9 / 10
       else if includes "核心" text && includes "围绕" text then 8 / 10
       else 0 },
   { name := "dashboard",
     keywords := ["指标", "数据", "增长", "KPI", "统计"],
     priority := 2,
     description := "数据仪表盘布局",
     matchScore := fun text _ =>
       if includes "指标" text || includes "KPI" text then 9 / 10
       else if reTest rePercent text then 7 / 10
       else 0 },
   { name := "quote-callout",
     keywords := ["结论", "最终", "金句", "核心观点"],
     priority := 1,
     description := "引用/金句布局",
     matchScore := fun text slide =>
       if slide.type = some "conclusion" then 85 / 100
       else if includes "结论" text then 8 / 10
       else if text.length < 50 ∧ slide.bullets.isNone then 7 / 10
       else 0 },
   { name := "title-hero",
     keywords := [],
     priority := 3,
     description := "大标题居中布局",
     matchScore := fun _ slide =>
       if slide.type = some "cover" then 1
       else if slide.type = some "section" then 9 / 10
       else 0 },
   { name := "bullet-list",
     keywords := [],
     priority := 1,
     description := "要点列表布局（默认）",
     matchScore := fun _ slide =>
       match slide.bullets with
       | some (_ :: _) => 7 / 10
       | _ => 5 / 10 }]

/-- An entry of the array `scores`. The fallback entry has no priority. -/
structure ScoreEntry where
  name : String
  description : String
  priority : Option Int
  score : ℚ

/-- The text of a slide: title, subtitle, notes and bullets, those that are
defined and not empty, joined by a blank. -/
def slideText (slide : Slide) : List Char :=
  let parts := [slide.title, slide.subtitle, slide.notes].filterMap id ++ slide.bullets.getD []
  joinWith [' '] ((parts.filter fun p => p != "").map String.toList)

/-- The comparison function of the sort: by score, higher first, and by
priority, higher first, for equal scores; the value is negative, zero or
positive. -/
def compareEntries (a b : ScoreEntry) : ℚ :=
  if a.score ≠ b.score then b.score - a.score
  else ((b.priority.getD 0 - a.priority.getD 0 : Int) : ℚ)

/-- The order the sort establishes: `a` may stand before `b`. -/
def before (a b : ScoreEntry) : Prop := compareEntries a b ≤ 0

instance : DecidableRel before := fun a b =>
  inferInstanceAs (Decidable (compareEntries a b ≤ 0))

/-- The method `Math.round` on a rational number: the integer nearest to it,
the upper one of two. On the scores of the table the product `score * 100` of
the floating-point numbers rounds to the same integer as the exact product. -/
def mathRound (x : ℚ) : Int := ⌊x + 1 / 2⌋

/-- An alternative of a recommendation. -/
structure Alternative where
  name : String
  description : String
  confidence : Int
  deriving DecidableEq, Repr

/-- The record `analyzeSlide` returns. -/
structure LayoutRecommendation where
  slideId : String
  slideType : Option String
  title : Option String
  recommended : String
  recommendedDescription : String
  confidence : Int
  alternatives : List Alternative
  accepted : Bool
  deriving DecidableEq, Repr

/-- The array `scores` of `analyzeSlide`: the rules with a positive score,
sorted (the sort of an array is stable). -/
def sortedScores (slide : Slide) : List ScoreEntry :=
  let text := slideText slide
  let scores := (LAYOUT_RULES.map fun rule =>
    ({ name := rule.name, description := rule.description, priority := some rule.priority,
       score := rule.matchScore text slide } : ScoreEntry)).filter fun s => decide (s.score > 0)
  scores.insertionSort before

/-- The fallback `scores[0] || ...` of `analyzeSlide`. -/
def fallbackEntry : ScoreEntry :=
  { name := "bullet-list", description := "要点列表布局（默认）", priority := none, score := 5 / 10 }

/-- The function `analyzeSlide(slide)`. -/
def analyzeSlide (slide : Slide) : LayoutRecommendation :=
  let scores := sortedScores slide
  let recommended := scores.head?.getD fallbackEntry
  { slideId := slide.id,
    slideType := slide.type,
    title := slide.title,
    recommended := recommended.name,
    recommendedDescription := recommended.description,
    confidence := mathRound (recommended.score * 100),
    alternatives := ((scores.drop 1).take 2).map fun s =>
      { name := s.name, description := s.description, confidence := mathRound (s.score * 100) },
    accepted := false }

end AnalyzeLayouts

/-! ## render-slide.mjs: what a line leaves untouched -/

namespace RenderSlide

/-- The data object of a visual holds no `levels`, `layers` or `items` list. -/
def VData.flat (d : VData) : Bool := d.levels.isNone && d.layers.isNone && d.items.isNone

/-- Neither `slide.visualData` nor `slide.visual.data` holds a `levels`,
`layers` or `items` list. -/
def Slide.flatData (s : Slide) : Bool :=
  (match s.visualData with
   | some d => d.flat
   | none => true) &&
  (match s.visual with
   | some v =>
     match v.data with
     | some d => d.flat
     | none => true
   | none => true)

/-- What one line `t` leaves of the slide: `notes` and `index` as they were,
`id` as it was unless the line starts with `id:`, and no `levels`, `layers` or
`items` list of a visual where there was none. -/
def Frame (st st' : PState) (t : List Char) : Prop :=
  st'.slide.notes = st.slide.notes ∧ st'.slide.index = st.slide.index ∧
    st'.slide.id = (if startsWith "id:" t then String.mk (valueAfter "id:" t) else st.slide.id) ∧
    (st.slide.flatData = true → st'.slide.flatData = true)

/-- The result of a line, when it is one, is framed as above. -/
def okFrame (st : PState) (t : List Char) (r : Except String PState) : Prop :=
  ∀ st', r = .ok st' → Frame st st' t

/-- The id a slide block declares: the value of its last `id:` line, or `s` and
the two-digit number of the block when it has none. -/
def declaredId (lines : List (List Char)) (index : Nat) : String :=
  match ((lines.map jsTrim).filter fun t => startsWith "id:" t).getLast? with
  | some t => String.mk (valueAfter "id:" t)
  | none => "s" ++ pad2 (index + 1)

/-- The number a text of decimal digits denotes. -/
def decimalValue (ds : List Char) : Nat :=
  ds.foldl (fun a c => 10 * a + (c.toNat - 48)) 0

/-- A script whose slide block has a `visualData:` object with `levels:`. -/
def levelsScript : String :=
  "## Slide 1\n\n```yaml\nid: s01\ntitle: \"T\"\nvisualData:\n  levels:\n" ++
  "    - label: \"L1\"\n      sublabel: \"S1\"\n    - label: \"L2\"\n      sublabel: \"S2\"\n```\n"

/-- The same with `layers:`. -/
def layersScript : String :=
  "## Slide 1\n\n```yaml\nid: s01\ntitle: \"T\"\nvisualData:\n  layers:\n" ++
  "    - label: \"A\"\n    - label: \"B\"\n```\n"

/-- The same with `items:`. -/
def itemsScript : String :=
  "## Slide 1\n\n```yaml\nid: s01\ntitle: \"T\"\nvisualData:\n  items:\n" ++
  "    - label: \"A\", color: \"accent\"\n    - label: \"B\", color: \"muted\"\n```\n"

/-- The same with `steps:`, the one list of `visualData` that is filled. -/
def stepsScript : String :=
  "## Slide 1\n\n```yaml\nid: s01\ntitle: \"T\"\nvisualData:\n  steps:\n" ++
  "    - title: \"A\"\n      desc: \"first\"\n    - title: \"B\"\n```\n"

/-- A script whose slide block has `steps:` and a `notes:` text, as
parse-content.mjs writes the notes. -/
def notesScript : String :=
  "## Slide 1\n\n```yaml\nid: s01\ntitle: \"T\"\nsteps:\n  - \"one\"\n  - \"two\"\n" ++
  "notes: |\n  Speaker text\n```\n"

/-- Two slide blocks that both declare the id `s01`. -/
def sameIdScript : String :=
  "## Slide 1\n\n```yaml\nid: s01\ntitle: \"A\"\n```\n\n## Slide 2\n\n```yaml\nid: s01\ntitle: \"B\"\n```\n"

/-- A slide block with steps under `visualData:`, then `visual:` with `data:`
and a plain list item under it. -/
def itemUnderDataLines : List (List Char) :=
  ["visualData:".toList, "  steps:".toList, "    - title: \"A\"".toList, "visual:".toList,
    "  type: flow".toList, "  data:".toList]

/-- The script of the block above, with the plain item `- x` as its last line. -/
def itemUnderDataScript : String :=
  "## Slide 1\n\n```yaml\nid: s01\n" ++
    String.mk (joinWith ['\n'] itemUnderDataLines) ++ "\n    - x\n```\n"

/-- A plain list item: the line starts with `- ` and holds no colon. -/
def plainItem (t : List Char) : Bool := startsWith "- " t && !includes ":" t

end RenderSlide
namespace RenderSlide

/-- The number and the declared id of the slide blocks that hold a `yaml`
fence, in the order of the blocks, `index` being the index of the first. -/
def declaredIds : List (List Char) → Nat → List (Nat × String)
  | [], _ => []
  | b :: rest, index =>
    match yamlGroup b with
    | some yaml => (index + 1, declaredId (splitOn '\n' yaml) index) :: declaredIds rest (index + 1)
    | none => declaredIds rest (index + 1)

/-- No line of the block starts with `id:`. -/
def declaresNoId (b : List Char) : Bool :=
  match yamlGroup b with
  | some yaml => (splitOn '\n' yaml).all fun line => !startsWith "id:" (jsTrim line)
  | none => true

end RenderSlide
namespace RenderSlide

/-- The contexts of nested objects that have a branch of their own in the
chain, other than `visual-data`: `chartData` and its segments, `visual`, and the
lists of a visual (`visual-layers` has no branch). -/
def Ctx.nested : Ctx → Bool
  | .chartData | .chartDataSegments | .visual | .visualSteps | .visualLevels
  | .visualItems | .visualDataSteps | .visualDataLevels | .visualDataLayers
  | .visualDataItems => true
  | _ => false

/-- The state after the lines of `itemUnderDataLines`, from the first slide. -/
def stateUnderData : Except String PState :=
  parseLines { slide := { id := "s01", index := 1 } } itemUnderDataLines

end RenderSlide

namespace RenderSlide

/-- The state after the plain item `- x` that follows those lines. -/
def stateAfterItem : Except String PState :=
  match stateUnderData with
  | .ok st => parseLine st (jsTrim "    - x".toList)
  | .error e => .error e

/-- The value of `slide.visualData` in a state the lines led to. -/
def visualDataOf (r : Except String PState) : Option (Option VData) :=
  match r with
  | .ok st => some st.slide.visualData
  | .error _ => none

end RenderSlide

/-! ## analyze-layouts.mjs: ranking, style, and the acceptance check of build-deck.mjs -/

namespace AnalyzeLayouts

/-- The entry of a rule in the array `scores` of `analyzeSlide`. -/
def scoreEntry (slide : Slide) (rule : LayoutRule) : ScoreEntry :=
  ScoreEntry.mk rule.name rule.description (some rule.priority)
    (rule.matchScore (slideText slide) slide)

/-- The array `scores` of `analyzeSlide` before the sort: the rules with a
positive score, in the order of the table. -/
def positiveScores (slide : Slide) : List ScoreEntry :=
  (LAYOUT_RULES.map (scoreEntry slide)).filter fun s => decide (s.score > 0)

/-- The alternative made of an entry of `scores`. -/
def alternativeOf (s : ScoreEntry) : Alternative :=
  { name := s.name, description := s.description, confidence := mathRound (s.score * 100) }

/-- A cover slide with a left and a right title. -/
def coverComparisonSlide : Slide :=
  { id := "s01", type := some "cover", title := some "T", leftTitle := some "A",
    rightTitle := some "B" }

/-- A slide without bullets whose title has fifty characters and none of the
keywords of the rules. -/
def plainLongSlide : Slide :=
  { id := "s02", type := some "statement",
    title := some "aaaaaaaaaaaaaaaaaaaaaaaaaaaaaaaaaaaaaaaaaaaaaaaaaa" }

/-- One rule of `STYLE_RULES`. -/
structure StyleRule where
  name : String
  keywords : List String
  description : String
  deriving DecidableEq, Repr

/-- The table `STYLE_RULES`. -/
def STYLE_RULES : List StyleRule :=
  [{ name := "tech",
     keywords := ["技术", "代码", "API", "数据", "算法", "架构", "系统", "框架"],
     description := "科技蓝风格 - 深蓝背景+浅蓝强调" },
   { name := "bold-editorial",
     keywords := ["产品", "发布", "营销", "用户", "市场", "增长", "转化"],
     description := "大胆对比风 - 高对比+多彩强调" },
   { name := "minimal",
     keywords := ["简洁", "高端", "留白", "设计", "品牌", "形象"],
     description := "极简留白风 - 克制配色+大量留白" },
   { name := "dark-atmospheric",
     keywords := ["电影", "氛围", "故事", "情绪", "叙事", "旅程"],
     description := "电影暗色风 - 深色+霓虹强调" }]

/-- An entry of the array `scores` of `analyzeStyle`. -/
structure StyleScore where
  name : String
  description : String
  score : Nat
  deriving DecidableEq, Repr

/-- An alternative of a style recommendation. -/
structure StyleAlternative where
  name : String
  description : String
  deriving DecidableEq, Repr

/-- The record `analyzeStyle` returns. -/
structure StyleRecommendation where
  recommended : String
  recommendedDescription : String
  alternatives : List StyleAlternative
  deriving DecidableEq, Repr

/-- The array `scores` of `analyzeStyle` before the sort: for each rule the
number of its keywords that the lower-cased text includes. -/
def styleScores (toLowerCase : String → String) (allText : String) : List StyleScore :=
  STYLE_RULES.map fun rule =>
    { name := rule.name, description := rule.description,
      score := (rule.keywords.filter fun kw => includes kw (toLowerCase allText).toList).length }

/-- The order of `scores.sort((a, b) => b.score - a.score)`: `a` may stand
before `b`. -/
def styleBefore (a b : StyleScore) : Prop := b.score ≤ a.score

instance : DecidableRel styleBefore := fun a b => inferInstanceAs (Decidable (b.score ≤ a.score))

/-- The recommendation returned when no keyword matches. -/
def defaultStyle : StyleRecommendation :=
  { recommended := "apple",
    recommendedDescription := "经典苹果风 - 纯黑+白字+蓝色强调",
    alternatives := [{ name := "tech", description := "科技蓝风格" },
                     { name := "bold-editorial", description := "大胆对比风" }] }

/-- The function `analyzeStyle(allText)`; `none` stands for the exception of
reading `scores[0].score` in an empty array (the table has four rules). -/
def analyzeStyle (toLowerCase : String → String) (allText : String) :
    Option StyleRecommendation :=
  let scores := (styleScores toLowerCase allText).insertionSort styleBefore
  match scores with
  | [] => none
  | top :: _ =>
    if top.score > 0 then
      some { recommended := top.name,
             recommendedDescription := top.description,
             alternatives := (((scores.drop 1).take 2).filter fun s => decide (s.score > 0)).map
               fun s => { name := s.name, description := s.description } }
    else some defaultStyle

end AnalyzeLayouts

namespace BuildDeck

/-- An entry of the recommendations as build-deck.mjs reads it: only its field
`accepted` is inspected. -/
structure Entry where
  accepted : JSVal
  deriving DecidableEq, Repr

/-- The content of layout-recommendations.json as build-deck.mjs tells it
apart: an array of entries, or an object whose property `recommendations`
(an array, or an object keyed by index) may be missing. -/
inductive LayoutData where
  | array (entries : List Entry)
  | object (recommendations : Option (List Entry))
  deriving DecidableEq, Repr

/-- The list `recommendations` of `main`. -/
def recommendationsOf : LayoutData → List Entry
  | .array entries => entries
  | .object (some entries) => entries
  | .object none => []

/-- The list `unaccepted` of `main`. -/
def unaccepted (layoutData : LayoutData) : List Entry :=
  (recommendationsOf layoutData).filter fun r => !r.accepted.truthy

/-- The acceptance check of `main`: the error it prints before `process.exit(1)`,
or success. -/
def acceptanceCheck (layoutData : LayoutData) : Except String Unit :=
  if (unaccepted layoutData).length > 0 then
    .error ("Error: " ++ toString (unaccepted layoutData).length ++
      " slide(s) not accepted. Edit layout-recommendations.json or run with --accept-all.")
  else .ok ()

/-- The recommendations analyze-layouts.mjs writes for the slides of a script:
one entry per slide, accepted only with the flag `--accept-all`. -/
def writtenLayoutData (slides : List AnalyzeLayouts.Slide) (acceptAll : Bool) : LayoutData :=
  .object (some (slides.map fun slide =>
    { accepted := .bool (if acceptAll then true else (AnalyzeLayouts.analyzeSlide slide).accepted) }))

end BuildDeck

/-! ## Regular expressions with backtracking -/

/-- The regular expressions of visual-matcher.mjs. A class is one character
that satisfies a test (a literal character, `.`, `\d`, `\s`, `[...]`); a group
captures under its number; `look` is the lookahead `(?=r)`; `eos` is `$`. -/
inductive Re where
  | cls (p : Char → Bool)
  | eps
  | seq (a b : Re)
  | alt (a b : Re)
  | star (greedy : Bool) (r : Re)
  | group (i : Nat) (r : Re)
  | look (r : Re)
  | eos

/-- The text a group captured, by the number of the group. -/
abbrev Captures := List (Nat × List Char)

/-- A state of the matcher: the text still to be read and the captures. -/
abbrev MatchState := List Char × Captures

/-- The capture of group `i`: `undefined` is `none`. -/
def capture (caps : Captures) (i : Nat) : Option (List Char) :=
  (caps.find? fun p => p.1 == i).map fun p => p.2

/-- The iterations of `r*` (greedy) and `r*?` (lazy) for an expression whose
outcomes are given by `step`: an iteration has to consume a character; the
greedy form tries one more iteration before it stops, the lazy form stops
before it tries one more. The number bounds the iterations by the length of
the text. -/
def starAux (greedy : Bool) (step : MatchState → List MatchState) :
    Nat → MatchState → List MatchState
  | 0, st => [st]
  | n + 1, st =>
    let more := ((step st).filter fun st' => decide (st'.1.length < st.1.length)).flatMap
      (starAux greedy step n)
    if greedy then more ++ [st] else st :: more

/-- The outcomes of matching `r` at the head of the text, in the order in which
a backtracking matcher finds them: the first one is the match. -/
def Re.run : Re → MatchState → List MatchState
  | .cls p, st =>
    match st.1 with
    | c :: rest => if p c then [(rest, st.2)] else []
    | [] => []
  | .eps, st => [st]
  | .seq a b, st => (a.run st).flatMap b.run
  | .alt a b, st => a.run st ++ b.run st
  | .star greedy r, st => starAux greedy r.run st.1.length st
  | .group i r, st =>
    (r.run st).map fun st' => (st'.1, (i, st.1.take (st.1.length - st'.1.length)) :: st'.2)
  | .look r, st =>
    match (r.run st).head? with
    | some st' => [(st.1, st'.2)]
    | none => []
  | .eos, st => if st.1.isEmpty then [st] else []

/-- The match of `r` at the head of the text: the number of characters it
takes and its captures. -/
def Re.matchHere (r : Re) (s : List Char) : Option (Nat × Captures) :=
  (r.run (s, [])).head?.map fun st => (s.length - st.1.length, st.2)

/-- The first match of `r` in the text, as `text.match(r)` and one call of
`exec` find it: the text before it, the text matched, and the captures. -/
def Re.search (r : Re) : List Char → Option (List Char × List Char × Captures)
  | [] => (r.matchHere []).map fun m => ([], [], m.2)
  | c :: rest =>
    match r.matchHere (c :: rest) with
    | some m => some ([], (c :: rest).take m.1, m.2)
    | none => (r.search rest).map fun x => (c :: x.1, x.2)

/-- The matches of `r` with the flag `g`, left to right, each with its
captures: the array of `text.match(r)`, and the matches a loop of `exec`
visits. After a match the search resumes behind it; the first argument counts
the characters of the current match still to be skipped. (None of the
expressions of the scripts matches the empty string.) -/
def Re.execAll (r : Re) : Nat → List Char → List (List Char × Captures)
  | _, [] => []
  | skip + 1, _ :: rest => r.execAll skip rest
  | 0, c :: rest =>
    match r.matchHere (c :: rest) with
    | some (n + 1, caps) => ((c :: rest).take (n + 1), caps) :: r.execAll n rest
    | _ => r.execAll 0 rest

/-- The number of matches of `text.match(r)` with the flag `g` (0 for `null`). -/
def Re.count (r : Re) (s : List Char) : Nat := (r.execAll 0 s).length

/-- The characters equal up to the case of the letters `a` to `z`: the flag `i`
on the letters of the expressions. -/
def ciEq (a b : Char) : Bool := a.toUpper == b.toUpper

/-- A literal text; with the flag `i` its letters match in both cases. -/
def Re.lit (ci : Bool) (s : String) : Re :=
  s.toList.foldr (fun c r => .seq (.cls fun x => if ci then ciEq x c else x == c) r) .eps

/-- One of several expressions, the first that matches: `a|b|c`. -/
def Re.anyOf : List Re → Re
  | [] => .cls fun _ => false
  | [r] => r
  | r :: rest => .alt r (Re.anyOf rest)

/-- One of several literal texts. -/
def Re.lits (ci : Bool) (ws : List String) : Re := Re.anyOf (ws.map (Re.lit ci))

/-- A sequence of expressions. -/
def Re.cat : List Re → Re
  | [] => .eps
  | [r] => r
  | r :: rest => .seq r (Re.cat rest)

/-- The expression `r+` (greedy) or `r+?` (lazy). -/
def Re.plus (greedy : Bool) (r : Re) : Re := .seq r (.star greedy r)

/-- The expression `r?`. -/
def Re.opt (r : Re) : Re := .alt r .eps

/-- The class `.`: any character but a line terminator. -/
def Re.dot : Re := .cls fun c => !isLineTerminator c

/-- The class `\d`. -/
def Re.digit : Re := .cls fun c => c.isDigit

/-- The class `\s`. -/
def Re.space : Re := .cls isJsSpace

/-- The class `[...]` of the characters of a text. -/
def Re.oneOf (s : String) : Re := .cls fun c => s.toList.contains c

/-- The method `split` for an expression that is one class of characters. -/
def splitAt (p : Char → Bool) : List Char → List (List Char)
  | [] => [[]]
  | c :: rest =>
    if p c then [] :: splitAt p rest
    else match splitAt p rest with
      | [] => [[c]]
      | h :: t => (c :: h) :: t

/-! ## visual-matcher.mjs: the archetypes -/

namespace VisualMatcher

/-- A level of a pyramid. -/
structure Level where
  label : String
  sublabel : String
  deriving DecidableEq, Repr

/-- A step of a flow. -/
structure FlowStep where
  title : String
  description : String
  deriving DecidableEq, Repr

/-- An event of a timeline. -/
structure TimelineEvent where
  year : String
  title : String
  description : String
  deriving DecidableEq, Repr

/-- A stage of a funnel. -/
structure FunnelStage where
  label : String
  value : String
  deriving DecidableEq, Repr

/-- The object an `extractData` routine returns (`null` is `none`), one shape
for each archetype. -/
inductive Payload where
  | levels (levels : List Level)
  | steps (steps : List FlowStep)
  | labels (labels : List String)
  | comparison (leftTitle : String) (leftItems : List String) (rightTitle : String)
      (rightItems : List String)
  | events (events : List TimelineEvent)
  | stages (stages : List FunnelStage)
  | tree (root : String) (children : List String)
  deriving DecidableEq, Repr

/-- The number `Object.keys(data).length`. -/
def Payload.keys : Payload → Nat
  | .levels _ => 1
  | .steps _ => 1
  | .labels _ => 1
  | .comparison _ _ _ _ => 4
  | .events _ => 1
  | .stages _ => 1
  | .tree _ _ => 2

/-- The class `[一二三四五六七八九十]`. -/
def numeral : Re := Re.oneOf "一二三四五六七八九十"

/-- The class `[一二三四五六七八九十\d]`. -/
def numeralOrDigit : Re := .cls fun c => "一二三四五六七八九十".toList.contains c || c.isDigit

/-- The class `[：:.\s]`. -/
def colonDotSpace : Re := .cls fun c => "：:.".toList.contains c || isJsSpace c

/-- The class `[：:\s]`. -/
def colonSpace : Re := .cls fun c => "：:".toList.contains c || isJsSpace c

/-- The expression `a.*b` (and `a.*b.*c`, ...) of literal texts, with the flag `i`. -/
def dotted (ws : List String) : Re :=
  Re.cat (((ws.map (Re.lit true)).intersperse (.star true Re.dot)))

/-- The patterns of `pyramid`: `/层级|层次|顶层|底层|核心层|基础层|战略层|战术层|执行层/gi`
and `/金字塔|分层|架构.*层/gi`. -/
def pyramidPatterns : List Re :=
  [Re.lits true ["层级", "层次", "顶层", "底层", "核心层", "基础层", "战略层", "战术层", "执行层"],
   Re.anyOf [Re.lit true "金字塔", Re.lit true "分层", dotted ["架构", "层"]]]

/-- The patterns of `flow`: `/第[一二三四五六七八九十]+步/gi`,
`/步骤\s*[一二三四五六七八九十\d]+/gi`, `/阶段\s*[一二三四五六七八九十\d]+/gi`,
`/首先.+然后.+最后/gi` and `/流程|过程|步骤/gi`. -/
def flowPatterns : List Re :=
  [Re.cat [Re.lit true "第", Re.plus true numeral, Re.lit true "步"],
   Re.cat [Re.lit true "步骤", .star true Re.space, Re.plus true numeralOrDigit],
   Re.cat [Re.lit true "阶段", .star true Re.space, Re.plus true numeralOrDigit],
   Re.cat [Re.lit true "首先", Re.plus true Re.dot, Re.lit true "然后", Re.plus true Re.dot,
     Re.lit true "最后"],
   Re.lits true ["流程", "过程", "步骤"]]

/-- The patterns of `cycle`: `/循环|迭代|闭环|反馈|持续/gi`,
`/PDCA|计划.*执行.*检查.*改进/gi` and `/周而复始|往复/gi`. -/
def cyclePatterns : List Re :=
  [Re.lits true ["循环", "迭代", "闭环", "反馈", "持续"],
   Re.anyOf [Re.lit true "PDCA", dotted ["计划", "执行", "检查", "改进"]],
   Re.lits true ["周而复始", "往复"]]

/-- The patterns of `comparison`: `/vs\.?|对比|比较|优劣/gi`, `/一方面.*另一方面/gi`,
`/A[与和]B|两者/gi` and `/并行.*发散|收敛/gi`. -/
def comparisonPatterns : List Re :=
  [Re.anyOf [.seq (Re.lit true "vs") (Re.opt (Re.lit true ".")), Re.lit true "对比",
     Re.lit true "比较", Re.lit true "优劣"],
   dotted ["一方面", "另一方面"],
   Re.anyOf [Re.cat [Re.lit true "A", Re.oneOf "与和", Re.lit true "B"], Re.lit true "两者"],
   Re.anyOf [dotted ["并行", "发散"], Re.lit true "收敛"]]

/-- The patterns of `timeline`: `/\d{4}年|\d{1,2}月/g`, `/时间线|发展历程|演进|历史/gi`
and `/第一阶段|第二阶段|第三阶段/gi`. -/
def timelinePatterns : List Re :=
  [Re.anyOf [Re.cat [Re.digit, Re.digit, Re.digit, Re.digit, Re.lit false "年"],
     Re.cat [Re.digit, Re.opt Re.digit, Re.lit false "月"]],
   Re.lits true ["时间线", "发展历程", "演进", "历史"],
   Re.lits true ["第一阶段", "第二阶段", "第三阶段"]]

/-- The patterns of `funnel`: `/漏斗|转化|留存/gi`, `/访问.*注册.*付费/gi` and
`/曝光.*点击.*转化/gi`. -/
def funnelPatterns : List Re :=
  [Re.lits true ["漏斗", "转化", "留存"], dotted ["访问", "注册", "付费"],
   dotted ["曝光", "点击", "转化"]]

/-- The patterns of `tree`: `/分支|子类|下属|包含/gi` and `/总部.*部门|根节点.*叶子/gi`. -/
def treePatterns : List Re :=
  [Re.lits true ["分支", "子类", "下属", "包含"],
   Re.anyOf [dotted ["总部", "部门"], dotted ["根节点", "叶子"]]]

/-- The text `s.trim().slice(0, n)` (`take n` is `.slice(0, n)` for a text
that satisfies `isBMP`). -/
def trimSlice (n : Nat) (s : List Char) : String := String.mk ((jsTrim s).take n)

/-- The routine `extractData` of `pyramid`. A level is pushed for a keyword the
line includes when the line has more than 5 and fewer than 50 characters and
no level pushed before has the trimmed line as its label. -/
def extractPyramid (text : List Char) : Option Payload :=
  let levelKeywords := ["战略", "战术", "执行", "核心", "中间", "基础", "顶层", "中层", "底层"]
  let lines := splitAt (fun c => c == '。' || c == '\n') text
  let layers := lines.foldl (fun layers line =>
    levelKeywords.foldl (fun (layers : List Level) keyword =>
      if includes keyword line && decide (line.length > 5) && decide (line.length < 50) then
        let label := String.mk (jsTrim line)
        if (layers.find? fun l => l.label == label).isNone then
          let rest := (removeFirst keyword.toList line).filter fun c => !(c == '：' || c == ':')
          layers ++ [{ label := keyword ++ "层", sublabel := trimSlice 20 rest }]
        else layers
      else layers) layers) []
  if layers.length ≥ 2 then some (.levels (layers.take 4)) else none

/-- The first expression of `stepPatterns`:
`/第([一二三四五六七八九十\d]+)[步阶段][：:.\s]*(.+?)(?=第[一二三四五六七八九十\d]+[步阶段]|[。\n]|$)/gi`. -/
def stepPattern1 : Re :=
  Re.cat [Re.lit true "第", .group 1 (Re.plus true numeralOrDigit), Re.oneOf "步阶段",
    .star true colonDotSpace, .group 2 (Re.plus false Re.dot),
    .look (Re.anyOf [Re.cat [Re.lit true "第", Re.plus true numeralOrDigit, Re.oneOf "步阶段"],
      Re.oneOf "。\n", .eos])]

/-- The second expression of `stepPatterns`:
`/步骤\s*([一二三四五六七八九十\d]+)[：:.\s]*(.+?)(?=步骤\s*[一二三四五六七八九十\d]+|[。\n]|$)/gi`. -/
def stepPattern2 : Re :=
  Re.cat [Re.lit true "步骤", .star true Re.space, .group 1 (Re.plus true numeralOrDigit),
    .star true colonDotSpace, .group 2 (Re.plus false Re.dot),
    .look (Re.anyOf [Re.cat [Re.lit true "步骤", .star true Re.space, Re.plus true numeralOrDigit],
      Re.oneOf "。\n", .eos])]

/-- The loop over the matches of one step pattern: a title, the trimmed second
group cut to 15 characters, is pushed when it is not empty and no step has it. -/
def pushSteps (steps : List FlowStep) (found : List (List Char × Captures)) : List FlowStep :=
  found.foldl (fun steps m =>
    let title := trimSlice 15 ((capture m.2 2).getD [])
    if title != "" && (steps.find? fun s => s.title == title).isNone then
      steps ++ [{ title := title, description := "" }]
    else steps) steps

/-- The routine `extractData` of `flow`. -/
def extractFlow (text : List Char) : Option Payload :=
  let steps := pushSteps (pushSteps [] (stepPattern1.execAll 0 text)) (stepPattern2.execAll 0 text)
  if steps.length ≥ 2 then some (.steps (steps.take 6))
  else
    let flowKeywords :=
      (Re.lits false ["首先", "然后", "接着", "最后", "第一步", "第二步", "第三步"]).count text
    if flowKeywords ≥ 2 then
      let sentences := (splitAt (fun c => c == '。' || c == '；') text).filter fun s =>
        decide ((jsTrim s).length > 5) && decide ((jsTrim s).length < 50)
      let flowSteps : List FlowStep :=
        (sentences.take 5).map fun s => { title := trimSlice 15 s, description := "" }
      if flowSteps.length ≥ 2 then some (.steps flowSteps) else none
    else none

/-- The routine `extractData` of `cycle`; the expression of `pdcaMatch` is
`/计划|执行|检查|改进|Plan|Do|Check|Act/i`. -/
def extractCycle (text : List Char) : Option Payload :=
  let defaultLabels := ["计划", "执行", "检查", "改进"]
  let pdca := Re.lits true ["计划", "执行", "检查", "改进", "Plan", "Do", "Check", "Act"]
  if (pdca.search text).isSome then
    let parts := (splitAt (fun c => c == '，' || c == '、' || c == '。') text).filter fun s =>
      decide ((jsTrim s).length > 1) && decide ((jsTrim s).length < 10)
    if parts.length ≥ 3 then some (.labels ((parts.take 5).map fun p => String.mk (jsTrim p)))
    else some (.labels defaultLabels)
  else none

/-- The expression of `vsMatch`: `/(.+?)\s*(?:vs\.?|对比|VS)\s*(.+)/i`. -/
def vsPattern : Re :=
  Re.cat [.group 1 (Re.plus false Re.dot), .star true Re.space,
    Re.anyOf [.seq (Re.lit true "vs") (Re.opt (Re.lit true ".")), Re.lit true "对比",
      Re.lit true "VS"],
    .star true Re.space, .group 2 (Re.plus true Re.dot)]

/-- The variables of the loop over the lines in `extractData` of `comparison`. -/
structure Sides where
  inLeft : Bool := false
  inRight : Bool := false
  leftTitle : String := ""
  rightTitle : String := ""
  leftItems : List String := []
  rightItems : List String := []
  deriving DecidableEq, Repr

/-- One line of that loop. -/
def sidesLine (s : Sides) (line : List Char) : Sides :=
  if includes "并行" line || includes "发散" line || includes "一方面" line then
    { s with inLeft := true, inRight := false, leftTitle := String.mk (line.take 15) }
  else if includes "系统" line || includes "收敛" line || includes "另一方面" line then
    { s with inLeft := false, inRight := true, rightTitle := String.mk (line.take 15) }
  else if s.inLeft && decide ((jsTrim line).length > 3) && decide ((jsTrim line).length < 30) then
    { s with leftItems := s.leftItems ++ [String.mk (jsTrim line)] }
  else if s.inRight && decide ((jsTrim line).length > 3) && decide ((jsTrim line).length < 30) then
    { s with rightItems := s.rightItems ++ [String.mk (jsTrim line)] }
  else s

/-- The routine `extractData` of `comparison`. -/
def extractComparison (text : List Char) : Option Payload :=
  match vsPattern.search text with
  | some m =>
    some (.comparison (trimSlice 10 ((capture m.2.2 1).getD [])) []
      (trimSlice 10 ((capture m.2.2 2).getD [])) [])
  | none =>
    let s := (splitAt (fun c => c == '。' || c == '\n') text).foldl sidesLine {}
    if s.leftTitle != "" || s.rightTitle != "" || decide (s.leftItems.length > 0) ||
        decide (s.rightItems.length > 0) then
      some (.comparison (if s.leftTitle != "" then s.leftTitle else "方案A") (s.leftItems.take 4)
        (if s.rightTitle != "" then s.rightTitle else "方案B") (s.rightItems.take 4))
    else none

/-- The expression `yearPattern`: `/(\d{4})年?[：:\s]*(.+?)(?=\d{4}年|[。\n]|$)/g`. -/
def yearPattern : Re :=
  Re.cat [.group 1 (Re.cat [Re.digit, Re.digit, Re.digit, Re.digit]), Re.opt (Re.lit false "年"),
    .star true colonSpace, .group 2 (Re.plus false Re.dot),
    .look (Re.anyOf [Re.cat [Re.digit, Re.digit, Re.digit, Re.digit, Re.lit false "年"],
      Re.oneOf "。\n", .eos])]

/-- The expression `stagePattern`:
`/第([一二三四五六七八九十\d]+)阶段[：:\s]*(.+?)(?=第[一二三四五六七八九十\d]+阶段|[。\n]|$)/gi`. -/
def stagePattern : Re :=
  Re.cat [Re.lit true "第", .group 1 (Re.plus true numeralOrDigit), Re.lit true "阶段",
    .star true colonSpace, .group 2 (Re.plus false Re.dot),
    .look (Re.anyOf [Re.cat [Re.lit true "第", Re.plus true numeralOrDigit, Re.lit true "阶段"],
      Re.oneOf "。\n", .eos])]

/-- The routine `extractData` of `timeline`. -/
def extractTimeline (text : List Char) : Option Payload :=
  let events : List TimelineEvent := (yearPattern.execAll 0 text).map fun m =>
    let title := trimSlice 15 ((capture m.2 2).getD [])
    { year := String.mk ((capture m.2 1).getD []),
      title := if title != "" then title else "事件", description := "" }
  if events.length ≥ 2 then some (.events (events.take 6))
  else
    let stages : List TimelineEvent := (stagePattern.execAll 0 text).map fun m =>
      { year := "阶段" ++ String.mk ((capture m.2 1).getD []),
        title := trimSlice 15 ((capture m.2 2).getD []), description := "" }
    if stages.length ≥ 2 then some (.events (stages.take 6)) else none

/-- The expression of `valueMatch`: `/(\d+[.%万]?)/`. -/
def valuePattern : Re := .group 1 (Re.cat [Re.plus true Re.digit, Re.opt (Re.oneOf ".%万")])

/-- The routine `extractData` of `funnel`: for each line the first keyword it
includes gives a stage. -/
def extractFunnel (text : List Char) : Option Payload :=
  let funnelKeywords := ["访问", "曝光", "浏览", "点击", "注册", "下载", "激活", "付费", "复购"]
  let lines := splitAt (fun c => c == '，' || c == '、' || c == '。' || c == '\n') text
  let stages : List FunnelStage := lines.filterMap fun line =>
    (funnelKeywords.find? fun keyword => includes keyword line).map fun keyword =>
      { label := keyword,
        value := match valuePattern.search line with
          | some m => String.mk ((capture m.2.2 1).getD [])
          | none => "" }
  if stages.length ≥ 2 then some (.stages (stages.take 5)) else none

/-- The expression `branchPattern`: `/(?:包括|分为|含有)[：:]?\s*(.+?)(?=[。。\n]|$)/gi`. -/
def branchPattern : Re :=
  Re.cat [Re.lits true ["包括", "分为", "含有"], Re.opt (Re.oneOf "：:"), .star true Re.space,
    .group 1 (Re.plus false Re.dot), .look (Re.anyOf [Re.oneOf "。\n", .eos])]

/-- The routine `extractData` of `tree`. -/
def extractTree (text : List Char) : Option Payload :=
  match branchPattern.search text with
  | some m =>
    let items := (((splitAt (fun c => "、，,和与".toList.contains c)
      ((capture m.2.2 1).getD [])).map jsTrim).filter fun s =>
        decide (s.length > 1) && decide (s.length < 15)).map String.mk
    if items.length ≥ 2 then some (.tree (String.mk (text.take 10)) (items.take 5)) else none
  | none => none

end VisualMatcher
namespace VisualMatcher

/-- An entry of `VISUAL_PATTERNS`: the key is kept as `type`. -/
structure Config where
  type : String
  patterns : List Re
  minMatches : Nat
  extractData : List Char → Option Payload
  composition : String
  minContentLength : Nat

/-- The table `VISUAL_PATTERNS`, in the order of its keys. -/
def VISUAL_PATTERNS : List Config :=
  [Config.mk "pyramid" pyramidPatterns 2 extractPyramid "PyramidDiagram" 3,
   Config.mk "flow" flowPatterns 2 extractFlow "HorizontalFlow" 3,
   Config.mk "cycle" cyclePatterns 2 extractCycle "CycleDiagram" 2,
   Config.mk "comparison" comparisonPatterns 1 extractComparison "BinaryComparison" 2,
   Config.mk "timeline" timelinePatterns 2 extractTimeline "Timeline" 2,
   Config.mk "funnel" funnelPatterns 2 extractFunnel "Funnel" 2,
   Config.mk "tree" treePatterns 1 extractTree "TreeDiagram" 2]

/-- A candidate of `detectVisualType`. The confidence is the rational number
`matchCount / config.patterns.length` (the quotients of two such pairs of
small integers compare as their floating-point values do). -/
structure Candidate where
  type : String
  composition : String
  matchCount : Nat
  data : Payload
  confidence : ℚ

/-- The variable `matchCount` after the loop over the patterns of an archetype:
the matches of all its patterns, each match counted. -/
def matchCountOf (config : Config) (text : List Char) : Nat :=
  config.patterns.foldl (fun matchCount pattern => matchCount + pattern.count text) 0

/-- The candidate pushed for one archetype, if any. -/
def candidateOf (text : List Char) (config : Config) : Option Candidate :=
  if matchCountOf config text ≥ config.minMatches then
    match config.extractData text with
    | some data =>
      if data.keys > 0 then
        some (Candidate.mk config.type config.composition (matchCountOf config text) data
          ((matchCountOf config text : ℚ) / (config.patterns.length : ℚ)))
      else none
    | none => none
  else none

/-- The array `results` of `detectVisualType` before the sort. -/
def candidates (text : String) : List Candidate :=
  VISUAL_PATTERNS.filterMap (candidateOf text.toList)

/-- The order of `results.sort((a, b) => b.confidence - a.confidence)`: `a` may
stand before `b`. -/
def confidenceBefore (a b : Candidate) : Prop := b.confidence - a.confidence ≤ 0

instance : DecidableRel confidenceBefore := fun a b =>
  inferInstanceAs (Decidable (b.confidence - a.confidence ≤ 0))

/-- The function `detectVisualType(text)` (the sort of an array is stable). -/
def detectVisualType (text : String) : List Candidate :=
  (candidates text).insertionSort confidenceBefore

/-- The record `estimateVisualComplexity` returns; `itemCount` is missing for a
type that is no key of `complexityMap`. -/
structure Complexity where
  canInline : Bool
  needsSeparateSlide : Bool
  itemCount : Option Nat
  deriving DecidableEq, Repr

/-- The entry `complexityMap[visualType]`: the number of items, which is 0 when
the payload lacks the list of the archetype, and the threshold. -/
def complexityInfo (visualType : String) (data : Payload) : Option (Nat × Nat) :=
  if visualType = "pyramid" then
    some (match data with
      | .levels l => l.length
      | _ => 0, 3)
  else if visualType = "flow" then
    some (match data with
      | .steps l => l.length
      | _ => 0, 4)
  else if visualType = "cycle" then
    some (match data with
      | .labels l => l.length
      | _ => 0, 4)
  else if visualType = "comparison" then
    some (match data with
      | .comparison _ l _ r => l.length + r.length
      | _ => 0, 4)
  else if visualType = "timeline" then
    some (match data with
      | .events l => l.length
      | _ => 0, 4)
  else if visualType = "funnel" then
    some (match data with
      | .stages l => l.length
      | _ => 0, 3)
  else if visualType = "tree" then
    some (match data with
      | .tree _ l => l.length
      | _ => 0, 3)
  else none

/-- The function `estimateVisualComplexity(visualType, data)`. -/
def estimateVisualComplexity (visualType : String) (data : Payload) : Complexity :=
  match complexityInfo visualType data with
  | none => { canInline := true, needsSeparateSlide := false, itemCount := none }
  | some info =>
    { canInline := decide (info.1 ≤ info.2), needsSeparateSlide := decide (info.1 > info.2 + 2),
      itemCount := some info.1 }

/-- The field `action` of a recommendation of `main`. -/
def actionOf (complexity : Complexity) : String :=
  if complexity.needsSeparateSlide then "create-separate" else "inline"

/-- A recommendation `main` pushes for a slide with a detected visual. -/
structure VisualRecommendation where
  slideId : String
  slideIndex : Nat
  title : Option String
  detectedType : String
  composition : String
  data : Payload
  confidence : ℚ
  complexity : Complexity
  action : String

/-- The recommendation of `main` for a slide, from the first candidate. -/
def recommend (slide : Slide) (best : Candidate) : VisualRecommendation :=
  let complexity := estimateVisualComplexity best.type best.data
  VisualRecommendation.mk slide.id slide.index slide.title best.type best.composition best.data
    best.confidence complexity (actionOf complexity)

/-- A text in which the first pattern of `comparison` matches five times. -/
def repeatedVsText : String := "a vs b vs c vs d vs e vs f"

end VisualMatcher

namespace VisualMatcher

/-- A phrase the first step pattern reads as one title after a marker: it
starts with a character that is no colon, dot or white space, and it holds no
第, no 骤, no 。 and no line terminator. -/
def plainPhrase (p : List Char) : Bool :=
  (match p with
    | c :: _ => !("：:.".toList.contains c || isJsSpace c)
    | [] => false) &&
  p.all fun c => c != '第' && c != '骤' && c != '。' && !isLineTerminator c

/-- The text of the three markers 第一步, 第二步 and 第三步, each followed by its phrase. -/
def threeSteps (p1 p2 p3 : String) : String :=
  "第一步" ++ p1 ++ "第二步" ++ p2 ++ "第三步" ++ p3

/-- Three markers whose phrases of 16 characters differ in the last character. -/
def sharedPrefixText : String :=
  threeSteps "aaaaaaaaaaaaaaab" "aaaaaaaaaaaaaaac" "aaaaaaaaaaaaaaad"

end VisualMatcher

/-! ## render-slide.mjs: the layout of a slide and its composition -/

namespace RenderSlide

/-- The table `LAYOUT_TO_COMPOSITION`, in the order of its keys. -/
def LAYOUT_TO_COMPOSITION : List (String × String) :=
  [("title-hero", "CoverHero"),
   ("quote-callout", "QuoteCallout"),
   ("bullet-list", "BulletList"),
   ("key-stat", "KeyStat"),
   ("split-screen", "SplitScreen"),
   ("two-columns", "SplitScreen"),
   ("three-columns", "ThreeColumns"),
   ("icon-grid", "IconGrid"),
   ("linear-progression", "BulletList"),
   ("binary-comparison", "BinaryComparison"),
   ("hierarchical-layers", "VisualWithContent"),
   ("visual-content", "VisualWithContent"),
   ("hub-spoke", "CircularFlow"),
   ("circular-flow", "CircularFlow"),
   ("funnel", "Funnel"),
   ("timeline", "Timeline"),
   ("bar-chart", "BarChart"),
   ("bar-horizontal", "BarChart"),
   ("chart", "BarChart"),
   ("line-chart", "LineChart"),
   ("pie-chart", "PieChart"),
   ("cover-hero", "CoverHero"),
   ("card-combo-2", "CardCombo2"),
   ("card-combo-3", "CardCombo3"),
   ("card-combo-4", "CardCombo4"),
   ("flow-with-notes", "FlowWithNotes"),
   ("timeline-with-details", "TimelineWithDetails"),
   ("chart-with-sidebar", "ChartWithSidebar"),
   ("dashboard", "Dashboard"),
   ("diagonal-split", "DiagonalSplit"),
   ("full-image-overlay", "FullImageOverlay"),
   ("section", "SectionBreak")]

/-- The entry `LAYOUT_TO_COMPOSITION[layout]` of a layout name (`undefined` is
`none`; the names of the properties every object inherits are left aside). -/
def compositionEntry (layout : String) : Option String :=
  LAYOUT_TO_COMPOSITION.lookup layout

/-- The variable `composition` of `renderSlide`:
`LAYOUT_TO_COMPOSITION[layout] || "BulletList"` (every entry is a non-empty
string). -/
def compositionOf (layout : String) : String :=
  (compositionEntry layout).getD "BulletList"

/-- The object `styleMap` of `styleToCompositionName`. -/
def styleMap : List (String × String) :=
  [("apple", "Apple"),
   ("tech", "Tech"),
   ("bold-editorial", "BoldEditorial"),
   ("minimal", "Minimal"),
   ("dark-atmospheric", "DarkAtmospheric")]

/-- The function `styleToCompositionName(style)`. -/
def styleToCompositionName (style : String) : String :=
  (styleMap.lookup style).getD "Apple"

/-- The value `recommendations[index]?.recommended || "bullet-list"`; an entry
of the array is given by its field `recommended` (`none` when it has none). -/
def recommendedAt (recommendations : List (Option String)) (index : Nat) : String :=
  match (recommendations.get? index).join with
  | some name => if name != "" then name else "bullet-list"
  | none => "bullet-list"

/-- The test `slide.layout && LAYOUT_TO_COMPOSITION[slide.layout]`. -/
def hasLayoutEntry (slide : Slide) : Bool :=
  match slide.layout with
  | some layout => layout != "" && (compositionEntry layout).isSome
  | none => false

/-- The function `getLayoutForSlide(slide, index, recommendations)` of `main`. -/
def getLayoutForSlide (slide : Slide) (index : Nat) (recommendations : List (Option String)) :
    String :=
  if hasLayoutEntry slide then slide.layout.getD ""
  else if slide.type = some "cover" then "cover-hero"
  else if slide.type = some "quote" then "quote-callout"
  else if slide.type = some "comparison" then "binary-comparison"
  else if slide.type = some "split" then "split-screen"
  else if slide.type = some "columns" then "three-columns"
  else if slide.type = some "cycle" then "circular-flow"
  else if slide.type = some "timeline" then "timeline"
  else if slide.type = some "stats" then "key-stat"
  else if slide.type = some "section" then "section"
  else if ParseContent.truthy slide.visualType || slide.visualData.isSome then "visual-content"
  else recommendedAt recommendations index

end RenderSlide

/-! ## parse-content.mjs: the number of slides -/

namespace ParseContent

/-- An entry of `SLIDE_COUNT_RULES`; `maxWords = none` stands for `Infinity`. -/
structure SlideCountRule where
  maxWords : Option Nat
  minSlides : Nat
  maxSlides : Nat
  deriving DecidableEq, Repr

/-- The table `SLIDE_COUNT_RULES`. -/
def SLIDE_COUNT_RULES : List SlideCountRule :=
  [{ maxWords := some 1000, minSlides := 5, maxSlides := 10 },
   { maxWords := some 3000, minSlides := 10, maxSlides := 18 },
   { maxWords := some 5000, minSlides := 15, maxSlides := 25 },
   { maxWords := none, minSlides := 20, maxSlides := 30 }]

/-- The test `wordCount <= rule.maxWords`. -/
def SlideCountRule.covers (rule : SlideCountRule) (wordCount : Nat) : Bool :=
  match rule.maxWords with
  | some m => decide (wordCount ≤ m)
  | none => true

/-- The function `getRecommendedSlideCount(wordCount)`: the pair `(min, max)`
of the first rule with `wordCount <= rule.maxWords`. -/
def getRecommendedSlideCount (wordCount : Nat) : Nat × Nat :=
  match SLIDE_COUNT_RULES.find? fun rule => rule.covers wordCount with
  | some rule => (rule.minSlides, rule.maxSlides)
  | none => (20, 30)

end ParseContent

namespace AnalyzeLayouts

/-- A slide with a short title, no bullets and none of the keywords of the rules. -/
def shortPlainSlide : Slide :=
  { id := "s03", type := some "statement", title := some "开场" }

end AnalyzeLayouts

namespace VisualMatcher

/-- A text without `vs` whose lines give four items on the left and three on
the right. -/
def crowdedComparisonText : String :=
  "两者比较\n并行方案\n甲甲甲甲\n乙乙乙乙\n丙丙丙丙\n丁丁丁丁\n系统方案\n戊戊戊戊\n己己己己\n庚庚庚庚"

end VisualMatcher

/-! ## parse-content.mjs: from the content to the slides -/

namespace ParseContent

/-- The expression `/[一-龥]/`: one ideograph. -/
def reChinese (s : List Char) : Option Nat :=
  match s with
  | c :: _ => if 0x4e00 ≤ c.toNat ∧ c.toNat ≤ 0x9fa5 then some 1 else none
  | [] => none

/-- The expression `/[a-zA-Z]+/`: a greedy run of letters. -/
def reLatinWord (s : List Char) : Option Nat :=
  let run := s.takeWhile Char.isAlpha
  if run.length = 0 then none else some run.length

/-- The function `countWords(text)`: the ideographs and the runs of letters. -/
def countWords (text : String) : Nat :=
  (matchAll reChinese 0 text.toList).length + (matchAll reLatinWord 0 text.toList).length

/-- The method `split(/\n\n+/)`: the separators are the runs of two newlines or
more. The flag tells that the newlines at the head belong to a separator that
has begun. -/
def splitBlankLines : Bool → List Char → List (List Char)
  | _, [] => [[]]
  | true, '\n' :: rest => splitBlankLines true rest
  | _, c :: rest =>
    if c = '\n' ∧ rest.head? = some '\n' then [] :: splitBlankLines true rest
    else match splitBlankLines false rest with
      | [] => [[c]]
      | h :: t => (c :: h) :: t

/-- The paragraphs of a content: `content.split(/\n\n+/).filter((p) => p.trim())`. -/
def paragraphsOf (content : String) : List String :=
  ((splitBlankLines false content.toList).filter fun p => !(jsTrim p).isEmpty).map String.mk

/-- The lines of a text that are not blank: `split("\n").filter((l) => l.trim())`. -/
def nonBlankLines (text : List Char) : List (List Char) :=
  (splitOn '\n' text).filter fun l => !(jsTrim l).isEmpty

/-- The test `length >= MIN_BULLET_LEN && length <= MAX_BULLET_LEN` (`length`
is the `.length` of the code for a text that satisfies `isBMP`). -/
def fitsBullet (s : List Char) : Bool := decide (15 ≤ s.length) && decide (s.length ≤ 50)

/-- The inner loop of `extractFromLongText` over the clauses of a sentence;
`break` leaves the result as it is for the clauses that remain. -/
def pushClauses (result : List (List Char)) (clauses : List (List Char)) : List (List Char) :=
  clauses.foldl (fun result c =>
    if result.length ≥ 4 then result
    else if fitsBullet (jsTrim c) then result ++ [jsTrim c] else result) result

/-- The function `extractFromLongText(text)` of `extractBullets`. -/
def extractFromLongText (text : List Char) : List (List Char) :=
  (splitAt (fun c => c == '。' || c == '！' || c == '？' || c == '；' || c == '\n') text).foldl
    (fun result s =>
      if result.length ≥ 4 then result
      else if fitsBullet (jsTrim s) then result ++ [jsTrim s]
      else if (jsTrim s).length > 50 then
        pushClauses result (splitAt (fun c => c == '，' || c == '、' || c == '：') (jsTrim s))
      else result) []

/-- The test `/^\d+[.、)]/`. -/
def isNumbered (s : List Char) : Bool :=
  let digits := s.takeWhile Char.isDigit
  decide (digits.length > 0) &&
    match (s.drop digits.length).head? with
    | some c => c == '.' || c == '、' || c == ')'
    | none => false

/-- The class `[-•\d.、)]`. -/
def isMarker (c : Char) : Bool :=
  c == '-' || c == '•' || c.isDigit || c == '.' || c == '、' || c == ')'

/-- The replacement `.replace(/^[-•\d.、)]+\s*/, "")`. -/
def stripMarker (s : List Char) : List Char :=
  let run := s.takeWhile isMarker
  if run.length = 0 then s else (s.drop run.length).dropWhile isJsSpace

/-- The variables `bullets` and `narrative` of `extractBullets`. -/
structure Extracted where
  bullets : List (List Char) := []
  narrative : List (List Char) := []
  deriving DecidableEq, Repr

/-- The body of the first loop of `extractBullets`, over the lines. -/
def bulletLine (st : Extracted) (line : List Char) : Extracted :=
  let trimmed := jsTrim line
  if startsWith "-" trimmed || startsWith "•" trimmed || isNumbered trimmed then
    let bullet := stripMarker trimmed
    if fitsBullet bullet then { st with bullets := st.bullets ++ [bullet] }
    else if bullet.length > 50 then { st with bullets := st.bullets ++ extractFromLongText bullet }
    else st
  else if decide (trimmed.length > 0) && !startsWith "```" trimmed && !startsWith "#" trimmed then
    { st with narrative := st.narrative ++ [trimmed] }
  else st

/-- The loop over what `extractFromLongText` returned for a candidate line. -/
def pushNew (bullets : List (List Char)) (extracted : List (List Char)) : List (List Char) :=
  extracted.foldl (fun bullets b =>
    if bullets.length ≥ 4 then bullets
    else if !bullets.contains b then bullets ++ [b] else bullets) bullets

/-- The second loop of `extractBullets`, over the candidate lines. -/
def fromCandidates (lines : List (List Char)) : List (List Char) :=
  let candidates := lines.filter fun l =>
    decide ((jsTrim l).length > 0) && !startsWith "```" (jsTrim l) && !startsWith "#" (jsTrim l) &&
      !startsWith "|" (jsTrim l)
  candidates.foldl (fun bullets line =>
    if bullets.length ≥ 4 then bullets else pushNew bullets (extractFromLongText line)) []

/-- The function `extractBullets(paragraph)`: the bullets and the narrative. -/
def extractBullets (paragraph : List Char) : List (List Char) × List Char :=
  let lines := nonBlankLines paragraph
  let st := lines.foldl bulletLine {}
  if st.bullets.length = 0 ∧ lines.length ≤ 8 then
    ((fromCandidates lines).take 4, joinWith [' '] [])
  else (st.bullets.take 4, joinWith [' '] st.narrative)

/-- The text `s.length > n ? s.slice(0, n) + "..." : s`. -/
def ellipsis (n : Nat) (s : List Char) : List Char :=
  if s.length > n then s.take n ++ "...".toList else s

/-- The function `generateSlideTitle(paragraph, slideType, index)`. -/
def generateSlideTitle (paragraph : List Char) (slideType : String) : List Char :=
  let firstLine := (nonBlankLines paragraph).head?.getD []
  if slideType = "cover" then ellipsis 50 firstLine
  else if slideType = "problem" then
    if includes "问题" firstLine || includes "为什么" firstLine then firstLine
    else "问题：".toList ++ ellipsis 30 firstLine
  else if slideType = "conclusion" then
    if includes "结论" firstLine || includes "总结" firstLine then firstLine
    else "总结：".toList ++ ellipsis 30 firstLine
  else ellipsis 50 firstLine

/-- The table `VISUAL_COMPONENT_MAP`. -/
def VISUAL_COMPONENT_MAP : List (String × List String) :=
  [("process", ["StepIndicator", "FlowArrows", "LinearProgression"]),
   ("comparison", ["BinaryComparison", "ScaleBar", "ComparisonMatrix"]),
   ("data", ["MiniBarChart", "StatCard", "ProgressBar", "Dashboard"]),
   ("hierarchy", ["TreeBranching", "HierarchicalLayers", "CircleRing"]),
   ("cycle", ["CycleDiagram", "CircularFlow"]),
   ("timeline", ["Timeline", "WindingRoadmap"]),
   ("summary", ["KeyStat", "QuoteCallout"]),
   ("statement", ["FloatingDots", "WaveLines"])]

/-- The function `getRecommendedVisuals(contentType)`. -/
def getRecommendedVisuals (contentType : String) : List String :=
  (VISUAL_COMPONENT_MAP.lookup contentType).getD ["FloatingDots", "WaveLines"]

/-- The value `Math.ceil(a / b)` for a positive `b`. -/
def ceilDiv (a b : Nat) : Nat := (a + b - 1) / b

/-- A slide block of `smartSplitContent`. -/
structure Block where
  lines : List String
  wordCount : Nat
  index : Nat
  deriving DecidableEq, Repr

/-- The variables of the loop of `smartSplitContent`. -/
structure SplitState where
  slides : List Block := []
  currentLines : List String := []
  currentWords : Nat := 0
  slideIndex : Nat := 0
  deriving DecidableEq, Repr

/-- The chain of `if` in the loop of `smartSplitContent`, before the test of the
last paragraph. The comparisons with `wordsPerSlide * 0.5` and `wordsPerSlide *
1.3` are those of the exact products (the numbers are integers far below 2^53). -/
def splitStep (wordsPerSlide : Nat) (st : SplitState) (para : String) (isLast : Bool) :
    SplitState :=
  let paraWords := countWords para
  if st.slideIndex = 0 ∧ st.currentLines.length = 0 then
    let lines := st.currentLines ++ [para]
    let words := st.currentWords + paraWords
    if 2 * words ≥ wordsPerSlide ∨ isLast = true then
      SplitState.mk (st.slides ++ [Block.mk lines words st.slideIndex]) [] 0 (st.slideIndex + 1)
    else SplitState.mk st.slides lines words st.slideIndex
  else if 10 * (st.currentWords + paraWords) > 13 * wordsPerSlide ∧ st.currentLines.length > 0 then
    SplitState.mk (st.slides ++ [Block.mk st.currentLines st.currentWords st.slideIndex]) [para]
      paraWords (st.slideIndex + 1)
  else SplitState.mk st.slides (st.currentLines ++ [para]) (st.currentWords + paraWords) st.slideIndex

/-- The end of the body of the loop: `if (isLast && currentSlide.lines.length > 0)`. -/
def splitLast (st : SplitState) (isLast : Bool) : SplitState :=
  if isLast = true ∧ st.currentLines.length > 0 then
    { st with slides := st.slides ++ [Block.mk st.currentLines st.currentWords st.slideIndex] }
  else st

/-- The loop of `smartSplitContent` over the paragraphs. -/
def splitLoop (wordsPerSlide : Nat) : SplitState → List String → SplitState
  | st, [] => st
  | st, [para] => splitLast (splitStep wordsPerSlide st para true) true
  | st, para :: next :: rest =>
    splitLoop wordsPerSlide (splitLast (splitStep wordsPerSlide st para false) false) (next :: rest)

/-- The slices `slides.slice(i, i + n)` for `i = 0, n, 2n, ...` below the
length; the first number bounds the slices by the length of the array. -/
def sliceChunks {α : Type} (n : Nat) : Nat → List α → List (List α)
  | 0, _ => []
  | fuel + 1, l => if l.isEmpty then [] else l.take n :: sliceChunks n fuel (l.drop n)

/-- The block merged from a slice. -/
def mergeBlocks (toMerge : List Block) (index : Nat) : Block :=
  Block.mk (toMerge.flatMap fun s => s.lines) ((toMerge.map fun s => s.wordCount).sum) index

/-- The function `smartSplitContent(content, targetSlideCount)` for a positive
target. The comparison with `targetSlideCount * 1.2` is that of the exact
product. -/
def smartSplitContent (content : String) (targetSlideCount : Nat) : List Block :=
  let paragraphs := paragraphsOf content
  let wordsPerSlide := ceilDiv (countWords content) targetSlideCount
  let slides := (splitLoop wordsPerSlide {} paragraphs).slides
  if 10 * slides.length > 12 * targetSlideCount then
    let mergeRatio := ceilDiv slides.length targetSlideCount
    (sliceChunks mergeRatio slides.length slides).enum.map fun p => mergeBlocks p.2 p.1
  else slides

/-- The variable `targetCount` of `generateSlides`. -/
def targetCount (wordCount : Nat) : Nat :=
  min (getRecommendedSlideCount wordCount).2
    (max (getRecommendedSlideCount wordCount).1 (ceilDiv wordCount 200))

/-- The lines of the blocks `slideBlocks` of `generateSlides`: one block for each
paragraph when their number is within 0.8 and 1.2 times the target, else the
blocks of `smartSplitContent`. -/
def slideBlocksOf (paragraphs : List String) (content : String) : List (List String) :=
  let target := targetCount (countWords content)
  if 10 * paragraphs.length ≥ 8 * target ∧ 10 * paragraphs.length ≤ 12 * target then
    paragraphs.map fun p => [p]
  else (smartSplitContent content target).map fun b => b.lines

/-- The bullets added from the narrative:
`narrative.split(...).map(trim).filter(...).slice(0, 4 - n)`. -/
def additionalBullets (narrative : List Char) (n : Nat) : List String :=
  ((((splitAt (fun c => c == '。' || c == '！' || c == '？' || c == '；') narrative).map jsTrim).filter
    fitsBullet).take (4 - n)).map String.mk

/-- The slide of `generateSlides` before the narrative adds bullets and before
the notes are completed. -/
def draftSlide (toLowerCase : String → String) (title : String) (totalParagraphs i : Nat)
    (lines : List String) : SlideRecord :=
  let blockText := joinWith ['\n'] (lines.map String.toList)
  let paragraphLines := (lines.flatMap fun l => splitOn '\n' l.toList).filter fun l =>
    !(jsTrim l).isEmpty
  let slideType := detectSlideType toLowerCase (String.mk blockText) i totalParagraphs
  let contentType := detectContentType toLowerCase (String.mk blockText)
  let bullets := (extractBullets blockText).1
  let narrative := (extractBullets blockText).2
  let slide : SlideRecord :=
    { id := "s" ++ RenderSlide.pad2 (i + 1), type := slideType, contentType := some contentType,
      title := if slideType = "cover" then title
        else String.mk (generateSlideTitle blockText slideType),
      recommendedVisuals := some (getRecommendedVisuals contentType) }
  if slideType = "cover" then
    { slide with
      subtitle := match paragraphLines.get? 1 with
        | some l => if paragraphLines.length > 1 ∧ l.length < 60 then some (String.mk l) else none
        | none => none,
      notes := some (String.mk (joinWith [' '] (paragraphLines.take 2))) }
  else if slideType = "framework" ∨ contentType = "comparison" then
    if includes "vs" blockText || includes "对比" blockText || includes "发散" blockText then
      { slide with
        leftTitle := some "并行（发散）", leftBullets := some ["扩张可能性", "放大试错密度"],
        rightTitle := some "系统（收敛）", rightBullets := some ["压缩噪声", "形成可执行结论"],
        notes := some (String.mk (joinWith [' '] paragraphLines)) }
    else
      { slide with
        bullets := if bullets.length > 0 then some ((bullets.take 4).map String.mk) else none,
        notes := some (String.mk (joinWith [' '] paragraphLines)) }
  else
    { slide with
      bullets := if bullets.length > 0 then some ((bullets.take 4).map String.mk) else none,
      notes := some (String.mk
        (if narrative.length > 0 then narrative else joinWith [' '] (paragraphLines.take 3))) }

/-- The sum `totalChars` of a slide. -/
def totalChars (slide : SlideRecord) : Nat :=
  ((slide.bullets.getD []).map String.length).sum + slide.title.length +
    (slide.subtitle.map String.length).getD 0

/-- The body of the loop of `generateSlides`: the slide of block `i`. -/
def buildSlide (toLowerCase : String → String) (title : String) (totalParagraphs i : Nat)
    (lines : List String) : SlideRecord :=
  let blockText := joinWith ['\n'] (lines.map String.toList)
  let paragraphLines := (lines.flatMap fun l => splitOn '\n' l.toList).filter fun l =>
    !(jsTrim l).isEmpty
  let narrative := (extractBullets blockText).2
  let slide := draftSlide toLowerCase title totalParagraphs i lines
  let added := additionalBullets narrative (slide.bullets.getD []).length
  let slide₁ : SlideRecord :=
    if totalChars slide < 100 ∧ narrative.length > 0 ∧ added.length > 0 then
      { slide with bullets := some ((slide.bullets.getD [] ++ added).take 4) }
    else slide
  if ((slide₁.notes.map String.length).getD 0) < 20 then
    { slide₁ with notes := some (String.mk ((joinWith [' '] paragraphLines).take 200)) }
  else slide₁

/-- The loop of `generateSlides` from block `i` on. -/
def buildSlides (toLowerCase : String → String) (title : String) (totalParagraphs : Nat) :
    Nat → List (List String) → List SlideRecord
  | _, [] => []
  | i, lines :: rest =>
    buildSlide toLowerCase title totalParagraphs i lines ::
      buildSlides toLowerCase title totalParagraphs (i + 1) rest

/-- The function `generateSlides(paragraphs, title, content)`. -/
def generateSlides (toLowerCase : String → String) (paragraphs : List String)
    (title content : String) : List SlideRecord :=
  buildSlides toLowerCase title (slideBlocksOf paragraphs content).length 0
    (slideBlocksOf paragraphs content)

/-- The slides `main` generates for a content. -/
def slidesOfContent (toLowerCase : String → String) (title content : String) : List SlideRecord :=
  generateSlides toLowerCase (paragraphsOf content) title content

/-- A paragraph of two list items, of 24 and 27 characters. -/
def twoItemParagraph : String := "- a bullet of twenty chars\n- another bullet line of text"

/-- The bullets of a slide: four at most, each of 15 to 50 characters. -/
def goodBullets (bullets : Option (List String)) : Prop :=
  ∀ bs, bullets = some bs → bs.length ≤ 4 ∧ ∀ b ∈ bs, 15 ≤ b.length ∧ b.length ≤ 50

end ParseContent

/-! ## Regular expression objects and their `lastIndex` -/

/-- An expression is certain to read a character: it is a class, a sequence
with such a part, an alternative of two such expressions or a group of one. -/
def Re.consumes : Re → Bool
  | .cls _ => true
  | .eps => false
  | .seq a b => a.consumes || b.consumes
  | .alt a b => a.consumes && b.consumes
  | .star _ _ => false
  | .group _ r => r.consumes
  | .look _ => false
  | .eos => false

/-- A regular expression object with the flag `g`: the expression and the
property `lastIndex`, which the methods read and write. -/
structure RegExpObject where
  re : Re
  lastIndex : Nat

/-- The method `exec` of an object with the flag `g`: the search starts at
`lastIndex`; a match moves `lastIndex` behind it, and a failure sets it to 0.
The result is the match with its captures and the object after the call. -/
def RegExpObject.exec (o : RegExpObject) (text : List Char) :
    Option (List Char × Captures) × RegExpObject :=
  if o.lastIndex > text.length then (none, RegExpObject.mk o.re 0)
  else
    match o.re.search (text.drop o.lastIndex) with
    | some found =>
      (some (found.2.1, found.2.2),
        RegExpObject.mk o.re (o.lastIndex + found.1.length + found.2.1.length))
    | none => (none, RegExpObject.mk o.re 0)

/-- The loop of `text.match(o)` and of `while ((match = o.exec(text)) !== null)`:
`exec` is called until it fails; `match` moves `lastIndex` on by one after an
empty match. The number bounds the calls, which are at most the length of the
text plus 2. -/
def RegExpObject.execLoop (text : List Char) :
    Nat → RegExpObject → List (List Char × Captures) × RegExpObject
  | 0, o => ([], o)
  | fuel + 1, o =>
    match o.exec text with
    | (some m, o₁) =>
      let o₂ := if m.1.isEmpty then RegExpObject.mk o₁.re (o₁.lastIndex + 1) else o₁
      ((m :: (RegExpObject.execLoop text fuel o₂).1), (RegExpObject.execLoop text fuel o₂).2)
    | (none, o₁) => ([], o₁)

/-- The call `text.match(o)` for an object with the flag `g`: it sets
`lastIndex` to 0 and collects the matches of `exec`. -/
def RegExpObject.matchGlobal (o : RegExpObject) (text : List Char) :
    List (List Char × Captures) × RegExpObject :=
  RegExpObject.execLoop text (text.length + 2) (RegExpObject.mk o.re 0)

namespace VisualMatcher

/-- The values of `lastIndex` of the objects in the table `VISUAL_PATTERNS`, the
only regular expression objects that outlive a call: `state i j` belongs to
pattern `j` of archetype `i`. (The expressions of the extraction routines are
literals inside the routines, objects made anew by each call.) -/
abbrev LastIndexes := Nat → Nat → Nat

/-- The state after `lastIndex` of pattern `j` of archetype `i` is written. -/
def setLastIndex (state : LastIndexes) (i j v : Nat) : LastIndexes :=
  fun i' j' => if i' = i ∧ j' = j then v else state i' j'

/-- The loop over `config.patterns` in `detectVisualType`, from pattern `j` of
archetype `i`, with the objects in the state they are in. -/
def matchCountSt (text : List Char) (i : Nat) :
    List Re → Nat → Nat → LastIndexes → Nat × LastIndexes
  | [], _, matchCount, state => (matchCount, state)
  | pattern :: rest, j, matchCount, state =>
    let r := (RegExpObject.mk pattern (state i j)).matchGlobal text
    matchCountSt text i rest (j + 1) (matchCount + r.1.length) (setLastIndex state i j r.2.lastIndex)

/-- The candidate pushed for an archetype when its patterns matched
`matchCount` times. -/
def candidateWith (text : List Char) (config : Config) (matchCount : Nat) : Option Candidate :=
  if matchCount ≥ config.minMatches then
    match config.extractData text with
    | some data =>
      if data.keys > 0 then
        some (Candidate.mk config.type config.composition matchCount data
          ((matchCount : ℚ) / (config.patterns.length : ℚ)))
      else none
    | none => none
  else none

/-- The loop over the archetypes in `detectVisualType`, from archetype `i`. -/
def candidatesSt (text : List Char) : List Config → Nat → LastIndexes → List Candidate × LastIndexes
  | [], _, state => ([], state)
  | config :: rest, i, state =>
    let counted := matchCountSt text i config.patterns 0 0 state
    let others := candidatesSt text rest (i + 1) counted.2
    (match candidateWith text config counted.1 with
      | some c => c :: others.1
      | none => others.1, others.2)

/-- The function `detectVisualType(text)` with the state of the objects it
reads and writes: the result and the state after the call. -/
def detectVisualTypeSt (state : LastIndexes) (text : String) : List Candidate × LastIndexes :=
  let r := candidatesSt text.toList VISUAL_PATTERNS 0 state
  (r.1.insertionSort confidenceBefore, r.2)

/-- Calls of `detectVisualType` one after the other, each in the state the
call before it left. -/
def detectEach : LastIndexes → List String → List (List Candidate)
  | _, [] => []
  | state, text :: rest =>
    (detectVisualTypeSt state text).1 :: detectEach (detectVisualTypeSt state text).2 rest

end VisualMatcher

/-! # Properties -/

/-! ## The stage gate -/

namespace FlowChecker

/-- The manifest `checkStep` and `markStepCompleted` work on. -/
theorem firstIncomplete_none (m : Manifest) (l : List Step)
    (h : firstIncomplete m l = none) :
    ∀ s ∈ l, (m.completedOf ("step" ++ toString s.id)).truthy = true := by
  induction l with
  | nil => simp
  | cons a l ih =>
    simp only [firstIncomplete] at h
    split at h
    · simp at h
    · rename_i hc
      intro s hs
      rcases List.mem_cons.1 hs with rfl | hs
      · simpa using hc
      · exact ih h s hs

theorem firstIncomplete_some (m : Manifest) (l : List Step) (p : Step)
    (h : firstIncomplete m l = some p) :
    ∃ l₁ l₂, l = l₁ ++ p :: l₂ ∧
      (m.completedOf ("step" ++ toString p.id)).truthy = false ∧
      ∀ s ∈ l₁, (m.completedOf ("step" ++ toString s.id)).truthy = true := by
  induction l with
  | nil => simp [firstIncomplete] at h
  | cons a l ih =>
    simp only [firstIncomplete] at h
    split at h
    · rename_i hc
      simp at h
      subst h
      exact ⟨[], l, rfl, by simpa using hc, by simp⟩
    · rename_i hc
      obtain ⟨l₁, l₂, e, h1, h2⟩ := ih h
      refine ⟨a :: l₁, l₂, by simp [e], h1, ?_⟩
      intro s hs
      rcases List.mem_cons.1 hs with rfl | hs
      · simpa using hc
      · exact h2 s hs

theorem step_mem (k : Int) (h1 : 1 ≤ k) (h5 : k ≤ 5) : ∃ s ∈ STEPS, s.id = k := by
  interval_cases k <;> simp [STEPS]

theorem find_step (i : Int) (s : Step)
    (h : STEPS.find? (fun s => decide (some s.id = some i)) = some s) :
    1 ≤ i ∧ i ≤ 5 ∧ s.id = i := by
  have hm := List.mem_of_find?_eq_some h
  have hp := List.find?_some h
  simp at hp
  subst hp
  simp [STEPS] at hm
  rcases hm with rfl | rfl | rfl | rfl | rfl <;> simp

theorem checkStep_success_inv (mf : Option Manifest) (files : Files) (sid : Option Int)
    (h : checkStep mf files sid = some .success) :
    ∃ id : Int, sid = some id ∧ 1 ≤ id ∧ id ≤ 5 ∧
      ∀ k : Int, 1 ≤ k → k < id → stageCompleted mf k = true := by
  unfold checkStep at h
  split at h
  · simp at h
  · rename_i step hfind
    cases sid with
    | none => simp [STEPS] at hfind
    | some i =>
      obtain ⟨h1, h5, _⟩ := find_step i step hfind
      refine ⟨i, rfl, h1, h5, ?_⟩
      intro k hk1 hk2
      simp only at h
      split at h
      · simp at h
      · rename_i hfi
        obtain ⟨s, hs, rfl⟩ := step_mem k hk1 (by omega)
        have := firstIncomplete_none _ _ hfi s (by
          simp [List.mem_filter, hs, idBelow, hk2])
        cases mf with
        | none => simp [Manifest.completedOf, JSVal.truthy] at this
        | some m => simpa [stageCompleted] using this


theorem stageKey_inj (a b : Int) (ha : 0 ≤ a) (ha5 : a ≤ 5) (hb : 0 ≤ b) (hb5 : b ≤ 5)
    (h : "step" ++ toString a = "step" ++ toString b) : a = b := by
  interval_cases a <;> interval_cases b <;> first | rfl | (exfalso; revert h; decide)

theorem stageCompleted_mark (mf : Option Manifest) (id : Int) (now : String) (m' : Manifest)
    (h : markStepCompleted mf id now = some m') (n : Int) :
    stageCompleted (some m') n =
      if "step" ++ toString n = "step" ++ toString id then true else stageCompleted mf n := by
  unfold markStepCompleted at h
  cases mf with
  | none =>
    simp at h
    subst h
    by_cases hk : "step" ++ toString n = "step" ++ toString id <;>
      simp [stageCompleted, Manifest.completedOf, hk, JSVal.truthy]
  | some m =>
    simp only at h
    split at h
    · simp at h
    · rename_i st hst
      simp at h
      subst h
      by_cases hk : "step" ++ toString n = "step" ++ toString id <;>
        simp [stageCompleted, Manifest.completedOf, hk, JSVal.truthy, hst]

theorem complete_cases (mf : Option Manifest) (files : Files) (sid : Option Int) (now : String) :
    complete mf files sid now = mf ∨
    ∃ id m', checkStep mf files sid = some .success ∧ sid = some id ∧
      markStepCompleted mf id now = some m' ∧ complete mf files sid now = some m' := by
  unfold complete
  split
  · rename_i id hcheck
    split
    · rename_i m' hmark
      exact Or.inr ⟨id, m', hcheck, rfl, hmark, rfl⟩
    · exact Or.inl rfl
  · exact Or.inl rfl

/-- C1. From a manifest with no completed stage, runs of the gate's complete
operation only reach manifests in which, for each N in 2..5, stage N is marked
completed only if stage N-1 is. -/
theorem gate_order_invariant (m : Option Manifest) (hr : Reachable m) (N : Int)
    (h2 : 2 ≤ N) (h5 : N ≤ 5) (hc : stageCompleted m N = true) :
    stageCompleted m (N - 1) = true := by
  induction hr with
  | init m h => rw [h N] at hc; cases hc
  | step m files sid now _ ih =>
    rcases complete_cases m files sid now with h | ⟨id, m', hcheck, hsid, hmark, h⟩
    · rw [h] at hc ⊢; exact ih hc
    · rw [h] at hc ⊢
      obtain ⟨id', hid, h1, hid5, hpred⟩ := checkStep_success_inv _ _ _ hcheck
      rw [hsid] at hid
      cases hid
      rw [stageCompleted_mark m id now m' hmark] at hc ⊢
      split at hc
      · rename_i hk
        have hN : N = id := stageKey_inj N id (by omega) h5 (by omega) hid5 hk
        have := hpred (N - 1) (by omega) (by omega)
        simp [this]
      · have := ih hc
        simp [this]

theorem gate_order_invariant_witness :
    stageCompleted (complete (complete none ⟨fun _ => true, "", none⟩ (some 1) "t")
        ⟨fun _ => true, "## Slide 1 visual:", none⟩ (some 2) "t") 2 = true ∧
    stageCompleted (complete (complete none ⟨fun _ => true, "", none⟩ (some 1) "t")
        ⟨fun _ => true, "## Slide 1 visual:", none⟩ (some 2) "t") (2 - 1) = true :=
  ⟨by decide, gate_order_invariant _
    (.step _ _ _ _ (.step _ _ _ _ (.init none (fun _ => rfl)))) 2 (by decide) (by decide)
    (by decide)⟩


theorem completedOf_eq (mf : Option Manifest) (n : Int) :
    ((match mf with
      | some m => m
      | none => ({ stages := some (fun _ => none) } : Manifest)).completedOf
        ("step" ++ toString n)).truthy = stageCompleted mf n := by
  cases mf <;> simp [stageCompleted, Manifest.completedOf, JSVal.truthy]

theorem checkStep_error_at (mf : Option Manifest) (files : Files) (N k : Int)
    (hk1 : 1 ≤ k) (hkN : k < N) (hN5 : N ≤ 5)
    (hk : stageCompleted mf k = false)
    (hlt : ∀ j : Int, 1 ≤ j → j < k → stageCompleted mf j = true) :
    checkStep mf files (some N) =
      some (.error ("必须先完成 Step " ++ toString k ++ ": " ++ stepName k)) := by
  have e1 := completedOf_eq mf 1
  have e2 := completedOf_eq mf 2
  have e3 := completedOf_eq mf 3
  have e4 := completedOf_eq mf 4
  have hN1 : 2 ≤ N := by omega
  interval_cases N <;> interval_cases k <;>
    simp [checkStep, STEPS, idBelow, firstIncomplete, e1, e2, e3, e4, hk, mustCompleteError,
      stepName, hlt]


theorem least_incomplete (c : Int → Bool) (N : Int) (hN5 : N ≤ 5)
    (h : ∃ j : Int, 1 ≤ j ∧ j < N ∧ c j = false) :
    ∃ k : Int, 1 ≤ k ∧ k < N ∧ c k = false ∧ ∀ j : Int, 1 ≤ j → j < k → c j = true := by
  obtain ⟨j, hj1, hjN, hj⟩ := h
  have hj4 : j ≤ 4 := by omega
  by_cases c1 : c 1 = true
  · by_cases c2 : c 2 = true
    · by_cases c3 : c 3 = true
      · by_cases c4 : c 4 = true
        · exfalso
          interval_cases j <;> simp_all
        · refine ⟨4, by omega, ?_, by simpa using c4, ?_⟩
          · interval_cases j <;> first | omega | simp_all
          · intro i hi1 hi2; interval_cases i <;> assumption
      · refine ⟨3, by omega, ?_, by simpa using c3, ?_⟩
        · interval_cases j <;> first | omega | simp_all
        · intro i hi1 hi2; interval_cases i <;> assumption
    · refine ⟨2, by omega, ?_, by simpa using c2, ?_⟩
      · interval_cases j <;> first | omega | simp_all
      · intro i hi1 hi2; interval_cases i; assumption
  · refine ⟨1, by omega, by omega, by simpa using c1, ?_⟩
    intro i hi1 hi2; omega

/-- C3. For a step N in 1..5 and a manifest in which some step of 1..N-1 is not
marked completed, `checkStep` fails with the error that names the
lowest-numbered incomplete predecessor, whatever the files of the project are
(which files exist, what the script and the visual plan contain): the
required-file check and the validator play no part in the result. -/
theorem checkStep_names_first_incomplete (mf : Option Manifest) (N : Int)
    (hN5 : N ≤ 5)
    (h : ∃ j : Int, 1 ≤ j ∧ j < N ∧ stageCompleted mf j = false) :
    ∃ k : Int, 1 ≤ k ∧ k < N ∧ stageCompleted mf k = false ∧
      (∀ j : Int, 1 ≤ j → j < k → stageCompleted mf j = true) ∧
      ∀ files : Files, checkStep mf files (some N) =
        some (.error ("必须先完成 Step " ++ toString k ++ ": " ++ stepName k)) := by
  obtain ⟨k, hk1, hkN, hk, hlt⟩ := least_incomplete (stageCompleted mf) N hN5 h
  exact ⟨k, hk1, hkN, hk, hlt, fun files => checkStep_error_at mf files N k hk1 hkN hN5 hk hlt⟩

theorem checkStep_names_first_incomplete_witness :
    ∃ k : Int, 1 ≤ k ∧ k < 3 ∧ stageCompleted none k = false ∧
      (∀ j : Int, 1 ≤ j → j < k → stageCompleted none j = true) ∧
      ∀ files : Files, checkStep none files (some 3) =
        some (.error ("必须先完成 Step " ++ toString k ++ ": " ++ stepName k)) :=
  checkStep_names_first_incomplete none 3 (by decide)
    ⟨1, by decide, by decide, rfl⟩

end FlowChecker

namespace FlowChecker

/-- C2. `validateConfirmation` returns the empty list for every manifest: for
one without a `userConfirmed` entry, for one whose status is "rejected", and so
`checkStep` passes stage 4 on both although the user has not confirmed. -/
theorem validateConfirmation_accepts_unconfirmed :
    (∀ m : Manifest, validateConfirmation m = []) ∧
    unconfirmedManifest.confirmStatus = .undefined ∧
    declinedManifest.confirmStatus = .str "rejected" ∧
    (∀ files : Files, checkStep (some unconfirmedManifest) files (some 4) = some .success) ∧
    (∀ files : Files, checkStep (some declinedManifest) files (some 4) = some .success) := by
  have h : ∀ m : Manifest, validateConfirmation m = [] := by
    intro m
    simp [validateConfirmation, JSVal.not, JSVal.strictEq]
  refine ⟨h, by decide, by decide, ?_, ?_⟩
  · intro files
    simp [checkStep, STEPS, idBelow, firstIncomplete, firstMissing, runValidator, h]
    decide
  · intro files
    simp [checkStep, STEPS, idBelow, firstIncomplete, firstMissing, runValidator, h]
    decide

/-- C8. On the artifact the visual extractor writes (every entry with a
non-empty `detectedType`), `validateVisuals` reports one missing-`visualType`
error per entry. -/
theorem validateVisuals_rejects_detectedType :
    validateVisuals { recommendations := some [VisualMatcher.recommendationOf "s02" "flow"] } =
      ["幻灯片 s02 缺少 visualType"] ∧
    ∀ recs : List (String × String),
      validateVisuals
        { recommendations := some (recs.map fun r => VisualMatcher.recommendationOf r.1 r.2) } =
      (if recs.length = 0 then ["没有视觉组件推荐"] else []) ++
        recs.map fun r => "幻灯片 " ++ r.1 ++ " 缺少 visualType" := by
  refine ⟨by decide, ?_⟩
  intro recs
  have key : ((recs.map fun r => VisualMatcher.recommendationOf r.1 r.2).flatMap fun rec =>
      if !rec.visualType.truthy then ["幻灯片 " ++ rec.slideId ++ " 缺少 visualType"] else []) =
      recs.map fun r => "幻灯片 " ++ r.1 ++ " 缺少 visualType" := by
    induction recs with
    | nil => rfl
    | cons r rs ih =>
      simp only [List.map_cons, List.flatMap_cons, ih]
      simp [VisualMatcher.recommendationOf, JSVal.truthy]
  simp only [validateVisuals, key, List.length_map]

end FlowChecker

/-! ## Global matching -/

theorem matchAll_skip (m : List Char → Option Nat) (k : Nat) (s : List Char) :
    matchAll m k s = matchAll m 0 (s.drop k) := by
  induction k generalizing s with
  | zero => rfl
  | succ k ih =>
    cases s with
    | nil => simp [matchAll]
    | cons c rest => simp only [matchAll, List.drop_succ_cons]; exact ih rest

theorem matchAll_zero_cons (m : List Char → Option Nat) (c : Char) (rest : List Char) :
    matchAll m 0 (c :: rest) =
      match m (c :: rest) with
      | some (n + 1) => (c :: rest).take (n + 1) :: matchAll m 0 ((c :: rest).drop (n + 1))
      | _ => matchAll m 0 rest := by
  rw [matchAll]
  split
  · rename_i n h
    simp only [h, List.drop_succ_cons]
    rw [matchAll_skip]
  · rfl

/-- Every match is the text a recognised position starts with. -/
theorem matchAll_mem (m : List Char → Option Nat) (k : Nat) (s x : List Char)
    (h : x ∈ matchAll m k s) :
    ∃ t n, m t = some (n + 1) ∧ x = t.take (n + 1) ∧ t ≠ [] := by
  induction s generalizing k with
  | nil => simp [matchAll] at h
  | cons c rest ih =>
    cases k with
    | succ k => simp only [matchAll] at h; exact ih k h
    | zero =>
      rw [matchAll] at h
      split at h
      · rename_i n hm
        rcases List.mem_cons.1 h with rfl | h
        · exact ⟨c :: rest, n, hm, rfl, by simp⟩
        · exact ih n h
      · exact ih 0 h

theorem countAt_drop (p : List Char → Bool) (k : Nat) (s : List Char)
    (h : ∀ j, j < k → p (s.drop j) = false) : countAt p s = countAt p (s.drop k) := by
  induction k generalizing s with
  | zero => rfl
  | succ k ih =>
    cases s with
    | nil => rfl
    | cons c rest =>
      have h0 := h 0 (by omega)
      simp only [List.drop_zero] at h0
      simp only [countAt, h0, List.drop_succ_cons]
      simp
      exact ih rest (fun j hj => by simpa using h (j + 1) (by omega))

/-- When a match never overlaps a later position of the pattern, the number of
global matches is the number of positions where the pattern matches. -/
theorem matchAll_length_skip (m : List Char → Option Nat) (p : List Char → Bool)
    (hp : ∀ t, p t = true ↔ ∃ n, m t = some (n + 1))
    (hno : ∀ s n, m s = some (n + 1) → ∀ j, j < n → p ((s.drop 1).drop j) = false)
    (k : Nat) (s : List Char) (hk : ∀ j, j < k → p (s.drop j) = false) :
    (matchAll m k s).length = countAt p s := by
  induction s generalizing k with
  | nil => simp [matchAll, countAt]
  | cons c rest ih =>
    cases k with
    | succ k =>
      have h0 := hk 0 (by omega)
      simp only [List.drop_zero] at h0
      simp only [matchAll, countAt, h0]
      simp
      exact ih k (fun j hj => by simpa using hk (j + 1) (by omega))
    | zero =>
      rw [matchAll]
      split
      · rename_i n hm
        have hpt : p (c :: rest) = true := (hp _).2 ⟨n, hm⟩
        simp only [List.length_cons, countAt, hpt, if_true]
        rw [ih n (fun j hj => by simpa using hno _ _ hm j hj)]
        omega
      · rename_i hm
        have hpf : p (c :: rest) = false := by
          cases hpt : p (c :: rest) with
          | false => rfl
          | true =>
            obtain ⟨n, hn⟩ := (hp _).1 hpt
            exact absurd hn (hm n)
        simp only [countAt, hpf]
        simp
        exact ih 0 (fun j hj => by omega)

theorem matchAll_length (m : List Char → Option Nat) (p : List Char → Bool)
    (hp : ∀ t, p t = true ↔ ∃ n, m t = some (n + 1))
    (hno : ∀ s n, m s = some (n + 1) → ∀ j, j < n → p ((s.drop 1).drop j) = false)
    (s : List Char) : (matchAll m 0 s).length = countAt p s :=
  matchAll_length_skip m p hp hno 0 s (fun j hj => by omega)
theorem startsWith_iff (lit : String) (s : List Char) :
    startsWith lit s = true ↔ ∃ t, s = lit.toList ++ t := by
  unfold startsWith
  rw [List.isPrefixOf_iff_prefix]
  constructor
  · rintro ⟨t, rfl⟩; exact ⟨t, rfl⟩
  · rintro ⟨t, rfl⟩; exact ⟨t, rfl⟩

theorem visual_toList : "visual:".toList = ['v', 'i', 's', 'u', 'a', 'l', ':'] := by decide

theorem heading_toList :
    "## Slide ".toList = ['#', '#', ' ', 'S', 'l', 'i', 'd', 'e', ' '] := by decide

theorem visualAt_iff (t : List Char) : visualAt t = true ↔ ∃ n, reVisual t = some (n + 1) := by
  unfold visualAt reVisual
  by_cases h : startsWith "visual:" t = true
  · simp [h]
  · simp [h]

theorem visual_no_overlap (s : List Char) (n : Nat) (h : reVisual s = some (n + 1)) (j : Nat)
    (hj : j < n) : visualAt ((s.drop 1).drop j) = false := by
  unfold reVisual at h
  split at h
  · rename_i hs
    simp at h
    subst h
    obtain ⟨t, rfl⟩ := (startsWith_iff _ _).1 hs
    rw [visual_toList]
    interval_cases j <;> simp [visualAt, startsWith, visual_toList, List.isPrefixOf]
  · simp at h

theorem visual_matches_length (s : List Char) :
    (matchAll reVisual 0 s).length = countAt visualAt s :=
  matchAll_length reVisual visualAt visualAt_iff visual_no_overlap s
theorem headingAt_iff (t : List Char) :
    headingAt t = true ↔ ∃ n, reSlideHeading t = some (n + 1) := by
  unfold headingAt reSlideHeading
  by_cases h : startsWith "## Slide " t = true
  · simp only [h, if_true]
    by_cases hd : ((t.drop 9).takeWhile Char.isDigit).length = 0
    · simp [hd]
    · simp only [hd, if_false, Option.isSome_some, true_iff]
      exact ⟨8 + ((t.drop 9).takeWhile Char.isDigit).length, by congr 1; omega⟩
  · simp [h]

theorem headingAt_cons (t : List Char) (h : headingAt t = true) :
    ∃ d y, Char.isDigit d = true ∧ t = "## Slide ".toList ++ d :: y := by
  unfold headingAt reSlideHeading at h
  by_cases hs : startsWith "## Slide " t = true
  · simp only [hs, if_true] at h
    obtain ⟨u, rfl⟩ := (startsWith_iff _ _).1 hs
    have : ("## Slide ".toList ++ u).drop 9 = u := by
      rw [heading_toList]; rfl
    rw [this] at h
    cases u with
    | nil => simp at h
    | cons d y =>
      refine ⟨d, y, ?_, rfl⟩
      by_contra hd
      simp [List.takeWhile, hd] at h
  · simp [hs] at h

theorem headingAt_of (d : Char) (y : List Char) (hd : Char.isDigit d = true) :
    headingAt ("## Slide ".toList ++ d :: y) = true := by
  unfold headingAt reSlideHeading
  have hs : startsWith "## Slide " ("## Slide ".toList ++ d :: y) = true :=
    (startsWith_iff _ _).2 ⟨_, rfl⟩
  have : ("## Slide ".toList ++ d :: y).drop 9 = d :: y := by
    rw [heading_toList]; rfl
  simp only [hs, if_true, this]
  simp [List.takeWhile, hd]

theorem headingAt_hash (t : List Char) (h : headingAt t = true) : ∃ y, t = '#' :: y := by
  obtain ⟨d, y, _, rfl⟩ := headingAt_cons t h
  rw [heading_toList]
  exact ⟨_, rfl⟩

theorem heading_no_overlap (s : List Char) (n : Nat) (h : reSlideHeading s = some (n + 1))
    (j : Nat) (hj : j < n) : headingAt ((s.drop 1).drop j) = false := by
  have hh : headingAt s = true := (headingAt_iff s).2 ⟨n, h⟩
  obtain ⟨d, y, hd, rfl⟩ := headingAt_cons s hh
  unfold reSlideHeading at h
  have hs : startsWith "## Slide " ("## Slide ".toList ++ d :: y) = true :=
    (startsWith_iff _ _).2 ⟨_, rfl⟩
  have hdrop : ("## Slide ".toList ++ d :: y).drop 9 = d :: y := by
    rw [heading_toList]; rfl
  simp only [hs, if_true, hdrop] at h
  split at h
  · simp at h
  · simp only [Option.some.injEq] at h
    by_cases hj8 : j < 8
    · rw [heading_toList]
      cases hc : headingAt ((List.drop 1 (['#', '#', ' ', 'S', 'l', 'i', 'd', 'e', ' '] ++ d :: y)).drop j) with
      | false => rfl
      | true =>
        obtain ⟨z, hz⟩ := headingAt_cons _ hc
        exfalso
        rw [heading_toList] at hz
        interval_cases j <;> simp at hz
    · -- the position lies in the run of digits
      have hlen : j - 8 < ((d :: y).takeWhile Char.isDigit).length := by omega
      have e : (List.drop 1 ("## Slide ".toList ++ d :: y)).drop j = (d :: y).drop (j - 8) := by
        rw [heading_toList]
        obtain ⟨i, rfl⟩ : ∃ i, j = 8 + i := ⟨j - 8, by omega⟩
        simp only [List.drop_drop]
        have e1 : 1 + (8 + i) = 9 + i := by omega
        have e2 : 8 + i - 8 = i := by omega
        rw [e1, e2, ← List.drop_drop]
        rfl
      rw [e]
      cases hc : headingAt ((d :: y).drop (j - 8)) with
      | false => rfl
      | true =>
        exfalso
        obtain ⟨z, hz⟩ := headingAt_hash _ hc
        have hsplit := List.takeWhile_append_dropWhile Char.isDigit (d :: y)
        rw [← hsplit, List.drop_append_of_le_length (by omega)] at hz
        have hne : ((d :: y).takeWhile Char.isDigit).drop (j - 8) ≠ [] := by
          intro h0
          have := congrArg List.length h0
          simp only [List.length_drop, List.length_nil] at this
          omega
        obtain ⟨a, l, hal⟩ := List.exists_cons_of_ne_nil hne
        rw [hal] at hz
        simp only [List.cons_append, List.cons.injEq] at hz
        have hmem : a ∈ (d :: y).takeWhile Char.isDigit :=
          List.mem_of_mem_drop (by rw [hal]; simp)
        have := List.mem_takeWhile_imp hmem
        rw [hz.1] at this
        revert this
        decide
/-! ## Slide blocks -/

theorem reSlideBlock_none (s : List Char) (h : headingAt s = false) : reSlideBlock s = none := by
  unfold headingAt at h
  unfold reSlideBlock
  cases hr : reSlideHeading s with
  | none => rfl
  | some n => simp [hr] at h

theorem slideBlocks_drop_preamble (s : List Char) :
    slideBlocks s = slideBlocks (s.drop (untilHeading s)) := by
  induction s with
  | nil => rfl
  | cons c rest ih =>
    by_cases h : headingAt (c :: rest) = true
    · have : untilHeading (c :: rest) = 0 := by
        unfold headingAt at h
        simp [untilHeading, h]
      rw [this]; rfl
    · have h' : headingAt (c :: rest) = false := by simpa using h
      have hu : untilHeading (c :: rest) = untilHeading rest + 1 := by
        unfold headingAt at h'
        simp [untilHeading, h']
      rw [hu, List.drop_succ_cons, ← ih]
      unfold slideBlocks
      rw [matchAll_zero_cons, reSlideBlock_none _ h']

theorem after_preamble (s : List Char) :
    s.drop (untilHeading s) = [] ∨ headingAt (s.drop (untilHeading s)) = true := by
  induction s with
  | nil => left; rfl
  | cons c rest ih =>
    by_cases h : headingAt (c :: rest) = true
    · have : untilHeading (c :: rest) = 0 := by
        unfold headingAt at h
        simp [untilHeading, h]
      rw [this]; right; exact h
    · have h' : headingAt (c :: rest) = false := by simpa using h
      have hu : untilHeading (c :: rest) = untilHeading rest + 1 := by
        unfold headingAt at h'
        simp [untilHeading, h']
      rw [hu, List.drop_succ_cons]
      exact ih

theorem no_heading_in_preamble (s : List Char) (j : Nat) (hj : j < untilHeading s) :
    headingAt (s.drop j) = false := by
  induction s generalizing j with
  | nil => simp [untilHeading] at hj
  | cons c rest ih =>
    by_cases h : headingAt (c :: rest) = true
    · have : untilHeading (c :: rest) = 0 := by
        unfold headingAt at h
        simp [untilHeading, h]
      omega
    · have h' : headingAt (c :: rest) = false := by simpa using h
      have hu : untilHeading (c :: rest) = untilHeading rest + 1 := by
        unfold headingAt at h'
        simp [untilHeading, h']
      cases j with
      | zero => exact h'
      | succ j => rw [List.drop_succ_cons]; exact ih j (by omega)

theorem untilHeading_le (s : List Char) : untilHeading s ≤ s.length := by
  induction s with
  | nil => simp [untilHeading]
  | cons c rest ih =>
    simp only [untilHeading]
    split
    · omega
    · simp only [List.length_cons]; omega

theorem slideBlocks_heading (r : List Char) (h : Nat) (hr : reSlideHeading r = some h) :
    slideBlocks r = r.take (h + untilHeading (r.drop h)) ::
      slideBlocks (r.drop (h + untilHeading (r.drop h))) := by
  have hh : headingAt r = true := by simp [headingAt, hr]
  obtain ⟨n, hn⟩ := (headingAt_iff r).1 hh
  rw [hr] at hn
  simp only [Option.some.injEq] at hn
  subst hn
  obtain ⟨y, rfl⟩ := headingAt_hash r hh
  unfold slideBlocks
  rw [matchAll_zero_cons]
  have : reSlideBlock ('#' :: y) = some (n + untilHeading (('#' :: y).drop (n + 1)) + 1) := by
    simp only [reSlideBlock, hr]
    congr 1; omega
  rw [this]
  simp only
  have e : n + untilHeading (('#' :: y).drop (n + 1)) + 1 =
      n + 1 + untilHeading (('#' :: y).drop (n + 1)) := by omega
  rw [e]

theorem countAt_append_local (p : List Char → Bool) (c : Char)
    (hp : ∀ x y, p (x ++ c :: y) = p x) (X Y : List Char) :
    countAt p (X ++ c :: Y) = countAt p X + countAt p (c :: Y) := by
  induction X with
  | nil => simp [countAt]
  | cons a X ih =>
    have := hp (a :: X) Y
    rw [List.cons_append] at this ⊢
    rw [countAt, countAt, this, ih]
    omega

theorem isPrefixOf_append_not_mem (lit x y : List Char) (c : Char) (hc : c ∉ lit) :
    lit.isPrefixOf (x ++ c :: y) = lit.isPrefixOf x := by
  induction lit generalizing x with
  | nil => simp [List.isPrefixOf]
  | cons a lit ih =>
    cases x with
    | nil =>
      have : a ≠ c := by intro h; exact hc (by simp [h])
      simp [List.isPrefixOf, this]
    | cons b x =>
      rw [List.cons_append, List.isPrefixOf, List.isPrefixOf,
        ih x (fun h => hc (List.mem_cons_of_mem _ h))]

theorem visualAt_local (c : Char) (hc : c ∉ "visual:".toList) (x y : List Char) :
    visualAt (x ++ c :: y) = visualAt x := by
  unfold visualAt startsWith
  exact isPrefixOf_append_not_mem _ x y c hc

theorem headingAt_take_length (r : List Char) (h : headingAt r = true) : 0 < r.length := by
  obtain ⟨y, rfl⟩ := headingAt_hash r h
  simp

theorem blocks_count (n : Nat) : ∀ r : List Char, r.length ≤ n → (r = [] ∨ headingAt r = true) →
    countAt visualAt r = ((slideBlocks r).map (countAt visualAt)).sum ∧
    countAt headingAt r = (slideBlocks r).length := by
  induction n with
  | zero =>
    intro r hr _
    have : r = [] := List.length_eq_zero.1 (by omega)
    subst this
    simp [countAt, slideBlocks, matchAll]
  | succ n ih =>
    intro r hr hor
    rcases hor with rfl | hh
    · simp [countAt, slideBlocks, matchAll]
    · obtain ⟨k, hk⟩ := (headingAt_iff r).1 hh
      have hb := slideBlocks_heading r (k + 1) hk
      set u := untilHeading (r.drop (k + 1)) with hu
      have hrest : r.drop (k + 1 + u) = (r.drop (k + 1)).drop u := by
        rw [List.drop_drop]
      have hor' := after_preamble (r.drop (k + 1))
      rw [← hu, ← hrest] at hor'
      have hpos := headingAt_take_length r hh
      have hlen : (r.drop (k + 1 + u)).length ≤ n := by
        simp only [List.length_drop]; omega
      obtain ⟨ih1, ih2⟩ := ih _ hlen hor'
      rw [hb]
      simp only [List.map_cons, List.sum_cons, List.length_cons]
      constructor
      · rw [← ih1]
        conv_lhs => rw [← List.take_append_drop (k + 1 + u) r]
        rcases hor' with h0 | h1
        · rw [h0]; simp [countAt]
        · obtain ⟨y, hy⟩ := headingAt_hash _ h1
          rw [hy]
          exact countAt_append_local visualAt '#' (visualAt_local '#' (by decide)) _ _
      · rw [← ih2]
        obtain ⟨y, rfl⟩ := headingAt_hash r hh
        have h1 : countAt headingAt ('#' :: y) = 1 + countAt headingAt y := by
          simp [countAt, hh]
        rw [h1]
        have h2 : countAt headingAt y = countAt headingAt (y.drop (k + u)) := by
          apply countAt_drop
          intro j hj
          by_cases hjk : j < k
          · exact heading_no_overlap _ _ hk j hjk
          · have := no_heading_in_preamble (('#' :: y).drop (k + 1)) (j - k) (by omega)
            rw [List.drop_drop] at this
            have e : k + 1 + (j - k) = j + 1 := by omega
            rw [e] at this
            exact this
        rw [h2]
        have e : k + 1 + u = (k + u) + 1 := by omega
        rw [e, List.drop_succ_cons]
        omega

/-- The `visual:` fields of a script are those of its preamble and of its slide
blocks, and there are as many headings as blocks. -/
theorem script_counts (s : List Char) :
    countAt visualAt s =
      countAt visualAt (preamble s) + ((slideBlocks s).map (countAt visualAt)).sum ∧
    countAt headingAt s = (slideBlocks s).length := by
  have hor := after_preamble s
  obtain ⟨h1, h2⟩ := blocks_count _ (s.drop (untilHeading s)) le_rfl hor
  rw [slideBlocks_drop_preamble s, ← h1, ← h2]
  constructor
  · unfold preamble
    conv_lhs => rw [← List.take_append_drop (untilHeading s) s]
    rcases hor with h0 | h1
    · rw [h0]; simp [countAt]
    · obtain ⟨y, hy⟩ := headingAt_hash _ h1
      rw [hy]
      exact countAt_append_local visualAt '#' (visualAt_local '#' (by decide)) _ _
  · exact countAt_drop headingAt _ s (fun j hj => no_heading_in_preamble s j hj)
/-! ## Quoted list items -/

theorem bullet_toList : "- \"".toList = ['-', ' ', '"'] := by decide

/-- Shape of a match of the bullet expression. -/
theorem reBullet_shape (t : List Char) (n : Nat) (h : reBullet t = some (n + 1)) :
    ∃ inner rest, t = '-' :: ' ' :: '"' :: (inner ++ '"' :: rest) ∧ inner ≠ [] ∧
      '"' ∉ inner ∧ n + 1 = 3 + inner.length + 1 := by
  unfold reBullet at h
  by_cases hs : startsWith "- \"" t = true
  · simp only [hs, if_true] at h
    obtain ⟨u, rfl⟩ := (startsWith_iff _ _).1 hs
    rw [bullet_toList] at h ⊢
    have hd : List.drop 3 (['-', ' ', '"'] ++ u) = u := rfl
    rw [hd] at h
    split at h
    · simp at h
    · rename_i hne
      split at h
      · rename_i hq
        simp only [Option.some.injEq] at h
        have hd2 : List.drop (3 + (u.takeWhile fun c => c != '"').length) (['-', ' ', '"'] ++ u) =
            u.drop (u.takeWhile fun c => c != '"').length := by
          rw [← List.drop_drop]; rfl
        rw [hd2] at hq
        have hsplit := List.takeWhile_append_dropWhile (fun c => c != '"') u
        have hdw : u.drop (u.takeWhile fun c => c != '"').length =
            u.dropWhile fun c => c != '"' := by
          have := @List.drop_left Char (u.takeWhile fun c => c != '"')
            (u.dropWhile fun c => c != '"')
          rw [hsplit] at this
          exact this
        rw [hdw] at hq
        cases hdq : (u.dropWhile fun c => c != '"') with
        | nil => rw [hdq] at hq; simp at hq
        | cons q rest =>
          rw [hdq] at hq
          simp only [List.head?_cons, Option.some.injEq] at hq
          subst hq
          refine ⟨u.takeWhile fun c => c != '"', rest, ?_, ?_, ?_, by omega⟩
          · rw [← hdq, hsplit]; rfl
          · intro h0; rw [h0] at hne; simp at hne
          · intro hmem
            have := List.mem_takeWhile_imp hmem
            simp at this
      · simp at h
  · simp [hs] at h

theorem removeFirst_prefix (lit x : List Char) (h : lit ≠ []) :
    removeFirst lit (lit ++ x) = x := by
  obtain ⟨a, l, rfl⟩ := List.exists_cons_of_ne_nil h
  rw [List.cons_append, removeFirst]
  have : (a :: l).isPrefixOf (a :: (l ++ x)) = true := by
    rw [← List.cons_append, List.isPrefixOf_iff_prefix]
    exact List.prefix_append _ _
  rw [if_pos this, ← List.cons_append]
  simp

theorem stripEndQuote_append (x : List Char) : stripEndQuote (x ++ ['"']) = x := by
  simp [stripEndQuote]

theorem bulletText_of_match (s m : List Char) (h : m ∈ matchAll reBullet 0 s) :
    FlowChecker.bulletText m = (m.drop 3).dropLast ∧ (m.drop 3).dropLast ≠ [] ∧
      '"' ∉ (m.drop 3).dropLast ∧ m = "- \"".toList ++ (m.drop 3).dropLast ++ ['"'] := by
  obtain ⟨t, n, hm, rfl, _⟩ := matchAll_mem _ _ _ _ h
  obtain ⟨inner, rest, rfl, hne, hq, hn⟩ := reBullet_shape t n hm
  have e : List.take (n + 1) ('-' :: ' ' :: '"' :: (inner ++ '"' :: rest)) =
      ['-', ' ', '"'] ++ (inner ++ ['"']) := by
    rw [hn]
    have : 3 + inner.length + 1 = (inner.length + 1) + 3 := by omega
    rw [this]
    simp only [List.take_succ_cons, List.cons_append, List.nil_append]
    congr 3
    rw [List.take_append_eq_append_take]
    simp
  rw [e]
  have d3 : List.drop 3 (['-', ' ', '"'] ++ (inner ++ ['"'])) = inner ++ ['"'] := rfl
  rw [d3, List.dropLast_concat]
  refine ⟨?_, hne, hq, ?_⟩
  · unfold FlowChecker.bulletText
    rw [bullet_toList, removeFirst_prefix _ _ (by simp), stripEndQuote_append]
  · rw [bullet_toList]; simp
theorem visualAt_nil : visualAt [] = false := by decide

theorem headingAt_nil : headingAt [] = false := by decide

theorem headingAt_local_newline (x y : List Char) :
    headingAt (x ++ '\n' :: y) = headingAt x := by
  by_cases hs : startsWith "## Slide " x = true
  · obtain ⟨u, rfl⟩ := (startsWith_iff _ _).1 hs
    cases u with
    | nil =>
      have h1 : headingAt ("## Slide ".toList ++ []) = false := by decide
      have h2 : headingAt ("## Slide ".toList ++ [] ++ '\n' :: y) = false := by
        cases hc : headingAt ("## Slide ".toList ++ [] ++ '\n' :: y) with
        | false => rfl
        | true =>
          obtain ⟨d', y', hd', e⟩ := headingAt_cons _ hc
          rw [List.append_nil] at e
          have := List.append_cancel_left e
          simp only [List.cons.injEq] at this
          rw [← this.1] at hd'
          revert hd'
          decide
      rw [h1, h2]
    | cons d u =>
      by_cases hd : Char.isDigit d = true
      · rw [List.append_assoc, List.cons_append, headingAt_of d _ hd, headingAt_of d _ hd]
      · have h1 : headingAt ("## Slide ".toList ++ d :: u) = false := by
          cases hc : headingAt ("## Slide ".toList ++ d :: u) with
          | false => rfl
          | true =>
            obtain ⟨d', y', hd', e⟩ := headingAt_cons _ hc
            have := List.append_cancel_left e
            simp only [List.cons.injEq] at this
            rw [this.1] at hd
            exact absurd hd' hd
        have h2 : headingAt ("## Slide ".toList ++ d :: u ++ '\n' :: y) = false := by
          cases hc : headingAt ("## Slide ".toList ++ d :: u ++ '\n' :: y) with
          | false => rfl
          | true =>
            obtain ⟨d', y', hd', e⟩ := headingAt_cons _ hc
            rw [List.append_assoc, List.cons_append] at e
            have := List.append_cancel_left e
            simp only [List.cons.injEq] at this
            rw [this.1] at hd
            exact absurd hd' hd
        rw [h1, h2]
  · have hs' : startsWith "## Slide " x = false := by simpa using hs
    have hs2 : startsWith "## Slide " (x ++ '\n' :: y) = false := by
      unfold startsWith at hs' ⊢
      rw [isPrefixOf_append_not_mem _ x y '\n' (by decide)]
      exact hs'
    unfold headingAt reSlideHeading
    simp [hs', hs2]

theorem countAt_line_removed (p : List Char → Bool) (hnil : p [] = false)
    (hloc : ∀ x y, p (x ++ '\n' :: y) = p x) (A line B : List Char)
    (hA : A = [] ∨ A.getLast? = some '\n') :
    countAt p (A ++ line ++ '\n' :: B) = countAt p (A ++ B) + countAt p line := by
  have hnl : ∀ Y, countAt p ('\n' :: Y) = countAt p Y := by
    intro Y
    have := hloc [] Y
    simp only [List.nil_append] at this
    simp [countAt, this, hnil]
  have hsplit : ∀ X Y, countAt p (X ++ '\n' :: Y) = countAt p X + countAt p Y := by
    intro X Y
    rw [countAt_append_local p '\n' hloc, hnl]
  rcases hA with rfl | hA
  · simp only [List.nil_append]
    rw [hsplit]; omega
  · obtain ⟨A', rfl⟩ : ∃ A', A = A' ++ ['\n'] := by
      rcases List.eq_nil_or_concat A with rfl | ⟨A', c, rfl⟩
      · simp at hA
      · rw [List.concat_eq_append, List.getLast?_concat] at hA
        simp only [Option.some.injEq] at hA
        exact ⟨A', by rw [List.concat_eq_append, hA]⟩
    have e1 : A' ++ ['\n'] ++ line ++ '\n' :: B = A' ++ '\n' :: (line ++ '\n' :: B) := by simp
    have e2 : A' ++ ['\n'] ++ B = A' ++ '\n' :: B := by simp
    rw [e1, e2, hsplit, hsplit, hsplit]
    omega

theorem includes_countAt (b : List Char) (h : includes "visual:" b = true) :
    1 ≤ countAt visualAt b := by
  induction b with
  | nil => revert h; decide
  | cons c rest ih =>
    simp only [includes, Bool.or_eq_true] at h
    simp only [countAt]
    rcases h with h | h
    · have : visualAt (c :: rest) = true := h
      simp [this]
    · have := ih h
      omega

theorem heading_matches_length (s : List Char) :
    (matchAll reSlideHeading 0 s).length = countAt headingAt s :=
  matchAll_length reSlideHeading headingAt headingAt_iff heading_no_overlap s

theorem sum_ge_length (l : List Nat) (h : ∀ x ∈ l, 1 ≤ x) : l.length ≤ l.sum := by
  induction l with
  | nil => simp
  | cons a l ih =>
    have h1 := h a (by simp)
    have h2 := ih (fun x hx => h x (List.mem_cons_of_mem _ hx))
    simp only [List.length_cons, List.sum_cons]
    omega

theorem sum_eq_length (l : List Nat) (h : ∀ x ∈ l, x = 1) : l.sum = l.length := by
  induction l with
  | nil => simp
  | cons a l ih =>
    have h1 := h a (by simp)
    have h2 := ih (fun x hx => h x (List.mem_cons_of_mem _ hx))
    simp only [List.length_cons, List.sum_cons]
    omega
namespace FlowChecker

/-- C4. `validateScript` returns no error on a script whose second slide block
has no `visual:` field (the first block holds two): it compares the number of
`visual:` fields of the whole text with the number of headings. -/
theorem validateScript_passes_bare_slide :
    validateScript scriptSecondSlideBare = [] ∧
    (slideBlocks scriptSecondSlideBare.toList).map (includes "visual:") = [true, false] := by
  decide

/-- C5. A script with at least one slide heading, a `visual:` field in every
slide block and every quoted list item of 15 to 50 characters gets no error
from `validateScript`. The script is a text of the Basic Multilingual Plane,
where the number of characters of an item is the `text.length` the code
tests. -/
theorem validateScript_passes (content : String)
    (_ : isBMP content.toList = true)
    (h1 : matchAll reSlideHeading 0 content.toList ≠ [])
    (h2 : ∀ b ∈ slideBlocks content.toList, includes "visual:" b = true)
    (h3 : ∀ t ∈ quotedItems content, 15 ≤ t.length ∧ t.length ≤ 50) :
    validateScript content = [] := by
  have hc := script_counts content.toList
  have hsum : (slideBlocks content.toList).length ≤
      ((slideBlocks content.toList).map (countAt visualAt)).sum := by
    have := sum_ge_length ((slideBlocks content.toList).map (countAt visualAt)) (by
      intro x hx
      obtain ⟨b, hb, rfl⟩ := List.mem_map.1 hx
      exact includes_countAt b (h2 b hb))
    simpa using this
  have hv : ¬ (matchAll reVisual 0 content.toList).length <
      (matchAll reSlideHeading 0 content.toList).length := by
    rw [visual_matches_length, heading_matches_length]
    omega
  have hl : ¬ (matchAll reSlideHeading 0 content.toList).length = 0 := by
    intro h0; exact h1 (List.length_eq_zero.1 h0)
  have hb : (matchAll reBullet 0 content.toList).flatMap
      (fun m => lengthErrors (bulletText m)) = [] := by
    rw [List.flatMap_eq_nil_iff]
    intro m hm
    have ht := h3 ((m.drop 3).dropLast) (List.mem_map.2 ⟨m, hm, rfl⟩)
    rw [(bulletText_of_match _ m hm).1]
    unfold lengthErrors
    rw [if_neg (by omega), if_neg (by omega)]
    rfl
  unfold validateScript
  simp only [hv, hl, hb, if_false, List.append_nil]

theorem validateScript_passes_witness :
    validateScript
      "## Slide 1\nvisual:\n  type: flow\nbullets:\n  - \"a bullet of twenty chars\"\n" = [] :=
  validateScript_passes _ (by decide) (by decide) (by decide) (by decide)

/-- The length errors of one quoted item: too short under 15 characters (with
the first 20 characters of the text), too long over 50 (with the first 30),
none from 15 to 50. -/
theorem lengthErrors_eq (t : List Char) :
    lengthErrors t =
      if t.length < 15 then ["要点过短（<15字）: \"" ++ String.mk (t.take 20) ++ "...\""]
      else if t.length > 50 then ["要点过长（>50字）: \"" ++ String.mk (t.take 30) ++ "...\""]
      else [] := by
  unfold lengthErrors tooShortError tooLongError
  by_cases h1 : t.length < 15
  · have : ¬ t.length > 50 := by omega
    simp [h1, this]
  · simp [h1]

/-- C7. After the errors about slides and `visual:` fields, `validateScript`
reports, in order, one error per quoted list item: too short (with the first
20 characters of the text) when the text is under 15 characters, too long
(with its first 30 characters) when it is over 50, nothing from 15 to 50. The
text of an item is what stands between its quotes. The script is a text of
the Basic Multilingual Plane, where `length` and `take` are the `text.length`
and `text.slice` of the code. -/
theorem validateScript_length_errors (content : String)
    (_ : isBMP content.toList = true) :
    validateScript content = slideErrors content ++
      (quotedItems content).flatMap (fun t =>
        if t.length < 15 then ["要点过短（<15字）: \"" ++ String.mk (t.take 20) ++ "...\""]
        else if t.length > 50 then ["要点过长（>50字）: \"" ++ String.mk (t.take 30) ++ "...\""]
        else []) ∧
    (∀ m ∈ matchAll reBullet 0 content.toList,
      m = "- \"".toList ++ (m.drop 3).dropLast ++ ['"'] ∧ '"' ∉ (m.drop 3).dropLast ∧
        (m.drop 3).dropLast ≠ []) := by
  constructor
  · unfold validateScript slideErrors quotedItems
    simp only
    congr 1
    rw [List.flatMap_map]
    apply List.flatMap_congr
    intro m hm
    rw [(bulletText_of_match _ m hm).1, lengthErrors_eq]
  · intro m hm
    have := bulletText_of_match _ m hm
    exact ⟨this.2.2.2, this.2.2.1, this.2.1⟩

theorem validateScript_length_errors_witness :
    isBMP scriptItemLengths.toList = true ∧
    (validateScript scriptItemLengths = slideErrors scriptItemLengths ++
      (quotedItems scriptItemLengths).flatMap (fun t =>
        if t.length < 15 then ["要点过短（<15字）: \"" ++ String.mk (t.take 20) ++ "...\""]
        else if t.length > 50 then ["要点过长（>50字）: \"" ++ String.mk (t.take 30) ++ "...\""]
        else []) ∧
    (∀ m ∈ matchAll reBullet 0 scriptItemLengths.toList,
      m = "- \"".toList ++ (m.drop 3).dropLast ++ ['"'] ∧ '"' ∉ (m.drop 3).dropLast ∧
        (m.drop 3).dropLast ≠ [])) ∧
    validateScript scriptItemLengths =
      ["要点过短（<15字）: \"ten chars....\"",
        "要点过长（>50字）: \"a bullet of sixty characters, ...\""] :=
  ⟨by decide, validateScript_length_errors scriptItemLengths (by decide), by decide⟩

end FlowChecker
namespace FlowChecker

/-- C6, as stated, fails. In a script of three slides with exactly one `visual:`
field per block, removing the field of slide 1 and removing the field of
slide 3 give the same single error, which holds the two counts and no `1`;
and when a `visual:` line precedes the first slide, removing the field of
slide 1 leaves `validateScript` with no error at all. -/
theorem validateScript_error_names_no_slide :
    (∀ b ∈ slideBlocks scriptThreeSlides.toList, (matchAll reVisual 0 b).length = 1) ∧
    validateScript scriptThreeSlidesCut1 = ["有 3 页幻灯片，但只有 2 页有 visual 字段"] ∧
    validateScript scriptThreeSlidesCut3 = ["有 3 页幻灯片，但只有 2 页有 visual 字段"] ∧
    (∀ e ∈ validateScript scriptThreeSlidesCut1, includes "1" e.toList = false) ∧
    (∀ b ∈ slideBlocks scriptVisualInPreamble.toList, (matchAll reVisual 0 b).length = 1) ∧
    validateScript scriptVisualInPreambleCut = [] := by
  decide

/-- C6, amended. Take a script in which every slide block has exactly one
`visual:` field and the text before the first slide has none, and remove from
it one whole line that holds a `visual:` field and no slide heading. Then the
number `n` of slides is unchanged and `validateScript` returns a list that
contains the count error for `n` slides and some `m < n` fields (the error
gives the two counts, not the slide). -/
theorem validateScript_after_removing_visual (A line B : List Char)
    (hA : A = [] ∨ A.getLast? = some '\n')
    (hline : matchAll reSlideHeading 0 line = [])
    (hvis : includes "visual:" line = true)
    (hblocks : ∀ b ∈ slideBlocks (A ++ line ++ '\n' :: B), (matchAll reVisual 0 b).length = 1)
    (hpre : matchAll reVisual 0 (preamble (A ++ line ++ '\n' :: B)) = []) :
    (slideBlocks (A ++ B)).length = (slideBlocks (A ++ line ++ '\n' :: B)).length ∧
    ∃ m, m < (slideBlocks (A ++ B)).length ∧
      visualCountError (slideBlocks (A ++ B)).length m ∈ validateScript (String.mk (A ++ B)) := by
  have hc := script_counts (A ++ line ++ '\n' :: B)
  have hc' := script_counts (A ++ B)
  have hsum : ((slideBlocks (A ++ line ++ '\n' :: B)).map (countAt visualAt)).sum =
      (slideBlocks (A ++ line ++ '\n' :: B)).length := by
    have := sum_eq_length ((slideBlocks (A ++ line ++ '\n' :: B)).map (countAt visualAt)) (by
      intro x hx
      obtain ⟨b, hb, rfl⟩ := List.mem_map.1 hx
      rw [← visual_matches_length]
      exact hblocks b hb)
    simpa using this
  have hp0 : countAt visualAt (preamble (A ++ line ++ '\n' :: B)) = 0 := by
    rw [← visual_matches_length, hpre]; rfl
  have hl0 : countAt headingAt line = 0 := by
    rw [← heading_matches_length, hline]; rfl
  have hv1 := includes_countAt line hvis
  have eV := countAt_line_removed visualAt visualAt_nil (visualAt_local '\n' (by decide)) A line B hA
  have eH := countAt_line_removed headingAt headingAt_nil headingAt_local_newline A line B hA
  have hn : (slideBlocks (A ++ B)).length = (slideBlocks (A ++ line ++ '\n' :: B)).length := by
    omega
  refine ⟨hn, countAt visualAt (A ++ B), by omega, ?_⟩
  have hlt : countAt visualAt (A ++ B) < (slideBlocks (A ++ B)).length := by omega
  have e1 : (matchAll reVisual 0 (A ++ B)).length = countAt visualAt (A ++ B) :=
    visual_matches_length _
  have e2 : (matchAll reSlideHeading 0 (A ++ B)).length = (slideBlocks (A ++ B)).length := by
    rw [heading_matches_length, hc'.2]
  unfold validateScript
  simp only [String.toList, e1, e2, hlt, if_true]
  simp

theorem validateScript_after_removing_visual_witness :
    (slideBlocks ("## Slide 1\n".toList ++ "title: x\n".toList)).length =
      (slideBlocks ("## Slide 1\n".toList ++ "visual: flow".toList ++
        '\n' :: "title: x\n".toList)).length ∧
    ∃ m, m < (slideBlocks ("## Slide 1\n".toList ++ "title: x\n".toList)).length ∧
      visualCountError (slideBlocks ("## Slide 1\n".toList ++ "title: x\n".toList)).length m ∈
        validateScript (String.mk ("## Slide 1\n".toList ++ "title: x\n".toList)) :=
  validateScript_after_removing_visual "## Slide 1\n".toList "visual: flow".toList
    "title: x\n".toList (Or.inr (by decide)) (by decide) (by decide) (by decide) (by decide)

end FlowChecker

/-! ## The script parser never throws -/

namespace RenderSlide

theorem okWF_ite {c : Prop} [Decidable c] {a b : Except String PState}
    (ha : c → okWF a) (hb : ¬c → okWF b) : okWF (if c then a else b) := by
  split
  · exact ha ‹_›
  · exact hb ‹_›

theorem okWF_ok {st : PState} (h : st.wellFormed = true) : okWF (.ok st) := ⟨st, rfl, h⟩

theorem wellFormed_congr (st st' : PState) (h1 : st'.currentArray = st.currentArray)
    (h2 : st'.slide.visual = st.slide.visual) (h3 : st'.slide.visualData = st.slide.visualData) :
    st'.wellFormed = st.wellFormed := by
  unfold PState.wellFormed
  rw [h1, h2, h3]

theorem withChart_wf (st : PState) (f : ChartData → ChartData) :
    (withChart st f).wellFormed = st.wellFormed := by
  apply wellFormed_congr <;> (unfold withChart; split <;> rfl)

theorem chartLine_wf (st : PState) (t : List Char) (hc : st.currentArray = some .chartData) :
    (chartLine st t).wellFormed = true := by
  have hst : st.wellFormed = true := by simp [PState.wellFormed, hc]
  unfold chartLine
  repeat' split
  all_goals first
    | (rw [withChart_wf]; exact hst)
    | exact hst
    | simp [PState.wellFormed]

theorem segmentLine_wf (st : PState) (t : List Char) (h : st.wellFormed = true) :
    (segmentLine st t).wellFormed = true := by
  unfold segmentLine
  repeat' split
  all_goals first
    | (rw [withChart_wf]; exact h)
    | exact h

theorem withCard_wf (st : PState) (i : Nat) (f : Card → Card) :
    (withCard st i f).wellFormed = st.wellFormed := by
  apply wellFormed_congr <;> rfl

theorem keyValueLine_wf (st : PState) (t : List Char) (h : st.wellFormed = true) :
    (keyValueLine st t).wellFormed = true := by
  unfold keyValueLine
  simp only
  repeat' split
  all_goals first
    | (rw [withCard_wf]; exact h)
    | exact h

theorem itemLine_wf (st : PState) (t : List Char) (h : st.wellFormed = true) :
    (itemLine st t).wellFormed = true := by
  unfold itemLine
  simp only
  repeat' split
  all_goals first
    | (rw [withCard_wf]; exact h)
    | exact h

theorem withVisual_ok (st : PState) (f : Visual → Visual) (hc : st.currentArray = some .visual)
    (h : st.wellFormed = true) : okWF (withVisual st fun v => .ok (f v)) := by
  unfold withVisual
  cases hv : st.slide.visual with
  | none => simp [PState.wellFormed, hc, hv] at h
  | some v =>
    simp only [Except.map]
    exact okWF_ok (by simp [PState.wellFormed, hc])

theorem visualLine_ok (st : PState) (t : List Char) (hc : st.currentArray = some .visual)
    (h : st.wellFormed = true) : okWF (visualLine st t) := by
  unfold visualLine
  repeat' (with_reducible apply okWF_ite <;> intro _)
  all_goals first
    | exact withVisual_ok st _ hc h
    | exact okWF_ok h
    | skip
  · split
    · exact withVisual_ok st _ hc h
    · exact okWF_ok h
  · cases hv : st.slide.visual with
    | none => simp [PState.wellFormed, hc, hv] at h
    | some v =>
      simp only [withVisual, hv, Except.map]
      exact okWF_ok (by simp [PState.wellFormed])

theorem stepsLine_top_ok (st : PState) (t : List Char)
    (hc : st.currentArray = some .visualDataSteps) (h : st.wellFormed = true) :
    okWF (stepsLine withVisualDataTop st t) := by
  simp only [PState.wellFormed, hc] at h
  cases hd : st.slide.visualData with
  | none => simp [hd] at h
  | some d =>
    rw [hd] at h
    simp only at h
    cases hs : d.steps with
    | none => simp [hs] at h
    | some ss =>
      unfold stepsLine
      repeat' (with_reducible apply okWF_ite <;> intro _)
      · simp only [withVisualDataTop, hd, hs, Except.map]
        exact okWF_ok (by simp [PState.wellFormed, hc])
      · simp only [withVisualDataTop, hd, hs, Except.map]
        exact okWF_ok (by simp [PState.wellFormed, hc])
      · exact okWF_ok (by simp [PState.wellFormed, hc, hd, hs])

theorem stepsLine_visual_ok (st : PState) (t : List Char)
    (hc : st.currentArray = some .visualSteps) (h : st.wellFormed = true) :
    okWF (stepsLine withVisualData st t) := by
  have h0 := h
  simp only [PState.wellFormed, hc, Bool.and_eq_true] at h
  obtain ⟨hvd, h⟩ := h
  cases hv : st.slide.visual with
  | none => simp [hv] at h
  | some v =>
    rw [hv] at h
    simp only at h
    cases hd : v.data with
    | none => simp [hd] at h
    | some d =>
      rw [hd] at h
      simp only at h
      cases hs : d.steps with
      | none => simp [hs] at h
      | some ss =>
        unfold stepsLine
        repeat' (with_reducible apply okWF_ite <;> intro _)
        · simp only [withVisualData, withVisual, hv, hd, hs, Except.map]
          exact okWF_ok (by simp [PState.wellFormed, hc, hvd])
        · simp only [withVisualData, withVisual, hv, hd, hs, Except.map]
          exact okWF_ok (by simp [PState.wellFormed, hc, hvd])
        · exact okWF_ok h0

theorem updateTarget_steps_wf (st : PState) (hc : st.currentArray = some .visualData)
    (h : st.wellFormed = true) :
    ({ st with slide := updateTarget st.slide fun d => { d with steps := some [] },
               currentArray := if st.slide.visualData.isSome then some .visualDataSteps
                               else some .visualSteps } : PState).wellFormed = true := by
  simp only [PState.wellFormed, hc] at h
  cases hvd : st.slide.visualData with
  | some d => simp [PState.wellFormed, updateTarget, hvd]
  | none =>
    rw [hvd] at h
    cases hv : st.slide.visual with
    | none => simp [hv] at h
    | some v =>
      rw [hv] at h
      cases hd : v.data with
      | none => simp [hd] at h
      | some d => simp [PState.wellFormed, updateTarget, hvd, hv, hd]

set_option maxHeartbeats 1600000 in
/-- Every line is processed without an exception from a well-formed state, and
leaves a well-formed state. -/
theorem parseLine_ok (st : PState) (t : List Char) (h : st.wellFormed = true) :
    okWF (parseLine st t) := by
  unfold parseLine
  simp only
  repeat' (with_reducible apply okWF_ite <;> intro _)
  all_goals first
    | (apply okWF_ok; simp_all [PState.wellFormed, openList]; done)
    | exact okWF_ok (chartLine_wf st t ‹_›)
    | exact okWF_ok (segmentLine_wf st t h)
    | exact visualLine_ok st t ‹_› h
    | exact stepsLine_top_ok st t ‹_› h
    | exact stepsLine_visual_ok st t ‹_› h
    | exact okWF_ok (keyValueLine_wf st t h)
    | exact okWF_ok (itemLine_wf st t h)
    | exact okWF_ok (updateTarget_steps_wf st ‹_› h)
    | (exfalso; simp_all [PState.wellFormed]; done)
    | (split <;> (apply okWF_ok; simp_all [PState.wellFormed]))

theorem parseLines_ok (lines : List (List Char)) (st : PState) (h : st.wellFormed = true) :
    okWF (parseLines st lines) := by
  induction lines generalizing st with
  | nil => exact okWF_ok h
  | cons line rest ih =>
    obtain ⟨st', e, h'⟩ := parseLine_ok st (jsTrim line) h
    simp only [parseLines, e]
    exact ih st' h'

theorem parseSlide_ok (slideText : List Char) (index : Nat) :
    ∃ r, parseSlide slideText index = .ok r := by
  unfold parseSlide
  split
  · exact ⟨none, rfl⟩
  · rename_i yaml _
    obtain ⟨st, e, _⟩ := parseLines_ok (splitOn '\n' yaml)
      { slide := { id := "s" ++ pad2 (index + 1), index := index + 1 } } rfl
    rw [e]
    exact ⟨some st.slide, rfl⟩

theorem parseSlides_ok (blocks : List (List Char)) (index : Nat) :
    ∃ slides, parseSlides blocks index = .ok slides := by
  induction blocks generalizing index with
  | nil => exact ⟨[], rfl⟩
  | cons b rest ih =>
    obtain ⟨r, e⟩ := parseSlide_ok b index
    obtain ⟨slides, e'⟩ := ih (index + 1)
    simp only [parseSlides, e, e']
    cases r with
    | none => exact ⟨slides, rfl⟩
    | some slide => exact ⟨slide :: slides, rfl⟩

/-- C9. `parseScriptMd` returns a front-matter map and a slide list for every
input text: no exception is thrown. And the lines of a slide block, whatever
they are, are all processed and leave a state in which the object or list the
current context writes into exists (`slide.visual` in the context `visual`, the
`steps` list of `slide.visual.data` or `slide.visualData` in the two `steps`
contexts; the contexts of `levels`, `layers` and `items` are never entered). -/
theorem parseScriptMd_never_throws (content : String) (index : Nat)
    (lines : List (List Char)) :
    (∃ fm slides, parseScriptMd content = .ok (fm, slides)) ∧
    ∃ st, parseLines { slide := { id := "s" ++ pad2 (index + 1), index := index + 1 } } lines
        = .ok st ∧ st.wellFormed = true := by
  constructor
  · obtain ⟨slides, e⟩ := parseSlides_ok (matchAll reSlideBlock 0 content.toList) 0
    exact ⟨parseFrontMatter content.toList, slides, by simp only [parseScriptMd, e]⟩
  · exact parseLines_ok lines _ rfl

end RenderSlide

/-! ## Round trip of the generated script -/

/-! ## Round trip: splitting the generated text into slide blocks -/

theorem slideBlocks_skip (P X : List Char)
    (h : ∀ i, i < P.length → headingAt (P.drop i ++ X) = false) :
    slideBlocks (P ++ X) = slideBlocks X := by
  induction P with
  | nil => rfl
  | cons c P ih =>
    have h0 := h 0 (by simp)
    simp only [List.drop_zero, List.cons_append] at h0
    unfold slideBlocks at ih ⊢
    rw [List.cons_append, matchAll_zero_cons, reSlideBlock_none _ h0]
    exact ih (fun i hi => by simpa using h (i + 1) (by simpa using hi))

theorem untilHeading_gap (G W : List Char)
    (h : ∀ i, i < G.length → headingAt (G.drop i ++ W) = false)
    (hW : W = [] ∨ headingAt W = true) : untilHeading (G ++ W) = G.length := by
  induction G with
  | nil =>
    rcases hW with rfl | hW
    · rfl
    · cases W with
      | nil => rfl
      | cons c W =>
        unfold headingAt at hW
        simp [untilHeading, hW]
  | cons c G ih =>
    have h0 := h 0 (by simp)
    simp only [List.drop_zero, List.cons_append] at h0
    unfold headingAt at h0
    rw [List.cons_append, untilHeading]
    simp only [h0, List.length_cons]
    rw [if_neg (by simp)]
    congr 1
    exact ih (fun i hi => by simpa using h (i + 1) (by simpa using hi))

theorem no_heading_of_not_hash (Q X : List Char) (hQ : '#' ∉ Q) (i : Nat) (hi : i < Q.length) :
    headingAt (Q.drop i ++ X) = false := by
  cases hc : headingAt (Q.drop i ++ X) with
  | false => rfl
  | true =>
    exfalso
    obtain ⟨y, hy⟩ := headingAt_hash _ hc
    have hne : Q.drop i ≠ [] := by
      intro h0
      have := congrArg List.length h0
      simp at this
      omega
    obtain ⟨a, l, hal⟩ := List.exists_cons_of_ne_nil hne
    rw [hal] at hy
    simp only [List.cons_append, List.cons.injEq] at hy
    have : a ∈ Q := List.mem_of_mem_drop (by rw [hal]; simp)
    rw [hy.1] at this
    exact hQ this

theorem no_heading_of_noHH (P X : List Char) (hP : noHH P = true)
    (hlast : P.getLast? ≠ some '#') (i : Nat) (hi : i < P.length) :
    headingAt (P.drop i ++ X) = false := by
  induction P generalizing i with
  | nil => simp at hi
  | cons a P ih =>
    cases i with
    | succ i =>
      rw [List.drop_succ_cons]
      apply ih
      · cases P with
        | nil => rfl
        | cons b P => simp only [noHH, Bool.and_eq_true] at hP; exact hP.2
      · cases P with
        | nil => simp at hi
        | cons b P => simpa [List.getLast?_cons_cons] using hlast
      · simpa using hi
    | zero =>
      rw [List.drop_zero]
      cases hc : headingAt ((a :: P) ++ X) with
      | false => rfl
      | true =>
        exfalso
        obtain ⟨d, y, _, e⟩ := headingAt_cons _ hc
        rw [heading_toList] at e
        cases P with
        | nil =>
          simp only [List.cons_append, List.nil_append, List.cons.injEq] at e
          simp [e.1] at hlast
        | cons b P =>
          simp only [List.cons_append, List.cons.injEq] at e
          simp [noHH, e.1, e.2.1] at hP

theorem findLit_skip (c : Char) (l P X : List Char) (hc : c ∉ P) :
    findLit (c :: l) (P ++ X) = (findLit (c :: l) X).map (· + P.length) := by
  induction P with
  | nil => simp
  | cons a P ih =>
    have hne : c ≠ a := fun h => hc (by simp [h])
    have hP : c ∉ P := fun h => hc (List.mem_cons_of_mem _ h)
    rw [List.cons_append, findLit]
    have : (c :: l).isPrefixOf (a :: (P ++ X)) = false := by
      simp [List.isPrefixOf, hne]
    rw [this, ih hP]
    cases findLit (c :: l) X <;> simp [Nat.add_assoc]

theorem findLit_here (lit Z : List Char) (h : lit ≠ []) : findLit lit (lit ++ Z) = some 0 := by
  obtain ⟨a, l, rfl⟩ := List.exists_cons_of_ne_nil h
  rw [List.cons_append, findLit]
  have : (a :: l).isPrefixOf (a :: (l ++ Z)) = true := by
    rw [← List.cons_append, List.isPrefixOf_iff_prefix]
    exact List.prefix_append _ _
  rw [if_pos this]

theorem fence_open_toList :
    "```yaml\n".toList = ['`', '`', '`', 'y', 'a', 'm', 'l', '\n'] := by decide

theorem fence_close_toList : "```".toList = ['`', '`', '`'] := by decide

/-- The `yaml` body of a generated block: the text between the fences. -/
theorem yamlGroup_block (H Y E : List Char) (hH : '`' ∉ H) (hY : '`' ∉ Y) :
    yamlGroup (H ++ "```yaml\n".toList ++ Y ++ "```".toList ++ E) = some Y := by
  unfold yamlGroup
  have e1 : H ++ "```yaml\n".toList ++ Y ++ "```".toList ++ E =
      H ++ ("```yaml\n".toList ++ (Y ++ "```".toList ++ E)) := by simp
  rw [e1]
  have f1 : findLit "```yaml\n".toList (H ++ ("```yaml\n".toList ++ (Y ++ "```".toList ++ E))) =
      some H.length := by
    rw [fence_open_toList, findLit_skip _ _ _ _ hH, ← fence_open_toList,
      findLit_here _ _ (by decide)]
    simp
  rw [f1]
  simp only
  have e2 : List.drop (H.length + 8) (H ++ ("```yaml\n".toList ++ (Y ++ "```".toList ++ E))) =
      Y ++ ("```".toList ++ E) := by
    rw [← List.drop_drop, List.drop_left]
    rw [fence_open_toList]
    simp
  rw [e2]
  have f2 : findLit "```".toList (Y ++ ("```".toList ++ E)) = some Y.length := by
    rw [fence_close_toList, findLit_skip _ _ _ _ hY, ← fence_close_toList,
      findLit_here _ _ (by decide)]
    simp
  rw [f2]
  simp

theorem splitOn_line (l rest : List Char) (h : '\n' ∉ l) :
    splitOn '\n' (l ++ '\n' :: rest) = l :: splitOn '\n' rest := by
  induction l with
  | nil => simp [splitOn]
  | cons a l ih =>
    have hne : a ≠ '\n' := fun h' => h (by simp [h'])
    have hl : '\n' ∉ l := fun h' => h (List.mem_cons_of_mem _ h')
    rw [List.cons_append, splitOn, if_neg hne, ih hl]

/-- The lines of a text, each followed by a newline. -/
theorem splitOn_lines (ls : List (List Char)) (h : ∀ l ∈ ls, '\n' ∉ l) :
    splitOn '\n' (ls.flatMap fun l => l ++ ['\n']) = ls ++ [[]] := by
  induction ls with
  | nil => rfl
  | cons l ls ih =>
    rw [List.flatMap_cons, List.append_assoc, List.singleton_append,
      splitOn_line _ _ (h l (by simp)), ih (fun x hx => h x (List.mem_cons_of_mem _ hx))]
    rfl

theorem joinWith_cons_cons (sep a b : List Char) (l : List (List Char)) :
    joinWith sep (a :: b :: l) = a ++ sep ++ joinWith sep (b :: l) := by
  simp [joinWith, List.intercalate, List.intersperse]

theorem joinWith_singleton (sep a : List Char) : joinWith sep [a] = a := by
  simp [joinWith, List.intercalate, List.intersperse]

theorem joinWith_lines (ls : List (List Char)) (h : ls ≠ []) :
    joinWith ['\n'] ls ++ ['\n'] = ls.flatMap fun l => l ++ ['\n'] := by
  induction ls with
  | nil => exact absurd rfl h
  | cons a ls ih =>
    cases ls with
    | nil => simp [joinWith_singleton]
    | cons b ls =>
      rw [joinWith_cons_cons, List.flatMap_cons, ← ih (by simp)]
      simp

theorem reSlideHeading_of (ds G rest : List Char) (hds : ds ≠ [])
    (hdig : ∀ c ∈ ds, Char.isDigit c = true) (g : Char) (G' : List Char) (hG : G = g :: G')
    (hg : Char.isDigit g = false) :
    reSlideHeading ("## Slide ".toList ++ ds ++ G ++ rest) = some (9 + ds.length) := by
  unfold reSlideHeading
  have hs : startsWith "## Slide " ("## Slide ".toList ++ ds ++ G ++ rest) = true :=
    (startsWith_iff _ _).2 ⟨ds ++ G ++ rest, by simp⟩
  have hd : ("## Slide ".toList ++ ds ++ G ++ rest).drop 9 = ds ++ (G ++ rest) := by
    rw [heading_toList]; simp
  rw [if_pos hs]
  simp only [hd]
  have ht : (ds ++ (G ++ rest)).takeWhile Char.isDigit = ds := by
    rw [List.takeWhile_append_of_pos hdig, hG]
    simp [List.takeWhile, hg]
  rw [ht]
  have : ds.length ≠ 0 := fun h => hds (List.length_eq_zero.1 h)
  rw [if_neg this]

theorem docTail_cons (p : List Char × List Char) (segs : List (List Char × List Char)) :
    docTail (p :: segs) = "## Slide ".toList ++ p.1 ++ p.2 ++ docTail segs := by
  simp [docTail]

theorem docTail_heading (segs : List (List Char × List Char))
    (h : ∀ p ∈ segs, p.1 ≠ [] ∧ (∀ c ∈ p.1, Char.isDigit c = true) ∧ '#' ∉ p.2 ∧
      ∃ g G', p.2 = g :: G' ∧ Char.isDigit g = false) :
    docTail segs = [] ∨ headingAt (docTail segs) = true := by
  cases segs with
  | nil => left; rfl
  | cons p segs =>
    right
    obtain ⟨hds, hdig, _, g, G', hG, hg⟩ := h p (by simp)
    rw [docTail_cons]
    unfold headingAt
    rw [reSlideHeading_of p.1 p.2 _ hds hdig g G' hG hg]
    rfl

/-- The slide blocks of a text made of blocks whose bodies hold no `#`. -/
theorem slideBlocks_docTail (segs : List (List Char × List Char))
    (h : ∀ p ∈ segs, p.1 ≠ [] ∧ (∀ c ∈ p.1, Char.isDigit c = true) ∧ '#' ∉ p.2 ∧
      ∃ g G', p.2 = g :: G' ∧ Char.isDigit g = false) :
    slideBlocks (docTail segs) = segs.map fun p => "## Slide ".toList ++ p.1 ++ p.2 := by
  induction segs with
  | nil => rfl
  | cons p segs ih =>
    have hrest : ∀ q ∈ segs, q.1 ≠ [] ∧ (∀ c ∈ q.1, Char.isDigit c = true) ∧ '#' ∉ q.2 ∧
        ∃ g G', q.2 = g :: G' ∧ Char.isDigit g = false :=
      fun q hq => h q (List.mem_cons_of_mem _ hq)
    obtain ⟨hds, hdig, hhash, g, G', hG, hg⟩ := h p (by simp)
    rw [docTail_cons]
    have hr := reSlideHeading_of p.1 p.2 (docTail segs) hds hdig g G' hG hg
    rw [slideBlocks_heading _ _ hr]
    have hd : ("## Slide ".toList ++ p.1 ++ p.2 ++ docTail segs).drop (9 + p.1.length) =
        p.2 ++ docTail segs := by
      have : 9 + p.1.length = ("## Slide ".toList ++ p.1).length := by
        rw [heading_toList]; simp; omega
      rw [this, List.append_assoc, List.drop_left]
    have hu : untilHeading (p.2 ++ docTail segs) = p.2.length :=
      untilHeading_gap _ _ (no_heading_of_not_hash _ _ hhash) (docTail_heading segs hrest)
    rw [hd, hu]
    have hlen : 9 + p.1.length + p.2.length = ("## Slide ".toList ++ p.1 ++ p.2).length := by
      rw [heading_toList]; simp; omega
    rw [hlen, List.take_left, List.drop_left, ih hrest]
    rfl
namespace RenderSlide

theorem jsTrim_prefix (k y : List Char) (a b : Char) (k' : List Char)
    (hk : k = a :: k') (hl : k.getLast? = some b)
    (ha : isJsSpace a = false) (hb : isJsSpace b = false) :
    ∃ y', jsTrim (k ++ y) = k ++ y' := by
  refine ⟨(y.reverse.dropWhile isJsSpace).reverse, ?_⟩
  unfold jsTrim
  have h1 : (k ++ y).dropWhile isJsSpace = k ++ y := by
    rw [hk, List.cons_append, List.dropWhile_cons_of_neg (by simp [ha])]
  rw [h1, List.reverse_append]
  obtain ⟨k₀, rfl⟩ : ∃ k₀, k = k₀ ++ [b] := by
    rcases List.eq_nil_or_concat k with h0 | ⟨k₀, c, rfl⟩
    · rw [h0] at hk; cases hk
    · rw [List.concat_eq_append, List.getLast?_concat] at hl
      simp only [Option.some.injEq] at hl
      exact ⟨k₀, by rw [List.concat_eq_append, hl]⟩
  have h2 : (y.reverse ++ (k₀ ++ [b]).reverse).dropWhile isJsSpace =
      y.reverse.dropWhile isJsSpace ++ (k₀ ++ [b]).reverse := by
    simp only [List.reverse_append, List.reverse_cons, List.reverse_nil, List.nil_append,
      List.singleton_append]
    generalize y.reverse = z
    induction z with
    | nil => simp [List.dropWhile, hb]
    | cons c z ih =>
      by_cases hc : isJsSpace c = true
      · simp only [List.cons_append, List.dropWhile_cons_of_pos hc, ih]
      · simp only [List.cons_append, List.dropWhile_cons_of_neg hc]
  rw [h2, List.reverse_append, List.reverse_reverse]

set_option maxHeartbeats 1000000 in
theorem parseLine_id (st : PState) (y : List Char) :
    ∃ st', parseLine st ("id:".toList ++ y) = .ok st' ∧ sameLists st st' := by
  simp [parseLine, startsWith, List.isPrefixOf, sameLists, Slide.lists]

set_option maxHeartbeats 1000000 in
theorem parseLine_contentType (st : PState) (y : List Char) (hq : Quiet st) :
    ∃ st', parseLine st ("contentType:".toList ++ y) = .ok st' ∧ sameLists st st' := by
  obtain ⟨hcc, hca | hca | hca⟩ := hq <;>
    simp [parseLine, startsWith, List.isPrefixOf, sameLists, Slide.lists, hca]

end RenderSlide
namespace RenderSlide

theorem stripQuotes_quoted (x : List Char) : stripQuotes ('"' :: (x ++ ['"'])) = x := by
  simp [stripQuotes, isQuote]

theorem includes_colon (s : List Char) (h : ':' ∉ s) : includes ":" s = false := by
  induction s with
  | nil => decide
  | cons c s ih =>
    have hne : ':' ≠ c := fun h' => h (h' ▸ List.mem_cons_self _ _)
    have hs : ':' ∉ s := fun h' => h (List.mem_cons_of_mem _ h')
    have e : ":".toList = [':'] := by decide
    simp only [includes, e, List.isPrefixOf, ih hs]
    simp [hne]

theorem jsTrim_quoted_line (k x : List Char) (a : Char) (k' : List Char) (hk : k = a :: k')
    (ha : isJsSpace a = false) : jsTrim (k ++ x ++ ['"']) = k ++ x ++ ['"'] := by
  subst hk
  unfold jsTrim
  rw [List.cons_append, List.cons_append, List.dropWhile_cons_of_neg (by simp [ha])]
  have e : (a :: (k' ++ x ++ ['"'])).reverse = '"' :: (a :: (k' ++ x)).reverse := by simp
  rw [e, List.dropWhile_cons_of_neg (by decide), ← e, List.reverse_reverse]

theorem jsTrim_item (b : List Char) :
    jsTrim ("  - \"".toList ++ b ++ "\"".toList) = "- \"".toList ++ b ++ ['"'] := by
  simp [jsTrim, isJsSpace]

set_option maxHeartbeats 1000000 in
theorem parseLine_type (st : PState) (y : List Char) (hq : Quiet st) :
    ∃ st', parseLine st ("type:".toList ++ y) = .ok st' ∧ sameLists st st' := by
  obtain ⟨hcc, hca | hca | hca⟩ := hq <;>
    simp [parseLine, startsWith, List.isPrefixOf, sameLists, Slide.lists, hca]

set_option maxHeartbeats 1000000 in
theorem parseLine_title (st : PState) (y : List Char) :
    ∃ st', parseLine st ("title:".toList ++ y) = .ok st' ∧ sameLists st st' := by
  simp [parseLine, startsWith, List.isPrefixOf, sameLists, Slide.lists]

set_option maxHeartbeats 1000000 in
theorem parseLine_subtitle (st : PState) (y : List Char) :
    ∃ st', parseLine st ("subtitle:".toList ++ y) = .ok st' ∧ sameLists st st' := by
  simp [parseLine, startsWith, List.isPrefixOf, sameLists, Slide.lists]

set_option maxHeartbeats 1000000 in
theorem parseLine_recommended (st : PState) (y : List Char) (hq : Quiet st) :
    ∃ st', parseLine st ("recommendedVisuals:".toList ++ y) = .ok st' ∧ sameLists st st' := by
  obtain ⟨hcc, hca | hca | hca⟩ := hq <;>
    simp [parseLine, startsWith, List.isPrefixOf, sameLists, Slide.lists, hca]

set_option maxHeartbeats 1000000 in
theorem parseLine_bullets (st : PState) :
    parseLine st "bullets:".toList = .ok (openList { st.slide with bullets := some [] } .bullets) := by
  simp [parseLine, startsWith, List.isPrefixOf]

set_option maxHeartbeats 1000000 in
theorem parseLine_leftBullets (st : PState) :
    parseLine st "leftBullets:".toList =
      .ok (openList { st.slide with leftBullets := some [] } .leftBullets) := by
  simp [parseLine, startsWith, List.isPrefixOf]

set_option maxHeartbeats 1000000 in
theorem parseLine_rightBullets (st : PState) :
    parseLine st "rightBullets:".toList =
      .ok (openList { st.slide with rightBullets := some [] } .rightBullets) := by
  simp [parseLine, startsWith, List.isPrefixOf]

set_option maxHeartbeats 1000000 in
theorem parseLine_notes (st : PState) :
    parseLine st "notes: |".toList =
      .ok { st with currentArray := some .notes, currentCard := none } := by
  simp [parseLine, startsWith, List.isPrefixOf]

set_option maxHeartbeats 1000000 in
theorem parseLine_leftTitle (st : PState) (L : List Char) :
    parseLine st ("leftTitle: \"".toList ++ L ++ ['"']) =
      .ok { st with slide := { st.slide with leftTitle := some (String.mk L) } } := by
  have e : quotedAfter "leftTitle:" ("leftTitle: \"".toList ++ L ++ ['"']) = String.mk L := by
    have : jsTrim (' ' :: '"' :: (L ++ ['"'])) = '"' :: (L ++ ['"']) := by
      simp [jsTrim, isJsSpace]
    simp [quotedAfter, valueAfter, removeFirst, List.isPrefixOf, this, stripQuotes_quoted]
  simp [parseLine, startsWith, List.isPrefixOf]
  simpa using e

set_option maxHeartbeats 1000000 in
theorem parseLine_rightTitle (st : PState) (R : List Char) :
    parseLine st ("rightTitle: \"".toList ++ R ++ ['"']) =
      .ok { st with slide := { st.slide with rightTitle := some (String.mk R) } } := by
  have e : quotedAfter "rightTitle:" ("rightTitle: \"".toList ++ R ++ ['"']) = String.mk R := by
    have : jsTrim (' ' :: '"' :: (R ++ ['"'])) = '"' :: (R ++ ['"']) := by
      simp [jsTrim, isJsSpace]
    simp [quotedAfter, valueAfter, removeFirst, List.isPrefixOf, this, stripQuotes_quoted]
  simp [parseLine, startsWith, List.isPrefixOf]
  simpa using e

/-- The value of a quoted list item line. -/
theorem item_value (b : List Char) :
    String.mk (stripQuotes (removeFirst "- ".toList ("- \"".toList ++ b ++ ['"']))) =
      String.mk b := by
  simp [removeFirst, List.isPrefixOf, stripQuotes_quoted]

set_option maxHeartbeats 1000000 in
theorem parseLine_item (st : PState) (b : List Char) (hb : ':' ∉ b)
    (_hcc : st.currentCard = none)
    (hca : st.currentArray = some .bullets ∨ st.currentArray = some .leftBullets ∨
      st.currentArray = some .rightBullets) :
    parseLine st ("- \"".toList ++ b ++ ['"']) = .ok (itemLine st ("- \"".toList ++ b ++ ['"'])) := by
  have hi : includes ":" ('-' :: ' ' :: '"' :: (b ++ ['"'])) = false := by
    apply includes_colon
    simp [hb]
  rcases hca with hca | hca | hca <;>
    simp [parseLine, startsWith, List.isPrefixOf, hca, hi]

end RenderSlide
namespace RenderSlide

theorem okKeeps_ite {st : PState} {c : Prop} [Decidable c] {a b : Except String PState}
    (ha : c → okKeeps st a) (hb : ¬c → okKeeps st b) : okKeeps st (if c then a else b) := by
  split
  · exact ha ‹_›
  · exact hb ‹_›

theorem okKeeps_ok {st st' : PState} (h : st'.wellFormed = true)
    (hl : st'.slide.lists = st.slide.lists) : okKeeps st (.ok st') := ⟨st', rfl, h, hl⟩

theorem okKeeps_of_okWF {st : PState} {r : Except String PState} (h : okWF r)
    (hl : ∀ st', r = .ok st' → st'.slide.lists = st.slide.lists) : okKeeps st r := by
  obtain ⟨st', e, hw⟩ := h
  exact ⟨st', e, hw, hl st' e⟩

theorem withChart_lists (st : PState) (f : ChartData → ChartData) :
    (withChart st f).slide.lists = st.slide.lists := by
  unfold withChart; split <;> rfl

theorem chartLine_lists (st : PState) (t : List Char) :
    (chartLine st t).slide.lists = st.slide.lists := by
  unfold chartLine
  repeat' split
  all_goals first
    | exact withChart_lists st _
    | rfl

theorem segmentLine_lists (st : PState) (t : List Char) :
    (segmentLine st t).slide.lists = st.slide.lists := by
  unfold segmentLine
  repeat' split
  all_goals first
    | exact withChart_lists st _
    | rfl

theorem keyValueLine_lists (st : PState) (t : List Char) :
    (keyValueLine st t).slide.lists = st.slide.lists := by
  unfold keyValueLine
  simp only
  repeat' split
  all_goals rfl

theorem itemLine_notes (st : PState) (t : List Char) (hcc : st.currentCard = none)
    (hca : st.currentArray = some .notes) : itemLine st t = st := by
  unfold itemLine
  simp [hcc, hca]

theorem withVisual_lists (st : PState) (f : Visual → Except String Visual) (st' : PState)
    (h : withVisual st f = .ok st') : st'.slide.lists = st.slide.lists := by
  unfold withVisual at h
  split at h
  · cases hf : f ‹Visual› with
    | error e => simp [hf, Except.map] at h
    | ok v' =>
      simp only [hf, Except.map, Except.ok.injEq] at h
      subst h
      rfl
  · cases h

theorem withVisualData_lists (st : PState) (f : VData → Except String VData) (st' : PState)
    (h : withVisualData st f = .ok st') : st'.slide.lists = st.slide.lists :=
  withVisual_lists st _ st' h

theorem withVisualDataTop_lists (st : PState) (f : VData → Except String VData) (st' : PState)
    (h : withVisualDataTop st f = .ok st') : st'.slide.lists = st.slide.lists := by
  unfold withVisualDataTop at h
  split at h
  · cases hf : f ‹VData› with
    | error e => simp [hf, Except.map] at h
    | ok v' =>
      simp only [hf, Except.map, Except.ok.injEq] at h
      subst h
      rfl
  · cases h

theorem visualLine_lists (st : PState) (t : List Char) (st' : PState)
    (h : visualLine st t = .ok st') : st'.slide.lists = st.slide.lists := by
  unfold visualLine at h
  repeat' split at h
  all_goals first
    | exact withVisual_lists st _ st' h
    | (cases h; rfl)
    | skip
  · cases hv : withVisual st fun v => .ok { v with data := some {} } with
    | error e => simp [hv, Except.map] at h
    | ok st₁ =>
      simp only [hv, Except.map, Except.ok.injEq] at h
      subst h
      exact withVisual_lists st _ st₁ hv

theorem stepsLine_lists (w : PState → (VData → Except String VData) → Except String PState)
    (hw : ∀ st f st', w st f = .ok st' → st'.slide.lists = st.slide.lists)
    (st : PState) (t : List Char) (st' : PState)
    (h : stepsLine w st t = .ok st') : st'.slide.lists = st.slide.lists := by
  unfold stepsLine at h
  repeat' split at h
  all_goals first
    | exact hw st _ st' h
    | (cases h; rfl)

theorem updateTarget_lists (s : Slide) (f : VData → VData) :
    (updateTarget s f).lists = s.lists := by
  unfold updateTarget
  repeat' split
  all_goals rfl

end RenderSlide
namespace RenderSlide

set_option maxHeartbeats 1600000 in
/-- A line that opens none of the compared fields, and is no list item unless it
follows `notes:`, leaves the compared fields as they are. -/
theorem parseLine_keeps (st : PState) (t : List Char) (h : st.wellFormed = true)
    (k1 : startsWith "bullets:" t = false) (k2 : startsWith "leftTitle:" t = false)
    (k3 : startsWith "rightTitle:" t = false) (k4 : startsWith "leftBullets:" t = false)
    (k5 : startsWith "rightBullets:" t = false)
    (hitem : startsWith "- " t = false ∨
      (st.currentCard = none ∧ st.currentArray = some .notes)) :
    okKeeps st (parseLine st t) := by
  unfold parseLine
  simp only
  repeat' (with_reducible apply okKeeps_ite <;> intro _)
  all_goals first
    | (apply okKeeps_ok
       · simp_all [PState.wellFormed, openList]
       · rfl)
    | (exfalso; simp_all; done)
    | exact okKeeps_ok (chartLine_wf st t ‹_›) (chartLine_lists st t)
    | exact okKeeps_ok (segmentLine_wf st t h) (segmentLine_lists st t)
    | exact okKeeps_of_okWF (visualLine_ok st t ‹_› h) (visualLine_lists st t)
    | exact okKeeps_of_okWF (stepsLine_top_ok st t ‹_› h)
        (stepsLine_lists _ withVisualDataTop_lists st t)
    | exact okKeeps_of_okWF (stepsLine_visual_ok st t ‹_› h)
        (stepsLine_lists _ withVisualData_lists st t)
    | exact okKeeps_ok (keyValueLine_wf st t h) (keyValueLine_lists st t)
    | exact okKeeps_ok (updateTarget_steps_wf st ‹_› h) (updateTarget_lists _ _)
    | (exfalso; simp_all [PState.wellFormed]; done)
    | (split <;> (apply okKeeps_ok
                  · simp_all [PState.wellFormed]
                  · rfl))
    | skip
  rcases hitem with hi | ⟨hcc, hca⟩
  · exfalso; simp_all
  · rw [itemLine_notes st t hcc hca]
    exact okKeeps_ok h rfl

end RenderSlide

namespace RenderSlide

theorem parseLines_append (st : PState) (a b : List (List Char)) :
    parseLines st (a ++ b) =
      match parseLines st a with
      | .ok st' => parseLines st' b
      | .error e => .error e := by
  induction a generalizing st with
  | nil => rfl
  | cons l a ih =>
    simp only [List.cons_append, parseLines]
    cases parseLine st (jsTrim l) with
    | error e => rfl
    | ok st' => exact ih st'

theorem mk_toList (s : String) : String.mk s.toList = s := rfl

theorem parseLines_items_bullets (bs : List String) (st : PState) (l : List String)
    (hcc : st.currentCard = none) (hca : st.currentArray = some .bullets)
    (hl : st.slide.bullets = some l) (hb : ∀ b ∈ bs, ':' ∉ b.toList) :
    parseLines st (bs.map ParseContent.itemLine) =
      .ok { st with slide := { st.slide with bullets := some (l ++ bs) } } := by
  induction bs generalizing st l with
  | nil => simp [parseLines, ← hl]
  | cons b bs ih =>
    have hstep : parseLine st (jsTrim (ParseContent.itemLine b)) =
        .ok { st with slide := { st.slide with bullets := some (l ++ [b]) } } := by
      rw [ParseContent.itemLine, jsTrim_item,
        parseLine_item st _ (hb b (by simp)) hcc (Or.inl hca)]
      simp only [itemLine, hcc, hca, hl, item_value, mk_toList]
    have hrest := ih { st with slide := { st.slide with bullets := some (l ++ [b]) } } (l ++ [b])
      hcc hca rfl (fun x hx => hb x (List.mem_cons_of_mem _ hx))
    simp only [List.map_cons, parseLines, hstep]
    simpa using hrest

theorem parseLines_items_left (bs : List String) (st : PState) (l : List String)
    (hcc : st.currentCard = none) (hca : st.currentArray = some .leftBullets)
    (hl : st.slide.leftBullets = some l) (hb : ∀ b ∈ bs, ':' ∉ b.toList) :
    parseLines st (bs.map ParseContent.itemLine) =
      .ok { st with slide := { st.slide with leftBullets := some (l ++ bs) } } := by
  induction bs generalizing st l with
  | nil => simp [parseLines, ← hl]
  | cons b bs ih =>
    have hstep : parseLine st (jsTrim (ParseContent.itemLine b)) =
        .ok { st with slide := { st.slide with leftBullets := some (l ++ [b]) } } := by
      rw [ParseContent.itemLine, jsTrim_item,
        parseLine_item st _ (hb b (by simp)) hcc (Or.inr (Or.inl hca))]
      simp only [itemLine, hcc, hca, hl, item_value, mk_toList]
    have hrest := ih { st with slide := { st.slide with leftBullets := some (l ++ [b]) } } (l ++ [b])
      hcc hca rfl (fun x hx => hb x (List.mem_cons_of_mem _ hx))
    simp only [List.map_cons, parseLines, hstep]
    simpa using hrest

theorem parseLines_items_right (bs : List String) (st : PState) (l : List String)
    (hcc : st.currentCard = none) (hca : st.currentArray = some .rightBullets)
    (hl : st.slide.rightBullets = some l) (hb : ∀ b ∈ bs, ':' ∉ b.toList) :
    parseLines st (bs.map ParseContent.itemLine) =
      .ok { st with slide := { st.slide with rightBullets := some (l ++ bs) } } := by
  induction bs generalizing st l with
  | nil => simp [parseLines, ← hl]
  | cons b bs ih =>
    have hstep : parseLine st (jsTrim (ParseContent.itemLine b)) =
        .ok { st with slide := { st.slide with rightBullets := some (l ++ [b]) } } := by
      rw [ParseContent.itemLine, jsTrim_item,
        parseLine_item st _ (hb b (by simp)) hcc (Or.inr (Or.inr hca))]
      simp only [itemLine, hcc, hca, hl, item_value, mk_toList]
    have hrest := ih { st with slide := { st.slide with rightBullets := some (l ++ [b]) } } (l ++ [b])
      hcc hca rfl (fun x hx => hb x (List.mem_cons_of_mem _ hx))
    simp only [List.map_cons, parseLines, hstep]
    simpa using hrest

end RenderSlide
namespace RenderSlide

theorem sameLists_refl (st : PState) : sameLists st st := ⟨rfl, rfl, rfl⟩

theorem sameLists_trans {a b c : PState} (h1 : sameLists a b) (h2 : sameLists b c) :
    sameLists a c :=
  ⟨h2.1.trans h1.1, h2.2.1.trans h1.2.1, h2.2.2.trans h1.2.2⟩

theorem Quiet_of_sameLists {a b : PState} (h : sameLists a b) (hq : Quiet a) : Quiet b := by
  obtain ⟨h1, h2, _⟩ := h
  unfold Quiet at hq ⊢
  rw [h1, h2]
  exact hq

theorem SameRun_nil (st : PState) : SameRun st [] := ⟨st, rfl, sameLists_refl st⟩

theorem SameRun_cons (st : PState) (l : List Char) (rest : List (List Char))
    (h : ∃ st', parseLine st (jsTrim l) = .ok st' ∧ sameLists st st')
    (hrest : ∀ st', sameLists st st' → SameRun st' rest) : SameRun st (l :: rest) := by
  obtain ⟨st₁, e, hs⟩ := h
  obtain ⟨st₂, e₂, hs₂⟩ := hrest st₁ hs
  exact ⟨st₂, by simp only [parseLines, e, e₂], sameLists_trans hs hs₂⟩

theorem SameRun_append (st : PState) (a b : List (List Char)) (ha : SameRun st a)
    (hb : ∀ st', sameLists st st' → SameRun st' b) : SameRun st (a ++ b) := by
  obtain ⟨st₁, e, hs⟩ := ha
  obtain ⟨st₂, e₂, hs₂⟩ := hb st₁ hs
  exact ⟨st₂, by rw [parseLines_append, e]; exact e₂, sameLists_trans hs hs₂⟩

theorem trimmed_key (st : PState) (k y : List Char) (a b : Char) (k' : List Char)
    (hk : k = a :: k') (hl : k.getLast? = some b)
    (ha : isJsSpace a = false) (hb : isJsSpace b = false)
    (hp : ∀ y', ∃ st', parseLine st (k ++ y') = .ok st' ∧ sameLists st st') :
    ∃ st', parseLine st (jsTrim (k ++ y)) = .ok st' ∧ sameLists st st' := by
  obtain ⟨y', e⟩ := jsTrim_prefix k y a b k' hk hl ha hb
  rw [e]
  exact hp y'

/-- The lines before the lists: id, type, content type, title and subtitle. -/
theorem SameRun_header (st : PState) (hq : Quiet st) (id ty ct ti : List Char)
    (sub : List (List Char))
    (hsub : sub = [] ∨ ∃ s, sub = ["subtitle: \"".toList ++ s ++ "\"".toList]) :
    SameRun st (["id: ".toList ++ id, "type: ".toList ++ ty, "contentType: ".toList ++ ct,
      "title: \"".toList ++ ti ++ "\"".toList] ++ sub) := by
  apply SameRun_append
  · apply SameRun_cons
    · exact trimmed_key st "id:".toList (' ' :: id) 'i' ':' _ rfl (by decide) (by decide)
        (by decide) (parseLine_id st)
    intro st₁ h₁
    have q₁ := Quiet_of_sameLists h₁ hq
    apply SameRun_cons
    · exact trimmed_key st₁ "type:".toList (' ' :: ty) 't' ':' _ rfl (by decide) (by decide)
        (by decide) (fun y' => parseLine_type st₁ y' q₁)
    intro st₂ h₂
    have q₂ := Quiet_of_sameLists h₂ q₁
    apply SameRun_cons
    · exact trimmed_key st₂ "contentType:".toList (' ' :: ct) 'c' ':' _ rfl (by decide)
        (by decide) (by decide) (fun y' => parseLine_contentType st₂ y' q₂)
    intro st₃ h₃
    apply SameRun_cons
    · exact trimmed_key st₃ "title:".toList (' ' :: '"' :: (ti ++ ['"'])) 't' ':' _ rfl
        (by decide) (by decide) (by decide) (parseLine_title st₃)
    intro st₄ _
    exact SameRun_nil st₄
  · intro st₁ _
    rcases hsub with rfl | ⟨s, rfl⟩
    · exact SameRun_nil st₁
    · apply SameRun_cons
      · exact trimmed_key st₁ "subtitle:".toList (' ' :: '"' :: (s ++ ['"'])) 's' ':' _ rfl
          (by decide) (by decide) (by decide) (parseLine_subtitle st₁)
      intro st₂ _
      exact SameRun_nil st₂

end RenderSlide
namespace RenderSlide

theorem wellFormed_of_Quiet {st : PState} (hq : Quiet st) : st.wellFormed = true := by
  obtain ⟨_, h | h | h⟩ := hq <;> simp [PState.wellFormed, h]

/-- The `bullets:` line and its items. -/
theorem run_bullets (st : PState) (bs : List String) (hb : ∀ b ∈ bs, ':' ∉ b.toList) :
    ∃ st', parseLines st ("bullets:".toList :: bs.map ParseContent.itemLine) = .ok st' ∧
      st'.currentCard = none ∧ st'.currentArray = some .bullets ∧
      st'.slide.lists = (some bs, st.slide.leftTitle, st.slide.leftBullets, st.slide.rightTitle,
        st.slide.rightBullets) := by
  have h1 : parseLine st (jsTrim "bullets:".toList) =
      .ok (openList { st.slide with bullets := some [] } .bullets) := by
    have : jsTrim "bullets:".toList = "bullets:".toList := by decide
    rw [this, parseLine_bullets]
  have h2 := parseLines_items_bullets bs (openList { st.slide with bullets := some [] } .bullets)
    [] rfl rfl rfl hb
  refine ⟨_, by simp only [parseLines, h1]; exact h2, rfl, rfl, ?_⟩
  simp [Slide.lists, openList]

/-- The lines of the left and right fields. -/
theorem run_leftRight (st : PState) (L R : List Char) (lb rb : List String)
    (hlb : ∀ b ∈ lb, ':' ∉ b.toList) (hrb : ∀ b ∈ rb, ':' ∉ b.toList) :
    ∃ st', parseLines st
        (["leftTitle: \"".toList ++ L ++ "\"".toList, "leftBullets:".toList] ++
          lb.map ParseContent.itemLine ++
          ["rightTitle: \"".toList ++ R ++ "\"".toList, "rightBullets:".toList] ++
          rb.map ParseContent.itemLine) = .ok st' ∧
      st'.currentCard = none ∧ st'.currentArray = some .rightBullets ∧
      st'.slide.lists = (st.slide.bullets, some (String.mk L), some lb, some (String.mk R),
        some rb) := by
  have t1 : jsTrim ("leftTitle: \"".toList ++ L ++ "\"".toList) =
      "leftTitle: \"".toList ++ L ++ ['"'] :=
    jsTrim_quoted_line _ L 'l' _ rfl (by decide)
  have t2 : jsTrim "leftBullets:".toList = "leftBullets:".toList := by decide
  have t3 : jsTrim ("rightTitle: \"".toList ++ R ++ "\"".toList) =
      "rightTitle: \"".toList ++ R ++ ['"'] :=
    jsTrim_quoted_line _ R 'r' _ rfl (by decide)
  have t4 : jsTrim "rightBullets:".toList = "rightBullets:".toList := by decide
  let s₁ : Slide := { st.slide with leftTitle := some (String.mk L) }
  let st₂ : PState := openList { s₁ with leftBullets := some [] } .leftBullets
  have h3 := parseLines_items_left lb st₂ [] rfl rfl rfl hlb
  let st₃ : PState := { st₂ with slide := { st₂.slide with leftBullets := some ([] ++ lb) } }
  let st₄ : PState := { st₃ with slide := { st₃.slide with rightTitle := some (String.mk R) } }
  let st₅ : PState := openList { st₄.slide with rightBullets := some [] } .rightBullets
  have h6 := parseLines_items_right rb st₅ [] rfl rfl rfl hrb
  refine ⟨{ st₅ with slide := { st₅.slide with rightBullets := some ([] ++ rb) } },
    ?_, rfl, rfl, ?_⟩
  rotate_left
  · simp [Slide.lists, st₅, st₄, st₃, st₂, s₁, openList]
  · rw [List.append_assoc, List.append_assoc, List.cons_append, List.cons_append,
      List.nil_append]
    simp only [parseLines, t1, parseLine_leftTitle, t2, parseLine_leftBullets]
    rw [parseLines_append]
    show (match parseLines st₂ (lb.map ParseContent.itemLine) with
      | .ok st' => parseLines st' _
      | .error e => .error e) = _
    rw [h3]
    simp only [List.cons_append, List.nil_append, parseLines, t3, parseLine_rightTitle, t4,
      parseLine_rightBullets]
    exact h6

end RenderSlide
namespace RenderSlide

/-- The lines after the lists: the recommended visuals, the notes, and the
empty line the final newline leaves. -/
theorem run_tail (st : PState) (hq : Quiet st) (rv : List (List Char)) (N : List Char)
    (hrv : rv = [] ∨ ∃ x, rv = ["recommendedVisuals: ".toList ++ x])
    (hN : ParseContent.opensList (jsTrim N) = false) :
    ∃ st', parseLines st (rv ++ ["notes: |".toList, "  ".toList ++ N] ++ [[]]) = .ok st' ∧
      st'.slide.lists = st.slide.lists := by
  have hrun : SameRun st rv := by
    rcases hrv with rfl | ⟨x, rfl⟩
    · exact SameRun_nil st
    · apply SameRun_cons
      · exact trimmed_key st "recommendedVisuals:".toList (' ' :: x) 'r' ':' _ rfl (by decide)
          (by decide) (by decide) (fun y' => parseLine_recommended st y' hq)
      intro st₂ _
      exact SameRun_nil st₂
  obtain ⟨st₁, e₁, hs₁⟩ := hrun
  have t1 : jsTrim "notes: |".toList = "notes: |".toList := by decide
  have t2 : jsTrim ("  ".toList ++ N) = jsTrim N := by
    simp [jsTrim, isJsSpace]
  have t3 : jsTrim [] = [] := by decide
  let st₂ : PState := { st₁ with currentArray := some .notes, currentCard := none }
  have hw₂ : st₂.wellFormed = true := rfl
  simp only [ParseContent.opensList, Bool.or_eq_false_iff] at hN
  obtain ⟨⟨⟨⟨k1, k2⟩, k3⟩, k4⟩, k5⟩ := hN
  obtain ⟨st₃, e₃, hw₃, hl₃⟩ := parseLine_keeps st₂ (jsTrim N) hw₂ k1 k2 k3 k4 k5
    (Or.inr ⟨rfl, rfl⟩)
  obtain ⟨st₄, e₄, _, hl₄⟩ := parseLine_keeps st₃ [] hw₃ (by decide) (by decide) (by decide)
    (by decide) (by decide) (Or.inl (by decide))
  refine ⟨st₄, ?_, ?_⟩
  · rw [List.append_assoc, parseLines_append, e₁]
    simp only [List.cons_append, List.nil_append, parseLines, t1, parseLine_notes, t2, t3]
    have e₃' : parseLine { st₁ with currentArray := some .notes, currentCard := none }
        (jsTrim N) = .ok st₃ := e₃
    simp only [e₃', e₄]
  · rw [hl₄, hl₃]
    exact hs₁.2.2

end RenderSlide

namespace ParseContent

theorem plain_append (a b : List Char) : plain (a ++ b) = (plain a && plain b) := by
  simp [plain, List.all_append]

theorem plain_not_mem (s : List Char) (h : plain s = true) :
    '\n' ∉ s ∧ '`' ∉ s ∧ '#' ∉ s := by
  simp only [plain, List.all_eq_true, Bool.and_eq_true, bne_iff_ne, ne_eq] at h
  exact ⟨fun hm => (h _ hm).1.1 rfl, fun hm => (h _ hm).1.2 rfl, fun hm => (h _ hm).2 rfl⟩

theorem plain_joinWith (sep : List Char) (parts : List (List Char)) (hs : plain sep = true)
    (hp : ∀ p ∈ parts, plain p = true) : plain (joinWith sep parts) = true := by
  induction parts with
  | nil => rfl
  | cons a parts ih =>
    cases parts with
    | nil => rw [joinWith_singleton]; exact hp a (by simp)
    | cons b parts =>
      rw [joinWith_cons_cons, plain_append, plain_append, hp a (by simp), hs,
        ih (fun p hp' => hp p (List.mem_cons_of_mem _ hp'))]
      rfl

theorem plain_itemLine (b : String) (h : plain b.toList = true) :
    plain (itemLine b) = true := by
  unfold itemLine
  rw [plain_append, plain_append, h]
  decide

end ParseContent
namespace ParseContent

/-- The shape of a record the round trip is stated for. -/
theorem roundTrips_shape (r : SlideRecord) (h : roundTrips r = true) :
    (truthy r.leftTitle = true ∧ r.bullets = none ∧ ∃ L lb R rb, r.leftTitle = some L ∧
      r.leftBullets = some lb ∧ r.rightTitle = some R ∧ r.rightBullets = some rb) ∨
    (truthy r.leftTitle = false ∧ r.leftTitle = none ∧ r.leftBullets = none ∧
      r.rightTitle = none ∧ r.rightBullets = none) := by
  simp only [roundTrips, Bool.and_eq_true] at h
  obtain ⟨_, hshape⟩ := h
  by_cases ht : truthy r.leftTitle = true
  · left
    rw [if_pos ht] at hshape
    simp only [Bool.and_eq_true, Option.isNone_iff_eq_none, Option.isSome_iff_exists] at hshape
    obtain ⟨⟨⟨hb, lb, hlb⟩, R, hR⟩, rb, hrb⟩ := hshape
    cases hL : r.leftTitle with
    | none => simp [truthy, hL] at ht
    | some L => exact ⟨by rw [← hL]; exact ht, hb, L, lb, R, rb, rfl, hlb, hR, hrb⟩
  · right
    rw [if_neg ht] at hshape
    simp only [Bool.and_eq_true, Option.isNone_iff_eq_none] at hshape
    obtain ⟨⟨⟨h1, h2⟩, h3⟩, h4⟩ := hshape
    exact ⟨by simpa using ht, h1, h2, h3, h4⟩

theorem plainItems_colon (l : Option (List String)) (bs : List String) (hl : l = some bs)
    (h : plainItems l = true) : ∀ b ∈ bs, ':' ∉ b.toList := by
  subst hl
  simp only [plainItems, Option.getD_some, List.all_eq_true, Bool.and_eq_true, bne_iff_ne,
    ne_eq] at h
  intro b hb hm
  exact (h b hb).2 _ hm rfl

theorem plainItems_plain (l : Option (List String)) (bs : List String) (hl : l = some bs)
    (h : plainItems l = true) : ∀ b ∈ bs, plain b.toList = true := by
  subst hl
  simp only [plainItems, Option.getD_some, List.all_eq_true, Bool.and_eq_true] at h
  intro b hb
  exact (h b hb).1

end ParseContent

namespace RenderSlide

open ParseContent in
/-- The lines of a generated slide, parsed from the initial state, give the
compared fields of the record. -/
theorem run_yamlLines (r : SlideRecord) (h : roundTrips r = true) (st : PState)
    (hcc : st.currentCard = none) (hca : st.currentArray = none)
    (hl : st.slide.lists = (none, none, none, none, none)) :
    ∃ st', parseLines st (yamlLines r ++ [[]]) = .ok st' ∧ sameFields r st'.slide := by
  have hshape := roundTrips_shape r h
  simp only [roundTrips, Bool.and_eq_true, Bool.not_eq_true'] at h
  obtain ⟨⟨⟨⟨⟨⟨⟨⟨⟨⟨⟨⟨⟨hid, _⟩, _⟩, _⟩, _⟩, hbul⟩, _⟩, hlb⟩, _⟩, hrb⟩, _⟩, _⟩, hN⟩, _⟩ := h
  -- the header
  have hsub : (if truthy r.subtitle then
      ["subtitle: \"".toList ++ templateText r.subtitle ++ "\"".toList] else []) = [] ∨
      ∃ s, (if truthy r.subtitle then
        ["subtitle: \"".toList ++ templateText r.subtitle ++ "\"".toList] else []) =
        ["subtitle: \"".toList ++ s ++ "\"".toList] := by
    by_cases hs : truthy r.subtitle = true
    · right; exact ⟨_, by rw [if_pos hs]⟩
    · left; rw [if_neg hs]
  obtain ⟨st₁, e₁, hs₁⟩ := SameRun_header st ⟨hcc, Or.inl hca⟩ r.id.toList r.type.toList
    (if truthy r.contentType then templateText r.contentType else "statement".toList)
    r.title.toList _ hsub
  have hcc₁ : st₁.currentCard = none := hs₁.1.trans hcc
  have hca₁ : st₁.currentArray = none := hs₁.2.1.trans hca
  have hl₁ : st₁.slide.lists = (none, none, none, none, none) := hs₁.2.2.trans hl
  have hrv : (match r.recommendedVisuals with
      | some vs =>
        if vs.length > 0 then
          ["recommendedVisuals: ".toList ++ joinWith ", ".toList (vs.map String.toList)]
        else []
      | none => []) = [] ∨ ∃ x, (match r.recommendedVisuals with
      | some vs =>
        if vs.length > 0 then
          ["recommendedVisuals: ".toList ++ joinWith ", ".toList (vs.map String.toList)]
        else []
      | none => []) = ["recommendedVisuals: ".toList ++ x] := by
    cases r.recommendedVisuals with
    | none => left; rfl
    | some vs =>
      by_cases hv : vs.length > 0
      · right
        exact ⟨joinWith ", ".toList (vs.map String.toList), by simp only [if_pos hv]⟩
      · left; simp only [if_neg hv]
  have hN' : opensList (jsTrim (if truthy r.notes then templateText r.notes
      else "[请补充口播备注]".toList)) = false := hN
  simp only [Slide.lists, Prod.mk.injEq] at hl₁
  obtain ⟨b₁, lt₁, lb₁, rt₁, rb₁⟩ := hl₁
  rcases hshape with ⟨ht, hb, L, lb, R, rb, hL, hLB, hR, hRB⟩ | ⟨ht, hL, hLB, hR, hRB⟩
  · -- left and right fields
    obtain ⟨st₂, e₂, hcc₂, hca₂, hl₂⟩ := run_leftRight st₁ L.toList R.toList lb rb
      (plainItems_colon _ lb hLB hlb) (plainItems_colon _ rb hRB hrb)
    obtain ⟨st₃, e₃, hl₃⟩ := run_tail st₂ ⟨hcc₂, Or.inr (Or.inr hca₂)⟩ _ _ hrv hN'
    refine ⟨st₃, ?_, ?_⟩
    · have ht' : truthy (some L) = true := hL ▸ ht
      have hdecomp : yamlLines r ++ [[]] = _ ++ (_ ++ _) :=
        (by unfold yamlLines
            simp [ht, ht', hb, hL, hLB, hR, hRB, templateText] :
          yamlLines r ++ [[]] =
            (["id: ".toList ++ r.id.toList, "type: ".toList ++ r.type.toList,
              "contentType: ".toList ++
                (if truthy r.contentType then templateText r.contentType
                 else "statement".toList),
              "title: \"".toList ++ r.title.toList ++ "\"".toList] ++
              (if truthy r.subtitle then
                ["subtitle: \"".toList ++ templateText r.subtitle ++ "\"".toList] else [])) ++
            ((["leftTitle: \"".toList ++ L.toList ++ "\"".toList, "leftBullets:".toList] ++
                lb.map ParseContent.itemLine ++
                ["rightTitle: \"".toList ++ R.toList ++ "\"".toList, "rightBullets:".toList] ++
                rb.map ParseContent.itemLine) ++
              ((match r.recommendedVisuals with
                | some vs =>
                  if vs.length > 0 then
                    ["recommendedVisuals: ".toList ++
                      joinWith ", ".toList (vs.map String.toList)]
                  else []
                | none => []) ++
                ["notes: |".toList, "  ".toList ++
                  (if truthy r.notes then templateText r.notes
                   else "[请补充口播备注]".toList)] ++ [[]])))
      rw [hdecomp, parseLines_append, e₁]
      simp only
      rw [parseLines_append, e₂]
      exact e₃
    · simp only [Slide.lists, Prod.mk.injEq] at hl₂ hl₃
      obtain ⟨a₁, a₂, a₃, a₄, a₅⟩ := hl₃
      obtain ⟨c₁, c₂, c₃, c₄, c₅⟩ := hl₂
      refine ⟨?_, ?_, ?_, ?_, ?_⟩
      · rw [a₁, c₁, b₁, hb]
      · rw [a₂, c₂, hL]; rfl
      · rw [a₃, c₃, hLB]
      · rw [a₄, c₄, hR]; rfl
      · rw [a₅, c₅, hRB]
  · cases hB : r.bullets with
    | some bs =>
      obtain ⟨st₂, e₂, hcc₂, hca₂, hl₂⟩ := run_bullets st₁ bs (plainItems_colon _ bs hB hbul)
      obtain ⟨st₃, e₃, hl₃⟩ := run_tail st₂ ⟨hcc₂, Or.inr (Or.inl hca₂)⟩ _ _ hrv hN'
      refine ⟨st₃, ?_, ?_⟩
      · have ht' : truthy (none : Option String) = false := hL ▸ ht
        have hdecomp : yamlLines r ++ [[]] = _ ++ (_ ++ _) :=
          (by unfold yamlLines
              simp [ht, ht', hB, hL, hLB, hR, hRB, templateText] :
            yamlLines r ++ [[]] =
            (["id: ".toList ++ r.id.toList, "type: ".toList ++ r.type.toList,
              "contentType: ".toList ++
                (if truthy r.contentType then templateText r.contentType
                 else "statement".toList),
              "title: \"".toList ++ r.title.toList ++ "\"".toList] ++
              (if truthy r.subtitle then
                ["subtitle: \"".toList ++ templateText r.subtitle ++ "\"".toList] else [])) ++
              (("bullets:".toList :: bs.map ParseContent.itemLine) ++
              ((match r.recommendedVisuals with
                | some vs =>
                  if vs.length > 0 then
                    ["recommendedVisuals: ".toList ++
                      joinWith ", ".toList (vs.map String.toList)]
                  else []
                | none => []) ++
                ["notes: |".toList, "  ".toList ++
                  (if truthy r.notes then templateText r.notes
                   else "[请补充口播备注]".toList)] ++ [[]])))
        rw [hdecomp, parseLines_append, e₁]
        simp only
        rw [parseLines_append, e₂]
        exact e₃
      · simp only [Slide.lists, Prod.mk.injEq] at hl₂ hl₃
        obtain ⟨a₁, a₂, a₃, a₄, a₅⟩ := hl₃
        obtain ⟨c₁, c₂, c₃, c₄, c₅⟩ := hl₂
        refine ⟨?_, ?_, ?_, ?_, ?_⟩
        · rw [a₁, c₁, hB]
        · rw [a₂, c₂, lt₁, hL]
        · rw [a₃, c₃, lb₁, hLB]
        · rw [a₄, c₄, rt₁, hR]
        · rw [a₅, c₅, rb₁, hRB]
    | none =>
      obtain ⟨st₃, e₃, hl₃⟩ := run_tail st₁ ⟨hcc₁, Or.inl hca₁⟩ _ _ hrv hN'
      refine ⟨st₃, ?_, ?_⟩
      · have ht' : truthy (none : Option String) = false := hL ▸ ht
        have hdecomp : yamlLines r ++ [[]] = _ ++ _ :=
          (by unfold yamlLines
              simp [ht, ht', hB, hL, hLB, hR, hRB, templateText] :
            yamlLines r ++ [[]] =
            (["id: ".toList ++ r.id.toList, "type: ".toList ++ r.type.toList,
              "contentType: ".toList ++
                (if truthy r.contentType then templateText r.contentType
                 else "statement".toList),
              "title: \"".toList ++ r.title.toList ++ "\"".toList] ++
              (if truthy r.subtitle then
                ["subtitle: \"".toList ++ templateText r.subtitle ++ "\"".toList] else [])) ++
              ((match r.recommendedVisuals with
                | some vs =>
                  if vs.length > 0 then
                    ["recommendedVisuals: ".toList ++
                      joinWith ", ".toList (vs.map String.toList)]
                  else []
                | none => []) ++
                ["notes: |".toList, "  ".toList ++
                  (if truthy r.notes then templateText r.notes
                   else "[请补充口播备注]".toList)] ++ [[]]))
        rw [hdecomp, parseLines_append, e₁]
        exact e₃
      · simp only [Slide.lists, Prod.mk.injEq] at hl₃
        obtain ⟨a₁, a₂, a₃, a₄, a₅⟩ := hl₃
        refine ⟨?_, ?_, ?_, ?_, ?_⟩
        · rw [a₁, b₁, hB]
        · rw [a₂, lt₁, hL]
        · rw [a₃, lb₁, hLB]
        · rw [a₄, rt₁, hR]
        · rw [a₅, rb₁, hRB]

end RenderSlide
namespace ParseContent

theorem plain_templateText (s : Option String) (h : plainOpt s = true) :
    plain (templateText s) = true := by
  cases s with
  | none => decide
  | some t => exact h

theorem plain_items (l : Option (List String)) (h : plainItems l = true) :
    ∀ x ∈ (l.getD []).map itemLine, plain x = true := by
  intro x hx
  obtain ⟨b, hb, rfl⟩ := List.mem_map.1 hx
  apply plain_itemLine
  simp only [plainItems, List.all_eq_true, Bool.and_eq_true] at h
  exact (h b hb).1

/-- Every line of a generated slide is one line without backtick or `#`. -/
theorem yamlLines_plain (r : SlideRecord) (h : roundTrips r = true) :
    ∀ l ∈ yamlLines r, plain l = true := by
  have hshape := roundTrips_shape r h
  simp only [roundTrips, Bool.and_eq_true, Bool.not_eq_true'] at h
  obtain ⟨⟨⟨⟨⟨⟨⟨⟨⟨⟨⟨⟨⟨hid, hty⟩, hct⟩, hti⟩, hsu⟩, hbul⟩, hlt⟩, hlb⟩, hrt⟩, hrb⟩, hrv⟩, hno⟩, _⟩,
    _⟩ := h
  have pid : plain r.id.toList = true := by
    unfold numberedId at hid
    split at hid
    · rename_i d ds e
      rw [e]
      simp only [plain, List.all_cons, Bool.and_eq_true, List.all_eq_true] at hid ⊢
      refine ⟨by decide, ?_, ?_⟩
      · have := hid.1
        simp only [bne_iff_ne, ne_eq]
        refine ⟨⟨?_, ?_⟩, ?_⟩ <;> (rintro rfl; revert this; decide)
      · intro c hc
        have := hid.2 c hc
        simp only [bne_iff_ne, ne_eq]
        refine ⟨⟨?_, ?_⟩, ?_⟩ <;> (rintro rfl; revert this; decide)
    · cases hid
  intro l hl
  unfold yamlLines at hl
  simp only [List.mem_append, List.mem_cons, List.mem_singleton, List.not_mem_nil,
    or_false] at hl
  rcases hl with ((((hl | hl) | hl) | hl) | hl) | hl
  · rcases hl with rfl | rfl | rfl | rfl
    · rw [plain_append, pid]; decide
    · rw [plain_append, hty]; decide
    · rw [plain_append]
      split
      · rw [plain_templateText _ hct]; decide
      · decide
    · rw [plain_append, plain_append, hti]; decide
  · split at hl
    · simp only [List.mem_singleton] at hl
      rw [hl, plain_append, plain_append, plain_templateText _ hsu]; decide
    · cases hl
  · split at hl
    · rename_i bs hB
      split at hl
      · rcases List.mem_cons.1 hl with rfl | hl
        · decide
        · have := plain_items r.bullets hbul
          rw [hB] at this
          exact this l hl
      · cases hl
    · cases hl
  · split at hl
    · simp only [List.mem_append, List.mem_cons, List.mem_singleton, List.not_mem_nil,
        or_false] at hl
      rcases hl with (((hl | hl) | hl) | hl)
      · rcases hl with rfl | rfl
        · rw [plain_append, plain_append, plain_templateText _ hlt]; decide
        · decide
      · exact plain_items r.leftBullets hlb l hl
      · rcases hl with rfl | rfl
        · rw [plain_append, plain_append, plain_templateText _ hrt]; decide
        · decide
      · exact plain_items r.rightBullets hrb l hl
    · cases hl
  · split at hl
    · rename_i vs hV
      split at hl
      · simp only [List.mem_singleton] at hl
        rw [hl, plain_append]
        have : plain (joinWith ", ".toList (vs.map String.toList)) = true := by
          apply plain_joinWith _ _ (by decide)
          intro p hp
          obtain ⟨v, hv, rfl⟩ := List.mem_map.1 hp
          rw [hV] at hrv
          simp only [Option.getD_some, List.all_eq_true] at hrv
          exact hrv v hv
        rw [this]; decide
      · cases hl
    · cases hl
  · rcases hl with rfl | rfl
    · decide
    · rw [plain_append]
      split
      · rw [plain_templateText _ hno]; decide
      · decide

end ParseContent
namespace RenderSlide

open ParseContent in
/-- A generated slide block, followed by any text, parses to a slide with the
compared fields of the record. -/
theorem parseSlide_generated (r : SlideRecord) (h : roundTrips r = true) (E : List Char)
    (index : Nat) :
    ∃ s, parseSlide (slideText r ++ E) index = .ok (some s) ∧ sameFields r s := by
  have hplain := yamlLines_plain r h
  have hne : yamlLines r ≠ [] := by
    unfold yamlLines
    simp
  have hid : ∃ d ds, r.id.toList = 's' :: d :: ds ∧ ∀ c ∈ d :: ds, Char.isDigit c = true := by
    simp only [roundTrips, Bool.and_eq_true] at h
    have hid := h.1.1.1.1.1.1.1.1.1.1.1.1.1
    unfold numberedId at hid
    split at hid
    · rename_i d ds e
      exact ⟨d, ds, e, by simpa using hid⟩
    · cases hid
  obtain ⟨d, ds, eid, hdig⟩ := hid
  have hY : joinWith "\n".toList (yamlLines r) ++ ['\n'] =
      (yamlLines r).flatMap fun l => l ++ ['\n'] := joinWith_lines _ hne
  have hdec : slideText r ++ E =
      ("## Slide ".toList ++ (d :: ds) ++ "\n\n".toList) ++ "```yaml\n".toList ++
        ((yamlLines r).flatMap fun l => l ++ ['\n']) ++ "```".toList ++ E := by
    rw [← hY]
    unfold slideText
    rw [eid]
    simp [removeFirst, List.isPrefixOf]
  have hH : '`' ∉ "## Slide ".toList ++ (d :: ds) ++ "\n\n".toList := by
    simp only [List.mem_append, not_or]
    refine ⟨⟨by decide, ?_⟩, by decide⟩
    intro hm
    have := hdig _ hm
    revert this
    decide
  have hYt : '`' ∉ (yamlLines r).flatMap fun l => l ++ ['\n'] := by
    simp only [List.mem_flatMap, List.mem_append, List.mem_singleton, not_exists, not_and,
      not_or]
    intro l hl
    exact ⟨(plain_not_mem l (hplain l hl)).2.1, by decide⟩
  have hsplit := splitOn_lines (yamlLines r) (fun l hl => (plain_not_mem l (hplain l hl)).1)
  obtain ⟨st', e, hs⟩ := run_yamlLines r h
    { slide := { id := "s" ++ pad2 (index + 1), index := index + 1 } } rfl rfl rfl
  refine ⟨st'.slide, ?_, hs⟩
  unfold parseSlide
  rw [hdec, yamlGroup_block _ _ _ hH hYt]
  simp only [hsplit, e]

/-- The blocks are parsed in order, each to a slide with the compared fields
of its record. -/
theorem parseSlides_generated (pairs : List (ParseContent.SlideRecord × List Char))
    (h : ∀ p ∈ pairs, ParseContent.roundTrips p.1 = true) (index : Nat) :
    ∃ parsed, parseSlides (pairs.map fun p => ParseContent.slideText p.1 ++ p.2) index =
        .ok parsed ∧
      List.Forall₂ ParseContent.sameFields (pairs.map Prod.fst) parsed := by
  induction pairs generalizing index with
  | nil => exact ⟨[], rfl, List.Forall₂.nil⟩
  | cons p pairs ih =>
    obtain ⟨s, e, hs⟩ := parseSlide_generated p.1 (h p (by simp)) p.2 index
    obtain ⟨parsed, e', hp⟩ := ih (fun q hq => h q (List.mem_cons_of_mem _ hq)) (index + 1)
    refine ⟨s :: parsed, ?_, List.Forall₂.cons hs hp⟩
    simp only [List.map_cons, parseSlides, e, e']

end RenderSlide
namespace ParseContent

theorem withSeps_fst (slides : List SlideRecord) : (withSeps slides).map Prod.fst = slides := by
  induction slides with
  | nil => rfl
  | cons r rs ih =>
    cases rs with
    | nil => rfl
    | cons r' rs => simp only [withSeps, List.map_cons, ih]

theorem withSeps_mem (slides : List SlideRecord) (p : SlideRecord × List Char)
    (h : p ∈ withSeps slides) : p.1 ∈ slides ∧ (p.2 = "\n".toList ∨ p.2 = "\n\n".toList) := by
  induction slides with
  | nil => simp [withSeps] at h
  | cons r rs ih =>
    cases rs with
    | nil =>
      simp only [withSeps, List.mem_singleton] at h
      subst h
      exact ⟨by simp, Or.inl rfl⟩
    | cons r' rs =>
      simp only [withSeps, List.mem_cons] at h
      rcases h with rfl | h
      · exact ⟨by simp, Or.inr rfl⟩
      · obtain ⟨h1, h2⟩ := ih (by simpa [withSeps] using h)
        exact ⟨List.mem_cons_of_mem _ h1, h2⟩

theorem slides_text (slides : List SlideRecord) (h : slides ≠ []) :
    joinWith "\n\n".toList (slides.map slideText) ++ "\n".toList =
      (withSeps slides).flatMap fun p => slideText p.1 ++ p.2 := by
  induction slides with
  | nil => exact absurd rfl h
  | cons r rs ih =>
    cases rs with
    | nil => simp [withSeps, joinWith_singleton]
    | cons r' rs =>
      have := ih (by simp)
      simp only [List.map_cons] at this
      simp only [List.map_cons, withSeps, List.flatMap_cons, joinWith_cons_cons,
        List.append_assoc, this]

/-- The front matter as the text up to the fixed sections, and these. -/
theorem frontMatterText_eq (title lang : String) :
    frontMatterText title lang =
      ("---\ntitle: \"".toList ++ title.toList ++ "\"\nlanguage: \"".toList ++ lang.toList ++
        "\"\naspect: \"16:9\"\ntheme: \"auto\"\ndefaultSlideSeconds: 6\n---\n\n".toList) ++
      ("# Goal\n\n- [自动生成：请补充本期目标]\n- [自动生成：请补充受众]\n\n# Data Files\n\n".toList ++
        "[如需引用数据文件，请在此列出]\n\n# Slides\n".toList) := by
  simp [frontMatterText, joinWith, List.intercalate, List.intersperse]

theorem frontMatter_no_heading (title lang : String) (ht : '#' ∉ title.toList)
    (hl : '#' ∉ lang.toList) (X : List Char) (i : Nat)
    (hi : i < (frontMatterText title lang).length) :
    headingAt ((frontMatterText title lang).drop i ++ X) = false := by
  rw [frontMatterText_eq] at hi ⊢
  generalize hQ : "---\ntitle: \"".toList ++ title.toList ++ "\"\nlanguage: \"".toList ++
    lang.toList ++
    "\"\naspect: \"16:9\"\ntheme: \"auto\"\ndefaultSlideSeconds: 6\n---\n\n".toList = Q at hi ⊢
  generalize hP : "# Goal\n\n- [自动生成：请补充本期目标]\n- [自动生成：请补充受众]\n\n# Data Files\n\n".toList ++
    "[如需引用数据文件，请在此列出]\n\n# Slides\n".toList = P at hi ⊢
  have hQh : '#' ∉ Q := by
    rw [← hQ]
    simp only [List.mem_append, not_or]
    exact ⟨⟨⟨⟨by decide, ht⟩, by decide⟩, hl⟩, by decide⟩
  have hPn : noHH P = true := by rw [← hP]; decide
  have hPl : P.getLast? ≠ some '#' := by rw [← hP]; decide
  by_cases hiQ : i < Q.length
  · rw [List.drop_append_of_le_length (by omega), List.append_assoc]
    exact no_heading_of_not_hash Q (P ++ X) hQh i hiQ
  · have e : (Q ++ P).drop i = P.drop (i - Q.length) := by
      rw [List.drop_append_eq_append_drop]
      have : Q.drop i = [] := List.drop_eq_nil_of_le (by omega)
      rw [this, List.nil_append]
    rw [e]
    exact no_heading_of_noHH P X hPn hPl _ (by simp only [List.length_append] at hi; omega)

end ParseContent
namespace ParseContent

theorem segOf_text (p : SlideRecord × List Char) :
    "## Slide ".toList ++ (segOf p).1 ++ (segOf p).2 = slideText p.1 ++ p.2 := by
  simp [segOf, slideText]

theorem not_mem_joinWith (c : Char) (sep : List Char) (parts : List (List Char))
    (hs : c ∉ sep) (hp : ∀ p ∈ parts, c ∉ p) : c ∉ joinWith sep parts := by
  induction parts with
  | nil => simp [joinWith, List.intercalate, List.intersperse]
  | cons a parts ih =>
    cases parts with
    | nil => rw [joinWith_singleton]; exact hp a (by simp)
    | cons b parts =>
      rw [joinWith_cons_cons]
      simp only [List.mem_append, not_or]
      exact ⟨⟨hp a (by simp), hs⟩, ih (fun p hp' => hp p (List.mem_cons_of_mem _ hp'))⟩

theorem segOf_ok (p : SlideRecord × List Char) (h : roundTrips p.1 = true)
    (hsep : p.2 = "\n".toList ∨ p.2 = "\n\n".toList) :
    (segOf p).1 ≠ [] ∧ (∀ c ∈ (segOf p).1, Char.isDigit c = true) ∧ '#' ∉ (segOf p).2 ∧
      ∃ g G', (segOf p).2 = g :: G' ∧ Char.isDigit g = false := by
  have hplain := yamlLines_plain p.1 h
  have hid : ∃ d ds, p.1.id.toList = 's' :: d :: ds ∧ ∀ c ∈ d :: ds, Char.isDigit c = true := by
    simp only [roundTrips, Bool.and_eq_true] at h
    have hid := h.1.1.1.1.1.1.1.1.1.1.1.1.1
    unfold numberedId at hid
    split at hid
    · rename_i d ds e
      exact ⟨d, ds, e, by simpa using hid⟩
    · cases hid
  obtain ⟨d, ds, eid, hdig⟩ := hid
  have e1 : (segOf p).1 = d :: ds := by
    show removeFirst "s".toList p.1.id.toList = d :: ds
    rw [eid]
    simp [removeFirst, List.isPrefixOf]
  have hjn : '#' ∉ joinWith "\n".toList (yamlLines p.1) :=
    not_mem_joinWith _ _ _ (by decide) (fun l hl => (plain_not_mem l (hplain l hl)).2.2)
  refine ⟨by rw [e1]; simp, by rw [e1]; exact hdig, ?_, ?_⟩
  · simp only [segOf, List.mem_append, not_or]
    refine ⟨⟨⟨by decide, hjn⟩, by decide⟩, ?_⟩
    rcases hsep with e | e <;> (rw [e]; decide)
  · exact ⟨'\n', _, by simp [segOf]; rfl, by decide⟩

end ParseContent

namespace RenderSlide

open ParseContent in
/-- The slide blocks of a generated script are the generated blocks, each with
the separator that follows it. -/
theorem slideBlocks_generated (title lang : String) (slides : List SlideRecord)
    (ht : '#' ∉ title.toList) (hl : '#' ∉ lang.toList)
    (h : ∀ r ∈ slides, roundTrips r = true) :
    slideBlocks (generateScriptMd title slides lang).toList =
      (withSeps slides).map fun p => slideText p.1 ++ p.2 := by
  have hdoc : (generateScriptMd title slides lang).toList =
      frontMatterText title lang ++
        (joinWith "\n\n".toList (slides.map slideText) ++ "\n".toList) := by
    simp [generateScriptMd]
  rw [hdoc, slideBlocks_skip _ _ (frontMatter_no_heading title lang ht hl _)]
  cases slides with
  | nil => decide
  | cons r rs =>
    rw [slides_text _ (by simp)]
    have hseg : ((withSeps (r :: rs)).flatMap fun p => slideText p.1 ++ p.2) =
        docTail ((withSeps (r :: rs)).map segOf) := by
      unfold docTail
      rw [List.flatMap_map]
      congr 1
      funext p
      exact (segOf_text p).symm
    rw [hseg, slideBlocks_docTail]
    · rw [List.map_map]
      congr 1
      funext p
      exact segOf_text p
    · intro q hq
      obtain ⟨p, hp, rfl⟩ := List.mem_map.1 hq
      obtain ⟨h1, h2⟩ := withSeps_mem _ p hp
      exact segOf_ok p (h p.1 h1) h2

end RenderSlide

namespace ParseContent

/-- C10, amended. For slide records with a numbered id, text fields of one line
without backtick or `#`, list items without colon, notes that do not start with
the key of a compared field, and either all of `leftTitle` (non-empty),
`leftBullets`, `rightTitle`, `rightBullets` and no `bullets`, or none of the
left and right fields: parsing the text `generateScriptMd` produces gives as
many slides as records and, slide by slide in order, the same `bullets`,
`leftTitle`, `leftBullets`, `rightTitle` and `rightBullets`. -/
theorem generate_parse_roundtrip (title lang : String) (slides : List SlideRecord)
    (ht : '#' ∉ title.toList) (hl : '#' ∉ lang.toList)
    (h : ∀ r ∈ slides, roundTrips r = true) :
    ∃ fm parsed, RenderSlide.parseScriptMd (generateScriptMd title slides lang) =
        .ok (fm, parsed) ∧
      List.Forall₂ sameFields slides parsed := by
  have hb := RenderSlide.slideBlocks_generated title lang slides ht hl h
  obtain ⟨parsed, e, hp⟩ := RenderSlide.parseSlides_generated (withSeps slides)
    (fun p hp => h p.1 (withSeps_mem _ p hp).1) 0
  rw [withSeps_fst] at hp
  refine ⟨RenderSlide.parseFrontMatter (generateScriptMd title slides lang).toList, parsed,
    ?_, hp⟩
  unfold RenderSlide.parseScriptMd
  unfold slideBlocks at hb
  rw [hb, e]

end ParseContent

namespace ParseContent

set_option maxRecDepth 100000 in
/-- C10, as stated, fails. A comparison slide as `generateSlides` builds it has
a `leftTitle` and bullets; `generateScriptMd` prints no `bullets:` for a slide
with a `leftTitle`, so the parsed slide has no bullets. -/
theorem roundtrip_drops_bullets :
    comparisonRecord.bullets = some ["并行探索可以同时放大试错的密度"] ∧
    (RenderSlide.parsedSlides (generateScriptMd "对比" [comparisonRecord] "zh")).map
      (fun s => s.bullets) = [none] := by
  decide

theorem generate_parse_roundtrip_witness :
    ∃ fm parsed, RenderSlide.parseScriptMd
        (generateScriptMd "部署" [bulletRecord, leftRightRecord] "zh") = .ok (fm, parsed) ∧
      List.Forall₂ sameFields [bulletRecord, leftRightRecord] parsed :=
  generate_parse_roundtrip "部署" "zh" [bulletRecord, leftRightRecord] (by decide) (by decide)
    (by decide)

end ParseContent

/-! ## Content and slide classification -/

namespace ParseContent

theorem includes_iff_tails (lit : String) (s : List Char) :
    includes lit s = true ↔ ∃ t ∈ s.tails, lit.toList.isPrefixOf t = true := by
  induction s with
  | nil => simp [includes]
  | cons c rest ih => simp [includes, ih]

theorem includes_iff_occurrences (lit text : String) :
    includes lit text.toList = true ↔ 0 < occurrences lit text := by
  rw [includes_iff_tails, occurrences, List.length_pos_iff_exists_mem]
  simp [List.mem_filter]

theorem foldl_count_eq (f : String → Nat) (patterns : List String) (n : Nat) :
    patterns.foldl (fun score pattern => score + f pattern) n = n + (patterns.map f).sum := by
  induction patterns generalizing n with
  | nil => simp
  | cons p rest ih => simp [ih, Nat.add_assoc]

/-- The score of a tag is the number of its keywords that occur in the text,
each counted once. -/
theorem patternScore_eq (toLowerCase : String → String) (lowerText : String)
    (patterns : List String) :
    patternScore toLowerCase lowerText patterns =
      (patterns.map fun p => min 1 (occurrences (toLowerCase p) lowerText)).sum := by
  unfold patternScore
  rw [foldl_count_eq, Nat.zero_add]
  congr 1
  apply List.map_congr_left
  intro p _
  by_cases h : includes (toLowerCase p) lowerText.toList = true
  · have := (includes_iff_occurrences _ _).1 h
    simp only [h, if_true]
    omega
  · have : ¬ 0 < occurrences (toLowerCase p) lowerText := fun h' =>
      h ((includes_iff_occurrences _ _).2 h')
    simp only [h]
    simp only [Bool.false_eq_true, if_false]
    omega

/-- The running maximum of `maxType` from `acc`: it stays `acc` when no entry
beats it, and is otherwise the first entry with the highest score. -/
theorem foldl_max_spec (l : List (String × Nat)) (acc : String × Nat) :
    (l.foldl (fun max e => if e.2 > max.2 then e else max) acc = acc ∧ ∀ x ∈ l, x.2 ≤ acc.2) ∨
    ∃ pre e post, l = pre ++ e :: post ∧
      l.foldl (fun max e => if e.2 > max.2 then e else max) acc = e ∧ acc.2 < e.2 ∧
      (∀ x ∈ pre, x.2 < e.2) ∧ ∀ x ∈ post, x.2 ≤ e.2 := by
  induction l generalizing acc with
  | nil => left; simp
  | cons a rest ih =>
    simp only [List.foldl_cons]
    by_cases h : a.2 > acc.2
    · simp only [h, if_true]
      rcases ih a with ⟨e1, e2⟩ | ⟨pre, e, post, e1, e2, e3, e4, e5⟩
      · right
        exact ⟨[], a, rest, rfl, e1, h, by simp, e2⟩
      · right
        refine ⟨a :: pre, e, post, by rw [e1]; rfl, e2, by omega, ?_, e5⟩
        intro x hx
        rcases List.mem_cons.1 hx with rfl | hx
        · exact e3
        · exact e4 x hx
    · simp only [h, if_false]
      rcases ih acc with ⟨e1, e2⟩ | ⟨pre, e, post, e1, e2, e3, e4, e5⟩
      · left
        refine ⟨e1, ?_⟩
        intro x hx
        rcases List.mem_cons.1 hx with rfl | hx
        · omega
        · exact e2 x hx
      · right
        refine ⟨a :: pre, e, post, by rw [e1]; rfl, e2, e3, ?_, e5⟩
        intro x hx
        rcases List.mem_cons.1 hx with rfl | hx
        · omega
        · exact e4 x hx

theorem contentScores_keys (toLowerCase : String → String) (text : String) :
    (contentScores toLowerCase text).map (fun e => e.1) =
      ["process", "comparison", "data", "hierarchy", "cycle", "timeline", "summary"] := by
  simp [contentScores, CONTENT_TYPE_PATTERNS]

theorem detectContentType_zero (toLowerCase : String → String) (text : String)
    (h0 : ∀ e ∈ contentScores toLowerCase text, e.2 = 0) :
    detectContentType toLowerCase text = "statement" := by
  rcases foldl_max_spec (contentScores toLowerCase text) ("statement", 0) with
    ⟨e1, _⟩ | ⟨pre, e, post, e1, _, e3, _, _⟩
  · simp [detectContentType, maxType, e1]
  · have := h0 e (by rw [e1]; simp)
    simp only at e3
    omega

theorem detectContentType_pos (toLowerCase : String → String) (text : String)
    (h : ∃ e ∈ contentScores toLowerCase text, 0 < e.2) :
    ∃ pre e post, contentScores toLowerCase text = pre ++ e :: post ∧
      detectContentType toLowerCase text = e.1 ∧ 0 < e.2 ∧
      (∀ x ∈ pre, x.2 < e.2) ∧ ∀ x ∈ post, x.2 ≤ e.2 := by
  obtain ⟨x, hx, hx0⟩ := h
  rcases foldl_max_spec (contentScores toLowerCase text) ("statement", 0) with
    ⟨_, e2⟩ | ⟨pre, e, post, e1, e2, e3, e4, e5⟩
  · have := e2 x hx
    simp only at this
    omega
  · have h0 : 0 < e.2 := by omega
    refine ⟨pre, e, post, e1, ?_, h0, e4, e5⟩
    simp only [detectContentType, maxType, e2, gt_iff_lt, h0, if_true]

theorem detectContentType_mem (toLowerCase : String → String) (text : String) :
    detectContentType toLowerCase text ∈
      ["process", "comparison", "data", "hierarchy", "cycle", "timeline", "summary"] ++
        ["statement"] := by
  by_cases h : ∃ e ∈ contentScores toLowerCase text, 0 < e.2
  · obtain ⟨pre, e, post, e1, e2, _⟩ := detectContentType_pos toLowerCase text h
    have hm : e.1 ∈ (contentScores toLowerCase text).map (fun e => e.1) :=
      List.mem_map.2 ⟨e, by rw [e1]; simp, rfl⟩
    rw [contentScores_keys] at hm
    rw [e2]
    exact List.mem_append_left _ hm
  · rw [detectContentType_zero toLowerCase text (by
      intro e he
      by_contra hne
      exact h ⟨e, he, Nat.pos_of_ne_zero hne⟩)]
    exact List.mem_append_right _ (List.mem_singleton.2 rfl)

theorem detectContentType_only_core (toLowerCase : String → String) (text : String)
    (h : ∀ e ∈ CONTENT_TYPE_PATTERNS, ∀ p ∈ e.2,
      includes (toLowerCase p) (toLowerCase text).toList = (p == "核心")) :
    detectContentType toLowerCase text = "hierarchy" := by
  simp [CONTENT_TYPE_PATTERNS] at h
  simp [detectContentType, maxType, contentScores, CONTENT_TYPE_PATTERNS, patternScore, h]

theorem detectContentType_core_example :
    detectContentType toLowerCaseAscii "核心" = "hierarchy" := by decide

/-- C16. For every text (and every lower-casing function), `detectContentType`
returns one of the eight tags: `statement` when every count is zero, and
otherwise the first tag, in the order process, comparison, data, hierarchy,
cycle, timeline, summary of the table, among those with the highest count (the
entries before it have a lower count, those after it none higher). A text
whose only keyword is 核心 is tagged hierarchy. -/
theorem detectContentType_first_highest (toLowerCase : String → String) (text : String) :
    detectContentType toLowerCase text ∈
        ["process", "comparison", "data", "hierarchy", "cycle", "timeline", "summary",
          "statement"] ∧
      (contentScores toLowerCase text).map (fun e => e.1) =
        ["process", "comparison", "data", "hierarchy", "cycle", "timeline", "summary"] ∧
      ((∀ e ∈ contentScores toLowerCase text, e.2 = 0) →
        detectContentType toLowerCase text = "statement") ∧
      ((∃ e ∈ contentScores toLowerCase text, 0 < e.2) →
        ∃ pre e post, contentScores toLowerCase text = pre ++ e :: post ∧
          detectContentType toLowerCase text = e.1 ∧ 0 < e.2 ∧
          (∀ x ∈ pre, x.2 < e.2) ∧ ∀ x ∈ post, x.2 ≤ e.2) ∧
      ((∀ e ∈ CONTENT_TYPE_PATTERNS, ∀ p ∈ e.2,
          includes (toLowerCase p) (toLowerCase text).toList = (p == "核心")) →
        detectContentType toLowerCase text = "hierarchy") ∧
      detectContentType toLowerCaseAscii "核心" = "hierarchy" :=
  ⟨detectContentType_mem toLowerCase text, contentScores_keys toLowerCase text,
    detectContentType_zero toLowerCase text, detectContentType_pos toLowerCase text,
    detectContentType_only_core toLowerCase text, detectContentType_core_example⟩

end ParseContent
namespace ParseContent

set_option maxRecDepth 100000 in
/-- C17, as stated, fails. In the text 步骤一、步骤二、步骤三的对比与比较 the keyword
步骤 of process occurs three times and no other keyword of process occurs; the
keywords 对比 and 比较 of comparison occur once each. Counting occurrences gives
process 3 and comparison 2, the highest being process; `detectContentType`
counts 1 for process and 2 for comparison, and selects comparison. -/
theorem detectContentType_ignores_repeats :
    occurrenceCount toLowerCaseAscii repeatedKeywordText (patternsOf "process") = 3 ∧
      occurrenceCount toLowerCaseAscii repeatedKeywordText (patternsOf "comparison") = 2 ∧
      patternScore toLowerCaseAscii (toLowerCaseAscii repeatedKeywordText)
        (patternsOf "process") = 1 ∧
      patternScore toLowerCaseAscii (toLowerCaseAscii repeatedKeywordText)
        (patternsOf "comparison") = 2 ∧
      detectContentType toLowerCaseAscii repeatedKeywordText = "comparison" := by
  decide

theorem maxType_ge (scores : List (String × Nat)) :
    ∀ x ∈ scores, x.2 ≤ (maxType scores).2 := by
  intro x hx
  rcases foldl_max_spec scores ("statement", 0) with ⟨e1, e2⟩ | ⟨pre, e, post, e1, e2, _, e4, e5⟩
  · unfold maxType
    rw [e1]
    exact e2 x hx
  · unfold maxType
    rw [e2]
    rw [e1] at hx
    rcases List.mem_append.1 hx with h | h
    · exact Nat.le_of_lt (e4 x h)
    · rcases List.mem_cons.1 h with rfl | h
      · exact Nat.le_refl _
      · exact e5 x h

/-- C17, amended. The count `detectContentType` uses for a tag is the number of
the tag's keywords that occur in the lower-cased text: a keyword contributes 1
when it occurs, however often, and 0 when it does not (`min 1` of its number of
occurrences). No tag has a higher count than the running maximum the selection
ends with, and when some count is positive the selected tag is an entry of the
table whose count is that maximum. -/
theorem detectContentType_counts_present_keywords (toLowerCase : String → String)
    (text : String) :
    (∀ e ∈ CONTENT_TYPE_PATTERNS,
        patternScore toLowerCase (toLowerCase text) e.2 =
          (e.2.map fun p => min 1 (occurrences (toLowerCase p) (toLowerCase text))).sum) ∧
      (∀ x ∈ contentScores toLowerCase text,
        x.2 ≤ (maxType (contentScores toLowerCase text)).2) ∧
      ((∃ e ∈ contentScores toLowerCase text, 0 < e.2) →
        ∃ e ∈ contentScores toLowerCase text,
          detectContentType toLowerCase text = e.1 ∧
            ∀ x ∈ contentScores toLowerCase text, x.2 ≤ e.2) := by
  refine ⟨fun e _ => patternScore_eq _ _ _, maxType_ge _, ?_⟩
  intro h
  obtain ⟨pre, e, post, e1, e2, _, e4, e5⟩ := detectContentType_pos toLowerCase text h
  refine ⟨e, by rw [e1]; simp, e2, ?_⟩
  intro x hx
  rw [e1] at hx
  rcases List.mem_append.1 hx with h | h
  · exact Nat.le_of_lt (e4 x h)
  · rcases List.mem_cons.1 h with rfl | h
    · exact Nat.le_refl _
    · exact e5 x h

/-- C18. `detectSlideType` returns `cover` for index 0, whatever the paragraph
and the total, and for no other index. -/
theorem detectSlideType_cover_iff (toLowerCase : String → String) (paragraph : String)
    (index totalParagraphs : Nat) :
    detectSlideType toLowerCase paragraph index totalParagraphs = "cover" ↔ index = 0 := by
  unfold detectSlideType
  constructor
  · intro h
    by_contra h0
    simp only [h0, if_false] at h
    repeat' split at h
    all_goals exact absurd h (by decide)
  · intro h
    simp [h]

/-- C19. For an index other than 0: the last slide (`index = total - 1`) whose
text contains 结论, 最终 or 总结 is a `conclusion`, whatever else the text
contains; in every other case the result is that of the ordered scan: the
first of problem, conclusion, solution, framework, caveat one of whose trigger
keywords occurs in the text, and `statement` when none does. -/
theorem detectSlideType_priority (toLowerCase : String → String) (paragraph : String)
    (index totalParagraphs : Nat) (h : index ≠ 0) :
    (index + 1 = totalParagraphs ∧
        includesAny ["结论", "最终", "总结"] (toLowerCase paragraph) = true →
      detectSlideType toLowerCase paragraph index totalParagraphs = "conclusion") ∧
    (¬(index + 1 = totalParagraphs ∧
        includesAny ["结论", "最终", "总结"] (toLowerCase paragraph) = true) →
      detectSlideType toLowerCase paragraph index totalParagraphs =
        orderedScan (toLowerCase paragraph)) := by
  have hlast : ((index : Int) = (totalParagraphs : Int) - 1) ↔ index + 1 = totalParagraphs := by
    omega
  constructor
  · rintro ⟨h1, h2⟩
    simp only [includesAny, List.any_cons, List.any_nil, Bool.or_false] at h2
    simp only [detectSlideType, h, if_false, hlast, h1, true_and]
    simp only [← Bool.or_assoc] at h2
    rw [if_pos h2]
  · intro hn
    have hn' : ¬ ((index : Int) = (totalParagraphs : Int) - 1 ∧
        (includes "结论" (toLowerCase paragraph).toList || includes "最终" (toLowerCase paragraph).toList
          || includes "总结" (toLowerCase paragraph).toList) = true) := by
      rw [hlast]
      simpa only [includesAny, List.any_cons, List.any_nil, Bool.or_false, ← Bool.or_assoc] using hn
    simp only [detectSlideType, h, if_false, hn']
    simp only [orderedScan, slideTypeTriggers, includesAny, List.find?, List.any_cons,
      List.any_nil, Bool.or_false, ← Bool.or_assoc]
    generalize (includes "问题" (toLowerCase paragraph).toList ||
      includes "为什么" (toLowerCase paragraph).toList ||
      includes "瓶颈" (toLowerCase paragraph).toList) = b1
    generalize (includes "结论" (toLowerCase paragraph).toList ||
      includes "最终" (toLowerCase paragraph).toList ||
      includes "总结" (toLowerCase paragraph).toList) = b2
    generalize (includes "测试" (toLowerCase paragraph).toList ||
      includes "发现" (toLowerCase paragraph).toList ||
      includes "方案" (toLowerCase paragraph).toList) = b3
    generalize (includes "意味" (toLowerCase paragraph).toList ||
      includes "结构" (toLowerCase paragraph).toList ||
      includes "框架" (toLowerCase paragraph).toList) = b4
    generalize (includes "但" (toLowerCase paragraph).toList ||
      includes "不过" (toLowerCase paragraph).toList ||
      includes "注意" (toLowerCase paragraph).toList) = b5
    cases b1 <;> cases b2 <;> cases b3 <;> cases b4 <;> cases b5 <;> rfl

/-- The slide before last and the last one, with the text 问题的结论. -/
theorem detectSlideType_priority_witness :
    ((3 + 1 = 4 ∧ includesAny ["结论", "最终", "总结"] (toLowerCaseAscii "问题的结论") = true →
        detectSlideType toLowerCaseAscii "问题的结论" 3 4 = "conclusion") ∧
      (¬(3 + 1 = 4 ∧ includesAny ["结论", "最终", "总结"] (toLowerCaseAscii "问题的结论") = true) →
        detectSlideType toLowerCaseAscii "问题的结论" 3 4 =
          orderedScan (toLowerCaseAscii "问题的结论"))) ∧
      detectSlideType toLowerCaseAscii "问题的结论" 3 4 = "conclusion" ∧
      detectSlideType toLowerCaseAscii "问题的结论" 2 4 = "problem" :=
  ⟨detectSlideType_priority toLowerCaseAscii "问题的结论" 3 4 (by decide), by decide, by decide⟩

end ParseContent

/-! ## The left and right lists in the three parsers -/

namespace AnalyzeLayouts

set_option maxRecDepth 100000 in
/-- C12 fails on the code. For the slide block with `leftBullets:` a, b and
`rightBullets:` c, d, the parser of analyze-layouts.mjs returns leftBullets =
[a, b, c, d] and rightBullets = []: it has no variable for the open list, and a
`- ` line goes to `leftBullets` whenever that list exists. The parsers of
render-slide.mjs and visual-matcher.mjs return [a, b] and [c, d]. -/
theorem parseScriptMd_right_items_go_left :
    (parseScriptMd leftRightScript).2.map (fun s => (s.leftBullets, s.rightBullets)) =
        [(some ["a", "b", "c", "d"], some [])] ∧
      (RenderSlide.parsedSlides leftRightScript).map
          (fun s => (s.leftBullets, s.rightBullets)) = [(some ["a", "b"], some ["c", "d"])] ∧
      (VisualMatcher.parseScriptMd leftRightScript).2.map
          (fun s => (s.leftBullets, s.rightBullets)) = [(some ["a", "b"], some ["c", "d"])] := by
  decide

end AnalyzeLayouts

/-! ## Layout recommendation -/

namespace AnalyzeLayouts

theorem before_iff (a b : ScoreEntry) :
    before a b ↔ b.score < a.score ∨
      (a.score = b.score ∧ b.priority.getD 0 ≤ a.priority.getD 0) := by
  unfold before compareEntries
  by_cases hne : a.score = b.score
  · rw [if_neg (not_not.2 hne)]
    constructor
    · intro h
      right
      refine ⟨hne, ?_⟩
      have h' : b.priority.getD 0 - a.priority.getD 0 ≤ 0 := by exact_mod_cast h
      omega
    · rintro (h | ⟨_, h⟩)
      · rw [hne] at h
        exact absurd h (lt_irrefl _)
      · exact_mod_cast (by omega : b.priority.getD 0 - a.priority.getD 0 ≤ 0)
  · rw [if_pos hne]
    constructor
    · intro h
      left
      exact lt_of_le_of_ne (by linarith) (fun h' => hne h'.symm)
    · rintro (h | ⟨h, _⟩)
      · linarith
      · exact absurd h hne

theorem before_score {a b : ScoreEntry} (h : before a b) : b.score ≤ a.score := by
  rcases (before_iff a b).1 h with h | ⟨h, _⟩
  · exact h.le
  · exact h.ge

theorem before_total (a b : ScoreEntry) : before a b ∨ before b a := by
  rw [before_iff, before_iff]
  rcases lt_trichotomy a.score b.score with h | h | h
  · exact Or.inr (Or.inl h)
  · rcases le_total (a.priority.getD 0) (b.priority.getD 0) with hp | hp
    · exact Or.inr (Or.inr ⟨h.symm, hp⟩)
    · exact Or.inl (Or.inr ⟨h, hp⟩)
  · exact Or.inl (Or.inl h)

theorem before_trans {a b c : ScoreEntry} (hab : before a b) (hbc : before b c) :
    before a c := by
  rw [before_iff] at *
  rcases hab with h1 | ⟨h1, p1⟩ <;> rcases hbc with h2 | ⟨h2, p2⟩
  · exact Or.inl (lt_trans h2 h1)
  · exact Or.inl (by rw [← h2]; exact h1)
  · exact Or.inl (by rw [h1]; exact h2)
  · exact Or.inr ⟨h1.trans h2, le_trans p2 p1⟩

theorem matchScore_le_one : ∀ rule ∈ LAYOUT_RULES, ∀ text slide,
    rule.matchScore text slide ≤ 1 := by
  intro rule h text slide
  simp only [LAYOUT_RULES, List.mem_cons, List.mem_singleton, List.not_mem_nil, or_false] at h
  rcases h with rfl | rfl | rfl | rfl | rfl | rfl | rfl | rfl
  all_goals dsimp only
  all_goals first
    | (split_ifs <;> norm_num)
    | (split <;> norm_num)

theorem sortedScores_bounds (slide : Slide) :
    ∀ e ∈ sortedScores slide, 0 < e.score ∧ e.score ≤ 1 := by
  intro e he
  unfold sortedScores at he
  simp only at he
  rw [(List.perm_insertionSort before _).mem_iff, List.mem_filter, List.mem_map] at he
  obtain ⟨⟨rule, hr, rfl⟩, hpos⟩ := he
  exact ⟨by simpa using hpos, matchScore_le_one rule hr _ _⟩

theorem sortedScores_head (slide : Slide) (h : ScoreEntry) (t : List ScoreEntry)
    (e : sortedScores slide = h :: t) : ∀ x ∈ t, x.score ≤ h.score := by
  have hs : (sortedScores slide).Sorted before := by
    unfold sortedScores
    exact @List.sorted_insertionSort ScoreEntry before _ ⟨before_total⟩
      ⟨fun _ _ _ => before_trans⟩ _
  rw [e] at hs
  intro x hx
  exact before_score (List.rel_of_sorted_cons hs x hx)

theorem mathRound_mono {x y : ℚ} (h : x ≤ y) : mathRound (x * 100) ≤ mathRound (y * 100) := by
  unfold mathRound
  exact Int.floor_mono (by linarith)

theorem mathRound_bounds {x : ℚ} (h0 : 0 ≤ x) (h1 : x ≤ 1) :
    0 ≤ mathRound (x * 100) ∧ mathRound (x * 100) ≤ 100 := by
  unfold mathRound
  constructor
  · exact Int.floor_nonneg.2 (by linarith)
  · have : ⌊x * 100 + 1 / 2⌋ < 101 := Int.floor_lt.2 (by push_cast; linarith)
    omega

/-- C20. For every slide, the confidence of the layout `analyzeSlide` recommends
lies in [0, 100], and each alternative has a confidence in [0, 100] that is not
above the recommended one. -/
theorem analyzeSlide_confidence (slide : Slide) :
    0 ≤ (analyzeSlide slide).confidence ∧ (analyzeSlide slide).confidence ≤ 100 ∧
      ∀ a ∈ (analyzeSlide slide).alternatives,
        a.confidence ≤ (analyzeSlide slide).confidence ∧ 0 ≤ a.confidence ∧
          a.confidence ≤ 100 := by
  unfold analyzeSlide
  simp only
  cases e : sortedScores slide with
  | nil =>
    simp only [List.head?_nil, Option.getD_none, List.drop_nil, List.take_nil, List.map_nil,
      List.not_mem_nil, false_imp_iff, implies_true, and_true]
    exact mathRound_bounds (by norm_num [fallbackEntry]) (by norm_num [fallbackEntry])
  | cons h t =>
    have hb := sortedScores_bounds slide
    rw [e] at hb
    have hh := hb h (List.mem_cons_self _ _)
    have hhead := sortedScores_head slide h t e
    simp only [List.head?_cons, Option.getD_some, List.drop_succ_cons, List.drop_zero]
    refine ⟨(mathRound_bounds hh.1.le hh.2).1, (mathRound_bounds hh.1.le hh.2).2, ?_⟩
    intro a ha
    obtain ⟨x, hx, rfl⟩ := List.mem_map.1 ha
    have hxt : x ∈ t := List.mem_of_mem_take hx
    have hxb := hb x (List.mem_cons_of_mem _ hxt)
    exact ⟨mathRound_mono (hhead x hxt), (mathRound_bounds hxb.1.le hxb.2).1,
      (mathRound_bounds hxb.1.le hxb.2).2⟩

end AnalyzeLayouts

/-! ## What a line of a slide block leaves untouched -/

namespace RenderSlide

theorem okFrame_ite {st : PState} {t : List Char} {c : Prop} [Decidable c]
    {a b : Except String PState}
    (ha : c → okFrame st t a) (hb : ¬c → okFrame st t b) : okFrame st t (if c then a else b) := by
  split
  · exact ha ‹_›
  · exact hb ‹_›

/-- The frame of a line that does not start with `id:`. -/
theorem frame_of_core {st st' : PState} {t : List Char} (hid : ¬ startsWith "id:" t = true)
    (h1 : st'.slide.notes = st.slide.notes) (h2 : st'.slide.index = st.slide.index)
    (h3 : st'.slide.id = st.slide.id)
    (h4 : st.slide.flatData = true → st'.slide.flatData = true) : Frame st st' t := by
  refine ⟨h1, h2, ?_, h4⟩
  rw [if_neg hid]
  exact h3

theorem okFrame_ok {st st' : PState} {t : List Char} (hid : ¬ startsWith "id:" t = true)
    (h1 : st'.slide.notes = st.slide.notes) (h2 : st'.slide.index = st.slide.index)
    (h3 : st'.slide.id = st.slide.id)
    (h4 : st.slide.flatData = true → st'.slide.flatData = true) : okFrame st t (.ok st') := by
  intro st₁ e
  cases e
  exact frame_of_core hid h1 h2 h3 h4

theorem flatData_congr (s s' : Slide) (h1 : s'.visualData = s.visualData)
    (h2 : s'.visual = s.visual) : s'.flatData = s.flatData := by
  unfold Slide.flatData
  rw [h1, h2]

theorem withChart_core (st : PState) (f : ChartData → ChartData) :
    (withChart st f).slide.notes = st.slide.notes ∧
      (withChart st f).slide.index = st.slide.index ∧
      (withChart st f).slide.id = st.slide.id ∧
      (withChart st f).slide.flatData = st.slide.flatData := by
  unfold withChart
  split
  · exact ⟨rfl, rfl, rfl, flatData_congr _ _ rfl rfl⟩
  · exact ⟨rfl, rfl, rfl, rfl⟩

theorem chartLine_core (st : PState) (t : List Char) :
    (chartLine st t).slide.notes = st.slide.notes ∧
      (chartLine st t).slide.index = st.slide.index ∧
      (chartLine st t).slide.id = st.slide.id ∧
      (chartLine st t).slide.flatData = st.slide.flatData := by
  unfold chartLine
  repeat' split
  all_goals first
    | exact withChart_core st _
    | exact ⟨rfl, rfl, rfl, flatData_congr _ _ rfl rfl⟩

theorem segmentLine_core (st : PState) (t : List Char) :
    (segmentLine st t).slide.notes = st.slide.notes ∧
      (segmentLine st t).slide.index = st.slide.index ∧
      (segmentLine st t).slide.id = st.slide.id ∧
      (segmentLine st t).slide.flatData = st.slide.flatData := by
  unfold segmentLine
  repeat' split
  all_goals first
    | exact withChart_core st _
    | exact ⟨rfl, rfl, rfl, rfl⟩

theorem keyValueLine_core (st : PState) (t : List Char) :
    (keyValueLine st t).slide.notes = st.slide.notes ∧
      (keyValueLine st t).slide.index = st.slide.index ∧
      (keyValueLine st t).slide.id = st.slide.id ∧
      (keyValueLine st t).slide.flatData = st.slide.flatData := by
  unfold keyValueLine
  simp only
  repeat' split
  all_goals exact ⟨rfl, rfl, rfl, flatData_congr _ _ rfl rfl⟩

theorem itemLine_core (st : PState) (t : List Char) :
    (itemLine st t).slide.notes = st.slide.notes ∧
      (itemLine st t).slide.index = st.slide.index ∧
      (itemLine st t).slide.id = st.slide.id ∧
      (itemLine st t).slide.flatData = st.slide.flatData := by
  unfold itemLine
  simp only
  repeat' split
  all_goals exact ⟨rfl, rfl, rfl, flatData_congr _ _ rfl rfl⟩

/-- An update of `slide.visual` that keeps the data object, or replaces it by
an empty one, keeps the frame. -/
theorem withVisual_core (st : PState) (f : Visual → Except String Visual) (st' : PState)
    (hf : ∀ v v', f v = .ok v' → v'.data = v.data ∨ v'.data = some {})
    (h : withVisual st f = .ok st') :
    st'.slide.notes = st.slide.notes ∧ st'.slide.index = st.slide.index ∧
      st'.slide.id = st.slide.id ∧ (st.slide.flatData = true → st'.slide.flatData = true) := by
  unfold withVisual at h
  cases hv : st.slide.visual with
  | none => simp [hv] at h
  | some v =>
    simp only [hv] at h
    cases hfv : f v with
    | error e => simp [hfv, Except.map] at h
    | ok v' =>
      simp only [hfv, Except.map, Except.ok.injEq] at h
      subst h
      refine ⟨rfl, rfl, rfl, ?_⟩
      intro hflat
      simp only [Slide.flatData, hv, Bool.and_eq_true] at hflat ⊢
      refine ⟨hflat.1, ?_⟩
      rcases hf v v' hfv with e | e
      · rw [e]; exact hflat.2
      · rw [e]; rfl

theorem visualLine_core (st : PState) (t : List Char) (st' : PState)
    (h : visualLine st t = .ok st') :
    st'.slide.notes = st.slide.notes ∧ st'.slide.index = st.slide.index ∧
      st'.slide.id = st.slide.id ∧ (st.slide.flatData = true → st'.slide.flatData = true) := by
  unfold visualLine at h
  repeat' split at h
  all_goals first
    | exact withVisual_core st _ st' (fun v v' e => by cases e; exact Or.inl rfl) h
    | (cases h; exact ⟨rfl, rfl, rfl, id⟩)
    | skip
  · cases hv : withVisual st fun v => .ok { v with data := some {} } with
    | error e => simp [hv, Except.map] at h
    | ok st₁ =>
      simp only [hv, Except.map, Except.ok.injEq] at h
      subst h
      exact withVisual_core st _ st₁ (fun v v' e => by cases e; exact Or.inr rfl) hv

theorem stepsLine_top_core (st : PState) (t : List Char) (st' : PState)
    (h : stepsLine withVisualDataTop st t = .ok st') :
    st'.slide.notes = st.slide.notes ∧ st'.slide.index = st.slide.index ∧
      st'.slide.id = st.slide.id ∧ (st.slide.flatData = true → st'.slide.flatData = true) := by
  unfold stepsLine at h
  repeat' split at h
  all_goals first
    | (cases h; exact ⟨rfl, rfl, rfl, id⟩)
    | skip
  all_goals
    unfold withVisualDataTop at h
    cases hd : st.slide.visualData with
    | none => simp [hd] at h
    | some d =>
      simp only [hd] at h
      cases hs : d.steps with
      | none => simp [hs, Except.map] at h
      | some ss =>
        simp only [hs, Except.map, Except.ok.injEq] at h
        subst h
        refine ⟨rfl, rfl, rfl, ?_⟩
        intro hflat
        simp only [Slide.flatData, hd, Bool.and_eq_true] at hflat ⊢
        exact ⟨hflat.1, hflat.2⟩

theorem stepsLine_visual_core (st : PState) (t : List Char) (st' : PState)
    (h : stepsLine withVisualData st t = .ok st') :
    st'.slide.notes = st.slide.notes ∧ st'.slide.index = st.slide.index ∧
      st'.slide.id = st.slide.id ∧ (st.slide.flatData = true → st'.slide.flatData = true) := by
  unfold stepsLine at h
  repeat' split at h
  all_goals first
    | (cases h; exact ⟨rfl, rfl, rfl, id⟩)
    | skip
  all_goals
    unfold withVisualData withVisual at h
    cases hv : st.slide.visual with
    | none => simp [hv] at h
    | some v =>
      simp only [hv] at h
      cases hd : v.data with
      | none => simp [hd, Except.map] at h
      | some d =>
        simp only [hd] at h
        cases hs : d.steps with
        | none => simp [hs, Except.map] at h
        | some ss =>
          simp only [hs, Except.map, Except.ok.injEq] at h
          subst h
          refine ⟨rfl, rfl, rfl, ?_⟩
          intro hflat
          simp only [Slide.flatData, hv, hd, Bool.and_eq_true] at hflat ⊢
          exact ⟨hflat.1, hflat.2⟩

theorem updateTarget_steps_core (s : Slide) :
    (updateTarget s fun d => { d with steps := some [] }).notes = s.notes ∧
      (updateTarget s fun d => { d with steps := some [] }).index = s.index ∧
      (updateTarget s fun d => { d with steps := some [] }).id = s.id ∧
      (s.flatData = true → (updateTarget s fun d => { d with steps := some [] }).flatData = true) := by
  cases hvd : s.visualData with
  | some d =>
    simp only [updateTarget, hvd]
    refine ⟨trivial, trivial, trivial, ?_⟩
    intro hflat
    simp only [Slide.flatData, hvd, Bool.and_eq_true] at hflat ⊢
    exact ⟨hflat.1, hflat.2⟩
  | none =>
    cases hv : s.visual with
    | none =>
      simp only [updateTarget, hvd, hv]
      exact ⟨trivial, trivial, trivial, id⟩
    | some v =>
      cases hd : v.data with
      | none =>
        simp only [updateTarget, hvd, hv, hd]
        exact ⟨trivial, trivial, trivial, id⟩
      | some d =>
        simp only [updateTarget, hvd, hv, hd]
        refine ⟨trivial, trivial, trivial, ?_⟩
        intro hflat
        simp only [Slide.flatData, hvd, hv, hd, Bool.and_eq_true] at hflat ⊢
        exact ⟨hflat.1, hflat.2⟩

end RenderSlide
namespace RenderSlide

theorem okFrame_of_core {st : PState} {t : List Char} {r : Except String PState}
    (hid : ¬ startsWith "id:" t = true)
    (hc : ∀ st', r = .ok st' →
      st'.slide.notes = st.slide.notes ∧ st'.slide.index = st.slide.index ∧
        st'.slide.id = st.slide.id ∧ (st.slide.flatData = true → st'.slide.flatData = true)) :
    okFrame st t r := by
  intro st' e
  obtain ⟨h1, h2, h3, h4⟩ := hc st' e
  exact frame_of_core hid h1 h2 h3 h4

theorem okFrame_same {st st' : PState} {t : List Char} (hid : ¬ startsWith "id:" t = true)
    (hc : st'.slide.notes = st.slide.notes ∧ st'.slide.index = st.slide.index ∧
      st'.slide.id = st.slide.id ∧ st'.slide.flatData = st.slide.flatData) :
    okFrame st t (.ok st') :=
  okFrame_ok hid hc.1 hc.2.1 hc.2.2.1 (fun hf => hc.2.2.2.trans hf)

set_option maxHeartbeats 3200000 in
/-- Every line keeps `notes` and `index`, changes `id` only when it starts with
`id:`, and creates no `levels`, `layers` or `items` list of a visual. -/
theorem parseLine_frame (st : PState) (t : List Char) (h : st.wellFormed = true) :
    okFrame st t (parseLine st t) := by
  unfold parseLine
  simp only
  with_reducible apply okFrame_ite <;> intro hid
  · intro st' e
    cases e
    exact ⟨rfl, rfl, by rw [if_pos hid], fun hf => (flatData_congr _ _ rfl rfl).trans hf⟩
  · repeat' (with_reducible apply okFrame_ite <;> intro _)
    all_goals first
      | exact okFrame_same hid ⟨rfl, rfl, rfl, flatData_congr _ _ rfl rfl⟩
      | exact okFrame_same hid (chartLine_core st t)
      | exact okFrame_same hid (segmentLine_core st t)
      | exact okFrame_same hid (keyValueLine_core st t)
      | exact okFrame_same hid (itemLine_core st t)
      | exact okFrame_of_core hid (visualLine_core st t)
      | exact okFrame_of_core hid (stepsLine_top_core st t)
      | exact okFrame_of_core hid (stepsLine_visual_core st t)
      | exact okFrame_ok hid (updateTarget_steps_core st.slide).1
          (updateTarget_steps_core st.slide).2.1 (updateTarget_steps_core st.slide).2.2.1
          (updateTarget_steps_core st.slide).2.2.2
      | (exfalso; simp_all [PState.wellFormed]; done)
      | (refine okFrame_ok hid ?_ ?_ ?_ ?_ <;> first
          | rfl
          | (intro hf; simp_all [Slide.flatData, VData.flat, openList]))
      | (split <;> exact okFrame_same hid ⟨rfl, rfl, rfl, flatData_congr _ _ rfl rfl⟩)
      | (split <;> refine okFrame_ok hid ?_ ?_ ?_ ?_ <;> first
          | rfl
          | (intro hf; simp_all [Slide.flatData, VData.flat, openList]))

end RenderSlide
namespace RenderSlide

theorem parseLines_frame (lines : List (List Char)) (st st' : PState)
    (h : st.wellFormed = true) (e : parseLines st lines = .ok st') :
    st'.slide.notes = st.slide.notes ∧ st'.slide.index = st.slide.index ∧
      st'.slide.id =
        (match ((lines.map jsTrim).filter fun t => startsWith "id:" t).getLast? with
         | some t => String.mk (valueAfter "id:" t)
         | none => st.slide.id) ∧
      (st.slide.flatData = true → st'.slide.flatData = true) := by
  induction lines generalizing st with
  | nil =>
    simp only [parseLines, Except.ok.injEq] at e
    subst e
    exact ⟨rfl, rfl, rfl, id⟩
  | cons line rest ih =>
    obtain ⟨st₁, e₁, h₁⟩ := parseLine_ok st (jsTrim line) h
    simp only [parseLines, e₁] at e
    obtain ⟨f1, f2, f3, f4⟩ := parseLine_frame st (jsTrim line) h st₁ e₁
    obtain ⟨g1, g2, g3, g4⟩ := ih st₁ h₁ e
    refine ⟨g1.trans f1, g2.trans f2, ?_, fun hf => g4 (f4 hf)⟩
    rw [g3, f3]
    simp only [List.map_cons, List.filter_cons]
    by_cases hid : startsWith "id:" (jsTrim line) = true
    · simp only [hid, if_true]
      rw [List.getLast?_cons]
      cases hl : ((rest.map jsTrim).filter fun t => startsWith "id:" t).getLast? <;> simp
    · simp only [hid]
      simp

/-- The slide a block yields: its number, its declared id, no notes, and no
`levels`, `layers` or `items` list of a visual. -/
theorem parseSlide_frame (slideText : List Char) (index : Nat) :
    (yamlGroup slideText = none ∧ parseSlide slideText index = .ok none) ∨
    ∃ yaml s, yamlGroup slideText = some yaml ∧ parseSlide slideText index = .ok (some s) ∧
      s.index = index + 1 ∧ s.id = declaredId (splitOn '\n' yaml) index ∧ s.notes = none ∧
      s.flatData = true := by
  unfold parseSlide
  cases hy : yamlGroup slideText with
  | none => exact Or.inl ⟨rfl, rfl⟩
  | some yaml =>
    right
    obtain ⟨st, e, _⟩ := parseLines_ok (splitOn '\n' yaml)
      { slide := { id := "s" ++ pad2 (index + 1), index := index + 1 } } rfl
    obtain ⟨f1, f2, f3, f4⟩ := parseLines_frame (splitOn '\n' yaml)
      { slide := { id := "s" ++ pad2 (index + 1), index := index + 1 } } st rfl e
    simp only [e]
    exact ⟨yaml, st.slide, rfl, rfl, f2, f3, f1, f4 rfl⟩

theorem parseSlides_frame (blocks : List (List Char)) (index : Nat) :
    ∃ slides, parseSlides blocks index = .ok slides ∧
      slides.map (fun s => (s.index, s.id)) = declaredIds blocks index ∧
      (∀ s ∈ slides, s.notes = none ∧ s.flatData = true) := by
  induction blocks generalizing index with
  | nil => exact ⟨[], rfl, rfl, by simp⟩
  | cons b rest ih =>
    obtain ⟨slides, e, hm, hall⟩ := ih (index + 1)
    rcases parseSlide_frame b index with ⟨hy, hp⟩ | ⟨yaml, s, hy, hp, h1, h2, h3, h4⟩
    · refine ⟨slides, by simp only [parseSlides, hp, e], ?_, hall⟩
      simp only [declaredIds, hy]
      exact hm
    · refine ⟨s :: slides, by simp only [parseSlides, hp, e], ?_, ?_⟩
      · simp only [declaredIds, hy, List.map_cons, hm, h1, h2]
      · intro x hx
        rcases List.mem_cons.1 hx with rfl | hx
        · exact ⟨h3, h4⟩
        · exact hall x hx

theorem parsedSlides_frame (content : String) :
    (parsedSlides content).map (fun s => (s.index, s.id)) =
        declaredIds (slideBlocks content.toList) 0 ∧
      ∀ s ∈ parsedSlides content, s.notes = none ∧ s.flatData = true := by
  obtain ⟨slides, e, hm, hall⟩ := parseSlides_frame (matchAll reSlideBlock 0 content.toList) 0
  have : parsedSlides content = slides := by
    simp only [parsedSlides, parseScriptMd, e]
  rw [this]
  exact ⟨hm, hall⟩

theorem declaredIds_index (blocks : List (List Char)) (index : Nat) :
    ∀ p ∈ declaredIds blocks index, index < p.1 := by
  induction blocks generalizing index with
  | nil => simp [declaredIds]
  | cons b rest ih =>
    intro p hp
    simp only [declaredIds] at hp
    split at hp
    · rcases List.mem_cons.1 hp with rfl | hp
      · exact Nat.lt_succ_self _
      · exact Nat.lt_of_succ_lt (ih (index + 1) p hp)
    · exact Nat.lt_of_succ_lt (ih (index + 1) p hp)

theorem declaredIds_sorted (blocks : List (List Char)) (index : Nat) :
    ((declaredIds blocks index).map fun p => p.1).Pairwise (· < ·) := by
  induction blocks generalizing index with
  | nil => simp [declaredIds]
  | cons b rest ih =>
    simp only [declaredIds]
    split
    · simp only [List.map_cons, List.pairwise_cons]
      refine ⟨?_, ih (index + 1)⟩
      intro a ha
      obtain ⟨p, hp, rfl⟩ := List.mem_map.1 ha
      exact declaredIds_index rest (index + 1) p hp
    · exact ih (index + 1)

end RenderSlide
namespace RenderSlide

theorem digitChar_value (k : Nat) (h : k < 10) : (Nat.digitChar k).toNat - 48 = k := by
  interval_cases k <;> rfl

theorem toDigitsCore_value (fuel : Nat) (n : Nat) (ds : List Char) (h : n < fuel) :
    (Nat.toDigitsCore 10 fuel n ds).foldl (fun a c => 10 * a + (c.toNat - 48)) 0 =
      ds.foldl (fun a c => 10 * a + (c.toNat - 48)) n := by
  induction fuel generalizing n ds with
  | zero => omega
  | succ fuel ih =>
    simp only [Nat.toDigitsCore]
    have hd := digitChar_value (n % 10) (Nat.mod_lt _ (by decide))
    split
    · rename_i h0
      simp only [List.foldl_cons, hd, Nat.mul_zero, Nat.zero_add]
      congr 1
      omega
    · rename_i h0
      rw [ih (n / 10) _ (by omega)]
      simp only [List.foldl_cons, hd]
      congr 1
      omega

theorem decimalValue_toString (n : Nat) : decimalValue (toString n).toList = n := by
  show decimalValue (Nat.toDigits 10 n) = n
  unfold decimalValue Nat.toDigits
  rw [toDigitsCore_value _ _ _ (Nat.lt_succ_self n)]
  rfl

theorem decimalValue_pad2 (n : Nat) : decimalValue (pad2 n).toList = n := by
  unfold pad2
  split
  · show decimalValue ('0' :: (toString n).toList) = n
    have := decimalValue_toString n
    unfold decimalValue at this ⊢
    simpa using this
  · exact decimalValue_toString n

theorem defaultId_injective (i j : Nat) (h : "s" ++ pad2 i = "s" ++ pad2 j) : i = j := by
  have h' := congrArg (fun s => decimalValue (s.toList.drop 1)) h
  have e : ∀ k, ("s" ++ pad2 k).toList.drop 1 = (pad2 k).toList := fun _ => rfl
  simp only [e, decimalValue_pad2] at h'
  exact h'

theorem declaredId_default (b yaml : List Char) (index : Nat) (hy : yamlGroup b = some yaml)
    (h : declaresNoId b = true) : declaredId (splitOn '\n' yaml) index = "s" ++ pad2 (index + 1) := by
  unfold declaresNoId at h
  rw [hy] at h
  simp only [List.all_eq_true, Bool.not_eq_true'] at h
  have : ((splitOn '\n' yaml).map jsTrim).filter (fun t => startsWith "id:" t) = [] := by
    rw [List.filter_eq_nil_iff]
    intro t ht
    obtain ⟨line, hl, rfl⟩ := List.mem_map.1 ht
    simp [h line hl]
  unfold declaredId
  rw [this]
  rfl

theorem declaredIds_default (blocks : List (List Char)) (index : Nat)
    (h : ∀ b ∈ blocks, declaresNoId b = true) :
    ∀ p ∈ declaredIds blocks index, p.2 = "s" ++ pad2 p.1 := by
  induction blocks generalizing index with
  | nil => simp [declaredIds]
  | cons b rest ih =>
    have hrest : ∀ b ∈ rest, declaresNoId b = true := fun x hx => h x (List.mem_cons_of_mem _ hx)
    intro p hp
    simp only [declaredIds] at hp
    split at hp
    · rename_i yaml hy
      rcases List.mem_cons.1 hp with rfl | hp
      · exact declaredId_default b yaml index hy (h b (List.mem_cons_self _ _))
      · exact ih (index + 1) hrest p hp
    · exact ih (index + 1) hrest p hp

theorem declaredIds_nodup (blocks : List (List Char)) (index : Nat)
    (h : ∀ b ∈ blocks, declaresNoId b = true) :
    ((declaredIds blocks index).map fun p => p.2).Nodup := by
  have hs := declaredIds_sorted blocks index
  rw [List.pairwise_map] at hs
  unfold List.Nodup
  rw [List.pairwise_map]
  refine List.Pairwise.imp_of_mem ?_ hs
  intro p q hp hq hlt heq
  rw [declaredIds_default blocks index h p hp, declaredIds_default blocks index h q hq] at heq
  have := defaultId_injective _ _ heq
  omega

end RenderSlide
/-! ## Plain list items -/

namespace RenderSlide

theorem includes_colon_of_mem (s : List Char) (h : ':' ∈ s) : includes ":" s = true := by
  induction s with
  | nil => simp at h
  | cons c rest ih =>
    rcases List.mem_cons.1 h with rfl | h
    · simp [includes, List.isPrefixOf]
    · simp [includes, ih h]

theorem startsWith_of_no_colon (k : String) (t : List Char) (hk : ':' ∈ k.toList)
    (ht : includes ":" t = false) : startsWith k t = false := by
  by_contra hs
  have hs' : startsWith k t = true := by simpa using hs
  unfold startsWith at hs'
  rw [List.isPrefixOf_iff_prefix] at hs'
  obtain ⟨r, rfl⟩ := hs'
  have := includes_colon_of_mem (k.toList ++ r) (List.mem_append_left _ hk)
  rw [this] at ht
  cases ht

theorem plainItem_shape (t : List Char) (h : plainItem t = true) :
    ∃ rest, t = '-' :: ' ' :: rest ∧ includes ":" t = false := by
  unfold plainItem at h
  simp only [Bool.and_eq_true, Bool.not_eq_true'] at h
  obtain ⟨h1, h2⟩ := h
  unfold startsWith at h1
  rw [List.isPrefixOf_iff_prefix] at h1
  obtain ⟨r, rfl⟩ := h1
  exact ⟨r, rfl, h2⟩

set_option maxHeartbeats 4000000 in
/-- Where a plain list item goes: in the context `visual-data` the line runs
the branch that resets `slide.visualData`; in the other contexts of nested
objects it is ignored; everywhere else it reaches the branch of list items. -/
theorem parseLine_plain_item (st : PState) (t : List Char) (h : plainItem t = true) :
    parseLine st t = .ok
      (match st.currentArray with
       | some .visualData => openList { st.slide with visualData := some {} } .visualData
       | some c => if c.nested then st else itemLine st t
       | none => itemLine st t) := by
  obtain ⟨rest, rfl, hi⟩ := plainItem_shape t h
  have hT := startsWith_of_no_colon "- title:" _ (by decide) hi
  have hL := startsWith_of_no_colon "- label:" _ (by decide) hi
  simp only [startsWith, String.toList, List.isPrefixOf, beq_self_eq_true, Bool.true_and] at hT hL
  cases hca : st.currentArray with
  | none => simp [parseLine, startsWith, List.isPrefixOf, hca, hi, hT, hL]
  | some c =>
    cases c <;>
      simp [parseLine, startsWith, List.isPrefixOf, hca, hi, hT, hL, Ctx.nested, chartLine,
        segmentLine, visualLine, visualDataLine, layersLine, levelsLine, itemsLine, stepsLine]

end RenderSlide
namespace RenderSlide

/-- The branch of list items changes one list of the slide by one appended
item, or nothing: the items of the open card, or the list of the context when
no card is open. -/
theorem itemLine_single_collection (st : PState) (t : List Char) :
    (itemLine st t).currentCard = st.currentCard ∧
    (itemLine st t).currentArray = st.currentArray ∧
    ((itemLine st t).slide = st.slide ∨
      (∃ i, st.currentCard = some i ∧ (itemLine st t).slide =
        { st.slide with cards := st.slide.cards.map (modifyAt
            (fun c => { c with items := c.items ++
              [String.mk (stripQuotes (removeFirst "- ".toList t))] }) i) }) ∨
      (st.currentCard = none ∧ ∃ l v, v = String.mk (stripQuotes (removeFirst "- ".toList t)) ∧
        ((st.currentArray = some .bullets ∧ st.slide.bullets = some l ∧
            (itemLine st t).slide = { st.slide with bullets := some (l ++ [v]) }) ∨
          (st.currentArray = some .steps ∧ st.slide.steps = some l ∧
            (itemLine st t).slide = { st.slide with steps := some (l ++ [v]) }) ∨
          (st.currentArray = some .stages ∧ st.slide.stages = some l ∧
            (itemLine st t).slide = { st.slide with stages := some (l ++ [v]) }) ∨
          (st.currentArray = some .events ∧ st.slide.events = some l ∧
            (itemLine st t).slide = { st.slide with events := some (l ++ [v]) }) ∨
          (st.currentArray = some .details ∧ st.slide.details = some l ∧
            (itemLine st t).slide = { st.slide with details := some (l ++ [v]) }) ∨
          (st.currentArray = some .leftBullets ∧ st.slide.leftBullets = some l ∧
            (itemLine st t).slide = { st.slide with leftBullets := some (l ++ [v]) }) ∨
          (st.currentArray = some .rightBullets ∧ st.slide.rightBullets = some l ∧
            (itemLine st t).slide = { st.slide with rightBullets := some (l ++ [v]) })))) := by
  unfold itemLine
  simp only
  split
  · rename_i i hi
    exact ⟨rfl, rfl, Or.inr (Or.inl ⟨i, hi, rfl⟩)⟩
  · rename_i hn
    split
    all_goals first
      | exact ⟨rfl, rfl, Or.inl rfl⟩
      | (refine ⟨rfl, rfl, Or.inr (Or.inr ⟨hn, ‹List String›, _, rfl, ?_⟩)⟩
         simp_all)

end RenderSlide
/-! ## The claims about the slide records of render-slide.mjs -/

namespace RenderSlide

set_option maxRecDepth 100000 in
/-- C11 fails on the code in the context `visual-data`. After the lines
`visualData:`, `steps:`, `- title: "A"`, `visual:`, `type: flow` and `data:` the
list `slide.visualData.steps` holds one step and the context is `visual-data`;
the plain list item `- x` then runs the first branch for that context, which
assigns `slide.visualData = {}`: the list of steps is gone, although the line
should leave every collection it is not appended to as it was. In every other
context the claim holds: the line is processed, is ignored in the contexts of
nested objects, and otherwise reaches the branch of list items, which appends
it to one list only (`itemLine_single_collection`). -/
theorem plain_item_resets_visualData :
    plainItem (jsTrim "    - x".toList) = true ∧
      visualDataOf stateUnderData =
        some (some { steps := some [{ title := "A", desc := "" }] }) ∧
      visualDataOf stateAfterItem = some (some {}) ∧
      (∀ (st : PState) (t : List Char), plainItem t = true →
        st.currentArray ≠ some .visualData →
        parseLine st t =
          .ok (if (st.currentArray.map Ctx.nested).getD false then st else itemLine st t)) := by
  refine ⟨by decide, by decide, by decide, ?_⟩
  intro st t ht hc
  rw [parseLine_plain_item st t ht]
  cases hca : st.currentArray with
  | none => rfl
  | some c =>
    cases c <;> first
      | rfl
      | exact absurd hca hc

set_option maxRecDepth 100000 in
/-- C13 fails on the code. A `visualData:` block with `levels:` and two
`- label:` / `sublabel:` pairs yields `slide.visualData = {}` with no `levels`
list, and likewise with `layers:` and with `items:`; only `steps:` fills its
list. For every document, no slide returned holds a `levels`, `layers` or
`items` list in `visualData` (or in `visual.data`): the lines after
`visualData:` run the first branch for the context `visual-data`, which stands
before the branches that would open those lists. -/
theorem visualData_lists_never_filled :
    (parsedSlides levelsScript).map (fun s => s.visualData) = [some {}] ∧
      (parsedSlides layersScript).map (fun s => s.visualData) = [some {}] ∧
      (parsedSlides itemsScript).map (fun s => s.visualData) = [some {}] ∧
      (parsedSlides stepsScript).map (fun s => s.visualData) =
        [some { steps := some [{ title := "A", desc := "first" }, { title := "B", desc := "" }] }] ∧
      ∀ content : String, (parsedSlides content).all (fun s => s.flatData) = true := by
  refine ⟨by decide, by decide, by decide, by decide, ?_⟩
  intro content
  rw [List.all_eq_true]
  intro s hs
  exact ((parsedSlides_frame content).2 s hs).2

set_option maxRecDepth 100000 in
/-- C14 fails on the code. For a slide block with `steps:` and a `notes:` text
the slide is returned without `notes`, where the parser of analyze-layouts.mjs
returns the text; and for every document no slide returned by `parseScriptMd`
of render-slide.mjs has a `notes` field: the line `notes:` only sets the
context, and no branch stores the lines that follow. -/
theorem notes_never_stored :
    (parsedSlides notesScript).map (fun s => (s.steps, s.notes)) =
        [(some ["one", "two"], none)] ∧
      (AnalyzeLayouts.parseScriptMd notesScript).2.map (fun s => s.notes) =
        [some "Speaker text "] ∧
      ∀ content : String, (parsedSlides content).all (fun s => s.notes.isNone) = true := by
  refine ⟨by decide, by decide, ?_⟩
  intro content
  rw [List.all_eq_true]
  intro s hs
  rw [((parsedSlides_frame content).2 s hs).1]
  rfl

set_option maxRecDepth 100000 in
/-- C15, as stated, fails: two slide blocks that both hold the line `id: s01`
yield two records with the id `s01`. -/
theorem parseScriptMd_same_ids :
    (parsedSlides sameIdScript).map (fun s => (s.index, s.id)) = [(1, "s01"), (2, "s01")] ∧
      ¬ ((parsedSlides sameIdScript).map fun s => s.id).Nodup := by
  decide

/-- C15, amended. For every document the records appear in the order of the
slide blocks, one for each block with a `yaml` fence, with the number of the
block as `index` (strictly increasing), and the id of a record is the one its
block declares: the value of its last `id:` line, or `s` and the two-digit
number of the block when it has none. When no block has an `id:` line the ids
are pairwise distinct. -/
theorem parseScriptMd_declared_ids (content : String) :
    (parsedSlides content).map (fun s => (s.index, s.id)) =
        declaredIds (slideBlocks content.toList) 0 ∧
      ((parsedSlides content).map fun s => s.index).Pairwise (· < ·) ∧
      ((∀ b ∈ slideBlocks content.toList, declaresNoId b = true) →
        ((parsedSlides content).map fun s => s.id).Nodup) := by
  have h := (parsedSlides_frame content).1
  have h1 : (parsedSlides content).map (fun s => s.index) =
      (declaredIds (slideBlocks content.toList) 0).map fun p => p.1 := by
    rw [← h, List.map_map]
    rfl
  have h2 : (parsedSlides content).map (fun s => s.id) =
      (declaredIds (slideBlocks content.toList) 0).map fun p => p.2 := by
    rw [← h, List.map_map]
    rfl
  refine ⟨h, ?_, ?_⟩
  · rw [h1]
    exact declaredIds_sorted _ _
  · intro hno
    rw [h2]
    exact declaredIds_nodup _ _ hno

end RenderSlide

/-! ## Stable sorting: the first best entry comes first -/

/-- In a list whose entry `e` is not preceded by an entry that may stand before
it, and may stand before every later entry, the insertion sort puts `e` first
and sorts the others behind it. -/
theorem insertionSort_first_best {α : Type} (r : α → α → Prop) [DecidableRel r]
    (pre post : List α) (e : α) (hpre : ∀ p ∈ pre, ¬ r p e) (hpost : ∀ x ∈ post, r e x) :
    (pre ++ e :: post).insertionSort r = e :: (pre ++ post).insertionSort r := by
  induction pre with
  | nil => exact List.insertionSort_cons r hpost
  | cons p pre ih =>
    have h1 : ¬ r p e := hpre p (List.mem_cons_self _ _)
    have h2 := ih (fun x hx => hpre x (List.mem_cons_of_mem _ hx))
    show List.orderedInsert r p ((pre ++ e :: post).insertionSort r) =
      e :: List.orderedInsert r p ((pre ++ post).insertionSort r)
    rw [h2]
    simp only [List.orderedInsert, h1, if_false]

/-- Every non-empty list has a first best entry for a total and transitive
order. -/
theorem exists_first_best {α : Type} (r : α → α → Prop)
    (total : ∀ a b, r a b ∨ r b a) (trans : ∀ a b c, r a b → r b c → r a c) :
    ∀ l : List α, l ≠ [] →
      ∃ pre e post, l = pre ++ e :: post ∧ (∀ p ∈ pre, ¬ r p e) ∧ ∀ x ∈ post, r e x := by
  intro l
  induction l with
  | nil => intro h; exact absurd rfl h
  | cons a l ih =>
    intro _
    by_cases hl : l = []
    · subst hl
      exact ⟨[], a, [], rfl, by simp, by simp⟩
    · obtain ⟨pre, e, post, rfl, h1, h2⟩ := ih hl
      by_cases hae : r a e
      · refine ⟨[], a, pre ++ e :: post, rfl, by simp, ?_⟩
        intro x hx
        rcases List.mem_append.1 hx with hx | hx
        · have : r e x := (total e x).resolve_right (h1 x hx)
          exact trans _ _ _ hae this
        · rcases List.mem_cons.1 hx with rfl | hx
          · exact hae
          · exact trans _ _ _ hae (h2 x hx)
      · refine ⟨a :: pre, e, post, rfl, ?_, h2⟩
        intro p hp
        rcases List.mem_cons.1 hp with rfl | hp
        · exact hae
        · exact h1 p hp

/-! ## Style recommendation -/

namespace AnalyzeLayouts

theorem styleScores_names (toLowerCase : String → String) (allText : String) :
    (styleScores toLowerCase allText).map (fun s => s.name) =
      ["tech", "bold-editorial", "minimal", "dark-atmospheric"] := by
  simp [styleScores, STYLE_RULES]

theorem styleBefore_total (a b : StyleScore) : styleBefore a b ∨ styleBefore b a := by
  unfold styleBefore
  omega

theorem styleBefore_trans (a b c : StyleScore) (h1 : styleBefore a b) (h2 : styleBefore b c) :
    styleBefore a c := by
  unfold styleBefore at *
  omega

theorem styleScores_ne_nil (toLowerCase : String → String) (allText : String) :
    styleScores toLowerCase allText ≠ [] := by
  simp [styleScores, STYLE_RULES]

/-- C24. For every document text (and every lower-casing function): when some
rule has a matched keyword, `analyzeStyle` recommends the first rule, in the
order tech, bold-editorial, minimal, dark-atmospheric of the table, among those
with the highest number of matched keywords (the rules before it have fewer,
those after it no more); its alternatives are the entries with a positive
number among the next two of the stable sort of the other rules, at most two,
and the recommended style is not among them. When no keyword matches it
recommends apple with the alternatives tech and bold-editorial, in that order. -/
theorem analyzeStyle_first_highest (toLowerCase : String → String) (allText : String) :
    (styleScores toLowerCase allText).map (fun s => s.name) =
        ["tech", "bold-editorial", "minimal", "dark-atmospheric"] ∧
      ((∀ s ∈ styleScores toLowerCase allText, s.score = 0) →
        analyzeStyle toLowerCase allText = some defaultStyle) ∧
      defaultStyle.recommended = "apple" ∧
      defaultStyle.alternatives.map (fun a => a.name) = ["tech", "bold-editorial"] ∧
      ((∃ s ∈ styleScores toLowerCase allText, 0 < s.score) →
        ∃ pre e post rec, styleScores toLowerCase allText = pre ++ e :: post ∧
          (∀ p ∈ pre, p.score < e.score) ∧ (∀ x ∈ post, x.score ≤ e.score) ∧ 0 < e.score ∧
          analyzeStyle toLowerCase allText = some rec ∧ rec.recommended = e.name ∧
          rec.alternatives =
            ((((pre ++ post).insertionSort styleBefore).take 2).filter
              fun s => decide (s.score > 0)).map
              (fun s => { name := s.name, description := s.description }) ∧
          rec.alternatives.length ≤ 2 ∧
          rec.recommended ∉ rec.alternatives.map (fun a => a.name)) := by
  refine ⟨styleScores_names _ _, ?_, rfl, rfl, ?_⟩
  · intro h0
    obtain ⟨pre, e, post, hl, h1, h2⟩ := exists_first_best styleBefore styleBefore_total
      styleBefore_trans _ (styleScores_ne_nil toLowerCase allText)
    have hs := insertionSort_first_best styleBefore pre post e h1 h2
    have he : e.score = 0 := h0 e (by rw [hl]; simp)
    unfold analyzeStyle
    simp only [hl, hs, he, Nat.lt_irrefl, if_false]
  · rintro ⟨s, hs, hpos⟩
    obtain ⟨pre, e, post, hl, h1, h2⟩ := exists_first_best styleBefore styleBefore_total
      styleBefore_trans _ (styleScores_ne_nil toLowerCase allText)
    have hsort := insertionSort_first_best styleBefore pre post e h1 h2
    have h1' : ∀ p ∈ pre, p.score < e.score := fun p hp => by
      have := h1 p hp
      unfold styleBefore at this
      omega
    have hse : s.score ≤ e.score := by
      rw [hl] at hs
      rcases List.mem_append.1 hs with h | h
      · exact Nat.le_of_lt (h1' s h)
      · rcases List.mem_cons.1 h with rfl | h
        · exact Nat.le_refl _
        · exact h2 s h
    have he : 0 < e.score := by omega
    have hnames := styleScores_names toLowerCase allText
    rw [hl] at hnames
    have hnodup : ((pre ++ e :: post).map fun s => s.name).Nodup := by
      rw [hnames]
      decide
    refine ⟨pre, e, post,
      { recommended := e.name, recommendedDescription := e.description,
        alternatives := ((((pre ++ post).insertionSort styleBefore).take 2).filter
          fun s => decide (s.score > 0)).map
          (fun s => { name := s.name, description := s.description }) },
      hl, h1', h2, he, ?_, rfl, rfl, ?_, ?_⟩
    · unfold analyzeStyle
      simp only [hl, hsort, gt_iff_lt, he, if_true, List.drop_succ_cons, List.drop_zero]
    · simp only [List.length_map]
      exact le_trans (List.length_filter_le _ _) (by simp)
    · intro hmem
      simp only [List.mem_map, List.mem_filter] at hmem
      obtain ⟨a, ⟨x, ⟨hx, _⟩, rfl⟩, hname⟩ := hmem
      have hx' : x ∈ pre ++ post :=
        (List.mem_insertionSort styleBefore).1 (List.mem_of_mem_take hx)
      simp only [List.map_append, List.map_cons] at hnodup
      have hnd := List.nodup_append.1 hnodup
      have hnd2 := List.nodup_cons.1 hnd.2.1
      have hname' : x.name = e.name := hname
      rcases List.mem_append.1 hx' with h | h
      · exact hnd.2.2 (List.mem_map.2 ⟨x, h, rfl⟩) (by rw [hname']; exact List.mem_cons_self _ _)
      · exact hnd2.1 (by rw [← hname']; exact List.mem_map.2 ⟨x, h, rfl⟩)

end AnalyzeLayouts
/-! ## Layout ranking -/

namespace AnalyzeLayouts

theorem sortedScores_eq (slide : Slide) :
    sortedScores slide = (positiveScores slide).insertionSort before := rfl

theorem mathRound_hundred : mathRound (1 * 100) = 100 := by
  unfold mathRound
  rw [Int.floor_eq_iff]
  constructor <;> norm_num

theorem mathRound_fifty : mathRound (5 / 10 * 100) = 50 := by
  unfold mathRound
  rw [Int.floor_eq_iff]
  constructor <;> norm_num

theorem mem_positiveScores (slide : Slide) (x : ScoreEntry) :
    x ∈ positiveScores slide ↔
      ∃ rule ∈ LAYOUT_RULES, x = scoreEntry slide rule ∧
        0 < rule.matchScore (slideText slide) slide := by
  unfold positiveScores
  rw [List.mem_filter, List.mem_map]
  constructor
  · rintro ⟨⟨rule, hr, rfl⟩, hp⟩
    exact ⟨rule, hr, rfl, by simpa [scoreEntry] using hp⟩
  · rintro ⟨rule, hr, rfl, hp⟩
    exact ⟨⟨rule, hr, rfl⟩, by simpa [scoreEntry] using hp⟩

/-- The ranking of `analyzeSlide` in terms of the first best entry. -/
theorem analyzeSlide_of_first_best (slide : Slide) (pre post : List ScoreEntry) (e : ScoreEntry)
    (hl : positiveScores slide = pre ++ e :: post) (hpre : ∀ p ∈ pre, ¬ before p e)
    (hpost : ∀ x ∈ post, before e x) :
    (analyzeSlide slide).recommended = e.name ∧
      (analyzeSlide slide).confidence = mathRound (e.score * 100) ∧
      (analyzeSlide slide).alternatives =
        (((pre ++ post).insertionSort before).take 2).map alternativeOf := by
  have hs : sortedScores slide = e :: (pre ++ post).insertionSort before := by
    rw [sortedScores_eq, hl]
    exact insertionSort_first_best before pre post e hpre hpost
  unfold analyzeSlide
  simp only [hs, List.head?_cons, Option.getD_some, List.drop_succ_cons, List.drop_zero]
  exact ⟨trivial, trivial, rfl⟩

theorem layoutRules_ne_nil : LAYOUT_RULES ≠ [] := by
  unfold LAYOUT_RULES
  exact List.cons_ne_nil _ _

theorem positiveScores_ne_nil (slide : Slide) : positiveScores slide ≠ [] := by
  intro h
  have hm : LAYOUT_RULES.getLast layoutRules_ne_nil ∈ LAYOUT_RULES := List.getLast_mem _
  have : scoreEntry slide (LAYOUT_RULES.getLast layoutRules_ne_nil) ∈ positiveScores slide := by
    rw [mem_positiveScores]
    refine ⟨_, hm, rfl, ?_⟩
    show (0 : ℚ) < (match slide.bullets with
      | some (_ :: _) => 7 / 10
      | _ => 5 / 10)
    split <;> norm_num
  rw [h] at this
  cases this

end AnalyzeLayouts
namespace AnalyzeLayouts

theorem scoreEntry_bounds (slide : Slide) (rules : List LayoutRule)
    (hsub : ∀ rule ∈ rules, rule ∈ LAYOUT_RULES) (hp : ∀ rule ∈ rules, rule.priority ≤ 2) :
    ∀ x ∈ (rules.map (scoreEntry slide)).filter (fun s => decide (s.score > 0)),
      x.score ≤ 1 ∧ x.priority.getD 0 ≤ 2 := by
  intro x hx
  obtain ⟨hx, _⟩ := List.mem_filter.1 hx
  obtain ⟨rule, hr, rfl⟩ := List.mem_map.1 hx
  exact ⟨matchScore_le_one rule (hsub rule hr) _ _, hp rule hr⟩

/-- On a cover slide with a left and a right title the array `scores` is the
entry of binary-comparison, entries of lower rank, the entry of title-hero,
and the entry of bullet-list. -/
theorem positiveScores_cover (slide : Slide) (hc : slide.type = some "cover")
    (hl : truthy slide.leftTitle = true) (hr : truthy slide.rightTitle = true) :
    ∃ mid post, positiveScores slide =
        (ScoreEntry.mk "binary-comparison" "A vs B 对比布局" (some 2) 1 :: mid) ++
          ScoreEntry.mk "title-hero" "大标题居中布局" (some 3) 1 :: post ∧
      (∀ x ∈ mid, x.score ≤ 1 ∧ x.priority.getD 0 ≤ 2) ∧
      ∀ x ∈ post, x.score ≤ 1 ∧ x.priority.getD 0 ≤ 2 := by
  have hL : LAYOUT_RULES = LAYOUT_RULES.take 1 ++ ((LAYOUT_RULES.drop 1).take 5 ++
      ((LAYOUT_RULES.drop 6).take 1 ++ LAYOUT_RULES.drop 7)) := rfl
  have h1 : (LAYOUT_RULES.take 1).map (scoreEntry slide) =
      [ScoreEntry.mk "binary-comparison" "A vs B 对比布局" (some 2) 1] := by
    simp [LAYOUT_RULES, scoreEntry, hl, hr]
  have h7 : ((LAYOUT_RULES.drop 6).take 1).map (scoreEntry slide) =
      [ScoreEntry.mk "title-hero" "大标题居中布局" (some 3) 1] := by
    simp [LAYOUT_RULES, scoreEntry, hc]
  refine ⟨(((LAYOUT_RULES.drop 1).take 5).map (scoreEntry slide)).filter
      (fun s => decide (s.score > 0)),
    ((LAYOUT_RULES.drop 7).map (scoreEntry slide)).filter (fun s => decide (s.score > 0)),
    ?_, ?_, ?_⟩
  · unfold positiveScores
    rw [hL]
    simp only [List.map_append, List.filter_append, h1, h7]
    simp [List.filter]
  · exact scoreEntry_bounds slide _ (fun rule h =>
      List.mem_of_mem_drop (List.mem_of_mem_take h)) (by decide)
  · exact scoreEntry_bounds slide _ (fun rule h => List.mem_of_mem_drop h) (by decide)

/-- C21. For every slide, the array `scores` of `analyzeSlide` holds the rules
with a positive score, sorted by score, higher first, and by priority, higher
first, for equal scores, two entries of equal rank keeping the order of the
table. The recommended layout is the first entry of the table that no earlier
entry equals or beats and that no later entry beats; the alternatives are the
next two entries, or fewer, of the same sort of the other entries, each with
the confidence `Math.round(score * 100)`. A cover slide that has a left and a
right title is recommended title-hero (score 1.0, priority 3) with the
confidence 100, ahead of binary-comparison (score 1.0, priority 2), its first
alternative. -/
theorem analyzeSlide_ranking (slide : Slide) :
    (sortedScores slide).Perm (positiveScores slide) ∧
      (sortedScores slide).Sorted before ∧
      (∀ a b, List.Sublist [a, b] (positiveScores slide) → before a b →
        List.Sublist [a, b] (sortedScores slide)) ∧
      (∀ x, x ∈ positiveScores slide ↔
        ∃ rule ∈ LAYOUT_RULES, x = scoreEntry slide rule ∧
          0 < rule.matchScore (slideText slide) slide) ∧
      (∀ a b, before a b ↔ b.score < a.score ∨
        (a.score = b.score ∧ b.priority.getD 0 ≤ a.priority.getD 0)) ∧
      (∃ pre e post, positiveScores slide = pre ++ e :: post ∧
        (∀ p ∈ pre, ¬ before p e) ∧ (∀ x ∈ post, before e x) ∧
        (analyzeSlide slide).recommended = e.name ∧
        (analyzeSlide slide).confidence = mathRound (e.score * 100) ∧
        (analyzeSlide slide).alternatives =
          (((pre ++ post).insertionSort before).take 2).map alternativeOf) ∧
      (slide.type = some "cover" → truthy slide.leftTitle = true →
        truthy slide.rightTitle = true →
        (analyzeSlide slide).recommended = "title-hero" ∧
          (analyzeSlide slide).confidence = 100 ∧
          (analyzeSlide slide).alternatives.head? =
            some (Alternative.mk "binary-comparison" "A vs B 对比布局" 100)) := by
  refine ⟨List.perm_insertionSort before _,
    @List.sorted_insertionSort ScoreEntry before _ ⟨before_total⟩ ⟨fun _ _ _ => before_trans⟩ _,
    fun a b hab h => List.pair_sublist_insertionSort h hab, mem_positiveScores slide,
    before_iff, ?_, ?_⟩
  · obtain ⟨pre, e, post, hl, h1, h2⟩ := exists_first_best before before_total
      (fun _ _ _ => before_trans) _ (positiveScores_ne_nil slide)
    exact ⟨pre, e, post, hl, h1, h2, analyzeSlide_of_first_best slide pre post e hl h1 h2⟩
  · intro hc hl hr
    obtain ⟨mid, post, hps, hmid, hpost⟩ := positiveScores_cover slide hc hl hr
    have hpre : ∀ p ∈ ScoreEntry.mk "binary-comparison" "A vs B 对比布局" (some 2) 1 :: mid,
        ¬ before p (ScoreEntry.mk "title-hero" "大标题居中布局" (some 3) 1) := by
      intro p hp hb
      rw [before_iff] at hb
      have hb2 : p.score ≤ 1 ∧ p.priority.getD 0 ≤ 2 := by
        rcases List.mem_cons.1 hp with rfl | hp
        · exact ⟨le_refl _, by decide⟩
        · exact hmid p hp
      rcases hb with hb | ⟨_, hb⟩
      · exact absurd hb2.1 (not_le.2 hb)
      · have : (3 : Int) ≤ p.priority.getD 0 := hb
        omega
    have hpost' : ∀ x ∈ post, before (ScoreEntry.mk "title-hero" "大标题居中布局" (some 3) 1) x := by
      intro x hx
      rw [before_iff]
      rcases lt_or_eq_of_le (hpost x hx).1 with h | h
      · exact Or.inl h
      · refine Or.inr ⟨h.symm, ?_⟩
        have := (hpost x hx).2
        show x.priority.getD 0 ≤ 3
        omega
    obtain ⟨r1, r2, r3⟩ := analyzeSlide_of_first_best slide _ post _ hps hpre hpost'
    refine ⟨r1, by rw [r2]; exact mathRound_hundred, ?_⟩
    rw [r3]
    have hbc : ∀ x ∈ mid ++ post,
        before (ScoreEntry.mk "binary-comparison" "A vs B 对比布局" (some 2) 1) x := by
      intro x hx
      have hx2 : x.score ≤ 1 ∧ x.priority.getD 0 ≤ 2 := by
        rcases List.mem_append.1 hx with h | h
        · exact hmid x h
        · exact hpost x h
      rw [before_iff]
      rcases lt_or_eq_of_le hx2.1 with h | h
      · exact Or.inl h
      · exact Or.inr ⟨h.symm, hx2.2⟩
    rw [List.cons_append, List.insertionSort_cons before hbc]
    simp only [List.take_succ_cons, List.map_cons, List.head?_cons, alternativeOf,
      mathRound_hundred]

end AnalyzeLayouts
namespace AnalyzeLayouts

/-- C22. A slide without bullets on which no rule other than bullet-list scores
above 0 is recommended bullet-list with the confidence 50 and without
alternatives. -/
theorem analyzeSlide_default (slide : Slide)
    (hb : slide.bullets = none ∨ slide.bullets = some [])
    (hr : ∀ rule ∈ LAYOUT_RULES, rule.name ≠ "bullet-list" →
      rule.matchScore (slideText slide) slide ≤ 0) :
    (analyzeSlide slide).recommended = "bullet-list" ∧ (analyzeSlide slide).confidence = 50 ∧
      (analyzeSlide slide).alternatives = [] := by
  have hL : LAYOUT_RULES = LAYOUT_RULES.take 7 ++ LAYOUT_RULES.drop 7 := rfl
  have h7 : ((LAYOUT_RULES.take 7).map (scoreEntry slide)).filter
      (fun s => decide (s.score > 0)) = [] := by
    rw [List.filter_eq_nil_iff]
    intro x hx
    obtain ⟨rule, hrule, rfl⟩ := List.mem_map.1 hx
    have hne : rule.name ≠ "bullet-list" :=
      (by decide : ∀ rule ∈ LAYOUT_RULES.take 7, rule.name ≠ "bullet-list") rule hrule
    have := hr rule (List.mem_of_mem_take hrule) hne
    simpa [scoreEntry] using this
  have h8 : (LAYOUT_RULES.drop 7).map (scoreEntry slide) =
      [ScoreEntry.mk "bullet-list" "要点列表布局（默认）" (some 1) (5 / 10)] := by
    rcases hb with hb | hb <;> simp [LAYOUT_RULES, scoreEntry, hb]
  have hps : positiveScores slide =
      [] ++ ScoreEntry.mk "bullet-list" "要点列表布局（默认）" (some 1) (5 / 10) :: [] := by
    unfold positiveScores
    rw [hL, List.map_append, List.filter_append, h7, h8]
    simp [List.filter]
  obtain ⟨r1, r2, r3⟩ := analyzeSlide_of_first_best slide [] [] _ hps (by simp) (by simp)
  exact ⟨r1, by rw [r2]; exact mathRound_fifty, by rw [r3]; rfl⟩

/-- A slide without bullets whose title has fifty characters and no keyword. -/
theorem analyzeSlide_default_witness :
    (analyzeSlide plainLongSlide).recommended = "bullet-list" ∧
      (analyzeSlide plainLongSlide).confidence = 50 ∧
      (analyzeSlide plainLongSlide).alternatives = [] :=
  analyzeSlide_default plainLongSlide (Or.inl rfl) (by
    intro rule h hne
    simp only [LAYOUT_RULES, List.mem_cons, List.mem_singleton, List.not_mem_nil, or_false] at h
    rcases h with rfl | rfl | rfl | rfl | rfl | rfl | rfl | rfl
    all_goals first
      | exact absurd rfl hne
      | (dsimp only
         repeat rw [if_neg (by decide)]))

end AnalyzeLayouts
/-! ## The acceptance check before the deck is built -/

namespace BuildDeck

theorem acceptanceCheck_ok_iff (layoutData : LayoutData) :
    acceptanceCheck layoutData = .ok () ↔
      ∀ r ∈ recommendationsOf layoutData, r.accepted.truthy = true := by
  unfold acceptanceCheck unaccepted
  constructor
  · intro h r hr
    by_contra hf
    have hmem : r ∈ (recommendationsOf layoutData).filter fun r => !r.accepted.truthy :=
      List.mem_filter.2 ⟨hr, by simpa using hf⟩
    have hpos := List.length_pos_of_mem hmem
    rw [if_pos hpos] at h
    cases h
  · intro h
    have hnil : (recommendationsOf layoutData).filter (fun r => !r.accepted.truthy) = [] := by
      rw [List.filter_eq_nil_iff]
      intro r hr
      simp [h r hr]
    rw [hnil]
    rfl

/-- C23. Every recommendation `analyzeSlide` returns has `accepted = false`. The
acceptance check of build-deck.mjs passes exactly when every recommendation
entry has a truthy `accepted`: an entry whose flag is false or missing makes
it fail. So the recommendations written for one slide or more without
`--accept-all` cannot be built as they are, and they pass when written with
`--accept-all`. -/
theorem deck_built_only_when_accepted :
    (∀ slide, (AnalyzeLayouts.analyzeSlide slide).accepted = false) ∧
      (∀ layoutData, acceptanceCheck layoutData = .ok () ↔
        ∀ r ∈ recommendationsOf layoutData, r.accepted.truthy = true) ∧
      (∀ layoutData, ∀ r ∈ recommendationsOf layoutData,
        r.accepted = .bool false ∨ r.accepted = .undefined →
          acceptanceCheck layoutData ≠ .ok ()) ∧
      (∀ slides, slides ≠ [] → acceptanceCheck (writtenLayoutData slides false) ≠ .ok ()) ∧
      (∀ slides, acceptanceCheck (writtenLayoutData slides true) = .ok ()) := by
  refine ⟨fun _ => rfl, acceptanceCheck_ok_iff, ?_, ?_, ?_⟩
  · intro layoutData r hr hacc hok
    have := (acceptanceCheck_ok_iff layoutData).1 hok r hr
    rcases hacc with h | h <;> (rw [h] at this; cases this)
  · intro slides hne hok
    cases slides with
    | nil => exact hne rfl
    | cons s rest =>
      have := (acceptanceCheck_ok_iff _).1 hok
        { accepted := .bool (AnalyzeLayouts.analyzeSlide s).accepted }
        (by simp [writtenLayoutData, recommendationsOf])
      cases this
  · intro slides
    rw [acceptanceCheck_ok_iff]
    intro r hr
    simp only [writtenLayoutData, recommendationsOf, List.mem_map, if_true] at hr
    obtain ⟨_, _, rfl⟩ := hr
    rfl

end BuildDeck

/-! ## visual-matcher.mjs: candidates, confidence, complexity and caps -/

namespace VisualMatcher

theorem candidateOf_some {text : List Char} {config : Config} {c : Candidate}
    (h : candidateOf text config = some c) :
    c.type = config.type ∧ c.composition = config.composition ∧
    c.matchCount = matchCountOf config text ∧ config.minMatches ≤ c.matchCount ∧
    config.extractData text = some c.data ∧ 0 < c.data.keys ∧
    c.confidence = (c.matchCount : ℚ) / (config.patterns.length : ℚ) := by
  unfold candidateOf at h
  split_ifs at h with h1
  cases hd : config.extractData text with
  | none => rw [hd] at h; simp at h
  | some data =>
    rw [hd] at h
    simp only at h
    split_ifs at h with h2
    cases h
    exact ⟨rfl, rfl, rfl, h1, rfl, h2, rfl⟩

theorem mem_candidates {text : String} {c : Candidate} :
    c ∈ candidates text ↔ ∃ config ∈ VISUAL_PATTERNS, candidateOf text.toList config = some c := by
  unfold candidates
  rw [List.mem_filterMap]

theorem mem_detectVisualType {text : String} {c : Candidate} :
    c ∈ detectVisualType text ↔ c ∈ candidates text := by
  unfold detectVisualType
  exact (List.perm_insertionSort _ _).mem_iff

theorem confidenceBefore_iff (a b : Candidate) :
    confidenceBefore a b ↔ b.confidence ≤ a.confidence := by
  unfold confidenceBefore
  exact sub_nonpos

theorem confidenceBefore_total (a b : Candidate) :
    confidenceBefore a b ∨ confidenceBefore b a := by
  rw [confidenceBefore_iff, confidenceBefore_iff]
  exact le_total _ _

theorem confidenceBefore_trans {a b c : Candidate} (h1 : confidenceBefore a b)
    (h2 : confidenceBefore b c) : confidenceBefore a c := by
  rw [confidenceBefore_iff] at *
  exact le_trans h2 h1

theorem filterMap_types_sublist (text : List Char) (l : List Config) :
    List.Sublist ((l.filterMap (candidateOf text)).map fun c => c.type)
      (l.map fun config => config.type) := by
  induction l with
  | nil => exact List.Sublist.slnil
  | cons x xs ih =>
    cases hx : candidateOf text x with
    | none =>
      rw [List.filterMap_cons_none hx]
      exact List.Sublist.cons _ ih
    | some c =>
      rw [List.filterMap_cons_some hx, List.map_cons, List.map_cons, (candidateOf_some hx).1]
      exact List.Sublist.cons₂ _ ih

theorem visualPatterns_type_inj {a b : Config} (ha : a ∈ VISUAL_PATTERNS)
    (hb : b ∈ VISUAL_PATTERNS) (h : a.type = b.type) : a = b := by
  simp only [VISUAL_PATTERNS, List.mem_cons, List.mem_singleton, List.not_mem_nil, or_false] at ha hb
  rcases ha with rfl | rfl | rfl | rfl | rfl | rfl | rfl <;>
    rcases hb with rfl | rfl | rfl | rfl | rfl | rfl | rfl <;>
    first
      | rfl
      | exact absurd h (by decide)

/-- C27. Every candidate of `detectVisualType` comes from an archetype of the
table: it has the type of the archetype, its match count is the number of
matches of the patterns of the archetype and is at least `minMatches`, its
payload is the one the extraction routine returned, with at least one key, and
its confidence is the match count divided by the number of patterns. The
result holds the candidates in the order of non-increasing confidence; it is a
rearrangement of the candidates in the order of the table, and two candidates
of equal confidence keep that order. An archetype whose extraction routine
returns `null` has no candidate. -/
theorem detectVisualType_candidates (text : String) :
    (∀ c ∈ detectVisualType text, ∃ config ∈ VISUAL_PATTERNS,
      c.type = config.type ∧ c.matchCount = matchCountOf config text.toList ∧
      config.minMatches ≤ c.matchCount ∧ config.extractData text.toList = some c.data ∧
      0 < c.data.keys ∧ c.confidence = (c.matchCount : ℚ) / (config.patterns.length : ℚ)) ∧
    (detectVisualType text).Pairwise (fun a b => b.confidence ≤ a.confidence) ∧
    (detectVisualType text).Perm (candidates text) ∧
    List.Sublist ((candidates text).map fun c => c.type)
      (VISUAL_PATTERNS.map fun config => config.type) ∧
    (∀ a b, List.Sublist [a, b] (candidates text) → a.confidence = b.confidence →
      List.Sublist [a, b] (detectVisualType text)) ∧
    (∀ config ∈ VISUAL_PATTERNS, config.extractData text.toList = none →
      ∀ c ∈ detectVisualType text, c.type ≠ config.type) := by
  have hmem : ∀ c ∈ detectVisualType text, ∃ config ∈ VISUAL_PATTERNS,
      c.type = config.type ∧ c.matchCount = matchCountOf config text.toList ∧
      config.minMatches ≤ c.matchCount ∧ config.extractData text.toList = some c.data ∧
      0 < c.data.keys ∧ c.confidence = (c.matchCount : ℚ) / (config.patterns.length : ℚ) := by
    intro c hc
    obtain ⟨config, hconfig, h⟩ := mem_candidates.1 (mem_detectVisualType.1 hc)
    have := candidateOf_some h
    exact ⟨config, hconfig, this.1, this.2.2.1, this.2.2.2.1, this.2.2.2.2.1, this.2.2.2.2.2.1,
      this.2.2.2.2.2.2⟩
  refine ⟨hmem, ?_, List.perm_insertionSort _ _, filterMap_types_sublist _ _, ?_, ?_⟩
  · have h := @List.sorted_insertionSort Candidate confidenceBefore _ ⟨confidenceBefore_total⟩
      ⟨fun _ _ _ => confidenceBefore_trans⟩ (candidates text)
    exact List.Pairwise.imp (fun {a b} hab => (confidenceBefore_iff a b).1 hab) h
  · intro a b hab heq
    exact List.pair_sublist_insertionSort ((confidenceBefore_iff a b).2 (le_of_eq heq.symm)) hab
  · intro config hconfig hnone c hc htype
    obtain ⟨config', hconfig', h1, _, _, h4, _⟩ := hmem c hc
    have : config' = config := visualPatterns_type_inj hconfig' hconfig (h1.symm.trans htype)
    rw [this, hnone] at h4
    cases h4

set_option maxRecDepth 100000 in
theorem repeatedVsText_candidates :
    (candidates repeatedVsText).map (fun c => (c.type, c.matchCount)) = [("comparison", 5)] := by
  decide

/-- C28. The confidence of a candidate is positive, and it is above 1 for
a text in which the patterns of an archetype match more often than the
archetype has patterns: in "a vs b vs c vs d vs e vs f" the first of the four
patterns of `comparison` matches five times, and the candidate of
`comparison` has the confidence 5/4. -/
theorem detectVisualType_confidence_above_one :
    (∀ text, ∀ c ∈ detectVisualType text, 0 < c.confidence) ∧
    ∃ c ∈ detectVisualType repeatedVsText,
      c.type = "comparison" ∧ c.matchCount = 5 ∧ c.confidence = 5 / 4 ∧ 1 < c.confidence := by
  constructor
  · intro text c hc
    obtain ⟨config, hconfig, h⟩ := mem_candidates.1 (mem_detectVisualType.1 hc)
    obtain ⟨_, _, _, hmin, _, _, hconf⟩ := candidateOf_some h
    have h1 : 1 ≤ config.minMatches ∧ 1 ≤ config.patterns.length := by
      simp only [VISUAL_PATTERNS, List.mem_cons, List.mem_singleton, List.not_mem_nil,
        or_false] at hconfig
      rcases hconfig with rfl | rfl | rfl | rfl | rfl | rfl | rfl <;> exact ⟨by decide, by decide⟩
    rw [hconf]
    have h2 : (0 : ℚ) < (c.matchCount : ℚ) := by exact_mod_cast (lt_of_lt_of_le h1.1 hmin)
    have h3 : (0 : ℚ) < (config.patterns.length : ℚ) := by exact_mod_cast h1.2
    exact div_pos h2 h3
  · have h := repeatedVsText_candidates
    cases hl : candidates repeatedVsText with
    | nil => rw [hl] at h; cases h
    | cons c rest =>
      rw [hl] at h
      simp only [List.map_cons, List.cons.injEq, Prod.mk.injEq, List.map_eq_nil_iff] at h
      obtain ⟨⟨htype, hcount⟩, _⟩ := h
      have hc : c ∈ candidates repeatedVsText := by rw [hl]; exact List.mem_cons_self _ _
      obtain ⟨config, hconfig, hcand⟩ := mem_candidates.1 hc
      obtain ⟨ht, _, _, _, _, _, hconf⟩ := candidateOf_some hcand
      have hcfg : config.patterns.length = 4 := by
        simp only [VISUAL_PATTERNS, List.mem_cons, List.mem_singleton, List.not_mem_nil,
          or_false] at hconfig
        rw [htype] at ht
        rcases hconfig with rfl | rfl | rfl | rfl | rfl | rfl | rfl <;>
          first
            | rfl
            | exact absurd ht (by decide)
      have h54 : c.confidence = 5 / 4 := by rw [hconf, hcount, hcfg]; norm_num
      exact ⟨c, mem_detectVisualType.2 hc, htype, hcount, h54, by rw [h54]; norm_num⟩

/-- C29. For a payload of its archetype `estimateVisualComplexity` returns
`canInline` as "the items are at most the threshold", `needsSeparateSlide` as
"the items are more than the threshold plus 2" and the number of items as
`itemCount`, with the thresholds 3 (pyramid), 4 (flow), 4 (cycle), 4 (comparison,
where the items are those of both sides), 4 (timeline), 3 (funnel) and 3 (tree).
The action of a recommendation is `create-separate` exactly when
`needsSeparateSlide` holds and `inline` otherwise; for a number of items above
the threshold and at most the threshold plus 2 neither flag holds and the
action is `inline`. -/
theorem estimateVisualComplexity_thresholds :
    (∀ l, estimateVisualComplexity "pyramid" (.levels l) =
      Complexity.mk (decide (l.length ≤ 3)) (decide (l.length > 3 + 2)) (some l.length)) ∧
    (∀ l, estimateVisualComplexity "flow" (.steps l) =
      Complexity.mk (decide (l.length ≤ 4)) (decide (l.length > 4 + 2)) (some l.length)) ∧
    (∀ l, estimateVisualComplexity "cycle" (.labels l) =
      Complexity.mk (decide (l.length ≤ 4)) (decide (l.length > 4 + 2)) (some l.length)) ∧
    (∀ a l b r, estimateVisualComplexity "comparison" (.comparison a l b r) =
      Complexity.mk (decide (l.length + r.length ≤ 4)) (decide (l.length + r.length > 4 + 2))
        (some (l.length + r.length))) ∧
    (∀ l, estimateVisualComplexity "timeline" (.events l) =
      Complexity.mk (decide (l.length ≤ 4)) (decide (l.length > 4 + 2)) (some l.length)) ∧
    (∀ l, estimateVisualComplexity "funnel" (.stages l) =
      Complexity.mk (decide (l.length ≤ 3)) (decide (l.length > 3 + 2)) (some l.length)) ∧
    (∀ root l, estimateVisualComplexity "tree" (.tree root l) =
      Complexity.mk (decide (l.length ≤ 3)) (decide (l.length > 3 + 2)) (some l.length)) ∧
    (∀ slide best, ((recommend slide best).action = "create-separate" ↔
        (estimateVisualComplexity best.type best.data).needsSeparateSlide = true) ∧
      ((recommend slide best).action = "inline" ↔
        (estimateVisualComplexity best.type best.data).needsSeparateSlide = false)) ∧
    (∀ visualType data items threshold,
      complexityInfo visualType data = some (items, threshold) →
      threshold < items → items ≤ threshold + 2 →
      estimateVisualComplexity visualType data = Complexity.mk false false (some items) ∧
      actionOf (estimateVisualComplexity visualType data) = "inline") := by
  refine ⟨fun _ => rfl, fun _ => rfl, fun _ => rfl, fun _ _ _ _ => rfl, fun _ => rfl,
    fun _ => rfl, fun _ _ => rfl, ?_, ?_⟩
  · intro slide best
    show (actionOf (estimateVisualComplexity best.type best.data) = "create-separate" ↔ _) ∧
      (actionOf (estimateVisualComplexity best.type best.data) = "inline" ↔ _)
    unfold actionOf
    cases (estimateVisualComplexity best.type best.data).needsSeparateSlide
    · exact ⟨by decide, by decide⟩
    · exact ⟨by decide, by decide⟩
  · intro visualType data items threshold hinfo h1 h2
    have h : estimateVisualComplexity visualType data = Complexity.mk false false (some items) := by
      unfold estimateVisualComplexity
      rw [hinfo]
      simp only [Complexity.mk.injEq, decide_eq_false_iff_not, not_le, gt_iff_lt, not_lt, and_true]
      exact ⟨h1, h2⟩
    rw [h]
    exact ⟨rfl, rfl⟩

/-- C30. A payload an extraction routine returns holds at most the declared
number of entries: 4 levels of a pyramid, 6 steps of a flow, 5 labels of
a cycle, 4 items on each side of a comparison, 6 events of a timeline,
5 stages of a funnel and 5 children of a tree. -/
theorem extractData_caps (text : List Char) :
    (∀ p, extractPyramid text = some p → ∃ l, p = .levels l ∧ l.length ≤ 4) ∧
    (∀ p, extractFlow text = some p → ∃ l, p = .steps l ∧ l.length ≤ 6) ∧
    (∀ p, extractCycle text = some p → ∃ l, p = .labels l ∧ l.length ≤ 5) ∧
    (∀ p, extractComparison text = some p →
      ∃ a l b r, p = .comparison a l b r ∧ l.length ≤ 4 ∧ r.length ≤ 4) ∧
    (∀ p, extractTimeline text = some p → ∃ l, p = .events l ∧ l.length ≤ 6) ∧
    (∀ p, extractFunnel text = some p → ∃ l, p = .stages l ∧ l.length ≤ 5) ∧
    (∀ p, extractTree text = some p → ∃ root l, p = .tree root l ∧ l.length ≤ 5) := by
  refine ⟨?_, ?_, ?_, ?_, ?_, ?_, ?_⟩
  · intro p h
    unfold extractPyramid at h
    simp only at h
    split_ifs at h
    cases h
    exact ⟨_, rfl, List.length_take_le _ _⟩
  · intro p h
    unfold extractFlow at h
    simp only at h
    split_ifs at h
    · cases h
      exact ⟨_, rfl, List.length_take_le _ _⟩
    · cases h
      refine ⟨_, rfl, ?_⟩
      rw [List.length_map]
      exact le_trans (List.length_take_le _ _) (by decide)
  · intro p h
    unfold extractCycle at h
    simp only at h
    split_ifs at h
    · cases h
      refine ⟨_, rfl, ?_⟩
      rw [List.length_map]
      exact List.length_take_le _ _
    · cases h
      exact ⟨_, rfl, by decide⟩
  · intro p h
    unfold extractComparison at h
    split at h
    · cases h
      exact ⟨_, _, _, _, rfl, by decide, by decide⟩
    · simp only at h
      split_ifs at h
      all_goals
        cases h
        exact ⟨_, _, _, _, rfl, List.length_take_le _ _, List.length_take_le _ _⟩
  · intro p h
    unfold extractTimeline at h
    simp only at h
    split_ifs at h
    · cases h
      exact ⟨_, rfl, List.length_take_le _ _⟩
    · cases h
      exact ⟨_, rfl, List.length_take_le _ _⟩
  · intro p h
    unfold extractFunnel at h
    simp only at h
    split_ifs at h
    cases h
    exact ⟨_, rfl, List.length_take_le _ _⟩
  · intro p h
    unfold extractTree at h
    split at h
    · simp only at h
      split_ifs at h
      cases h
      exact ⟨_, _, rfl, List.length_take_le _ _⟩
    · cases h

end VisualMatcher

/-! ## Regular expressions: first outcomes -/

theorem Re.run_cls_cons (p : Char → Bool) (c : Char) (s : List Char) (caps : Captures) :
    (Re.cls p).run (c :: s, caps) = if p c then [(s, caps)] else [] := rfl

theorem Re.run_cls_nil (p : Char → Bool) (caps : Captures) :
    (Re.cls p).run ([], caps) = [] := rfl

theorem Re.run_seq (a b : Re) (st : MatchState) :
    (Re.seq a b).run st = (a.run st).flatMap b.run := rfl

theorem Re.run_alt (a b : Re) (st : MatchState) :
    (Re.alt a b).run st = a.run st ++ b.run st := rfl

theorem Re.run_eps (st : MatchState) : Re.eps.run st = [st] := rfl

theorem Re.run_star (greedy : Bool) (r : Re) (st : MatchState) :
    (Re.star greedy r).run st = starAux greedy r.run st.1.length st := rfl

theorem Re.run_group (i : Nat) (r : Re) (st : MatchState) :
    (Re.group i r).run st =
      (r.run st).map fun st' => (st'.1, (i, st.1.take (st.1.length - st'.1.length)) :: st'.2) := rfl

theorem Re.lit_mk_nil (ci : Bool) : Re.lit ci (String.mk []) = .eps := rfl

theorem Re.lit_mk_cons (ci : Bool) (c : Char) (w : List Char) :
    Re.lit ci (String.mk (c :: w)) =
      .seq (.cls fun x => if ci then ciEq x c else x == c) (Re.lit ci (String.mk w)) := rfl

example : Re.lit true "vs" = .seq (.cls fun x => ciEq x 'v') (.seq (.cls fun x => ciEq x 's') .eps) := rfl

/-- Greedy iteration of a class stops where the class fails. -/
theorem starAux_cls_stop (greedy : Bool) (p : Char → Bool) (n : Nat) (s : List Char)
    (caps : Captures) (h : ∀ c ∈ s.head?, p c = false) :
    starAux greedy (Re.cls p).run n (s, caps) = [(s, caps)] := by
  cases n with
  | zero => rfl
  | succ n =>
    have hstep : (Re.cls p).run (s, caps) = [] := by
      cases s with
      | nil => rfl
      | cons c s => rw [Re.run_cls_cons, h c (by simp)]; rfl
    unfold starAux
    simp only [hstep, List.filter_nil, List.flatMap_nil, List.nil_append]
    cases greedy <;> rfl

theorem starAux_cls_step (greedy : Bool) (p : Char → Bool) (n : Nat) (c : Char) (s : List Char)
    (caps : Captures) (h : p c = true) :
    starAux greedy (Re.cls p).run (n + 1) (c :: s, caps) =
      if greedy then starAux greedy (Re.cls p).run n (s, caps) ++ [(c :: s, caps)]
      else (c :: s, caps) :: starAux greedy (Re.cls p).run n (s, caps) := by
  rw [starAux]
  simp only [Re.run_cls_cons, h, if_true, List.filter_cons, List.length_cons, Nat.lt_succ_self,
    decide_True, List.filter_nil, List.flatMap_cons, List.flatMap_nil, List.append_nil]

theorem starAux_lazy_head (step : MatchState → List MatchState) (n : Nat) (st : MatchState) :
    ∃ l, starAux false step n st = st :: l := by
  cases n with
  | zero => exact ⟨[], rfl⟩
  | succ n => exact ⟨_, rfl⟩

theorem head?_flatMap_cons {α β : Type} (f : α → List β) (a : α) (l : List α) (y : β)
    (ys : List β) (h : f a = y :: ys) : ((a :: l).flatMap f).head? = some y := by
  rw [List.flatMap_cons, h]
  rfl

theorem head?_flatMap_of_head? {α β : Type} (f : α → List β) (l : List α) (a : α) (y : β)
    (hl : l.head? = some a) (h : (f a).head? = some y) : (l.flatMap f).head? = some y := by
  cases l with
  | nil => cases hl
  | cons b l =>
    cases hl
    cases hf : f a with
    | nil => rw [hf] at h; cases h
    | cons z zs => rw [hf] at h; cases h; exact head?_flatMap_cons f a l _ zs hf

/-- The first outcome of a lazy iteration of a class followed by `K`: when `K`
fails as long as something of the run `x` is left and succeeds after it. -/
theorem starAux_lazy_first (p : Char → Bool) (K : MatchState → List MatchState)
    (r : List Char) (caps : Captures) (y : MatchState) :
    ∀ (x : List Char) (n : Nat), (x ++ r).length ≤ n → (∀ c ∈ x, p c = true) →
      (∀ z, z ≠ [] → z <:+ x → K (z ++ r, caps) = []) → (K (r, caps)).head? = some y →
      ((starAux false (Re.cls p).run n (x ++ r, caps)).flatMap K).head? = some y := by
  intro x
  induction x with
  | nil =>
    intro n _ _ _ hK
    obtain ⟨l, hl⟩ := starAux_lazy_head (Re.cls p).run n (r, caps)
    rw [List.nil_append, hl]
    exact head?_flatMap_of_head? K _ _ y rfl hK
  | cons c x ih =>
    intro n hn hp hfail hK
    cases n with
    | zero => simp at hn
    | succ n =>
      rw [List.cons_append, starAux_cls_step false p n c (x ++ r) caps (hp c (List.mem_cons_self _ _))]
      simp only [Bool.false_eq_true, if_false, List.flatMap_cons]
      have h0 : K (c :: (x ++ r), caps) = [] := hfail (c :: x) (List.cons_ne_nil _ _) (List.suffix_refl _)
      rw [h0, List.nil_append]
      refine ih n ?_ (fun d hd => hp d (List.mem_cons_of_mem _ hd)) ?_ hK
      · simpa using hn
      · intro z hz hsuf
        exact hfail z hz (hsuf.trans (List.suffix_cons _ _))

/-- The first outcome of a greedy iteration of a class: the whole run of
characters of the class is read. -/
theorem starAux_greedy_first (p : Char → Bool) (r : List Char) (caps : Captures)
    (hr : ∀ c ∈ r.head?, p c = false) :
    ∀ (x : List Char) (n : Nat), (x ++ r).length ≤ n → (∀ c ∈ x, p c = true) →
      (starAux true (Re.cls p).run n (x ++ r, caps)).head? = some (r, caps) := by
  intro x
  induction x with
  | nil =>
    intro n _ _
    rw [List.nil_append, starAux_cls_stop true p n r caps hr]
    rfl
  | cons c x ih =>
    intro n hn hp
    cases n with
    | zero => simp at hn
    | succ n =>
      rw [List.cons_append, starAux_cls_step true p n c (x ++ r) caps (hp c (List.mem_cons_self _ _))]
      have h := ih n (by simpa using hn) (fun d hd => hp d (List.mem_cons_of_mem _ hd))
      simp only [if_true]
      cases hl : starAux true (Re.cls p).run n (x ++ r, caps) with
      | nil => rw [hl] at h; cases h
      | cons a l => rw [hl] at h; exact h


theorem toNat_ofNat_of_lt (n : Nat) (h : n < 128) : (Char.ofNat n).toNat = n := by
  interval_cases n <;> rfl

theorem toUpper_of_nonascii (c : Char) (h : 128 ≤ c.toNat) : c.toUpper = c := by
  unfold Char.toUpper
  simp only
  rw [if_neg]
  omega

theorem toNat_toUpper_lt (c : Char) (h : c.toNat < 128) : c.toUpper.toNat < 128 := by
  unfold Char.toUpper
  simp only
  split_ifs with h1
  · rw [toNat_ofNat_of_lt _ (by omega)]
    omega
  · exact h

/-- With the flag `i` a character outside ASCII matches itself only. -/
theorem ciEq_of_nonascii (x c : Char) (hc : 128 ≤ c.toNat) : ciEq x c = (x == c) := by
  unfold ciEq
  rw [toUpper_of_nonascii c hc]
  by_cases hx : 128 ≤ x.toNat
  · rw [toUpper_of_nonascii x hx]
  · have h1 := toNat_toUpper_lt x (by omega)
    have h2 : (x.toUpper == c) = false := by
      rw [beq_eq_false_iff_ne]
      intro h
      rw [h] at h1
      omega
    have h3 : (x == c) = false := by
      rw [beq_eq_false_iff_ne]
      intro h
      rw [h] at hx
      exact hx hc
    rw [h2, h3]

/-- With the flag `i` an ASCII character matches no character outside ASCII. -/
theorem ciEq_ascii_false (x c : Char) (hx : 128 ≤ x.toNat) (hc : c.toNat < 128) :
    ciEq x c = false := by
  unfold ciEq
  rw [toUpper_of_nonascii x hx, beq_eq_false_iff_ne]
  intro h
  have := toNat_toUpper_lt c hc
  rw [← h] at this
  omega

theorem isJsSpace_false_of_cjk (c : Char) (h : 0x4e00 ≤ c.toNat ∧ c.toNat ≤ 0x9fa5) :
    isJsSpace c = false := by
  have hne : ∀ d : Char, d.toNat < 0x4e00 → (c == d) = false := by
    intro d hd
    rw [beq_eq_false_iff_ne]
    intro h'
    rw [h'] at h
    omega
  unfold isJsSpace
  rw [hne '\t' (by decide), hne '\n' (by decide), hne '\r' (by decide), hne ' ' (by decide)]
  simp only [Bool.false_or, Bool.or_eq_false_iff, beq_eq_false_iff_ne, ne_eq,
    Bool.and_eq_false_iff, decide_eq_false_iff_not, not_le, and_true]
  omega

theorem isLineTerminator_false_of_cjk (c : Char) (h : 0x4e00 ≤ c.toNat ∧ c.toNat ≤ 0x9fa5) :
    isLineTerminator c = false := by
  have hne : ∀ d : Char, d.toNat < 0x4e00 → (c == d) = false := by
    intro d hd
    rw [beq_eq_false_iff_ne]
    intro h'
    rw [h'] at h
    omega
  unfold isLineTerminator
  rw [hne '\n' (by decide), hne '\r' (by decide)]
  simp only [Bool.false_or, Bool.or_eq_false_iff, beq_eq_false_iff_ne, ne_eq]
  omega

theorem dropWhile_of_all_false {p : Char → Bool} {s : List Char} (h : ∀ c ∈ s, p c = false) :
    s.dropWhile p = s := by
  cases s with
  | nil => rfl
  | cons c s => rw [List.dropWhile_cons, h c (List.mem_cons_self _ _)]; rfl

theorem jsTrim_of_no_space {s : List Char} (h : ∀ c ∈ s, isJsSpace c = false) : jsTrim s = s := by
  unfold jsTrim
  rw [dropWhile_of_all_false h, dropWhile_of_all_false (fun c hc => h c (List.mem_reverse.1 hc)),
    List.reverse_reverse]

theorem includes_of_suffix (lit : String) (t : List Char) :
    ∀ s : List Char, (lit.toList ++ t) <:+ s → includes lit s = true := by
  intro s
  induction s with
  | nil =>
    intro h
    have := List.eq_nil_of_suffix_nil h
    have h1 : lit.toList = [] := (List.append_eq_nil.1 this).1
    unfold includes
    rw [h1]
    rfl
  | cons c s ih =>
    intro h
    unfold includes
    rcases List.suffix_cons_iff.1 h with h1 | h1
    · rw [← h1, Bool.or_eq_true]
      left
      exact List.isPrefixOf_iff_prefix.2 (List.prefix_append _ _)
    · rw [ih h1, Bool.or_true]

theorem take_length_sub (x r : List Char) : (x ++ r).take ((x ++ r).length - r.length) = x := by
  apply List.take_left'
  simp

/-! ## visual-matcher.mjs: the text "A vs B" -/

namespace VisualMatcher

/-- The alternatives `vs\.?|对比|VS` fail at an ideograph that does not start 对比. -/
theorem vsWords_fail (K : Re) (c : Char) (rest : List Char) (caps : Captures)
    (hc : 0x4e00 ≤ c.toNat ∧ c.toNat ≤ 0x9fa5)
    (hno : ¬ (c = '对' ∧ rest.head? = some '比')) :
    (Re.anyOf [.seq (Re.lit true "vs") K, Re.lit true "对比", Re.lit true "VS"]).run
      (c :: rest, caps) = [] := by
  have h1 : ciEq c 'v' = false := ciEq_ascii_false c 'v' (by omega) (by decide)
  have h2 : ciEq c 'V' = false := ciEq_ascii_false c 'V' (by omega) (by decide)
  have h3 : (Re.lit true "对比").run (c :: rest, caps) = [] := by
    show (Re.seq (.cls fun x => ciEq x '对') (.seq (.cls fun x => ciEq x '比') .eps)).run _ = []
    rw [Re.run_seq, Re.run_cls_cons, ciEq_of_nonascii c '对' (by decide)]
    by_cases h : c = '对'
    · subst h
      simp only [beq_self_eq_true, if_true, List.flatMap_cons, List.flatMap_nil, List.append_nil]
      cases rest with
      | nil => rfl
      | cons d rest =>
        rw [Re.run_seq, Re.run_cls_cons, ciEq_of_nonascii d '比' (by decide)]
        have hd : (d == '比') = false := by
          rw [beq_eq_false_iff_ne]
          intro hd
          exact hno ⟨rfl, by rw [hd]; rfl⟩
        rw [hd]
        rfl
    · have : (c == '对') = false := beq_eq_false_iff_ne.2 h
      rw [this]
      rfl
  show (Re.alt (.seq (.seq (.cls fun x => ciEq x 'v') (.seq (.cls fun x => ciEq x 's') .eps)) K)
    (.alt (Re.lit true "对比")
      (.seq (.cls fun x => ciEq x 'V') (.seq (.cls fun x => ciEq x 'S') .eps)))).run _ = []
  rw [Re.run_alt, Re.run_alt, h3, Re.run_seq, Re.run_seq, Re.run_seq, Re.run_cls_cons, h1,
    Re.run_cls_cons, h2]
  rfl

/-- The first outcome of `vsPattern` on "A vs B" for two words of ideographs,
the first without 对比: group 1 is A and group 2 is B. -/
theorem vsPattern_run (a b : List Char) (ha : a ≠ []) (hb : b ≠ [])
    (hac : ∀ c ∈ a, 0x4e00 ≤ c.toNat ∧ c.toNat ≤ 0x9fa5)
    (hbc : ∀ c ∈ b, 0x4e00 ≤ c.toNat ∧ c.toNat ≤ 0x9fa5)
    (hno : includes "对比" a = false) :
    (vsPattern.run (a ++ ' ' :: 'v' :: 's' :: ' ' :: b, [])).head? = some ([], [(2, b), (1, a)]) := by
  obtain ⟨a0, a', rfl⟩ := List.exists_cons_of_ne_nil ha
  obtain ⟨b0, b', rfl⟩ := List.exists_cons_of_ne_nil hb
  have hdot : ∀ c : Char, 0x4e00 ≤ c.toNat ∧ c.toNat ≤ 0x9fa5 →
      (!isLineTerminator c) = true := by
    intro c hc
    simp only [isLineTerminator_false_of_cjk c hc, Bool.not_false]
  show ((Re.seq (.group 1 (.seq (.cls fun c => !isLineTerminator c)
      (.star false (.cls fun c => !isLineTerminator c))))
    (.seq (.star true (.cls isJsSpace))
      (.seq (Re.anyOf [.seq (Re.lit true "vs") (Re.opt (Re.lit true ".")), Re.lit true "对比",
          Re.lit true "VS"])
        (.seq (.star true (.cls isJsSpace))
          (.group 2 (.seq (.cls fun c => !isLineTerminator c)
            (.star true (.cls fun c => !isLineTerminator c)))))))).run _).head? = _
  generalize hV : Re.anyOf [.seq (Re.lit true "vs") (Re.opt (Re.lit true ".")), Re.lit true "对比",
    Re.lit true "VS"] = V
  rw [Re.run_seq, Re.run_group, Re.run_seq, List.cons_append, Re.run_cls_cons,
    hdot a0 (hac a0 (List.mem_cons_self _ _)), if_pos rfl, List.flatMap_cons, List.flatMap_nil,
    List.append_nil, Re.run_star, List.flatMap_map]
  refine starAux_lazy_first _ _ _ _ _ a' _ (le_refl _)
    (fun c hc => hdot c (hac c (List.mem_cons_of_mem _ hc))) ?_ ?_
  · intro z hz hsuf
    obtain ⟨c, z', rfl⟩ := List.exists_cons_of_ne_nil hz
    have hcz : c ∈ a' := hsuf.subset (List.mem_cons_self _ _)
    have hc := hac c (List.mem_cons_of_mem _ hcz)
    show (Re.seq _ _).run _ = []
    rw [Re.run_seq, Re.run_star, List.cons_append,
      starAux_cls_stop true isJsSpace _ _ _ (by
        intro d hd
        cases hd
        exact isJsSpace_false_of_cjk c hc),
      List.flatMap_cons, List.flatMap_nil, List.append_nil, Re.run_seq, ← hV, vsWords_fail _ c _ _ hc]
    · rfl
    · rintro ⟨rfl, h2⟩
      cases z' with
      | nil => cases h2
      | cons d z' =>
        cases h2
        have := includes_of_suffix "对比" z' (a0 :: a') (hsuf.trans (List.suffix_cons _ _))
        rw [this] at hno
        cases hno
  · have hb0 := hbc b0 (List.mem_cons_self _ _)
    have ht := take_length_sub (a0 :: a') (' ' :: 'v' :: 's' :: ' ' :: b0 :: b')
    rw [List.cons_append] at ht
    dsimp only
    rw [ht, Re.run_seq, Re.run_star]
    refine head?_flatMap_of_head? _ _ ('v' :: 's' :: ' ' :: b0 :: b', [(1, a0 :: a')]) _
      (starAux_greedy_first isJsSpace _ _ (by intro d hd; cases hd; rfl) [' '] _ (le_refl _)
        (by intro c hc; simp only [List.mem_singleton] at hc; subst hc; rfl)) ?_
    rw [Re.run_seq]
    refine head?_flatMap_of_head? _ _ (' ' :: b0 :: b', [(1, a0 :: a')]) _ ?_ ?_
    · rw [← hV]
      rfl
    rw [Re.run_seq, Re.run_star]
    refine head?_flatMap_of_head? _ _ (b0 :: b', [(1, a0 :: a')]) _
      (starAux_greedy_first isJsSpace _ _ (by
        intro d hd
        cases hd
        exact isJsSpace_false_of_cjk b0 hb0) [' '] _ (le_refl _)
        (by intro c hc; simp only [List.mem_singleton] at hc; subst hc; rfl)) ?_
    rw [Re.run_group, Re.run_seq, Re.run_cls_cons, hdot b0 hb0, if_pos rfl, List.flatMap_cons,
      List.flatMap_nil, List.append_nil, Re.run_star, List.head?_map]
    have h := starAux_greedy_first (fun c => !isLineTerminator c) [] [(1, a0 :: a')]
      (by intro d hd; cases hd) b' b'.length (by simp)
      (fun c hc => hdot c (hbc c (List.mem_cons_of_mem _ hc)))
    rw [List.append_nil] at h
    rw [h]
    simp only [Option.map_some', List.length_nil, Nat.sub_zero, List.take_length]

end VisualMatcher

theorem Re.execAll_ne_nil (r : Re) (suf : List Char) (n : Nat) (caps : Captures)
    (h : r.matchHere suf = some (n + 1, caps)) : ∀ pre : List Char, r.execAll 0 (pre ++ suf) ≠ [] := by
  have key : ∀ c rest, r.matchHere (c :: rest) = some (n + 1, caps) →
      r.execAll 0 (c :: rest) ≠ [] := by
    intro c rest hm
    rw [Re.execAll, hm]
    exact List.cons_ne_nil _ _
  intro pre
  induction pre with
  | nil =>
    cases suf with
    | nil =>
      unfold Re.matchHere at h
      cases hh : (r.run ([], [])).head? with
      | none => rw [hh] at h; cases h
      | some st =>
        rw [hh] at h
        simp only [Option.map_some', List.length_nil, Nat.zero_sub, Option.some.injEq,
          Prod.mk.injEq] at h
        omega
    | cons c rest => exact key c rest h
  | cons c pre ih =>
    rw [List.cons_append, Re.execAll]
    split
    · exact List.cons_ne_nil _ _
    · exact ih

theorem foldl_add_ge {α : Type} (f : α → Nat) : ∀ (l : List α) (init : Nat),
    init ≤ l.foldl (fun m p => m + f p) init := by
  intro l
  induction l with
  | nil => intro init; exact le_refl _
  | cons p l ih =>
    intro init
    rw [List.foldl_cons]
    exact le_trans (Nat.le_add_right _ _) (ih _)

namespace VisualMatcher

theorem matchCountOf_ge_first (config : Config) (p : Re) (ps : List Re)
    (h : config.patterns = p :: ps) (text : List Char) : p.count text ≤ matchCountOf config text := by
  unfold matchCountOf
  rw [h, List.foldl_cons, Nat.zero_add]
  exact foldl_add_ge _ _ _

theorem vs_matchHere (b : List Char) :
    (Re.anyOf [.seq (Re.lit true "vs") (Re.opt (Re.lit true ".")), Re.lit true "对比",
      Re.lit true "比较", Re.lit true "优劣"]).matchHere ('v' :: 's' :: ' ' :: b) = some (1 + 1, []) := by
  have h : ((Re.anyOf [.seq (Re.lit true "vs") (Re.opt (Re.lit true ".")), Re.lit true "对比",
      Re.lit true "比较", Re.lit true "优劣"]).run ('v' :: 's' :: ' ' :: b, [])).head? =
      some (' ' :: b, []) := rfl
  unfold Re.matchHere
  rw [h]
  simp

theorem extractComparison_vs (a b : List Char) (ha : a ≠ []) (hb : b ≠ [])
    (hac : ∀ c ∈ a, 0x4e00 ≤ c.toNat ∧ c.toNat ≤ 0x9fa5)
    (hbc : ∀ c ∈ b, 0x4e00 ≤ c.toNat ∧ c.toNat ≤ 0x9fa5)
    (halen : a.length ≤ 10) (hblen : b.length ≤ 10)
    (hno : includes "对比" a = false) :
    extractComparison (a ++ ' ' :: 'v' :: 's' :: ' ' :: b) =
      some (.comparison (String.mk a) [] (String.mk b) []) := by
  have hrun := vsPattern_run a b ha hb hac hbc hno
  have hsearch : ∃ pre m, vsPattern.search (a ++ ' ' :: 'v' :: 's' :: ' ' :: b) =
      some (pre, m, [(2, b), (1, a)]) := by
    obtain ⟨a0, a', rfl⟩ := List.exists_cons_of_ne_nil ha
    rw [List.cons_append] at hrun ⊢
    rw [Re.search, Re.matchHere, hrun]
    exact ⟨_, _, rfl⟩
  obtain ⟨pre, m, hs⟩ := hsearch
  unfold extractComparison
  rw [hs]
  have h1 : capture [(2, b), (1, a)] 1 = some a := rfl
  have h2 : capture [(2, b), (1, a)] 2 = some b := rfl
  simp only [h1, h2, Option.getD_some, trimSlice]
  rw [jsTrim_of_no_space (fun c hc => isJsSpace_false_of_cjk c (hac c hc)),
    jsTrim_of_no_space (fun c hc => isJsSpace_false_of_cjk c (hbc c hc)),
    List.take_of_length_le halen, List.take_of_length_le hblen]

/-- C26. For two non-empty words A and B of at most 10 ideographs (the
characters U+4E00 to U+9FA5), A without 对比, `detectVisualType` has for the
text "A vs B" a candidate of `comparison` whose payload has the left title A,
the right title B and no items. -/
theorem detectVisualType_vs (A B : String) (hA : A.toList ≠ []) (hB : B.toList ≠ [])
    (hAlen : A.length ≤ 10) (hBlen : B.length ≤ 10)
    (hAc : ∀ c ∈ A.toList, 0x4e00 ≤ c.toNat ∧ c.toNat ≤ 0x9fa5)
    (hBc : ∀ c ∈ B.toList, 0x4e00 ≤ c.toNat ∧ c.toNat ≤ 0x9fa5)
    (hno : includes "对比" A.toList = false) :
    ∃ c ∈ detectVisualType (A ++ " vs " ++ B),
      c.type = "comparison" ∧ c.composition = "BinaryComparison" ∧
      c.data = .comparison A [] B [] := by
  have htext : (A ++ " vs " ++ B).toList = A.toList ++ ' ' :: 'v' :: 's' :: ' ' :: B.toList := by
    show (A ++ " vs " ++ B).data = _
    rw [String.data_append, String.data_append, List.append_assoc]
    rfl
  have hdata := extractComparison_vs A.toList B.toList hA hB hAc hBc hAlen hBlen hno
  have hcount : 1 ≤ matchCountOf (Config.mk "comparison" comparisonPatterns 1 extractComparison
      "BinaryComparison" 2) (A ++ " vs " ++ B).toList := by
    refine le_trans ?_ (matchCountOf_ge_first _ _ _ rfl _)
    rw [htext]
    have h := Re.execAll_ne_nil _ _ _ _ (vs_matchHere B.toList) (A.toList ++ [' '])
    rw [List.append_assoc] at h
    exact List.length_pos.2 h
  have hcand : candidateOf (A ++ " vs " ++ B).toList (Config.mk "comparison" comparisonPatterns 1
      extractComparison "BinaryComparison" 2) = some (Candidate.mk "comparison" "BinaryComparison"
        (matchCountOf (Config.mk "comparison" comparisonPatterns 1 extractComparison
          "BinaryComparison" 2) (A ++ " vs " ++ B).toList) (.comparison A [] B [])
        ((matchCountOf (Config.mk "comparison" comparisonPatterns 1 extractComparison
          "BinaryComparison" 2) (A ++ " vs " ++ B).toList : ℚ) / (comparisonPatterns.length : ℚ))) := by
    unfold candidateOf
    rw [if_pos hcount]
    simp only
    rw [htext, hdata]
    rfl
  exact ⟨_, mem_detectVisualType.2 (mem_candidates.2 ⟨_, by simp [VISUAL_PATTERNS], hcand⟩),
    rfl, rfl, rfl⟩

theorem detectVisualType_vs_witness :
    ∃ c ∈ detectVisualType "并行 vs 系统",
      c.type = "comparison" ∧ c.composition = "BinaryComparison" ∧
      c.data = .comparison "并行" [] "系统" [] :=
  detectVisualType_vs "并行" "系统" (by decide) (by decide) (by decide) (by decide) (by decide)
    (by decide) (by decide)

end VisualMatcher

/-! ## visual-matcher.mjs: three step markers -/

namespace VisualMatcher

/-- The lookahead of the first step pattern holds at the end of the text. -/
theorem stepLook_nil (caps : Captures) :
    (Re.look (Re.anyOf [Re.cat [Re.lit true "第", Re.plus true numeralOrDigit, Re.oneOf "步阶段"],
      Re.oneOf "。\n", .eos])).run ([], caps) = [([], caps)] := rfl

/-- The lookahead of the first step pattern holds before a marker. -/
theorem stepLook_marker (n : Char) (hn : n ∈ ['一', '二', '三']) (rest : List Char)
    (caps : Captures) :
    (Re.look (Re.anyOf [Re.cat [Re.lit true "第", Re.plus true numeralOrDigit, Re.oneOf "步阶段"],
      Re.oneOf "。\n", .eos])).run ('第' :: n :: '步' :: rest, caps) =
      [('第' :: n :: '步' :: rest, caps)] := by
  simp only [List.mem_cons, List.mem_singleton, List.not_mem_nil, or_false] at hn
  rcases hn with rfl | rfl | rfl <;> rfl

end VisualMatcher
namespace VisualMatcher

theorem plainPhrase_cons {p : List Char} (h : plainPhrase p = true) :
    ∃ c rest, p = c :: rest ∧ ("：:.".toList.contains c || isJsSpace c) = false := by
  cases p with
  | nil => simp [plainPhrase] at h
  | cons c rest =>
    refine ⟨c, rest, rfl, ?_⟩
    simp only [plainPhrase, Bool.and_eq_true, Bool.not_eq_true'] at h
    exact h.1

theorem plainPhrase_mem {p : List Char} (h : plainPhrase p = true) (c : Char) (hc : c ∈ p) :
    c ≠ '第' ∧ c ≠ '骤' ∧ c ≠ '。' ∧ isLineTerminator c = false := by
  unfold plainPhrase at h
  rw [Bool.and_eq_true, List.all_eq_true] at h
  have := h.2 c hc
  simp only [Bool.and_eq_true, bne_iff_ne, ne_eq, Bool.not_eq_true'] at this
  exact ⟨this.1.1.1, this.1.1.2, this.1.2, this.2⟩

/-- The lookahead of the first step pattern fails at a character of a plain phrase. -/
theorem stepLook_plain (c : Char) (s : List Char) (caps : Captures)
    (h : c ≠ '第' ∧ c ≠ '骤' ∧ c ≠ '。' ∧ isLineTerminator c = false) :
    (Re.look (Re.anyOf [Re.cat [Re.lit true "第", Re.plus true numeralOrDigit, Re.oneOf "步阶段"],
      Re.oneOf "。\n", .eos])).run (c :: s, caps) = [] := by
  have h1 : ciEq c '第' = false := by
    rw [ciEq_of_nonascii c '第' (by decide)]
    exact beq_eq_false_iff_ne.2 h.1
  have h2 : ("。\n".toList.contains c) = false := by
    have hn : c ≠ '\n' := by
      intro hc
      rw [hc] at h
      exact absurd h.2.2.2 (by decide)
    show (['。', '\n'].contains c) = false
    simp [h.2.2.1, hn]
  show (Re.look (.alt (.seq (.seq (.cls fun x => ciEq x '第') .eps) _)
    (.alt (.cls fun x => "。\n".toList.contains x) .eos))).run _ = []
  simp only [Re.run, h1, h2, List.flatMap_nil, List.nil_append, List.isEmpty_cons,
    Bool.false_eq_true, if_false, List.head?_nil]

end VisualMatcher
theorem Re.execAll_skip (r : Re) (s : List Char) :
    ∀ x : List Char, r.execAll x.length (x ++ s) = r.execAll 0 s := by
  intro x
  induction x with
  | nil => rfl
  | cons c x ih =>
    rw [List.length_cons, List.cons_append, Re.execAll]
    exact ih

theorem Re.execAll_match (r : Re) (c : Char) (rest : List Char) (n : Nat) (caps : Captures)
    (h : r.matchHere (c :: rest) = some (n + 1, caps)) :
    r.execAll 0 (c :: rest) = ((c :: rest).take (n + 1), caps) :: r.execAll n rest := by
  rw [Re.execAll, h]

theorem Re.execAll_eq_nil (r : Re) : ∀ (s : List Char) (k : Nat),
    (∀ suf, suf <:+ s → r.matchHere suf = none) → r.execAll k s = [] := by
  intro s
  induction s with
  | nil => intro k _; cases k <;> rfl
  | cons c s ih =>
    intro k h
    have hs : ∀ suf, suf <:+ s → r.matchHere suf = none :=
      fun suf hsuf => h suf (hsuf.trans (List.suffix_cons _ _))
    cases k with
    | zero =>
      rw [Re.execAll, h (c :: s) (List.suffix_refl _)]
      exact ih 0 hs
    | succ k =>
      rw [Re.execAll]
      exact ih k hs

namespace VisualMatcher

/-- The first outcome of the first step pattern at a marker followed by
a plain phrase: group 2 is the phrase, and the text after it is left. -/
theorem stepPattern1_run (n : Char) (hn : n ∈ ['一', '二', '三']) (p rest : List Char)
    (hp : plainPhrase p = true)
    (hrest : ∀ caps, (Re.look (Re.anyOf [Re.cat [Re.lit true "第", Re.plus true numeralOrDigit,
      Re.oneOf "步阶段"], Re.oneOf "。\n", .eos])).run (rest, caps) = [(rest, caps)]) :
    (stepPattern1.run ('第' :: n :: '步' :: (p ++ rest), [])).head? =
      some (rest, [(2, p), (1, [n])]) := by
  obtain ⟨c0, p', rfl, hc0⟩ := plainPhrase_cons hp
  have hmem := plainPhrase_mem hp
  have hnd : ("一二三四五六七八九十".toList.contains n || n.isDigit) = true := by
    simp only [List.mem_cons, List.mem_singleton, List.not_mem_nil, or_false] at hn
    rcases hn with rfl | rfl | rfl <;> rfl
  have hdot : ∀ c ∈ c0 :: p', (!isLineTerminator c) = true := by
    intro c hc
    rw [(hmem c hc).2.2.2]
    rfl
  have ht1 : (n :: '步' :: (c0 :: p' ++ rest)).take ((n :: '步' :: (c0 :: p' ++ rest)).length -
      ('步' :: (c0 :: p' ++ rest)).length) = [n] := take_length_sub [n] _
  have ht2 : (c0 :: (p' ++ rest)).take ((c0 :: (p' ++ rest)).length - rest.length) = c0 :: p' :=
    take_length_sub (c0 :: p') rest
  show ((Re.seq (.seq (.cls fun x => ciEq x '第') .eps)
    (.seq (.group 1 (.seq (.cls fun c => "一二三四五六七八九十".toList.contains c || c.isDigit)
        (.star true (.cls fun c => "一二三四五六七八九十".toList.contains c || c.isDigit))))
      (.seq (.cls fun c => "步阶段".toList.contains c)
        (.seq (.star true (.cls fun c => "：:.".toList.contains c || isJsSpace c))
          (.seq (.group 2 (.seq (.cls fun c => !isLineTerminator c)
              (.star false (.cls fun c => !isLineTerminator c))))
            (Re.look (Re.anyOf [Re.cat [Re.lit true "第", Re.plus true numeralOrDigit,
              Re.oneOf "步阶段"], Re.oneOf "。\n", .eos]))))))).run _).head? = _
  generalize hL : Re.look (Re.anyOf [Re.cat [Re.lit true "第", Re.plus true numeralOrDigit,
    Re.oneOf "步阶段"], Re.oneOf "。\n", .eos]) = L at hrest ⊢
  rw [Re.run_seq, Re.run_seq, Re.run_cls_cons, if_pos (by decide), List.flatMap_cons,
    List.flatMap_nil, List.append_nil, Re.run_eps, List.flatMap_cons, List.flatMap_nil,
    List.append_nil]
  rw [Re.run_seq, Re.run_group, Re.run_seq, Re.run_cls_cons, if_pos hnd, List.flatMap_cons,
    List.flatMap_nil, List.append_nil, Re.run_star,
    starAux_cls_stop true _ _ _ _ (by intro d hd; cases hd; rfl), List.map_cons, List.map_nil,
    List.flatMap_cons, List.flatMap_nil, List.append_nil]
  dsimp only
  rw [ht1, Re.run_seq, Re.run_cls_cons, if_pos (by decide), List.flatMap_cons, List.flatMap_nil,
    List.append_nil, Re.run_seq, Re.run_star, List.cons_append,
    starAux_cls_stop true _ _ _ _ (by intro d hd; cases hd; exact hc0), List.flatMap_cons,
    List.flatMap_nil, List.append_nil, Re.run_seq, Re.run_group, Re.run_seq, Re.run_cls_cons,
    if_pos (hdot c0 (List.mem_cons_self _ _)), List.flatMap_cons, List.flatMap_nil,
    List.append_nil, Re.run_star, List.flatMap_map]
  refine starAux_lazy_first _ _ _ _ _ p' _ (le_refl _)
    (fun c hc => hdot c (List.mem_cons_of_mem _ hc)) ?_ ?_
  · intro z hz hsuf
    obtain ⟨c, z', rfl⟩ := List.exists_cons_of_ne_nil hz
    have hc : c ∈ c0 :: p' := List.mem_cons_of_mem _ (hsuf.subset (List.mem_cons_self _ _))
    dsimp only
    rw [List.cons_append]
    rw [← hL]
    exact stepLook_plain c _ _ (hmem c hc)
  · dsimp only
    rw [ht2, hrest]
    rfl

theorem stepPattern1_execAll (n : Char) (hn : n ∈ ['一', '二', '三']) (p rest : List Char)
    (hp : plainPhrase p = true)
    (hrest : ∀ caps, (Re.look (Re.anyOf [Re.cat [Re.lit true "第", Re.plus true numeralOrDigit,
      Re.oneOf "步阶段"], Re.oneOf "。\n", .eos])).run (rest, caps) = [(rest, caps)]) :
    stepPattern1.execAll 0 ('第' :: n :: '步' :: (p ++ rest)) =
      ('第' :: n :: '步' :: p, [(2, p), (1, [n])]) :: stepPattern1.execAll 0 rest := by
  have hm : stepPattern1.matchHere ('第' :: n :: '步' :: (p ++ rest)) =
      some ((n :: '步' :: p).length + 1, [(2, p), (1, [n])]) := by
    rw [Re.matchHere, stepPattern1_run n hn p rest hp hrest]
    simp only [Option.map_some', List.length_cons, List.length_append, Option.some.injEq,
      Prod.mk.injEq, and_true]
    omega
  rw [Re.execAll_match _ _ _ _ _ hm]
  have h1 : ('第' :: n :: '步' :: (p ++ rest)).take ((n :: '步' :: p).length + 1) =
      '第' :: n :: '步' :: p := by
    show List.take _ (('第' :: n :: '步' :: p) ++ rest) = _
    exact List.take_left' rfl
  have h2 := Re.execAll_skip stepPattern1 rest (n :: '步' :: p)
  rw [h1]
  exact congrArg _ h2

end VisualMatcher
namespace VisualMatcher

/-- The second step pattern matches nowhere in a text without 骤. -/
theorem stepPattern2_execAll (text : List Char) (h : ∀ d ∈ text, d ≠ '骤') :
    stepPattern2.execAll 0 text = [] := by
  apply Re.execAll_eq_nil
  intro suf hsuf
  have hd : ∀ d ∈ suf, ciEq d '骤' = false := by
    intro d hd
    rw [ciEq_of_nonascii d '骤' (by decide)]
    exact beq_eq_false_iff_ne.2 (h d (hsuf.subset hd))
  have hrun : stepPattern2.run (suf, []) = [] := by
    show (Re.seq (.seq (.cls fun x => ciEq x '步') (.seq (.cls fun x => ciEq x '骤') .eps)) _).run _
      = []
    rw [Re.run_seq, Re.run_seq]
    cases suf with
    | nil => rfl
    | cons c suf =>
      rw [Re.run_cls_cons]
      split_ifs
      · cases suf with
        | nil => rfl
        | cons d suf =>
          rw [List.flatMap_cons, List.flatMap_nil, List.append_nil, Re.run_seq, Re.run_cls_cons,
            hd d (List.mem_cons_of_mem _ (List.mem_cons_self _ _))]
          rfl
      · rfl
  rw [Re.matchHere, hrun]
  rfl

theorem jsTrim_cons_ne_nil (c : Char) (rest : List Char) (hc : isJsSpace c = false) :
    ∃ l, jsTrim (c :: rest) = c :: l := by
  have key : ∀ xs : List Char, ∃ ys, (xs ++ [c]).dropWhile isJsSpace = ys ++ [c] := by
    intro xs
    induction xs with
    | nil => exact ⟨[], by rw [List.nil_append, List.dropWhile_cons, hc]; rfl⟩
    | cons x xs ih =>
      rw [List.cons_append, List.dropWhile_cons]
      split_ifs
      · exact ih
      · exact ⟨x :: xs, rfl⟩
  unfold jsTrim
  rw [List.dropWhile_cons, hc]
  simp only [Bool.false_eq_true, if_false, List.reverse_cons]
  obtain ⟨ys, hys⟩ := key rest.reverse
  rw [hys, List.reverse_append]
  exact ⟨_, rfl⟩

theorem trimSlice_ne_empty {p : List Char} (hp : plainPhrase p = true) : trimSlice 15 p ≠ "" := by
  obtain ⟨c, rest, rfl, hc⟩ := plainPhrase_cons hp
  rw [Bool.or_eq_false_iff] at hc
  obtain ⟨l, hl⟩ := jsTrim_cons_ne_nil c rest hc.2
  unfold trimSlice
  rw [hl]
  intro h
  have := congrArg String.data h
  cases this

theorem pushSteps_three (t1 t2 t3 : String) (e1 e2 e3 : List Char × Captures)
    (h1 : trimSlice 15 ((capture e1.2 2).getD []) = t1)
    (h2 : trimSlice 15 ((capture e2.2 2).getD []) = t2)
    (h3 : trimSlice 15 ((capture e3.2 2).getD []) = t3)
    (hn1 : t1 ≠ "") (hn2 : t2 ≠ "") (hn3 : t3 ≠ "")
    (h12 : t1 ≠ t2) (h13 : t1 ≠ t3) (h23 : t2 ≠ t3) :
    pushSteps [] [e1, e2, e3] =
      [FlowStep.mk t1 "", FlowStep.mk t2 "", FlowStep.mk t3 ""] := by
  unfold pushSteps
  simp only [List.foldl_cons, List.foldl_nil, h1, h2, h3]
  simp [hn1, hn2, hn3, h12, h13, h23]

/-- The routine `extractData` of `flow` on three markers with plain phrases
whose titles differ. -/
theorem extractFlow_three (p1 p2 p3 : List Char)
    (h1 : plainPhrase p1 = true) (h2 : plainPhrase p2 = true) (h3 : plainPhrase p3 = true)
    (h12 : trimSlice 15 p1 ≠ trimSlice 15 p2) (h13 : trimSlice 15 p1 ≠ trimSlice 15 p3)
    (h23 : trimSlice 15 p2 ≠ trimSlice 15 p3) :
    extractFlow ('第' :: '一' :: '步' :: (p1 ++ '第' :: '二' :: '步' :: (p2 ++
        '第' :: '三' :: '步' :: (p3 ++ [])))) =
      some (.steps [FlowStep.mk (trimSlice 15 p1) "", FlowStep.mk (trimSlice 15 p2) "",
        FlowStep.mk (trimSlice 15 p3) ""]) := by
  have e1 : stepPattern1.execAll 0 ('第' :: '一' :: '步' :: (p1 ++ '第' :: '二' :: '步' :: (p2 ++
      '第' :: '三' :: '步' :: (p3 ++ [])))) =
      [('第' :: '一' :: '步' :: p1, [(2, p1), (1, ['一'])]),
       ('第' :: '二' :: '步' :: p2, [(2, p2), (1, ['二'])]),
       ('第' :: '三' :: '步' :: p3, [(2, p3), (1, ['三'])])] := by
    rw [stepPattern1_execAll '一' (by decide) p1 _ h1
        (fun caps => stepLook_marker '二' (by decide) _ caps),
      stepPattern1_execAll '二' (by decide) p2 _ h2
        (fun caps => stepLook_marker '三' (by decide) _ caps),
      stepPattern1_execAll '三' (by decide) p3 _ h3 stepLook_nil]
    rfl
  have e2 : stepPattern2.execAll 0 ('第' :: '一' :: '步' :: (p1 ++ '第' :: '二' :: '步' :: (p2 ++
      '第' :: '三' :: '步' :: (p3 ++ [])))) = [] := by
    apply stepPattern2_execAll
    intro d hd
    simp only [List.mem_cons, List.mem_append, List.not_mem_nil, or_false] at hd
    rcases hd with rfl | rfl | rfl | hd | rfl | rfl | rfl | hd | rfl | rfl | rfl | hd
    all_goals first
      | decide
      | exact (plainPhrase_mem h1 d hd).2.1
      | exact (plainPhrase_mem h2 d hd).2.1
      | exact (plainPhrase_mem h3 d hd).2.1
  unfold extractFlow
  simp only
  rw [e1, e2, pushSteps_three (trimSlice 15 p1) (trimSlice 15 p2) (trimSlice 15 p3)
    ('第' :: '一' :: '步' :: p1, [(2, p1), (1, ['一'])])
    ('第' :: '二' :: '步' :: p2, [(2, p2), (1, ['二'])])
    ('第' :: '三' :: '步' :: p3, [(2, p3), (1, ['三'])]) rfl rfl
    rfl (trimSlice_ne_empty h1) (trimSlice_ne_empty h2) (trimSlice_ne_empty h3) h12 h13 h23]
  rfl

/-- The first pattern of `flow` matches at two markers at least. -/
theorem flow_first_pattern_count (p1 rest : List Char) :
    2 ≤ (Re.cat [Re.lit true "第", Re.plus true numeral, Re.lit true "步"]).count
      ('第' :: '一' :: '步' :: (p1 ++ '第' :: '二' :: '步' :: rest)) := by
  have hm : ∀ (n : Char) (s : List Char), n ∈ ['一', '二'] →
      (Re.cat [Re.lit true "第", Re.plus true numeral, Re.lit true "步"]).matchHere
        ('第' :: n :: '步' :: s) = some (2 + 1, []) := by
    intro n s hn
    have h : ((Re.cat [Re.lit true "第", Re.plus true numeral, Re.lit true "步"]).run
        ('第' :: n :: '步' :: s, [])).head? = some (s, []) := by
      simp only [List.mem_cons, List.mem_singleton, List.not_mem_nil, or_false] at hn
      rcases hn with rfl | rfl <;> rfl
    rw [Re.matchHere, h]
    simp only [Option.map_some', List.length_cons, Option.some.injEq, Prod.mk.injEq, and_true]
    omega
  unfold Re.count
  rw [Re.execAll_match _ _ _ _ _ (hm '一' _ (by decide)), List.length_cons]
  have h2 := Re.execAll_skip (Re.cat [Re.lit true "第", Re.plus true numeral, Re.lit true "步"])
    (p1 ++ '第' :: '二' :: '步' :: rest) ['一', '步']
  have h3 := Re.execAll_ne_nil _ _ _ _ (hm '二' rest (by decide)) p1
  have h4 : (Re.cat [Re.lit true "第", Re.plus true numeral, Re.lit true "步"]).execAll 2
      ('一' :: '步' :: (p1 ++ '第' :: '二' :: '步' :: rest)) ≠ [] := by
    intro h
    exact h3 (h2.symm.trans h)
  have := List.length_pos.2 h4
  omega

end VisualMatcher
namespace VisualMatcher

theorem threeSteps_toList (p1 p2 p3 : String) :
    (threeSteps p1 p2 p3).toList = '第' :: '一' :: '步' :: (p1.toList ++
      '第' :: '二' :: '步' :: (p2.toList ++ '第' :: '三' :: '步' :: (p3.toList ++ []))) := by
  show (threeSteps p1 p2 p3).data = _
  unfold threeSteps
  rw [String.data_append, String.data_append, String.data_append, String.data_append,
    String.data_append]
  show (['第', '一', '步'] ++ p1.data ++ ['第', '二', '步'] ++ p2.data ++ ['第', '三', '步'])
    ++ p3.data = _
  simp only [List.append_assoc, List.cons_append, List.nil_append, List.append_nil]
  rfl

theorem candidateOf_none_of_count (text : List Char) (config : Config)
    (hconfig : config ∈ VISUAL_PATTERNS) (h : matchCountOf config text = 0) :
    candidateOf text config = none := by
  have hmin : 1 ≤ config.minMatches := by
    simp only [VISUAL_PATTERNS, List.mem_cons, List.mem_singleton, List.not_mem_nil,
      or_false] at hconfig
    rcases hconfig with rfl | rfl | rfl | rfl | rfl | rfl | rfl <;> decide
  unfold candidateOf
  rw [if_neg]
  omega

set_option maxRecDepth 100000 in
theorem sharedPrefixText_candidates :
    (candidates sharedPrefixText).map (fun c => c.type) = [] := by
  decide

set_option maxRecDepth 100000 in
/-- C25, the claim as it stands fails. The three phrases of `sharedPrefixText`
are distinct, not empty and free of sentence terminators and of the patterns
of the other archetypes, but they agree in their first 15 characters: the
three matches give one title, the extraction returns `null`, and
`detectVisualType` returns no candidate at all. -/
theorem detectVisualType_shared_prefix :
    sharedPrefixText =
      "第一步" ++ "aaaaaaaaaaaaaaab" ++ "第二步" ++ "aaaaaaaaaaaaaaac" ++ "第三步" ++
        "aaaaaaaaaaaaaaad" ∧
    (∀ config ∈ VISUAL_PATTERNS, config.type ≠ "flow" →
      matchCountOf config sharedPrefixText.toList = 0) ∧
    extractFlow sharedPrefixText.toList = none ∧
    detectVisualType sharedPrefixText = [] := by
  refine ⟨rfl, by decide, by decide, ?_⟩
  have h := sharedPrefixText_candidates
  unfold detectVisualType
  rw [List.map_eq_nil_iff.1 h]
  rfl

/-- C25, amended. For three phrases that start with a character other than
a colon, a dot and white space, hold no 第, 骤, 。 and no line terminator, whose
titles (the trimmed phrase cut to 15 characters) differ, in a text where no
pattern of another archetype matches: `detectVisualType` returns the candidate
of `flow` alone, with the three titles as its steps in the order of the
markers, and `estimateVisualComplexity` reports an inline visual of 3 items.
The text is one of the Basic Multilingual Plane, where the cut to 15
characters is the `slice(0, 15)` of the code. -/
theorem detectVisualType_three_steps (p1 p2 p3 : String)
    (_ : isBMP (threeSteps p1 p2 p3).toList = true)
    (h1 : plainPhrase p1.toList = true) (h2 : plainPhrase p2.toList = true)
    (h3 : plainPhrase p3.toList = true)
    (h12 : trimSlice 15 p1.toList ≠ trimSlice 15 p2.toList)
    (h13 : trimSlice 15 p1.toList ≠ trimSlice 15 p3.toList)
    (h23 : trimSlice 15 p2.toList ≠ trimSlice 15 p3.toList)
    (hothers : ∀ config ∈ VISUAL_PATTERNS, config.type ≠ "flow" →
      matchCountOf config (threeSteps p1 p2 p3).toList = 0) :
    ∃ c, detectVisualType (threeSteps p1 p2 p3) = [c] ∧ c.type = "flow" ∧
      c.data = .steps [FlowStep.mk (trimSlice 15 p1.toList) "",
        FlowStep.mk (trimSlice 15 p2.toList) "", FlowStep.mk (trimSlice 15 p3.toList) ""] ∧
      estimateVisualComplexity c.type c.data = Complexity.mk true false (some 3) ∧
      actionOf (estimateVisualComplexity c.type c.data) = "inline" := by
  have hdata := extractFlow_three p1.toList p2.toList p3.toList h1 h2 h3 h12 h13 h23
  rw [← threeSteps_toList] at hdata
  have hcount : 2 ≤ matchCountOf (Config.mk "flow" flowPatterns 2 extractFlow "HorizontalFlow" 3)
      (threeSteps p1 p2 p3).toList := by
    refine le_trans ?_ (matchCountOf_ge_first _ _ _ rfl _)
    rw [threeSteps_toList]
    exact flow_first_pattern_count _ _
  have hflow : ∃ cand, candidateOf (threeSteps p1 p2 p3).toList
      (Config.mk "flow" flowPatterns 2 extractFlow "HorizontalFlow" 3) = some cand ∧
      cand.type = "flow" ∧
      cand.data = .steps [FlowStep.mk (trimSlice 15 p1.toList) "",
        FlowStep.mk (trimSlice 15 p2.toList) "", FlowStep.mk (trimSlice 15 p3.toList) ""] := by
    unfold candidateOf
    rw [if_pos hcount]
    simp only
    rw [hdata]
    exact ⟨_, rfl, rfl, rfl⟩
  obtain ⟨cand, hcand, htype, hsteps⟩ := hflow
  have hnone : ∀ config ∈ VISUAL_PATTERNS, config.type ≠ "flow" →
      candidateOf (threeSteps p1 p2 p3).toList config = none :=
    fun config hconfig ht => candidateOf_none_of_count _ config hconfig (hothers config hconfig ht)
  have hcands : candidates (threeSteps p1 p2 p3) = [cand] := by
    unfold candidates VISUAL_PATTERNS
    rw [List.filterMap_cons_none (hnone _ (by simp [VISUAL_PATTERNS]) (by decide)),
      List.filterMap_cons_some hcand,
      List.filterMap_cons_none (hnone _ (by simp [VISUAL_PATTERNS]) (by decide)),
      List.filterMap_cons_none (hnone _ (by simp [VISUAL_PATTERNS]) (by decide)),
      List.filterMap_cons_none (hnone _ (by simp [VISUAL_PATTERNS]) (by decide)),
      List.filterMap_cons_none (hnone _ (by simp [VISUAL_PATTERNS]) (by decide)),
      List.filterMap_cons_none (hnone _ (by simp [VISUAL_PATTERNS]) (by decide)),
      List.filterMap_nil]
  have hdet : detectVisualType (threeSteps p1 p2 p3) = [cand] := by
    unfold detectVisualType
    rw [hcands]
    rfl
  refine ⟨cand, hdet, htype, hsteps, ?_, ?_⟩
  · rw [htype, hsteps]
    rfl
  · rw [htype, hsteps]
    rfl

set_option maxRecDepth 100000 in
theorem detectVisualType_three_steps_witness :
    ∃ c, detectVisualType (threeSteps "收集资料" "整理笔记" "输出文章") = [c] ∧ c.type = "flow" ∧
      c.data = .steps [FlowStep.mk "收集资料" "", FlowStep.mk "整理笔记" "",
        FlowStep.mk "输出文章" ""] ∧
      estimateVisualComplexity c.type c.data = Complexity.mk true false (some 3) ∧
      actionOf (estimateVisualComplexity c.type c.data) = "inline" :=
  detectVisualType_three_steps "收集资料" "整理笔记" "输出文章" (by decide) (by decide) (by decide)
    (by decide) (by decide) (by decide) (by decide) (by decide)

end VisualMatcher

/-! ## Slide counts, style keywords and short slides -/

namespace ParseContent

/-- C33. `getRecommendedSlideCount` tests `wordCount <= rule.maxWords`: the
range is (5, 10) up to 1000 words, 1000 included, (10, 18) above 1000 and up
to 3000, (15, 25) above 3000 and up to 5000, and (20, 30) above 5000. At
exactly 1000 words it returns (5, 10), where the usage text ("1000-3000 words")
and the claim give (10, 18). -/
theorem getRecommendedSlideCount_ranges :
    getRecommendedSlideCount 1000 = (5, 10) ∧
    (∀ w, w ≤ 1000 → getRecommendedSlideCount w = (5, 10)) ∧
    (∀ w, 1000 < w → w ≤ 3000 → getRecommendedSlideCount w = (10, 18)) ∧
    (∀ w, 3000 < w → w ≤ 5000 → getRecommendedSlideCount w = (15, 25)) ∧
    (∀ w, 5000 < w → getRecommendedSlideCount w = (20, 30)) := by
  refine ⟨by decide, ?_, ?_, ?_, ?_⟩
  · intro w h
    simp [getRecommendedSlideCount, SLIDE_COUNT_RULES, SlideCountRule.covers, h]
  · intro w h1 h2
    have : ¬ w ≤ 1000 := by omega
    simp [getRecommendedSlideCount, SLIDE_COUNT_RULES, SlideCountRule.covers, this, h2]
  · intro w h1 h2
    have h3 : ¬ w ≤ 1000 := by omega
    have h4 : ¬ w ≤ 3000 := by omega
    simp [getRecommendedSlideCount, SLIDE_COUNT_RULES, SlideCountRule.covers, h3, h4, h2]
  · intro w h1
    have h3 : ¬ w ≤ 1000 := by omega
    have h4 : ¬ w ≤ 3000 := by omega
    have h5 : ¬ w ≤ 5000 := by omega
    simp [getRecommendedSlideCount, SLIDE_COUNT_RULES, SlideCountRule.covers, h3, h4, h5]

end ParseContent

namespace AnalyzeLayouts

theorem toLower_ne_upper (c : Char) : c.toLower ≠ 'A' := by
  unfold Char.toLower
  simp only
  split_ifs with h
  · intro hc
    have h1 := congrArg Char.toNat hc
    rw [toNat_ofNat_of_lt _ (by omega)] at h1
    have h2 : ('A' : Char).toNat = 65 := rfl
    omega
  · intro hc
    rw [hc] at h
    exact h (by decide)

theorem includes_head_mem (lit : String) (c : Char) (rest : List Char)
    (hlit : lit.toList = c :: rest) : ∀ s : List Char, includes lit s = true → c ∈ s := by
  intro s
  induction s with
  | nil =>
    intro h
    unfold includes at h
    rw [hlit] at h
    cases h
  | cons d s ih =>
    intro h
    unfold includes at h
    rw [Bool.or_eq_true] at h
    rcases h with h | h
    · rw [hlit] at h
      have : d = c := by
        simp only [List.isPrefixOf, Bool.and_eq_true, beq_iff_eq] at h
        exact h.1.symm
      rw [this]
      exact List.mem_cons_self _ _
    · exact List.mem_cons_of_mem _ (ih h)

set_option maxRecDepth 100000 in
/-- C35. The keyword `API` of the style `tech` never counts: `analyzeStyle`
looks for the keywords, as they are written in the table, in the lower-cased
text, which holds no capital letter. A document whose text is "API" gets the
default style apple. (The classifier of parse-content.mjs lower-cases its
keywords too: it finds `KPI` in "KPI".) -/
theorem analyzeStyle_misses_API :
    "API" ∈ (STYLE_RULES.filter fun rule => rule.name == "tech").flatMap (fun rule => rule.keywords) ∧
    (∀ allText, includes "API" (ParseContent.toLowerCaseAscii allText).toList = false) ∧
    (styleScores ParseContent.toLowerCaseAscii "API").map (fun s => s.score) = [0, 0, 0, 0] ∧
    analyzeStyle ParseContent.toLowerCaseAscii "API" = some defaultStyle ∧
    defaultStyle.recommended = "apple" ∧
    ParseContent.detectContentType ParseContent.toLowerCaseAscii "KPI" = "data" := by
  refine ⟨by decide, ?_, by decide, by decide, rfl, by decide⟩
  intro allText
  cases h : includes "API" (ParseContent.toLowerCaseAscii allText).toList with
  | false => rfl
  | true =>
    have hm := includes_head_mem "API" 'A' ['P', 'I'] rfl _ h
    unfold ParseContent.toLowerCaseAscii at hm
    obtain ⟨c, _, hc⟩ := List.mem_map.1 hm
    exact absurd hc (toLower_ne_upper c)

theorem rule_of_name_bullet_list (rule : LayoutRule) (h : rule ∈ LAYOUT_RULES)
    (hn : rule.name = "bullet-list") (text : List Char) (slide : Slide) (hb : slide.bullets = none) :
    rule.matchScore text slide = 5 / 10 := by
  simp only [LAYOUT_RULES, List.mem_cons, List.mem_singleton, List.not_mem_nil, or_false] at h
  rcases h with rfl | rfl | rfl | rfl | rfl | rfl | rfl | rfl
  all_goals first
    | exact absurd hn (by decide)
    | (dsimp only; rw [hb])

theorem quote_callout_mem : ∃ rule ∈ LAYOUT_RULES, rule.name = "quote-callout" ∧
    ∀ (text : List Char) (slide : Slide), text.length < 50 → slide.bullets = none →
      7 / 10 ≤ rule.matchScore text slide := by
  refine ⟨_, List.mem_of_mem_drop (show _ ∈ LAYOUT_RULES.drop 5 from List.mem_cons_self _ _),
    rfl, ?_⟩
  intro text slide hlen hb
  dsimp only
  split_ifs with h1 h2 h3
  · norm_num
  · norm_num
  · norm_num
  · exact absurd ⟨hlen, by rw [hb]; rfl⟩ h3

theorem mathRound_seventy : mathRound (7 / 10 * 100) = 70 := by
  unfold mathRound
  rw [Int.floor_eq_iff]
  constructor <;> norm_num

/-- C38. For a slide without a `bullets` field whose text is shorter than 50
characters the rule quote-callout scores 0.7 at least and the rule bullet-list
0.5: the confidence of the recommended layout is 70 at least, and the
recommended layout is not bullet-list. The text is one of the Basic
Multilingual Plane, where its number of characters is the `text.length` the
rule tests. -/
theorem analyzeSlide_short_text (slide : Slide) (hb : slide.bullets = none)
    (_ : isBMP (slideText slide) = true)
    (hlen : (slideText slide).length < 50) :
    70 ≤ (analyzeSlide slide).confidence ∧ (analyzeSlide slide).recommended ≠ "bullet-list" := by
  obtain ⟨q, hq, _, hqs⟩ := quote_callout_mem
  have hq7 := hqs (slideText slide) slide hlen hb
  have hqmem : scoreEntry slide q ∈ sortedScores slide := by
    rw [sortedScores_eq, (List.perm_insertionSort before _).mem_iff, mem_positiveScores]
    exact ⟨q, hq, rfl, lt_of_lt_of_le (by norm_num) hq7⟩
  cases hs : sortedScores slide with
  | nil => rw [hs] at hqmem; cases hqmem
  | cons h t =>
    have hh7 : 7 / 10 ≤ h.score := by
      rw [hs] at hqmem
      rcases List.mem_cons.1 hqmem with e | e
      · rw [← e]; exact hq7
      · exact le_trans hq7 (sortedScores_head slide h t hs _ e)
    have hhmem : h ∈ positiveScores slide := by
      have : h ∈ sortedScores slide := by rw [hs]; exact List.mem_cons_self _ _
      rwa [sortedScores_eq, (List.perm_insertionSort before _).mem_iff] at this
    obtain ⟨rule, hr, rfl, _⟩ := (mem_positiveScores slide h).1 hhmem
    have hrec : (analyzeSlide slide).recommended = (scoreEntry slide rule).name ∧
        (analyzeSlide slide).confidence = mathRound ((scoreEntry slide rule).score * 100) := by
      unfold analyzeSlide
      simp only [hs, List.head?_cons, Option.getD_some]
      exact ⟨trivial, trivial⟩
    constructor
    · rw [hrec.2, ← mathRound_seventy]
      exact mathRound_mono hh7
    · rw [hrec.1]
      intro hn
      have h5 := rule_of_name_bullet_list rule hr hn (slideText slide) slide hb
      have h5' : (scoreEntry slide rule).score = 5 / 10 := h5
      rw [h5'] at hh7
      norm_num at hh7

theorem analyzeSlide_short_text_witness :
    70 ≤ (analyzeSlide shortPlainSlide).confidence ∧
      (analyzeSlide shortPlainSlide).recommended ≠ "bullet-list" :=
  analyzeSlide_short_text shortPlainSlide rfl (by decide) (by decide)

end AnalyzeLayouts

/-! ## Layout names and compositions -/

namespace RenderSlide

theorem layoutRules_have_entries :
    ∀ rule ∈ AnalyzeLayouts.LAYOUT_RULES, (compositionEntry rule.name).isSome = true := by
  intro rule h
  simp only [AnalyzeLayouts.LAYOUT_RULES, List.mem_cons, List.mem_singleton, List.not_mem_nil,
    or_false] at h
  rcases h with rfl | rfl | rfl | rfl | rfl | rfl | rfl | rfl <;> rfl

theorem analyzeSlide_recommended_entry (slide : AnalyzeLayouts.Slide) :
    (compositionEntry (AnalyzeLayouts.analyzeSlide slide).recommended).isSome = true := by
  cases hs : AnalyzeLayouts.sortedScores slide with
  | nil =>
    have : (AnalyzeLayouts.analyzeSlide slide).recommended = "bullet-list" := by
      unfold AnalyzeLayouts.analyzeSlide
      simp only [hs, List.head?_nil, Option.getD_none]
      rfl
    rw [this]
    rfl
  | cons h t =>
    have hrec : (AnalyzeLayouts.analyzeSlide slide).recommended = h.name := by
      unfold AnalyzeLayouts.analyzeSlide
      simp only [hs, List.head?_cons, Option.getD_some]
    have hmem : h ∈ AnalyzeLayouts.positiveScores slide := by
      have : h ∈ AnalyzeLayouts.sortedScores slide := by rw [hs]; exact List.mem_cons_self _ _
      rwa [AnalyzeLayouts.sortedScores_eq,
        (List.perm_insertionSort AnalyzeLayouts.before _).mem_iff] at this
    obtain ⟨rule, hr, rfl, _⟩ := (AnalyzeLayouts.mem_positiveScores slide h).1 hmem
    rw [hrec]
    exact layoutRules_have_entries rule hr

theorem ite_pred {α : Type} (P : α → Prop) (c : Prop) [Decidable c] (a b : α)
    (ha : P a) (hb : P b) : P (if c then a else b) := by
  split_ifs <;> assumption

theorem getLayoutForSlide_cases (slide : Slide) (index : Nat)
    (recommendations : List (Option String)) :
    (compositionEntry (getLayoutForSlide slide index recommendations)).isSome = true ∨
      getLayoutForSlide slide index recommendations = recommendedAt recommendations index := by
  have key : ∀ name, (name = recommendedAt recommendations index ∨
      (compositionEntry name).isSome = true) →
      ((compositionEntry name).isSome = true ∨ name = recommendedAt recommendations index) :=
    fun name h => h.symm
  apply key
  unfold getLayoutForSlide
  by_cases h0 : hasLayoutEntry slide = true
  · rw [if_pos h0]
    right
    unfold hasLayoutEntry at h0
    cases hl : slide.layout with
    | none => rw [hl] at h0; cases h0
    | some layout =>
      rw [hl] at h0
      simp only [Bool.and_eq_true] at h0
      exact h0.2
  · rw [if_neg h0]
    refine ite_pred (fun name => name = recommendedAt recommendations index ∨
      (compositionEntry name).isSome = true) _ _ _ (Or.inr rfl) ?_
    refine ite_pred (fun name => name = recommendedAt recommendations index ∨
      (compositionEntry name).isSome = true) _ _ _ (Or.inr rfl) ?_
    refine ite_pred (fun name => name = recommendedAt recommendations index ∨
      (compositionEntry name).isSome = true) _ _ _ (Or.inr rfl) ?_
    refine ite_pred (fun name => name = recommendedAt recommendations index ∨
      (compositionEntry name).isSome = true) _ _ _ (Or.inr rfl) ?_
    refine ite_pred (fun name => name = recommendedAt recommendations index ∨
      (compositionEntry name).isSome = true) _ _ _ (Or.inr rfl) ?_
    refine ite_pred (fun name => name = recommendedAt recommendations index ∨
      (compositionEntry name).isSome = true) _ _ _ (Or.inr rfl) ?_
    refine ite_pred (fun name => name = recommendedAt recommendations index ∨
      (compositionEntry name).isSome = true) _ _ _ (Or.inr rfl) ?_
    refine ite_pred (fun name => name = recommendedAt recommendations index ∨
      (compositionEntry name).isSome = true) _ _ _ (Or.inr rfl) ?_
    refine ite_pred (fun name => name = recommendedAt recommendations index ∨
      (compositionEntry name).isSome = true) _ _ _ (Or.inr rfl) ?_
    refine ite_pred (fun name => name = recommendedAt recommendations index ∨
      (compositionEntry name).isSome = true) _ _ _ (Or.inr rfl) ?_
    exact Or.inl rfl

theorem analyzeStyle_recommended_mem (toLowerCase : String → String) (allText : String)
    (r : AnalyzeLayouts.StyleRecommendation)
    (h : AnalyzeLayouts.analyzeStyle toLowerCase allText = some r) :
    r.recommended ∈ ["tech", "bold-editorial", "minimal", "dark-atmospheric", "apple"] := by
  unfold AnalyzeLayouts.analyzeStyle at h
  simp only at h
  cases hs : (AnalyzeLayouts.styleScores toLowerCase allText).insertionSort
      AnalyzeLayouts.styleBefore with
  | nil => rw [hs] at h; cases h
  | cons top rest =>
    rw [hs] at h
    simp only at h
    have htop : top ∈ AnalyzeLayouts.styleScores toLowerCase allText := by
      rw [← (List.perm_insertionSort AnalyzeLayouts.styleBefore _).mem_iff, hs]
      exact List.mem_cons_self _ _
    have hname : top.name ∈ ["tech", "bold-editorial", "minimal", "dark-atmospheric"] := by
      rw [← AnalyzeLayouts.styleScores_names toLowerCase allText]
      exact List.mem_map_of_mem _ htop
    split_ifs at h
    · cases h
      exact List.mem_append_left ["apple"] hname
    · cases h
      decide

/-- C40. Every layout name of the pipeline has an entry in
`LAYOUT_TO_COMPOSITION`: the names of the 8 rules of `LAYOUT_RULES`, the name
`analyzeSlide` recommends for any slide, and the name `getLayoutForSlide`
returns unless it comes from the array of recommendations (then it has one when
every recommended name of the array has); for a name with an entry the
composition is the entry, not the fallback. Every style `analyzeStyle`
recommends has an entry in `styleMap`. -/
theorem layouts_and_styles_have_entries :
    (AnalyzeLayouts.LAYOUT_RULES.map fun rule => rule.name) =
      ["binary-comparison", "linear-progression", "hierarchical-layers", "hub-spoke", "dashboard",
        "quote-callout", "title-hero", "bullet-list"] ∧
    (∀ rule ∈ AnalyzeLayouts.LAYOUT_RULES, (compositionEntry rule.name).isSome = true) ∧
    (∀ slide : AnalyzeLayouts.Slide,
      (compositionEntry (AnalyzeLayouts.analyzeSlide slide).recommended).isSome = true) ∧
    (∀ (slide : Slide) (index : Nat) (recommendations : List (Option String)),
      (compositionEntry (getLayoutForSlide slide index recommendations)).isSome = true ∨
        getLayoutForSlide slide index recommendations = recommendedAt recommendations index) ∧
    (∀ (slide : Slide) (index : Nat) (recommendations : List (Option String)),
      (∀ name, some name ∈ recommendations → (compositionEntry name).isSome = true) →
      (compositionEntry (getLayoutForSlide slide index recommendations)).isSome = true) ∧
    (∀ layout c, compositionEntry layout = some c → compositionOf layout = c) ∧
    (∀ (toLowerCase : String → String) (allText : String) (r : AnalyzeLayouts.StyleRecommendation),
      AnalyzeLayouts.analyzeStyle toLowerCase allText = some r →
        (styleMap.lookup r.recommended).isSome = true) := by
  refine ⟨rfl, layoutRules_have_entries, analyzeSlide_recommended_entry, getLayoutForSlide_cases,
    ?_, ?_, ?_⟩
  · intro slide index recommendations hrec
    rcases getLayoutForSlide_cases slide index recommendations with h | h
    · exact h
    · rw [h]
      unfold recommendedAt
      cases hg : recommendations.get? index with
      | none => rfl
      | some o =>
        cases o with
        | none => rfl
        | some name =>
          have hm : some name ∈ recommendations := List.get?_mem hg
          show (compositionEntry (if (name != "") = true then name else "bullet-list")).isSome
            = true
          split_ifs
          · exact hrec name hm
          · rfl
  · intro layout c h
    unfold compositionOf
    rw [h]
    rfl
  · intro toLowerCase allText r h
    have := analyzeStyle_recommended_mem toLowerCase allText r h
    simp only [List.mem_cons, List.mem_singleton, List.not_mem_nil, or_false] at this
    rcases this with e | e | e | e | e <;> rw [e] <;> rfl

end RenderSlide

/-! ## The action of a visual recommendation -/

namespace VisualMatcher

theorem take_not_gt {α : Type} (n m : Nat) (l : List α) (h : n ≤ m) :
    decide ((l.take n).length > m) = false := by
  rw [decide_eq_false_iff_not]
  have := List.length_take_le n l
  omega

theorem map_take_not_gt {α β : Type} (f : α → β) (n m : Nat) (l : List α) (h : n ≤ m) :
    decide (((l.take n).map f).length > m) = false := by
  rw [List.length_map]
  exact take_not_gt n m l h

/-- The payload of an archetype other than `comparison` never needs a slide of
its own; the payload of `comparison` is a comparison. -/
theorem extractData_complexity (config : Config) (hconfig : config ∈ VISUAL_PATTERNS)
    (text : List Char) (p : Payload) (h : config.extractData text = some p) :
    (config.type = "comparison" ∧ ∃ a l b r, p = .comparison a l b r) ∨
    (config.type ≠ "comparison" ∧
      (estimateVisualComplexity config.type p).needsSeparateSlide = false) := by
  simp only [VISUAL_PATTERNS, List.mem_cons, List.mem_singleton, List.not_mem_nil,
    or_false] at hconfig
  rcases hconfig with rfl | rfl | rfl | rfl | rfl | rfl | rfl
  · right
    refine ⟨by decide, ?_⟩
    change extractPyramid text = some p at h
    unfold extractPyramid at h
    simp only at h
    split_ifs at h
    cases h
    exact take_not_gt 4 (3 + 2) _ (by decide)
  · right
    refine ⟨by decide, ?_⟩
    change extractFlow text = some p at h
    unfold extractFlow at h
    simp only at h
    split_ifs at h
    · cases h
      exact take_not_gt 6 (4 + 2) _ (by decide)
    · cases h
      exact map_take_not_gt _ 5 (4 + 2) _ (by decide)
  · right
    refine ⟨by decide, ?_⟩
    change extractCycle text = some p at h
    unfold extractCycle at h
    simp only at h
    split_ifs at h
    · cases h
      exact map_take_not_gt _ 5 (4 + 2) _ (by decide)
    · cases h
      rfl
  · left
    refine ⟨rfl, ?_⟩
    change extractComparison text = some p at h
    unfold extractComparison at h
    split at h
    · cases h
      exact ⟨_, _, _, _, rfl⟩
    · simp only at h
      split_ifs at h
      all_goals
        cases h
        exact ⟨_, _, _, _, rfl⟩
  · right
    refine ⟨by decide, ?_⟩
    change extractTimeline text = some p at h
    unfold extractTimeline at h
    simp only at h
    split_ifs at h
    all_goals
      cases h
      exact take_not_gt 6 (4 + 2) _ (by decide)
  · right
    refine ⟨by decide, ?_⟩
    change extractFunnel text = some p at h
    unfold extractFunnel at h
    simp only at h
    split_ifs at h
    cases h
    exact take_not_gt 5 (3 + 2) _ (by decide)
  · right
    refine ⟨by decide, ?_⟩
    change extractTree text = some p at h
    unfold extractTree at h
    split at h
    · simp only at h
      split_ifs at h
      cases h
      exact take_not_gt 5 (3 + 2) _ (by decide)
    · cases h

set_option maxRecDepth 100000 in
theorem crowdedComparisonText_candidates :
    (candidates crowdedComparisonText).map (fun c => (c.type, c.data)) =
      [("comparison", Payload.comparison "并行方案" ["甲甲甲甲", "乙乙乙乙", "丙丙丙丙", "丁丁丁丁"]
        "系统方案" ["戊戊戊戊", "己己己己", "庚庚庚庚"])] := by
  decide

/-- C36. For every text and every candidate of `detectVisualType`: when the
action of its recommendation is `create-separate`, the candidate is of
`comparison` and has 7 items or more on its two sides; a candidate of any other
archetype never needs a slide of its own, and its action is `inline`. The
action `create-separate` occurs: a comparison of four items on the left and
three on the right gets it. -/
theorem create_separate_only_for_comparison :
    (∀ (text : String) (slide : Slide), ∀ c ∈ detectVisualType text,
      ((recommend slide c).action = "create-separate" →
        c.type = "comparison" ∧
        ∃ a l b r, c.data = .comparison a l b r ∧ 7 ≤ l.length + r.length) ∧
      (c.type ≠ "comparison" →
        (estimateVisualComplexity c.type c.data).needsSeparateSlide = false ∧
        (recommend slide c).action = "inline")) ∧
    ∃ c ∈ detectVisualType crowdedComparisonText, ∀ slide : Slide,
      (recommend slide c).action = "create-separate" := by
  constructor
  · intro text slide c hc
    obtain ⟨config, hconfig, hcand⟩ := mem_candidates.1 (mem_detectVisualType.1 hc)
    obtain ⟨htype, _, _, _, hdata, _, _⟩ := candidateOf_some hcand
    have hact : (recommend slide c).action =
        actionOf (estimateVisualComplexity c.type c.data) := rfl
    rcases extractData_complexity config hconfig _ _ hdata with ⟨ht, a, l, b, r, hp⟩ | ⟨ht, hn⟩
    · constructor
      · intro h
        refine ⟨htype.trans ht, a, l, b, r, hp, ?_⟩
        rw [hact, htype, ht, hp] at h
        by_contra hlt
        have hfalse : (estimateVisualComplexity "comparison"
            (Payload.comparison a l b r)).needsSeparateSlide = false := by
          show decide (l.length + r.length > 4 + 2) = false
          rw [decide_eq_false_iff_not]
          omega
        unfold actionOf at h
        rw [hfalse] at h
        exact absurd h (by decide)
      · intro h
        exact absurd (htype.trans ht) h
    · rw [← htype] at ht hn
      constructor
      · intro h
        rw [hact] at h
        unfold actionOf at h
        rw [hn] at h
        exact absurd h (by decide)
      · intro _
        refine ⟨hn, ?_⟩
        rw [hact]
        unfold actionOf
        rw [hn]
        rfl
  · have h := crowdedComparisonText_candidates
    cases hl : candidates crowdedComparisonText with
    | nil => rw [hl] at h; cases h
    | cons c rest =>
      rw [hl] at h
      simp only [List.map_cons, List.cons.injEq, Prod.mk.injEq, List.map_eq_nil_iff] at h
      obtain ⟨⟨htype, hdata⟩, _⟩ := h
      refine ⟨c, mem_detectVisualType.2 (by rw [hl]; exact List.mem_cons_self _ _), ?_⟩
      intro slide
      show actionOf (estimateVisualComplexity c.type c.data) = "create-separate"
      rw [htype, hdata]
      rfl

end VisualMatcher

/-! ## Bullets and slide blocks of the generated slides -/

theorem foldl_invariant {α β : Type} (P : β → Prop) (f : β → α → β)
    (hf : ∀ acc x, P acc → P (f acc x)) : ∀ (l : List α) (init : β), P init → P (l.foldl f init) := by
  intro l
  induction l with
  | nil => intro init h; exact h
  | cons x l ih => intro init h; exact ih _ (hf _ _ h)

namespace ParseContent

theorem fitsBullet_iff (s : List Char) : fitsBullet s = true ↔ 15 ≤ s.length ∧ s.length ≤ 50 := by
  unfold fitsBullet
  simp

theorem all_append_singleton {l : List (List Char)} {b : List Char}
    (hl : ∀ x ∈ l, fitsBullet x = true) (hb : fitsBullet b = true) :
    ∀ x ∈ l ++ [b], fitsBullet x = true := by
  intro x hx
  rcases List.mem_append.1 hx with h | h
  · exact hl x h
  · rw [List.mem_singleton.1 h]; exact hb

theorem pushClauses_fits (result clauses : List (List Char))
    (h : ∀ x ∈ result, fitsBullet x = true) :
    ∀ x ∈ pushClauses result clauses, fitsBullet x = true := by
  unfold pushClauses
  refine foldl_invariant (fun r : List (List Char) => ∀ x ∈ r, fitsBullet x = true) _ ?_ _ _ h
  intro acc c hacc
  dsimp only
  split_ifs with h1 h2
  · exact hacc
  · exact all_append_singleton hacc h2
  · exact hacc

theorem extractFromLongText_fits (text : List Char) :
    ∀ x ∈ extractFromLongText text, fitsBullet x = true := by
  unfold extractFromLongText
  refine foldl_invariant (fun r : List (List Char) => ∀ x ∈ r, fitsBullet x = true) _ ?_ _ _
    (by intro x hx; cases hx)
  intro acc s hacc
  dsimp only
  split_ifs with h1 h2 h3
  · exact hacc
  · exact all_append_singleton hacc h2
  · exact pushClauses_fits _ _ hacc
  · exact hacc

theorem bulletLine_fits (st : Extracted) (line : List Char)
    (h : ∀ x ∈ st.bullets, fitsBullet x = true) :
    ∀ x ∈ (bulletLine st line).bullets, fitsBullet x = true := by
  unfold bulletLine
  dsimp only
  split_ifs with h1 h2 h3 h4
  · exact all_append_singleton h h2
  · intro x hx
    rcases List.mem_append.1 hx with hx | hx
    · exact h x hx
    · exact extractFromLongText_fits _ x hx
  · exact h
  · exact h
  · exact h

theorem pushNew_fits (bullets extracted : List (List Char))
    (h : ∀ x ∈ bullets, fitsBullet x = true) (he : ∀ x ∈ extracted, fitsBullet x = true) :
    ∀ x ∈ pushNew bullets extracted, fitsBullet x = true := by
  unfold pushNew
  induction extracted generalizing bullets with
  | nil => exact h
  | cons b rest ih =>
    rw [List.foldl_cons]
    apply ih
    · split_ifs
      · exact h
      · exact all_append_singleton h (he b (List.mem_cons_self _ _))
      · exact h
    · exact fun x hx => he x (List.mem_cons_of_mem _ hx)

theorem fromCandidates_fits (lines : List (List Char)) :
    ∀ x ∈ fromCandidates lines, fitsBullet x = true := by
  unfold fromCandidates
  dsimp only
  refine foldl_invariant (fun r : List (List Char) => ∀ x ∈ r, fitsBullet x = true) _ ?_ _ _
    (by intro x hx; cases hx)
  intro acc line hacc
  dsimp only
  split_ifs
  · exact hacc
  · exact pushNew_fits _ _ hacc (extractFromLongText_fits line)

theorem extractBullets_fits (paragraph : List Char) :
    (extractBullets paragraph).1.length ≤ 4 ∧
      ∀ b ∈ (extractBullets paragraph).1, fitsBullet b = true := by
  unfold extractBullets
  dsimp only
  split_ifs
  · refine ⟨List.length_take_le _ _, ?_⟩
    intro b hb
    exact fromCandidates_fits _ b (List.mem_of_mem_take hb)
  · refine ⟨List.length_take_le _ _, ?_⟩
    intro b hb
    refine foldl_invariant (fun st : Extracted => ∀ x ∈ st.bullets, fitsBullet x = true) bulletLine
      (fun st line h => bulletLine_fits st line h) _ _ (by intro x hx; cases hx) b
      (List.mem_of_mem_take hb)

end ParseContent

namespace ParseContent

theorem goodBullets_none : goodBullets none := by
  intro bs h
  cases h

theorem goodBullets_of_fits (l : List (List Char)) (hl : ∀ b ∈ l, fitsBullet b = true) :
    goodBullets (some ((l.take 4).map String.mk)) := by
  intro bs h
  cases h
  refine ⟨by rw [List.length_map]; exact List.length_take_le _ _, ?_⟩
  intro b hb
  obtain ⟨x, hx, rfl⟩ := List.mem_map.1 hb
  exact (fitsBullet_iff x).1 (hl x (List.mem_of_mem_take hx))

theorem draftSlide_bullets (toLowerCase : String → String) (title : String)
    (totalParagraphs i : Nat) (lines : List String) :
    goodBullets (draftSlide toLowerCase title totalParagraphs i lines).bullets := by
  unfold draftSlide
  dsimp only
  split_ifs
  all_goals first
    | exact goodBullets_none
    | exact goodBullets_of_fits _ (extractBullets_fits _).2

theorem additionalBullets_fits (narrative : List Char) (n : Nat) :
    ∀ b ∈ additionalBullets narrative n, 15 ≤ b.length ∧ b.length ≤ 50 := by
  intro b hb
  unfold additionalBullets at hb
  obtain ⟨x, hx, rfl⟩ := List.mem_map.1 hb
  have := List.mem_of_mem_take hx
  exact (fitsBullet_iff x).1 (List.mem_filter.1 this).2

theorem buildSlide_bullets (toLowerCase : String → String) (title : String)
    (totalParagraphs i : Nat) (lines : List String) :
    goodBullets (buildSlide toLowerCase title totalParagraphs i lines).bullets := by
  have hd := draftSlide_bullets toLowerCase title totalParagraphs i lines
  have hadd : goodBullets (some (((draftSlide toLowerCase title totalParagraphs i lines).bullets.getD []
      ++ additionalBullets (extractBullets (joinWith ['\n'] (lines.map String.toList))).2
        ((draftSlide toLowerCase title totalParagraphs i lines).bullets.getD []).length).take 4)) := by
    intro bs h
    cases h
    refine ⟨List.length_take_le _ _, ?_⟩
    intro b hb
    rcases List.mem_append.1 (List.mem_of_mem_take hb) with h | h
    · cases hbs : (draftSlide toLowerCase title totalParagraphs i lines).bullets with
      | none => rw [hbs] at h; cases h
      | some bs' =>
        rw [hbs] at h
        exact (hd bs' hbs).2 b h
    · exact additionalBullets_fits _ _ b h
  unfold buildSlide
  dsimp only
  split_ifs
  · exact hadd
  · exact hadd
  · exact hd
  · exact hd

theorem mem_buildSlides (toLowerCase : String → String) (title : String) (totalParagraphs : Nat) :
    ∀ (blocks : List (List String)) (i : Nat) (slide : SlideRecord),
      slide ∈ buildSlides toLowerCase title totalParagraphs i blocks →
      ∃ j lines, lines ∈ blocks ∧ slide = buildSlide toLowerCase title totalParagraphs j lines := by
  intro blocks
  induction blocks with
  | nil => intro i slide h; cases h
  | cons lines rest ih =>
    intro i slide h
    rw [buildSlides] at h
    rcases List.mem_cons.1 h with h | h
    · exact ⟨i, lines, List.mem_cons_self _ _, h⟩
    · obtain ⟨j, l, hl, e⟩ := ih (i + 1) slide h
      exact ⟨j, l, List.mem_cons_of_mem _ hl, e⟩

theorem buildSlides_length (toLowerCase : String → String) (title : String)
    (totalParagraphs : Nat) :
    ∀ (blocks : List (List String)) (i : Nat),
      (buildSlides toLowerCase title totalParagraphs i blocks).length = blocks.length := by
  intro blocks
  induction blocks with
  | nil => intro i; rfl
  | cons lines rest ih => intro i; rw [buildSlides, List.length_cons, List.length_cons, ih]

/-- C32. For every paragraph `extractBullets` returns four bullets at most, each
of 15 to 50 characters; and in every slide `generateSlides` returns the list
`bullets`, when the slide has one, holds four entries at most, each of 15 to
50 characters. The bound of four holds for every text; the bounds on the
characters are stated for texts of the Basic Multilingual Plane, where the
number of characters of a bullet is the `length` the code tests. -/
theorem bullets_within_policy :
    (∀ paragraph : List Char, (extractBullets paragraph).1.length ≤ 4 ∧
      (isBMP paragraph = true →
        ∀ b ∈ (extractBullets paragraph).1, 15 ≤ b.length ∧ b.length ≤ 50)) ∧
    (∀ (toLowerCase : String → String) (paragraphs : List String) (title content : String),
      ∀ slide ∈ generateSlides toLowerCase paragraphs title content,
      ∀ bs, slide.bullets = some bs → bs.length ≤ 4 ∧
        ((∀ p ∈ paragraphs, isBMP p.toList = true) → isBMP title.toList = true →
          isBMP content.toList = true → ∀ b ∈ bs, 15 ≤ b.length ∧ b.length ≤ 50)) := by
  constructor
  · intro paragraph
    refine ⟨(extractBullets_fits paragraph).1, ?_⟩
    intro _ b hb
    exact (fitsBullet_iff b).1 ((extractBullets_fits paragraph).2 b hb)
  · intro toLowerCase paragraphs title content slide hs bs hbs
    obtain ⟨j, lines, _, rfl⟩ := mem_buildSlides toLowerCase title _ _ _ slide hs
    have h := buildSlide_bullets toLowerCase title _ j lines bs hbs
    exact ⟨h.1, fun _ _ _ => h.2⟩

set_option maxRecDepth 100000 in
theorem bullets_within_policy_witness :
    isBMP twoItemParagraph.toList = true ∧
    (extractBullets twoItemParagraph.toList).1 =
      ["a bullet of twenty chars".toList, "another bullet line of text".toList] ∧
    ∀ b ∈ (extractBullets twoItemParagraph.toList).1, 15 ≤ b.length ∧ b.length ≤ 50 :=
  ⟨by decide, by decide,
    (bullets_within_policy.1 twoItemParagraph.toList).2 (by decide)⟩

set_option maxRecDepth 100000 in
/-- C34. A content of one paragraph of two words gets one slide, where the
range of the pagination rules for its word count is 5 to 10 slides: the number
of slides is the number of blocks, and the blocks are whole paragraphs. -/
theorem slide_count_outside_range :
    countWords "你好" = 2 ∧ getRecommendedSlideCount 2 = (5, 10) ∧ targetCount 2 = 5 ∧
    paragraphsOf "你好" = ["你好"] ∧
    (generateSlides toLowerCaseAscii (paragraphsOf "你好") "T" "你好").length = 1 ∧
    (∀ (toLowerCase : String → String) (paragraphs : List String) (title content : String),
      (generateSlides toLowerCase paragraphs title content).length =
        (slideBlocksOf paragraphs content).length) := by
  refine ⟨by decide, by decide, by decide, by decide, ?_, ?_⟩
  · unfold generateSlides
    rw [buildSlides_length]
    decide
  · intro toLowerCase paragraphs title content
    unfold generateSlides
    exact buildSlides_length _ _ _ _ _

end ParseContent

namespace ParseContent

/-- The paragraphs a state of the loop holds: those of its blocks, then those
of the open block. -/
theorem splitStep_lines (wordsPerSlide : Nat) (st : SplitState) (para : String) (isLast : Bool) :
    ((splitStep wordsPerSlide st para isLast).slides.flatMap fun b => b.lines) ++
        (splitStep wordsPerSlide st para isLast).currentLines =
      (st.slides.flatMap fun b => b.lines) ++ st.currentLines ++ [para] := by
  unfold splitStep
  dsimp only
  split_ifs
  all_goals simp only [List.flatMap_append, List.flatMap_cons, List.flatMap_nil, List.append_nil,
    List.append_assoc]

theorem splitLast_false (st : SplitState) : splitLast st false = st := by
  unfold splitLast
  rw [if_neg]
  rintro ⟨h, _⟩
  cases h

theorem splitLast_true (st : SplitState) :
    ((splitLast st true).slides.flatMap fun b => b.lines) =
      (st.slides.flatMap fun b => b.lines) ++ st.currentLines := by
  unfold splitLast
  split_ifs with h
  · simp only [List.flatMap_append, List.flatMap_cons, List.flatMap_nil, List.append_nil]
  · have : st.currentLines = [] := by
      cases hl : st.currentLines with
      | nil => rfl
      | cons a l =>
        rw [hl] at h
        exact absurd ⟨rfl, Nat.succ_pos _⟩ h
    rw [this, List.append_nil]

theorem splitLoop_lines (wordsPerSlide : Nat) : ∀ (paragraphs : List String) (st : SplitState),
    paragraphs ≠ [] →
    ((splitLoop wordsPerSlide st paragraphs).slides.flatMap fun b => b.lines) =
      (st.slides.flatMap fun b => b.lines) ++ st.currentLines ++ paragraphs := by
  intro paragraphs
  induction paragraphs with
  | nil => intro st h; exact absurd rfl h
  | cons para rest ih =>
    intro st _
    cases rest with
    | nil =>
      rw [splitLoop, splitLast_true, splitStep_lines]
    | cons next rest =>
      rw [splitLoop, splitLast_false, ih _ (List.cons_ne_nil _ _), splitStep_lines]
      simp only [List.append_assoc, List.singleton_append]

theorem splitLoop_init (wordsPerSlide : Nat) (paragraphs : List String) :
    ((splitLoop wordsPerSlide {} paragraphs).slides.flatMap fun b => b.lines) = paragraphs := by
  cases paragraphs with
  | nil => rfl
  | cons para rest =>
    rw [splitLoop_lines wordsPerSlide _ _ (List.cons_ne_nil _ _)]
    rfl

theorem sliceChunks_flatten {α : Type} (n : Nat) (hn : 0 < n) :
    ∀ (fuel : Nat) (l : List α), l.length ≤ fuel → (sliceChunks n fuel l).flatten = l := by
  intro fuel
  induction fuel with
  | zero =>
    intro l hl
    have : l = [] := List.length_eq_zero.1 (Nat.le_zero.1 hl)
    rw [this]
    rfl
  | succ fuel ih =>
    intro l hl
    rw [sliceChunks]
    cases l with
    | nil => rfl
    | cons a l =>
      rw [if_neg (by simp), List.flatten_cons, ih]
      · exact List.take_append_drop _ _
      · rw [List.length_drop, List.length_cons]
        rw [List.length_cons] at hl
        omega

theorem enum_merge_lines (chunks : List (List Block)) :
    ∀ k : Nat, ((chunks.enumFrom k).map fun p => mergeBlocks p.2 p.1).flatMap (fun b => b.lines) =
      chunks.flatten.flatMap fun b => b.lines := by
  induction chunks with
  | nil => intro k; rfl
  | cons c rest ih =>
    intro k
    rw [List.enumFrom_cons, List.map_cons, List.flatMap_cons, ih, List.flatten_cons,
      List.flatMap_append]
    rfl

theorem ceilDiv_pos (a b : Nat) (ha : 0 < a) (hb : 0 < b) : 0 < ceilDiv a b := by
  unfold ceilDiv
  exact Nat.div_pos (by omega) hb

/-- C37. For every content and every positive target the lines of the blocks
of `smartSplitContent`, one block after the other, are the paragraphs of the
content that are not blank, each once and in their order, whether the blocks
are merged or not. -/
theorem smartSplitContent_keeps_paragraphs (content : String) (targetSlideCount : Nat)
    (h : 0 < targetSlideCount) :
    ((smartSplitContent content targetSlideCount).flatMap fun b => b.lines) =
      paragraphsOf content := by
  unfold smartSplitContent
  dsimp only
  split_ifs with hm
  · unfold List.enum
    rw [enum_merge_lines, sliceChunks_flatten _ _ _ _ (le_refl _), splitLoop_init]
    apply ceilDiv_pos _ _ _ h
    omega
  · exact splitLoop_init _ _

theorem smartSplitContent_keeps_paragraphs_witness :
    ((smartSplitContent "一二三四五六七八九十\n\nabc" 1).flatMap fun b => b.lines) =
      paragraphsOf "一二三四五六七八九十\n\nabc" :=
  smartSplitContent_keeps_paragraphs _ 1 (by decide)

end ParseContent

/-! ## The fixed lists of a comparison slide -/

/-- A match found at a position is among the global matches when no match that
starts before the position reaches into it. -/
theorem matchAll_mem_of_match (m : List Char → Option Nat) (suf : List Char) (n : Nat)
    (hm : m suf = some (n + 1)) (hsuf : suf ≠ []) :
    ∀ (len : Nat) (pre : List Char), pre.length ≤ len →
      (∀ x, x ≠ [] → x <:+ pre → ∀ k, m (x ++ suf) = some (k + 1) → k + 1 ≤ x.length) →
      suf.take (n + 1) ∈ matchAll m 0 (pre ++ suf) := by
  intro len
  induction len with
  | zero =>
    intro pre hlen _
    have : pre = [] := List.length_eq_zero.1 (Nat.le_zero.1 hlen)
    subst this
    obtain ⟨c, rest, rfl⟩ := List.exists_cons_of_ne_nil hsuf
    rw [List.nil_append, matchAll_zero_cons, hm]
    exact List.mem_cons_self _ _
  | succ len ih =>
    intro pre hlen hpre
    cases pre with
    | nil =>
      obtain ⟨c, rest, rfl⟩ := List.exists_cons_of_ne_nil hsuf
      rw [List.nil_append, matchAll_zero_cons, hm]
      exact List.mem_cons_self _ _
    | cons c pre =>
      rw [List.length_cons] at hlen
      have htail : ∀ y, y <:+ pre → suf.take (n + 1) ∈ matchAll m 0 (y ++ suf) := by
        intro y hy
        refine ih y (le_trans hy.length_le (by omega)) ?_
        intro x hx hxy k hk
        exact hpre x hx ((hxy.trans hy).trans (List.suffix_cons _ _)) k hk
      rw [List.cons_append, matchAll_zero_cons]
      split
      · rename_i k hk
        have hle := hpre (c :: pre) (List.cons_ne_nil _ _) (List.suffix_refl _) k hk
        rw [List.length_cons] at hle
        have hdrop : List.drop (k + 1) (c :: (pre ++ suf)) = pre.drop k ++ suf := by
          rw [List.drop_succ_cons, List.drop_append_of_le_length (by omega)]
        rw [hdrop]
        exact List.mem_cons_of_mem _ (htail _ (List.drop_suffix _ _))
      · exact htail pre (List.suffix_refl _)

theorem length_le_of_first_quote (inner : List Char) (hq : '"' ∉ inner) :
    ∀ (u v rest : List Char), u ++ '"' :: v = inner ++ '"' :: rest → inner.length ≤ u.length := by
  induction inner with
  | nil => intro u v rest _; exact Nat.zero_le _
  | cons i inner ih =>
    intro u v rest h
    cases u with
    | nil =>
      rw [List.nil_append, List.cons_append] at h
      have := (List.cons.inj h).1
      exact absurd (by rw [← this]; exact List.mem_cons_self _ _) hq
    | cons a u =>
      rw [List.cons_append, List.cons_append] at h
      have h2 := (List.cons.inj h).2
      rw [List.length_cons, List.length_cons]
      exact Nat.succ_le_succ (ih (fun hm => hq (List.mem_cons_of_mem _ hm)) u v rest h2)

/-- A match of the bullet expression that starts before a quote, which no
`- ` precedes and no quote and no dash follow up to a position, ends before
that position. -/
theorem reBullet_ends_before (A B suf : List Char) (a : Char) (hA : A.getLast? = some a)
    (ha : a ≠ ' ') (hB : ∀ c ∈ B, c ≠ '-') :
    ∀ x, x ≠ [] → x <:+ A ++ '"' :: B → ∀ k, reBullet (x ++ suf) = some (k + 1) →
      k + 1 ≤ x.length := by
  intro x hx hsuf k hk
  obtain ⟨inner, rest, hshape, _, hq, hlen⟩ := reBullet_shape _ _ hk
  obtain ⟨t, ht⟩ := hsuf
  rcases List.append_eq_append_iff.1 ht with ⟨a', hA', hx'⟩ | ⟨c', _, hc'⟩
  · -- the match starts in `A`
    subst hx'
    match a', hA', hshape with
    | [], _, hshape =>
      rw [List.nil_append, List.cons_append] at hshape
      exact absurd (List.cons.inj hshape).1 (by decide)
    | [p], _, hshape =>
      simp only [List.cons_append, List.nil_append, List.cons.injEq] at hshape
      exact absurd hshape.2.1 (by decide)
    | [p, q], hA', hshape =>
      simp only [List.cons_append, List.nil_append, List.cons.injEq] at hshape
      have hlast : A.getLast? = some q := by rw [hA']; simp
      rw [hA] at hlast
      have : a = q := Option.some.inj hlast
      rw [this, hshape.2.1] at ha
      exact absurd rfl ha
    | p :: q :: r :: a'', _, hshape =>
      simp only [List.cons_append, List.cons.injEq] at hshape
      have hle := length_le_of_first_quote inner hq a'' (B ++ suf) rest (by
        rw [← hshape.2.2.2]
        simp only [List.append_assoc, List.cons_append])
      simp only [List.length_append, List.length_cons]
      omega
  · -- the match starts in `B` or at the quote
    cases c' with
    | nil =>
      rw [List.nil_append] at hc'
      subst hc'
      rw [List.cons_append] at hshape
      exact absurd (List.cons.inj hshape).1 (by decide)
    | cons c c'' =>
      rw [List.cons_append] at hc'
      have hBx : B = c'' ++ x := (List.cons.inj hc').2
      obtain ⟨x0, x', rfl⟩ := List.exists_cons_of_ne_nil hx
      rw [List.cons_append] at hshape
      have hx0 : x0 = '-' := (List.cons.inj hshape).1
      have : x0 ∈ B := by rw [hBx]; exact List.mem_append_right _ (List.mem_cons_self _ _)
      exact absurd hx0 (hB x0 this)

theorem intercalate_split (sep : List Char) (x : List Char) (l2 : List (List Char)) :
    ∀ l1 : List (List Char), ∃ P S, joinWith sep (l1 ++ x :: l2) = P ++ x ++ S := by
  have base : ∃ S, joinWith sep (x :: l2) = x ++ S := by
    cases l2 with
    | nil => exact ⟨[], by rw [joinWith_singleton, List.append_nil]⟩
    | cons b l2 => exact ⟨sep ++ joinWith sep (b :: l2), by
        rw [joinWith_cons_cons, List.append_assoc]⟩
  intro l1
  induction l1 with
  | nil =>
    obtain ⟨S, hS⟩ := base
    exact ⟨[], S, by rw [List.nil_append, hS, List.nil_append]⟩
  | cons a l1 ih =>
    obtain ⟨P, S, h⟩ := ih
    cases l1 with
    | nil =>
      rw [List.nil_append] at h
      refine ⟨a ++ sep ++ P, S, ?_⟩
      rw [List.cons_append, List.nil_append, joinWith_cons_cons, h]
      simp only [List.append_assoc]
    | cons b l1 =>
      rw [List.cons_append] at h
      refine ⟨a ++ sep ++ P, S, ?_⟩
      rw [List.cons_append, List.cons_append, joinWith_cons_cons, h]
      simp only [List.append_assoc]

theorem intercalate_split3 (sep : List Char) (a b c : List Char) (T : List (List Char)) :
    ∀ l1 : List (List Char),
      ∃ P S, joinWith sep (l1 ++ a :: b :: c :: T) = P ++ a ++ sep ++ b ++ sep ++ c ++ S := by
  obtain ⟨S', hS'⟩ : ∃ S', joinWith sep (c :: T) = c ++ S' := by
    cases T with
    | nil => exact ⟨[], by rw [joinWith_singleton, List.append_nil]⟩
    | cons d T => exact ⟨sep ++ joinWith sep (d :: T), by
        rw [joinWith_cons_cons, List.append_assoc]⟩
  intro l1
  induction l1 with
  | nil =>
    refine ⟨[], S', ?_⟩
    rw [List.nil_append, joinWith_cons_cons, joinWith_cons_cons, hS']
    simp only [List.append_assoc, List.nil_append]
  | cons d l1 ih =>
    obtain ⟨P, S, h⟩ := ih
    cases l1 with
    | nil =>
      rw [List.nil_append] at h
      refine ⟨d ++ sep ++ P, S, ?_⟩
      rw [List.cons_append, List.nil_append, joinWith_cons_cons, h]
      simp only [List.append_assoc]
    | cons e l1 =>
      rw [List.cons_append] at h
      refine ⟨d ++ sep ++ P, S, ?_⟩
      rw [List.cons_append, List.cons_append, joinWith_cons_cons, h]
      simp only [List.append_assoc]

namespace ParseContent

theorem yamlLines_leftRight (r : SlideRecord) (hl : r.leftTitle = some "并行（发散）")
    (hb : r.leftBullets = some ["扩张可能性", "放大试错密度"]) :
    ∃ L T, yamlLines r = L ++ ("leftTitle: \"".toList ++ "并行（发散）".toList ++ "\"".toList) ::
      "leftBullets:".toList :: itemLine "扩张可能性" :: T := by
  have ht : truthy (some "并行（发散）") = true := by decide
  unfold yamlLines
  rw [hl, hb, if_pos ht]
  refine ⟨[ "id: ".toList ++ r.id.toList,
    "type: ".toList ++ r.type.toList,
    "contentType: ".toList ++
      (if truthy r.contentType then templateText r.contentType else "statement".toList),
    "title: \"".toList ++ r.title.toList ++ "\"".toList ] ++
    (if truthy r.subtitle then
      ["subtitle: \"".toList ++ templateText r.subtitle ++ "\"".toList] else []) ++
    (match r.bullets with
     | some bs => if !truthy (some "并行（发散）") then "bullets:".toList :: bs.map itemLine else []
     | none => []),
    itemLine "放大试错密度" ::
      ("rightTitle: \"".toList ++ templateText r.rightTitle ++ "\"".toList) ::
      "rightBullets:".toList :: ((r.rightBullets.getD []).map itemLine ++
    ((match r.recommendedVisuals with
     | some vs =>
       if vs.length > 0 then
         ["recommendedVisuals: ".toList ++ joinWith ", ".toList (vs.map String.toList)]
       else []
     | none => []) ++
    [ "notes: |".toList,
      "  ".toList ++ (if truthy r.notes then templateText r.notes
                      else "[请补充口播备注]".toList) ])), ?_⟩
  simp only [templateText, Option.getD_some, List.map_cons, List.map_nil, List.append_assoc,
    List.cons_append, List.nil_append]

theorem generated_text_split (title lang : String) (slides : List SlideRecord) (r : SlideRecord)
    (hr : r ∈ slides) (hl : r.leftTitle = some "并行（发散）")
    (hb : r.leftBullets = some ["扩张可能性", "放大试错密度"]) :
    ∃ A S, (generateScriptMd title slides lang).toList =
      (A ++ "并行（发散）".toList) ++ '"' :: "\nleftBullets:\n  ".toList ++
        ("- \"扩张可能性\"".toList ++ S) := by
  obtain ⟨l1, l2, rfl⟩ := List.append_of_mem hr
  obtain ⟨L, T, hy⟩ := yamlLines_leftRight r hl hb
  obtain ⟨P, S, h1⟩ := intercalate_split "\n\n".toList (slideText r)
    (l2.map slideText) (l1.map slideText)
  obtain ⟨P', S', h2⟩ := intercalate_split3 "\n".toList
    ("leftTitle: \"".toList ++ "并行（发散）".toList ++ "\"".toList) "leftBullets:".toList
    (itemLine "扩张可能性") T L
  refine ⟨frontMatterText title lang ++ P ++ "## Slide ".toList ++
    removeFirst "s".toList r.id.toList ++ "\n\n```yaml\n".toList ++ P' ++ "leftTitle: \"".toList,
    S' ++ "\n```".toList ++ S ++ "\n".toList, ?_⟩
  show frontMatterText title lang ++ joinWith "\n\n".toList ((l1 ++ r :: l2).map slideText) ++
    "\n".toList = _
  rw [List.map_append, List.map_cons, h1]
  unfold slideText
  rw [hy, h2]
  unfold itemLine
  simp only [List.append_assoc]
  rfl

end ParseContent

namespace ParseContent

theorem draftSlide_leftRight (toLowerCase : String → String) (title : String)
    (totalParagraphs i : Nat) (lines : List String)
    (h : (draftSlide toLowerCase title totalParagraphs i lines).leftTitle.isSome = true) :
    (draftSlide toLowerCase title totalParagraphs i lines).leftTitle = some "并行（发散）" ∧
    (draftSlide toLowerCase title totalParagraphs i lines).leftBullets =
      some ["扩张可能性", "放大试错密度"] ∧
    (draftSlide toLowerCase title totalParagraphs i lines).rightTitle = some "系统（收敛）" ∧
    (draftSlide toLowerCase title totalParagraphs i lines).rightBullets =
      some ["压缩噪声", "形成可执行结论"] := by
  unfold draftSlide at h ⊢
  dsimp only at h ⊢
  split_ifs at h ⊢
  all_goals first
    | exact ⟨rfl, rfl, rfl, rfl⟩
    | cases h

theorem buildSlide_leftRight (toLowerCase : String → String) (title : String)
    (totalParagraphs i : Nat) (lines : List String) :
    (buildSlide toLowerCase title totalParagraphs i lines).leftTitle =
      (draftSlide toLowerCase title totalParagraphs i lines).leftTitle ∧
    (buildSlide toLowerCase title totalParagraphs i lines).leftBullets =
      (draftSlide toLowerCase title totalParagraphs i lines).leftBullets ∧
    (buildSlide toLowerCase title totalParagraphs i lines).rightTitle =
      (draftSlide toLowerCase title totalParagraphs i lines).rightTitle ∧
    (buildSlide toLowerCase title totalParagraphs i lines).rightBullets =
      (draftSlide toLowerCase title totalParagraphs i lines).rightBullets := by
  unfold buildSlide
  dsimp only
  split_ifs
  all_goals exact ⟨rfl, rfl, rfl, rfl⟩

theorem tooShort_of_leftRight (title lang : String) (slides : List SlideRecord) (r : SlideRecord)
    (hr : r ∈ slides) (hl : r.leftTitle = some "并行（发散）")
    (hb : r.leftBullets = some ["扩张可能性", "放大试错密度"]) :
    FlowChecker.tooShortError "扩张可能性".toList ∈
      FlowChecker.validateScript (generateScriptMd title slides lang) := by
  obtain ⟨A, S, htext⟩ := generated_text_split title lang slides r hr hl hb
  have hm : reBullet ("- \"扩张可能性\"".toList ++ S) = some (8 + 1) := rfl
  have hlast : (A ++ "并行（发散）".toList).getLast? = some '）' := by
    show (A ++ ['并', '行', '（', '发', '散', '）']).getLast? = some '）'
    simp
  have hmem := matchAll_mem_of_match reBullet ("- \"扩张可能性\"".toList ++ S) 8 hm
    (by intro h; cases h) _ ((A ++ "并行（发散）".toList) ++ '"' :: "\nleftBullets:\n  ".toList)
    (le_refl _)
    (reBullet_ends_before (A ++ "并行（发散）".toList) "\nleftBullets:\n  ".toList _ '）' hlast
      (by decide) (by decide))
  rw [← htext] at hmem
  have htake : List.take (8 + 1) ("- \"扩张可能性\"".toList ++ S) = "- \"扩张可能性\"".toList := rfl
  rw [htake] at hmem
  unfold FlowChecker.validateScript
  dsimp only
  refine List.mem_append_right _ (List.mem_flatMap.2 ⟨_, hmem, ?_⟩)
  decide

/-- C39. A slide `generateSlides` gives a left title has the fixed lists
`leftBullets` = [扩张可能性, 放大试错密度] and `rightBullets` = [压缩噪声,
形成可执行结论], each entry shorter than 15 characters. For every list of
slides that holds a slide with that left title and that left list,
`validateScript` on the text of `generateScriptMd` reports 扩张可能性 as too
short. -/
theorem leftRight_slide_fails_validation :
    (∀ (toLowerCase : String → String) (paragraphs : List String) (title content : String),
      ∀ slide ∈ generateSlides toLowerCase paragraphs title content,
        slide.leftTitle.isSome = true →
        slide.leftTitle = some "并行（发散）" ∧
        slide.leftBullets = some ["扩张可能性", "放大试错密度"] ∧
        slide.rightTitle = some "系统（收敛）" ∧
        slide.rightBullets = some ["压缩噪声", "形成可执行结论"]) ∧
    (∀ b ∈ ["扩张可能性", "放大试错密度", "压缩噪声", "形成可执行结论"], String.length b < 15) ∧
    (∀ (title lang : String) (slides : List SlideRecord), ∀ r ∈ slides,
      r.leftTitle = some "并行（发散）" → r.leftBullets = some ["扩张可能性", "放大试错密度"] →
      "要点过短（<15字）: \"扩张可能性...\"" ∈
        FlowChecker.validateScript (generateScriptMd title slides lang)) := by
  refine ⟨?_, by decide, ?_⟩
  · intro toLowerCase paragraphs title content slide hs hsome
    obtain ⟨j, lines, _, rfl⟩ := mem_buildSlides toLowerCase title _ _ _ slide hs
    obtain ⟨e1, e2, e3, e4⟩ := buildSlide_leftRight toLowerCase title
      (slideBlocksOf paragraphs content).length j lines
    rw [e1] at hsome
    rw [e1, e2, e3, e4]
    exact draftSlide_leftRight toLowerCase title _ j lines hsome
  · intro title lang slides r hr hl hb
    exact tooShort_of_leftRight title lang slides r hr hl hb

end ParseContent

/-! ## Regular expression objects: no state carries over -/

theorem starAux_length_le (greedy : Bool) (step : MatchState → List MatchState) :
    ∀ (n : Nat) (st st' : MatchState), st' ∈ starAux greedy step n st →
      st'.1.length ≤ st.1.length := by
  intro n
  induction n with
  | zero =>
    intro st st' h
    rw [starAux, List.mem_singleton] at h
    rw [h]
  | succ n ih =>
    intro st st' h
    rw [starAux] at h
    have key : st' = st ∨ st' ∈ ((step st).filter fun x => decide (x.1.length < st.1.length)).flatMap
        (starAux greedy step n) := by
      cases greedy with
      | true =>
        simp only [if_true, List.mem_append, List.mem_singleton] at h
        exact h.symm
      | false =>
        simp only [Bool.false_eq_true, if_false, List.mem_cons] at h
        exact h
    rcases key with e | hm
    · rw [e]
    · obtain ⟨mid, hmid, hst⟩ := List.mem_flatMap.1 hm
      have h1 := (List.mem_filter.1 hmid).2
      have h2 := ih mid st' hst
      simp only [decide_eq_true_eq] at h1
      omega

theorem Re.run_length_le (r : Re) : ∀ (st st' : MatchState), st' ∈ r.run st →
    st'.1.length ≤ st.1.length := by
  induction r with
  | cls p =>
    intro st st' h
    obtain ⟨s, caps⟩ := st
    cases s with
    | nil => cases h
    | cons c rest =>
      rw [Re.run_cls_cons] at h
      split_ifs at h
      · rw [List.mem_singleton] at h
        rw [h]
        exact Nat.le_succ _
      · cases h
  | eps =>
    intro st st' h
    rw [Re.run_eps, List.mem_singleton] at h
    rw [h]
  | seq a b iha ihb =>
    intro st st' h
    rw [Re.run_seq] at h
    obtain ⟨mid, h1, h2⟩ := List.mem_flatMap.1 h
    exact le_trans (ihb mid st' h2) (iha st mid h1)
  | alt a b iha ihb =>
    intro st st' h
    rw [Re.run_alt] at h
    rcases List.mem_append.1 h with h | h
    · exact iha st st' h
    · exact ihb st st' h
  | star greedy r _ =>
    intro st st' h
    rw [Re.run_star] at h
    exact starAux_length_le greedy r.run _ st st' h
  | group i r ih =>
    intro st st' h
    rw [Re.run_group] at h
    obtain ⟨x, hx, rfl⟩ := List.mem_map.1 h
    exact ih st x hx
  | look r _ =>
    intro st st' h
    have : st'.1 = st.1 := by
      simp only [Re.run] at h
      split at h
      · rw [List.mem_singleton] at h
        rw [h]
      · cases h
    rw [this]
  | eos =>
    intro st st' h
    simp only [Re.run] at h
    split_ifs at h
    · rw [List.mem_singleton] at h
      rw [h]
    · cases h

theorem Re.run_length_lt (r : Re) : r.consumes = true → ∀ (st st' : MatchState), st' ∈ r.run st →
    st'.1.length < st.1.length := by
  induction r with
  | cls p =>
    intro _ st st' h
    obtain ⟨s, caps⟩ := st
    cases s with
    | nil => cases h
    | cons c rest =>
      rw [Re.run_cls_cons] at h
      split_ifs at h
      · rw [List.mem_singleton] at h
        rw [h]
        exact Nat.lt_succ_self _
      · cases h
  | eps => intro hc; cases hc
  | seq a b iha ihb =>
    intro hc st st' h
    rw [Re.run_seq] at h
    obtain ⟨mid, h1, h2⟩ := List.mem_flatMap.1 h
    simp only [Re.consumes, Bool.or_eq_true] at hc
    rcases hc with hc | hc
    · exact lt_of_le_of_lt (Re.run_length_le b mid st' h2) (iha hc st mid h1)
    · exact lt_of_lt_of_le (ihb hc mid st' h2) (Re.run_length_le a st mid h1)
  | alt a b iha ihb =>
    intro hc st st' h
    rw [Re.run_alt] at h
    simp only [Re.consumes, Bool.and_eq_true] at hc
    rcases List.mem_append.1 h with h | h
    · exact iha hc.1 st st' h
    · exact ihb hc.2 st st' h
  | star greedy r _ => intro hc; cases hc
  | group i r ih =>
    intro hc st st' h
    rw [Re.run_group] at h
    obtain ⟨x, hx, rfl⟩ := List.mem_map.1 h
    exact ih hc st x hx
  | look r _ => intro hc; cases hc
  | eos => intro hc; cases hc

/-- An expression that is certain to read a character has no empty match. -/
theorem Re.matchHere_pos (r : Re) (hc : r.consumes = true) (s : List Char) (n : Nat)
    (caps : Captures) (h : r.matchHere s = some (n, caps)) : ∃ k, n = k + 1 ∧ k + 1 ≤ s.length := by
  unfold Re.matchHere at h
  cases hh : (r.run (s, [])).head? with
  | none => rw [hh] at h; cases h
  | some st =>
    rw [hh] at h
    simp only [Option.map_some', Option.some.injEq, Prod.mk.injEq] at h
    have hmem : st ∈ r.run (s, []) := List.mem_of_mem_head? hh
    have hlt := Re.run_length_lt r hc (s, []) st hmem
    simp only at hlt
    exact ⟨n - 1, by omega, by omega⟩

theorem Re.execAll_drop (r : Re) : ∀ (k : Nat) (s : List Char),
    r.execAll k s = r.execAll 0 (s.drop k) := by
  intro k
  induction k with
  | zero => intro s; rfl
  | succ k ih =>
    intro s
    cases s with
    | nil => rfl
    | cons c rest => rw [Re.execAll, List.drop_succ_cons]; exact ih rest

/-- The matches with the flag `g` in terms of the first match. -/
theorem Re.execAll_search (r : Re) (hc : r.consumes = true) : ∀ s : List Char,
    (r.search s = none ∧ r.execAll 0 s = []) ∨
    ∃ found, r.search s = some found ∧ 0 < found.2.1.length ∧
      found.1.length + found.2.1.length ≤ s.length ∧
      r.execAll 0 s = (found.2.1, found.2.2) ::
        r.execAll 0 (s.drop (found.1.length + found.2.1.length)) := by
  intro s
  induction s with
  | nil =>
    left
    cases hm : r.matchHere [] with
    | none => exact ⟨by rw [Re.search, hm]; rfl, rfl⟩
    | some m =>
      obtain ⟨k, _, hk⟩ := Re.matchHere_pos r hc [] m.1 m.2 hm
      simp at hk
  | cons c rest ih =>
    cases hm : r.matchHere (c :: rest) with
    | some m =>
      right
      obtain ⟨k, hk, hle⟩ := Re.matchHere_pos r hc _ m.1 m.2 hm
      have hm' : r.matchHere (c :: rest) = some (k + 1, m.2) := by rw [hm, ← hk]
      have hlen : ((c :: rest).take m.1).length = k + 1 := by
        rw [List.length_take, hk]
        exact Nat.min_eq_left hle
      refine ⟨([], (c :: rest).take m.1, m.2), by rw [Re.search, hm], ?_, ?_, ?_⟩
      · simp only
        rw [hlen]
        exact Nat.succ_pos _
      · simp only [List.length_nil, Nat.zero_add]
        rw [hlen]
        exact hle
      · simp only [List.length_nil, Nat.zero_add]
        rw [hlen, Re.execAll_match r c rest k m.2 hm', Re.execAll_drop r k rest, hk,
          List.drop_succ_cons]
    | none =>
      have hexec : r.execAll 0 (c :: rest) = r.execAll 0 rest := by
        rw [Re.execAll, hm]
      rcases ih with ⟨h1, h2⟩ | ⟨found, h1, h2, h3, h4⟩
      · left
        exact ⟨by rw [Re.search, hm, h1]; rfl, by rw [hexec, h2]⟩
      · right
        refine ⟨(c :: found.1, found.2), by rw [Re.search, hm, h1]; rfl, h2, ?_, ?_⟩
        · simp only [List.length_cons]
          omega
        · simp only [List.length_cons]
          rw [hexec, h4]
          have : found.1.length + 1 + found.2.1.length = (found.1.length + found.2.1.length) + 1 := by
            omega
          rw [this, List.drop_succ_cons]

/-- The loop of `exec` from any position finds the matches with the flag `g` of
the text behind the position, and leaves `lastIndex` at 0. -/
theorem RegExpObject.execLoop_eq (r : Re) (hc : r.consumes = true) (text : List Char) :
    ∀ (fuel i : Nat), i ≤ text.length → text.length + 2 ≤ fuel + i →
      RegExpObject.execLoop text fuel (RegExpObject.mk r i) =
        (r.execAll 0 (text.drop i), RegExpObject.mk r 0) := by
  intro fuel
  induction fuel with
  | zero => intro i hi hf; omega
  | succ fuel ih =>
    intro i hi hf
    rw [RegExpObject.execLoop]
    have hexec : (RegExpObject.mk r i).exec text =
        match r.search (text.drop i) with
        | some found => (some (found.2.1, found.2.2),
            RegExpObject.mk r (i + found.1.length + found.2.1.length))
        | none => (none, RegExpObject.mk r 0) := by
      unfold RegExpObject.exec
      rw [if_neg (by simpa using hi)]
    rw [hexec]
    rcases Re.execAll_search r hc (text.drop i) with ⟨h1, h2⟩ | ⟨found, h1, h2, h3, h4⟩
    · rw [h1, h2]
    · rw [h1, h4]
      rw [List.length_drop] at h3
      have hne : found.2.1.isEmpty = false := by
        cases hf1 : found.2.1 with
        | nil => rw [hf1] at h2; cases h2
        | cons a l => rfl
      simp only [hne, Bool.false_eq_true, if_false]
      rw [ih (i + found.1.length + found.2.1.length) (by omega) (by omega), List.drop_drop]
      have : i + (found.1.length + found.2.1.length) = i + found.1.length + found.2.1.length := by
        omega
      rw [this]

/-- The call `text.match(o)` does not depend on `lastIndex`: it returns the
matches with the flag `g` and leaves `lastIndex` at 0. -/
theorem RegExpObject.matchGlobal_eq (r : Re) (hc : r.consumes = true) (i : Nat)
    (text : List Char) :
    (RegExpObject.mk r i).matchGlobal text = (r.execAll 0 text, RegExpObject.mk r 0) := by
  unfold RegExpObject.matchGlobal
  rw [RegExpObject.execLoop_eq r hc text _ 0 (Nat.zero_le _) (by omega)]
  rfl

namespace VisualMatcher

set_option maxRecDepth 100000 in
theorem patterns_consume :
    ∀ config ∈ VISUAL_PATTERNS, ∀ p ∈ config.patterns, p.consumes = true := by
  decide

theorem matchCountSt_eq (text : List Char) (i : Nat) : ∀ (patterns : List Re),
    (∀ p ∈ patterns, p.consumes = true) → ∀ (j matchCount : Nat) (state : LastIndexes),
      (matchCountSt text i patterns j matchCount state).1 =
        patterns.foldl (fun matchCount pattern => matchCount + pattern.count text) matchCount := by
  intro patterns
  induction patterns with
  | nil => intro _ j matchCount state; rfl
  | cons p rest ih =>
    intro hc j matchCount state
    rw [matchCountSt, List.foldl_cons,
      RegExpObject.matchGlobal_eq p (hc p (List.mem_cons_self _ _))]
    exact ih (fun q hq => hc q (List.mem_cons_of_mem _ hq)) _ _ _

theorem candidateWith_eq (text : List Char) (config : Config) :
    candidateWith text config (matchCountOf config text) = candidateOf text config := rfl

theorem candidatesSt_eq (text : List Char) : ∀ (configs : List Config),
    (∀ config ∈ configs, ∀ p ∈ config.patterns, p.consumes = true) →
    ∀ (i : Nat) (state : LastIndexes),
      (candidatesSt text configs i state).1 = configs.filterMap (candidateOf text) := by
  intro configs
  induction configs with
  | nil => intro _ i state; rfl
  | cons config rest ih =>
    intro hc i state
    have hcount : (matchCountSt text i config.patterns 0 0 state).1 = matchCountOf config text :=
      matchCountSt_eq text i config.patterns (hc config (List.mem_cons_self _ _)) 0 0 state
    rw [candidatesSt]
    simp only
    rw [hcount, candidateWith_eq, ih (fun c hcm => hc c (List.mem_cons_of_mem _ hcm))]
    cases hcand : candidateOf text config with
    | none => rw [List.filterMap_cons_none hcand]
    | some c => rw [List.filterMap_cons_some hcand]

theorem detectVisualTypeSt_eq (state : LastIndexes) (text : String) :
    (detectVisualTypeSt state text).1 = detectVisualType text := by
  unfold detectVisualTypeSt detectVisualType candidates
  simp only
  rw [candidatesSt_eq text.toList VISUAL_PATTERNS patterns_consume]

theorem detectEach_eq : ∀ (texts : List String) (state : LastIndexes),
    detectEach state texts = texts.map detectVisualType := by
  intro texts
  induction texts with
  | nil => intro state; rfl
  | cons text rest ih =>
    intro state
    rw [detectEach, detectVisualTypeSt_eq, ih, List.map_cons]

/-- C31. Whatever `lastIndex` the regular expression objects of the table
hold, `detectVisualType` returns for a text the same candidates, in the same
order and with the same payloads: the objects are read by `text.match` only,
which sets `lastIndex` to 0 before it searches. Calls one after the other
return, each for its text, what a single call returns. The loops of `exec` in
the extraction routines run on objects made by the call, and find the matches
with the flag `g`; the single `exec` of `tree` finds the first match. -/
theorem detectVisualType_deterministic :
    (∀ (state state' : LastIndexes) (text : String),
      (detectVisualTypeSt state text).1 = (detectVisualTypeSt state' text).1) ∧
    (∀ (state : LastIndexes) (text : String),
      (detectVisualTypeSt state text).1 = detectVisualType text) ∧
    (∀ (state : LastIndexes) (texts : List String),
      detectEach state texts = texts.map detectVisualType) ∧
    (∀ (state : LastIndexes) (before after : List String) (text : String),
      (detectEach state (before ++ text :: after)).get? before.length =
        some (detectVisualType text)) ∧
    (∀ r ∈ [stepPattern1, stepPattern2, yearPattern, stagePattern], ∀ text : List Char,
      (RegExpObject.execLoop text (text.length + 2) (RegExpObject.mk r 0)).1 =
        r.execAll 0 text) ∧
    (∀ text : List Char, ((RegExpObject.mk branchPattern 0).exec text).1 =
      (branchPattern.search text).map fun found => (found.2.1, found.2.2)) := by
  refine ⟨?_, detectVisualTypeSt_eq, fun state texts => detectEach_eq texts state, ?_, ?_, ?_⟩
  · intro state state' text
    rw [detectVisualTypeSt_eq, detectVisualTypeSt_eq]
  · intro state before after text
    rw [detectEach_eq, List.map_append, List.map_cons]
    have : before.length = (before.map detectVisualType).length := (List.length_map _ _).symm
    rw [List.get?_eq_getElem?, this, List.getElem?_append_right (le_refl _), Nat.sub_self]
    exact List.getElem?_cons_zero
  · intro r hr text
    have hc : r.consumes = true := by
      simp only [List.mem_cons, List.mem_singleton, List.not_mem_nil, or_false] at hr
      rcases hr with rfl | rfl | rfl | rfl <;> rfl
    rw [RegExpObject.execLoop_eq r hc text _ 0 (Nat.zero_le _) (by omega)]
    rfl
  · intro text
    unfold RegExpObject.exec
    rw [if_neg (by simp), List.drop_zero]
    cases branchPattern.search text <;> rfl

end VisualMatcher

end PPT
